import Mathlib

/-!
Embedded-boundary Poisson operator of `ef` (`field_solver.cpp`)

A shallow embedding of the operator builder and right-hand-side assembler of
`Field_solver`, followed by the properties proved about it.

Conventions of the embedding.

* C++ `int` / `PetscInt` values are `Int`.  Signed overflow is undefined
  behaviour in C++, so no wrap-around is modelled; `%` and `/` of the source
  are the truncating `Int.tmod` and `Int.tdiv`.
* `double` / `PetscScalar` values are elements of a commutative ring `R`
  (exact arithmetic); the constant `M_PI` of `<cmath>` is a parameter.
* `exit( EXIT_FAILURE )` and a PETSc error raised through `CHKERRXX` are the
  result `none`.
* A PETSc matrix is its two dimensions and its entry function; an entry that
  was never stored reads as `0`.  A PETSc vector is its entry function: every
  index the solver uses on a vector comes out of
  `node_ijk_to_global_index_in_matrix` for the mesh the vector was sized for,
  so it is always inside the vector.
-/

namespace EfPoisson

/-! ## Grid nodes, regions, mesh -/

/-- Grid node, an integer triple. -/
structure Node_reference where
  x : Int
  y : Int
  z : Int
deriving DecidableEq

/-- Modelled from the spec: `Node_reference::adjacent_nodes` (node_reference.h is
not part of the sources).  The six axis-aligned neighbours, in the order
left, right, top, bottom, near, far; x grows to the right, y to the top and
z to the far side. -/
def Node_reference.adjacent_nodes (n : Node_reference) : List Node_reference :=
  [⟨n.x - 1, n.y, n.z⟩, ⟨n.x + 1, n.y, n.z⟩,
   ⟨n.x, n.y + 1, n.z⟩, ⟨n.x, n.y - 1, n.z⟩,
   ⟨n.x, n.y, n.z - 1⟩, ⟨n.x, n.y, n.z + 1⟩]

/-- Modelled from the spec: `Node_reference::at_domain_edge` (node_reference.h is
not part of the sources).  A node is at the domain edge when any of its
indices is `0` or `n-1` along its axis. -/
def Node_reference.at_domain_edge (n : Node_reference) (nx ny nz : Int) : Bool :=
  decide (n.x = 0 ∨ n.x = nx - 1 ∨ n.y = 0 ∨ n.y = ny - 1 ∨ n.z = 0 ∨ n.z = nz - 1)

/-- Modelled from the spec: `Node_reference::left_from` (node_reference.h is not
part of the sources): the node lies on the lower-x side of `other`. -/
def Node_reference.left_from (n other : Node_reference) : Bool := decide (n.x < other.x)

/-- Modelled from the spec: `Node_reference::right_from` (node_reference.h is not
part of the sources): the node lies on the higher-x side of `other`. -/
def Node_reference.right_from (n other : Node_reference) : Bool := decide (other.x < n.x)

/-- Modelled from the spec: `Node_reference::top_from` (node_reference.h is not
part of the sources): the node lies on the higher-y side of `other`. -/
def Node_reference.top_from (n other : Node_reference) : Bool := decide (other.y < n.y)

/-- Modelled from the spec: `Node_reference::bottom_from` (node_reference.h is not
part of the sources): the node lies on the lower-y side of `other`. -/
def Node_reference.bottom_from (n other : Node_reference) : Bool := decide (n.y < other.y)

/-- Modelled from the spec: `Node_reference::near_from` (node_reference.h is not
part of the sources): the node lies on the lower-z side of `other`. -/
def Node_reference.near_from (n other : Node_reference) : Bool := decide (n.z < other.z)

/-- Modelled from the spec: `Node_reference::far_from` (node_reference.h is not
part of the sources): the node lies on the higher-z side of `other`. -/
def Node_reference.far_from (n other : Node_reference) : Bool := decide (other.z < n.z)

/-- The members of `Inner_region` (inner_region.h) that the field solver reads.
`check_if_node_inside` is the geometric containment test of the concrete
shape, taken as given. -/
structure Inner_region (R : Type) where
  name : String
  potential : R
  inner_nodes : List Node_reference
  inner_nodes_not_at_domain_edge : List Node_reference
  near_boundary_nodes : List Node_reference
  near_boundary_nodes_not_at_domain_edge : List Node_reference
  check_if_node_inside : Node_reference → R → R → R → Bool

/-- Modelled from the spec: `Inner_region_with_model` (its header is not part of
the sources).  It offers the field solver the same members as `Inner_region`. -/
structure Inner_region_with_model (R : Type) where
  name : String
  potential : R
  inner_nodes : List Node_reference
  inner_nodes_not_at_domain_edge : List Node_reference
  near_boundary_nodes : List Node_reference
  near_boundary_nodes_not_at_domain_edge : List Node_reference
  check_if_node_inside : Node_reference → R → R → R → Bool

/-- The ordered region collection of `Inner_regions_manager`. -/
structure Inner_regions_manager (R : Type) where
  regions : List (Inner_region R)

/-- Modelled from the spec: `Inner_regions_with_models_manager` (its header is not
part of the sources), an ordered collection of regions with models. -/
structure Inner_regions_with_models_manager (R : Type) where
  regions : List (Inner_region_with_model R)

/-- Modelled from the spec: `Spatial_mesh` (spatial_mesh.h is not part of the
sources): node counts, cell sizes and the dense arrays indexed `[i][j][k]`. -/
structure Spatial_mesh (R : Type) where
  x_n_nodes : Int
  y_n_nodes : Int
  z_n_nodes : Int
  x_cell_size : R
  y_cell_size : R
  z_cell_size : R
  charge_density : Int → Int → Int → R
  potential : Int → Int → Int → R
  electric_field : Int → Int → Int → R × R × R

/-! ## Index mapping -/

/-- `Field_solver::kronecker_delta`. -/
def kronecker_delta (i j : Int) : Int :=
  if i = j then 1 else 0

/-- `Field_solver::node_ijk_to_global_index_in_matrix`; `none` is the
`exit( EXIT_FAILURE )` branch. -/
def node_ijk_to_global_index_in_matrix (i j k nx ny nz : Int) : Option Int :=
  if i ≤ 0 ∨ i ≥ nx - 1 ∨ j ≤ 0 ∨ j ≥ ny - 1 ∨ k ≤ 0 ∨ k ≥ nz - 1 then
    none
  else
    some ((i - 1) + (j - 1) * (nx - 2) + (k - 1) * (nx - 2) * (ny - 2))

/-- `Field_solver::node_global_index_in_matrix`. -/
def node_global_index_in_matrix (node : Node_reference) (nx ny nz : Int) : Option Int :=
  node_ijk_to_global_index_in_matrix node.x node.y node.z nx ny nz

/-- `Field_solver::list_of_nodes_global_indices_in_matrix`. -/
def list_of_nodes_global_indices_in_matrix :
    List Node_reference → Int → Int → Int → Option (List Int)
  | [], _, _, _ => some []
  | node :: nodes, nx, ny, nz =>
    match node_global_index_in_matrix node nx ny nz with
    | none => none
    | some ix =>
      match list_of_nodes_global_indices_in_matrix nodes nx ny nz with
      | none => none
      | some rest => some (ix :: rest)

/-- The node recovered from an unknown index `n`: the inverse of the index
mapping as the data model states it. -/
def index_to_node (n nx ny : Int) : Node_reference :=
  ⟨n % (nx - 2) + 1, (n / (nx - 2)) % (ny - 2) + 1, n / ((nx - 2) * (ny - 2)) + 1⟩

/-- A node strictly inside the grid along every axis. -/
def interior (n : Node_reference) (nx ny nz : Int) : Prop :=
  0 < n.x ∧ n.x < nx - 1 ∧ 0 < n.y ∧ n.y < ny - 1 ∧ 0 < n.z ∧ n.z < nz - 1

instance (n : Node_reference) (nx ny nz : Int) : Decidable (interior n nx ny nz) := by
  unfold interior; infer_instance

/-- The unknown index of a node as a plain integer expression. -/
def idx (n : Node_reference) (nx ny : Int) : Int :=
  (n.x - 1) + (n.y - 1) * (nx - 2) + (n.z - 1) * (nx - 2) * (ny - 2)

/-! ## The linear-algebra backend (PETSc), as far as the solver uses it -/

/-- A PETSc `Mat`: its dimensions and its entries. -/
structure Mat (R : Type) where
  nrow : Int
  ncol : Int
  val : Int → Int → R

/-- A PETSc `Vec`. -/
abbrev Vec (R : Type) := Int → R

section Backend

variable {R : Type} [CommRing R] [DecidableEq R]

/-- The matrix of the given size with nothing stored. -/
def zero_matrix (nrow ncol : Int) : Mat R :=
  ⟨nrow, ncol, fun _ _ => 0⟩

/-- `Field_solver::alloc_petsc_matrix` (`MatCreateSeqAIJ` and `MatSetUp`): a
matrix with nothing stored.  The preallocation hint has no effect on the
entries.  The source does not test the dimensions; that PETSc answers a
negative dimension with an error is an assumption of the model about the
library; no statement about the operator below rests on that answer. -/
def alloc_petsc_matrix (nrow ncol nonzero_per_row : Int) : Option (Mat R) :=
  if nrow < 0 ∨ ncol < 0 then none
  else
    let _hint := nonzero_per_row
    some (zero_matrix nrow ncol)

/-- `Field_solver::alloc_petsc_vector` (`VecCreate`, `VecSetSizes`,
`VecSetFromOptions`): a zeroed vector.  The source does not test the size;
that PETSc answers a negative size with an error is an assumption of the
model about the library; no statement about the solver below rests on that
answer. -/
def alloc_petsc_vector (size : Int) : Option (Vec R) :=
  if size < 0 then none else some (fun _ => 0)

/-- One stored entry overwritten. -/
def Mat.set_entry (A : Mat R) (row col : Int) (v : R) : Mat R :=
  { A with val := fun r c => if r = row ∧ c = col then v else A.val r c }

/-- `MatSetValues` for a single row with `INSERT_VALUES`.  As PETSc documents
it, a negative row or column index is skipped and an index beyond the matrix
is an error. -/
def MatSetValues (A : Mat R) (row : Int) (cols : List Int) (vals : List R) :
    Option (Mat R) :=
  if row < 0 then some A
  else if A.nrow ≤ row then none
  else
    (cols.zip vals).foldlM
      (fun (B : Mat R) (cv : Int × R) =>
        if cv.1 < 0 then some B
        else if B.ncol ≤ cv.1 then none
        else some (B.set_entry row cv.1 cv.2))
      A

/-- `MatGetRow`: the columns and values of the nonzero entries of a row, in
increasing column order; a row outside the matrix is an error. -/
def MatGetRow (A : Mat R) (row : Int) : Option (List Int × List R) :=
  if row < 0 ∨ A.nrow ≤ row then none
  else
    let cols := ((List.range A.ncol.toNat).map (fun (c : Nat) => (c : Int))).filter
      (fun c => decide (A.val row c ≠ 0))
    some (cols, cols.map (A.val row))

/-- `MatScale`. -/
def MatScale (A : Mat R) (a : R) : Mat R :=
  { A with val := fun r c => a * A.val r c }

/-- `MatAXPY`: `Y = a*X + Y`; matrices of different sizes are an error. -/
def MatAXPY (Y : Mat R) (a : R) (X : Mat R) : Option (Mat R) :=
  if Y.nrow = X.nrow ∧ Y.ncol = X.ncol then
    some { Y with val := fun r c => a * X.val r c + Y.val r c }
  else none

/-- `MatZeroRows` with a diagonal value: every listed row becomes zero except
for `diag` on the diagonal; a row outside the matrix is an error.  (The two
vectors PETSc also adjusts are locals of the caller and are dropped there.) -/
def MatZeroRows (A : Mat R) (rows : List Int) (diag : R) : Option (Mat R) :=
  if rows.all (fun r => decide (0 ≤ r ∧ r < A.nrow)) then
    some { A with val := fun r c =>
      if r ∈ rows then (if c = r then diag else 0) else A.val r c }
  else none

/-- `VecSetValue` with `INSERT_VALUES`. -/
def VecSetValue (v : Vec R) (ix : Int) (y : R) : Vec R :=
  fun n => if n = ix then y else v n

/-- `VecSetValues` with `INSERT_VALUES`. -/
def VecSetValues_insert (v : Vec R) (ix : List Int) (y : List R) : Vec R :=
  (ix.zip y).foldl (fun w p => fun n => if n = p.1 then p.2 else w n) v

/-- `VecSetValues` with `ADD_VALUES`. -/
def VecSetValues_add (v : Vec R) (ix : List Int) (y : List R) : Vec R :=
  (ix.zip y).foldl (fun w p => fun n => if n = p.1 then w n + p.2 else w n) v

/-- The loop `for( int i = 0; i < nrow; i++ )` whose body computes the columns
and values of row `i` and stores them with `MatSetValues( M, 1, &i, ... )`. -/
def for_each_row (nrow : Int) (body : Int → Option (List Int × List R)) (M : Mat R) :
    Option (Mat R) :=
  (List.range nrow.toNat).foldlM
    (fun (B : Mat R) (i : Nat) =>
      match body (i : Int) with
      | none => none
      | some cv => MatSetValues B (i : Int) cv.1 cv.2)
    M

/-- The values `lo, lo+1, ..., hi` of a loop `for( int i = lo; i <= hi; i++ )`. -/
def loop_from_to (lo hi : Int) : List Int :=
  (List.range (hi + 1 - lo).toNat).map (fun (t : Nat) => lo + (t : Int))

/-- Row `r` of the product `A*x`. -/
def mat_vec (A : Mat R) (x : Vec R) (r : Int) : R :=
  ∑ c in Finset.range A.ncol.toNat, A.val r (c : Int) * x (c : Int)

end Backend

/-! ## The base operator -/

section Operator

variable {R : Type} [CommRing R] [DecidableEq R]

/-- `Field_solver::construct_d2dx2_in_2d`. -/
def construct_d2dx2_in_2d (d2dx2_2d : Mat R) (nx ny : Int) : Option (Mat R) :=
  let nrow := (nx - 2) * (ny - 2)
  let at_left_boundary_pattern : List R := [-2, 1]
  let no_boundaries_pattern : List R := [1, -2, 1]
  let at_right_boundary_pattern : List R := [1, -2]
  for_each_row nrow
    (fun i =>
      if Int.tmod (i + 1) (nx - 2) = 1 then
        some ([i, i + 1], at_left_boundary_pattern)
      else if Int.tmod (i + 1) (nx - 2) = 0 then
        some ([i - 1, i], at_right_boundary_pattern)
      else
        some ([i - 1, i, i + 1], no_boundaries_pattern))
    d2dx2_2d

/-- `Field_solver::construct_d2dy2_in_2d`. -/
def construct_d2dy2_in_2d (d2dy2_2d : Mat R) (nx ny : Int) : Option (Mat R) :=
  let nrow := (nx - 2) * (ny - 2)
  let at_bottom_boundary_pattern : List R := [-2, 1]
  let no_boundaries_pattern : List R := [1, -2, 1]
  let at_top_boundary_pattern : List R := [1, -2]
  for_each_row nrow
    (fun i =>
      if i < nx - 2 then
        some ([i, i + (nx - 2)], at_bottom_boundary_pattern)
      else if i ≥ (nx - 2) * (ny - 3) then
        some ([i - (nx - 2), i], at_top_boundary_pattern)
      else
        some ([i - (nx - 2), i, i + (nx - 2)], no_boundaries_pattern))
    d2dy2_2d

/-- `Field_solver::construct_d2dz2_in_3d`. -/
def construct_d2dz2_in_3d (d2dz2_3d : Mat R) (nx ny nz : Int) : Option (Mat R) :=
  let nrow := (nx - 2) * (ny - 2) * (nz - 2)
  let at_near_boundary_pattern : List R := [-2, 1]
  let no_boundaries_pattern : List R := [1, -2, 1]
  let at_far_boundary_pattern : List R := [1, -2]
  for_each_row nrow
    (fun i =>
      if i < (nx - 2) * (ny - 2) then
        some ([i, i + (nx - 2) * (ny - 2)], at_near_boundary_pattern)
      else if i ≥ (nx - 2) * (ny - 2) * (nz - 3) then
        some ([i - (nx - 2) * (ny - 2), i], at_far_boundary_pattern)
      else
        some ([i - (nx - 2) * (ny - 2), i, i + (nx - 2) * (ny - 2)],
              no_boundaries_pattern))
    d2dz2_3d

/-- `Field_solver::multiply_pattern_along_diagonal`. -/
def multiply_pattern_along_diagonal (result pattern : Mat R) (pt_size n_times : Int) :
    Option (Mat R) :=
  let mul_nrow := pt_size * n_times
  for_each_row mul_nrow
    (fun i =>
      let pattern_i := Int.tmod i pt_size
      match MatGetRow pattern pattern_i with
      | none => none
      | some (pattern_nonzero_cols, pattern_nonzero_vals) =>
        let result_nonzero_cols :=
          pattern_nonzero_cols.map (fun c => c + (Int.tdiv i pt_size) * pt_size)
        some (result_nonzero_cols, pattern_nonzero_vals))
    result

/-- `Field_solver::construct_d2dx2_in_3d`. -/
def construct_d2dx2_in_3d (d2dx2_3d : Mat R) (nx ny nz : Int) : Option (Mat R) :=
  let nrow_2d := (nx - 2) * (ny - 2)
  let ncol_2d := nrow_2d
  match alloc_petsc_matrix nrow_2d ncol_2d 5 with
  | none => none
  | some d2dx2_2d =>
    match construct_d2dx2_in_2d d2dx2_2d nx ny with
    | none => none
    | some d2dx2_2d =>
      multiply_pattern_along_diagonal d2dx2_3d d2dx2_2d ((nx - 2) * (ny - 2)) (nz - 2)

/-- `Field_solver::construct_d2dy2_in_3d`. -/
def construct_d2dy2_in_3d (d2dy2_3d : Mat R) (nx ny nz : Int) : Option (Mat R) :=
  let nrow_2d := (nx - 2) * (ny - 2)
  let ncol_2d := nrow_2d
  match alloc_petsc_matrix nrow_2d ncol_2d 5 with
  | none => none
  | some d2dy2_2d =>
    match construct_d2dy2_in_2d d2dy2_2d nx ny with
    | none => none
    | some d2dy2_2d =>
      multiply_pattern_along_diagonal d2dy2_3d d2dy2_2d ((nx - 2) * (ny - 2)) (nz - 2)

/-- `Field_solver::construct_equation_matrix_in_full_domain`. -/
def construct_equation_matrix_in_full_domain (A : Mat R) (nx ny nz : Int) (dx dy dz : R) :
    Option (Mat R) :=
  let nrow := (nx - 2) * (ny - 2) * (nz - 2)
  let ncol := nrow
  match construct_d2dx2_in_3d A nx ny nz with
  | none => none
  | some A =>
    let A := MatScale A (dy * dy * dz * dz)
    match alloc_petsc_matrix nrow ncol 7 with
    | none => none
    | some d2dy2 =>
      match construct_d2dy2_in_3d d2dy2 nx ny nz with
      | none => none
      | some d2dy2 =>
        match MatAXPY A (dx * dx * dz * dz) d2dy2 with
        | none => none
        | some A =>
          match alloc_petsc_matrix nrow ncol 7 with
          | none => none
          | some d2dz2 =>
            match construct_d2dz2_in_3d d2dz2 nx ny nz with
            | none => none
            | some d2dz2 => MatAXPY A (dx * dx * dy * dy) d2dz2

end Operator

/-! ## The embedded-boundary modification of the operator -/

section Modifier

variable {R : Type} [CommRing R] [DecidableEq R]

/-- `Field_solver::cross_out_nodes_occupied_by_objects` for an `Inner_region`.
The vectors `phi_inside_region` and `rhs_inside_region` are locals that are
never read again. -/
def cross_out_nodes_occupied_by_objects (A : Mat R) (nx ny nz : Int)
    (inner_region : Inner_region R) : Option (Mat R) :=
  match list_of_nodes_global_indices_in_matrix
      inner_region.inner_nodes_not_at_domain_edge nx ny nz with
  | none => none
  | some occupied_nodes_global_indices =>
    let num_of_rows_to_remove := occupied_nodes_global_indices.length
    if num_of_rows_to_remove ≠ 0 then
      let diag : R := 1
      MatZeroRows A occupied_nodes_global_indices diag
    else some A

/-- `Field_solver::cross_out_nodes_occupied_by_objects` for an
`Inner_region_with_model`. -/
def cross_out_nodes_occupied_by_objects_with_model (A : Mat R) (nx ny nz : Int)
    (inner_region : Inner_region_with_model R) : Option (Mat R) :=
  match list_of_nodes_global_indices_in_matrix
      inner_region.inner_nodes_not_at_domain_edge nx ny nz with
  | none => none
  | some occupied_nodes_global_indices =>
    let num_of_rows_to_remove := occupied_nodes_global_indices.length
    if num_of_rows_to_remove ≠ 0 then
      let diag : R := 1
      MatZeroRows A occupied_nodes_global_indices diag
    else some A

/-- `Field_solver::cross_out_nodes_occupied_by_objects` over both managers. -/
def cross_out_nodes_occupied_by_objects_all (A : Mat R) (nx ny nz : Int)
    (inner_regions : Inner_regions_manager R)
    (inner_regions_with_models : Inner_regions_with_models_manager R) : Option (Mat R) :=
  match inner_regions.regions.foldlM
      (fun B reg => cross_out_nodes_occupied_by_objects B nx ny nz reg) A with
  | none => none
  | some A =>
    inner_regions_with_models.regions.foldlM
      (fun B reg => cross_out_nodes_occupied_by_objects_with_model B nx ny nz reg) A

/-- The loop of `adjacent_nodes_not_at_domain_edge_and_inside_inner_region` over
the neighbours; `inside` is the region's `check_if_node_inside` at the cell
sizes of the call. -/
def collect_adjacent_indices (inside : Node_reference → Bool) (nx ny nz : Int) :
    List Node_reference → Option (List Int)
  | [] => some []
  | adj_node :: rest =>
    if !adj_node.at_domain_edge nx ny nz && inside adj_node then
      match node_global_index_in_matrix adj_node nx ny nz with
      | none => none
      | some ix =>
        match collect_adjacent_indices inside nx ny nz rest with
        | none => none
        | some tail => some (ix :: tail)
    else collect_adjacent_indices inside nx ny nz rest

/-- `Field_solver::adjacent_nodes_not_at_domain_edge_and_inside_inner_region` for
an `Inner_region`. -/
def adjacent_nodes_not_at_domain_edge_and_inside_inner_region (node : Node_reference)
    (inner_region : Inner_region R) (nx ny nz : Int) (dx dy dz : R) : Option (List Int) :=
  collect_adjacent_indices (fun adj_node => inner_region.check_if_node_inside adj_node dx dy dz)
    nx ny nz node.adjacent_nodes

/-- `Field_solver::adjacent_nodes_not_at_domain_edge_and_inside_inner_region` for
an `Inner_region_with_model`. -/
def adjacent_nodes_not_at_domain_edge_and_inside_inner_region_with_model
    (node : Node_reference) (inner_region : Inner_region_with_model R) (nx ny nz : Int)
    (dx dy dz : R) : Option (List Int) :=
  collect_adjacent_indices (fun adj_node => inner_region.check_if_node_inside adj_node dx dy dz)
    nx ny nz node.adjacent_nodes

/-- `Field_solver::modify_equation_near_object_boundaries` for an `Inner_region`.
`zeroes` is the array of six zeros of the source; `MatSetValues` reads as
many of them as there are columns. -/
def modify_equation_near_object_boundaries (A : Mat R) (nx ny nz : Int) (dx dy dz : R)
    (inner_region : Inner_region R) : Option (Mat R) :=
  let max_possible_neighbours := 6
  let zeroes : List R := List.replicate max_possible_neighbours 0
  inner_region.near_boundary_nodes_not_at_domain_edge.foldlM
    (fun (B : Mat R) (node : Node_reference) =>
      match node_global_index_in_matrix node nx ny nz with
      | none => none
      | some row_to_modify =>
        match adjacent_nodes_not_at_domain_edge_and_inside_inner_region node inner_region
            nx ny nz dx dy dz with
        | none => none
        | some cols_to_modify =>
          let n_of_cols_to_modify := cols_to_modify.length
          if n_of_cols_to_modify ≠ 0 then
            MatSetValues B row_to_modify cols_to_modify zeroes
          else some B)
    A

/-- `Field_solver::modify_equation_near_object_boundaries` for an
`Inner_region_with_model`. -/
def modify_equation_near_object_boundaries_with_model (A : Mat R) (nx ny nz : Int)
    (dx dy dz : R) (inner_region : Inner_region_with_model R) : Option (Mat R) :=
  let max_possible_neighbours := 6
  let zeroes : List R := List.replicate max_possible_neighbours 0
  inner_region.near_boundary_nodes_not_at_domain_edge.foldlM
    (fun (B : Mat R) (node : Node_reference) =>
      match node_global_index_in_matrix node nx ny nz with
      | none => none
      | some row_to_modify =>
        match adjacent_nodes_not_at_domain_edge_and_inside_inner_region_with_model node
            inner_region nx ny nz dx dy dz with
        | none => none
        | some cols_to_modify =>
          let n_of_cols_to_modify := cols_to_modify.length
          if n_of_cols_to_modify ≠ 0 then
            MatSetValues B row_to_modify cols_to_modify zeroes
          else some B)
    A

/-- `Field_solver::modify_equation_near_object_boundaries` over both managers. -/
def modify_equation_near_object_boundaries_all (A : Mat R) (nx ny nz : Int) (dx dy dz : R)
    (inner_regions : Inner_regions_manager R)
    (inner_regions_with_models : Inner_regions_with_models_manager R) : Option (Mat R) :=
  match inner_regions.regions.foldlM
      (fun B reg => modify_equation_near_object_boundaries B nx ny nz dx dy dz reg) A with
  | none => none
  | some A =>
    inner_regions_with_models.regions.foldlM
      (fun B reg => modify_equation_near_object_boundaries_with_model B nx ny nz dx dy dz reg) A

/-- `Field_solver::construct_equation_matrix`. -/
def construct_equation_matrix (A : Mat R) (nx ny nz : Int) (dx dy dz : R)
    (inner_regions : Inner_regions_manager R)
    (inner_regions_with_models : Inner_regions_with_models_manager R) : Option (Mat R) :=
  match construct_equation_matrix_in_full_domain A nx ny nz dx dy dz with
  | none => none
  | some A =>
    match cross_out_nodes_occupied_by_objects_all A nx ny nz inner_regions
        inner_regions_with_models with
    | none => none
    | some A =>
      modify_equation_near_object_boundaries_all A nx ny nz dx dy dz inner_regions
        inner_regions_with_models

end Modifier

/-! ## The right-hand side -/

section Rhs

variable {R : Type} [CommRing R] [DecidableEq R]

/-- The value `rhs_at_node` that `init_rhs_vector_in_full_domain` computes in
the body of its loops for the node `(i, j, k)`. -/
def rhs_at_node (M_PI : R) (spat_mesh : Spatial_mesh R) (i j k : Int) : R :=
  let nx := spat_mesh.x_n_nodes
  let ny := spat_mesh.y_n_nodes
  let nz := spat_mesh.z_n_nodes
  let dx := spat_mesh.x_cell_size
  let dy := spat_mesh.y_cell_size
  let dz := spat_mesh.z_cell_size
  let rhs_at_node := -4 * M_PI * spat_mesh.charge_density i j k
  let rhs_at_node := rhs_at_node * dx * dx * dy * dy * dz * dz
  let rhs_at_node := rhs_at_node
    - dy * dy * dz * dz *
      ((kronecker_delta i 1 : R) * spat_mesh.potential 0 j k +
       (kronecker_delta i (nx - 2) : R) * spat_mesh.potential (nx - 1) j k)
  let rhs_at_node := rhs_at_node
    - dx * dx * dz * dz *
      ((kronecker_delta j 1 : R) * spat_mesh.potential i 0 k +
       (kronecker_delta j (ny - 2) : R) * spat_mesh.potential i (ny - 1) k)
  let rhs_at_node := rhs_at_node
    - dx * dx * dy * dy *
      ((kronecker_delta k 1 : R) * spat_mesh.potential i j 0 +
       (kronecker_delta k (nz - 2) : R) * spat_mesh.potential i j (nz - 1))
  rhs_at_node

/-- `Field_solver::init_rhs_vector_in_full_domain`; `rhs` is the solver's
right-hand-side vector before the call. -/
def init_rhs_vector_in_full_domain (M_PI : R) (spat_mesh : Spatial_mesh R) (rhs : Vec R) :
    Option (Vec R) :=
  let nx := spat_mesh.x_n_nodes
  let ny := spat_mesh.y_n_nodes
  let nz := spat_mesh.z_n_nodes
  (loop_from_to 1 (nz - 2)).foldlM
    (fun (rhs : Vec R) (k : Int) =>
      (loop_from_to 1 (ny - 2)).foldlM
        (fun (rhs : Vec R) (j : Int) =>
          (loop_from_to 1 (nx - 2)).foldlM
            (fun (rhs : Vec R) (i : Int) =>
              match node_ijk_to_global_index_in_matrix i j k nx ny nz with
              | none => none
              | some ix => some (VecSetValue rhs ix (rhs_at_node M_PI spat_mesh i j k)))
            rhs)
        rhs)
    rhs

/-- `Field_solver::set_rhs_at_nodes_occupied_by_objects` for an `Inner_region`. -/
def set_rhs_at_nodes_occupied_by_objects (spat_mesh : Spatial_mesh R) (rhs : Vec R)
    (inner_region : Inner_region R) : Option (Vec R) :=
  let nx := spat_mesh.x_n_nodes
  let ny := spat_mesh.y_n_nodes
  let nz := spat_mesh.z_n_nodes
  match list_of_nodes_global_indices_in_matrix
      inner_region.inner_nodes_not_at_domain_edge nx ny nz with
  | none => none
  | some indices_of_inner_nodes_not_at_domain_edge =>
    let num_of_elements := indices_of_inner_nodes_not_at_domain_edge.length
    if num_of_elements ≠ 0 then
      let zeroes : List R := List.replicate num_of_elements 0
      some (VecSetValues_insert rhs indices_of_inner_nodes_not_at_domain_edge zeroes)
    else some rhs

/-- `Field_solver::set_rhs_at_nodes_occupied_by_objects` for an
`Inner_region_with_model`. -/
def set_rhs_at_nodes_occupied_by_objects_with_model (spat_mesh : Spatial_mesh R)
    (rhs : Vec R) (inner_region : Inner_region_with_model R) : Option (Vec R) :=
  let nx := spat_mesh.x_n_nodes
  let ny := spat_mesh.y_n_nodes
  let nz := spat_mesh.z_n_nodes
  match list_of_nodes_global_indices_in_matrix
      inner_region.inner_nodes_not_at_domain_edge nx ny nz with
  | none => none
  | some indices_of_inner_nodes_not_at_domain_edge =>
    let num_of_elements := indices_of_inner_nodes_not_at_domain_edge.length
    if num_of_elements ≠ 0 then
      let zeroes : List R := List.replicate num_of_elements 0
      some (VecSetValues_insert rhs indices_of_inner_nodes_not_at_domain_edge zeroes)
    else some rhs

/-- `Field_solver::set_rhs_at_nodes_occupied_by_objects` over both managers. -/
def set_rhs_at_nodes_occupied_by_objects_all (spat_mesh : Spatial_mesh R) (rhs : Vec R)
    (inner_regions : Inner_regions_manager R)
    (inner_regions_with_models : Inner_regions_with_models_manager R) : Option (Vec R) :=
  match inner_regions.regions.foldlM
      (fun v reg => set_rhs_at_nodes_occupied_by_objects spat_mesh v reg) rhs with
  | none => none
  | some rhs =>
    inner_regions_with_models.regions.foldlM
      (fun v reg => set_rhs_at_nodes_occupied_by_objects_with_model spat_mesh v reg) rhs

/-- The inner loop of `indicies_of_near_boundary_nodes_and_rhs_modifications`:
the value `rhs_mod` accumulated over the neighbours of `node`. -/
def rhs_mod_of_node (inside : Node_reference → Bool) (potential : R) (nx ny nz : Int)
    (dx dy dz : R) (node : Node_reference) : R :=
  node.adjacent_nodes.foldl
    (fun (rhs_mod : R) (adj_node : Node_reference) =>
      if !adj_node.at_domain_edge nx ny nz && inside adj_node then
        if adj_node.left_from node then rhs_mod + -potential * dy * dy * dz * dz
        else if adj_node.right_from node then rhs_mod + -potential * dy * dy * dz * dz
        else if adj_node.top_from node then rhs_mod + -potential * dx * dx * dz * dz
        else if adj_node.bottom_from node then rhs_mod + -potential * dx * dx * dz * dz
        else if adj_node.near_from node then rhs_mod + -potential * dx * dx * dy * dy
        else if adj_node.far_from node then rhs_mod + -potential * dx * dx * dy * dy
        else rhs_mod
      else rhs_mod)
    0

/-- The outer loop of `indicies_of_near_boundary_nodes_and_rhs_modifications`:
the two output vectors, filled by `push_back` in the order of the nodes. -/
def collect_rhs_modifications (inside : Node_reference → Bool) (potential : R)
    (nx ny nz : Int) (dx dy dz : R) : List Node_reference → Option (List Int × List R)
  | [] => some ([], [])
  | node :: rest =>
    let rhs_mod := rhs_mod_of_node inside potential nx ny nz dx dy dz node
    match node_global_index_in_matrix node nx ny nz with
    | none => none
    | some ix =>
      match collect_rhs_modifications inside potential nx ny nz dx dy dz rest with
      | none => none
      | some (indices, mods) => some (ix :: indices, rhs_mod :: mods)

/-- `Field_solver::indicies_of_near_boundary_nodes_and_rhs_modifications` for an
`Inner_region`. -/
def indicies_of_near_boundary_nodes_and_rhs_modifications (nx ny nz : Int) (dx dy dz : R)
    (inner_region : Inner_region R) : Option (List Int × List R) :=
  collect_rhs_modifications (fun adj_node => inner_region.check_if_node_inside adj_node dx dy dz)
    inner_region.potential nx ny nz dx dy dz
    inner_region.near_boundary_nodes_not_at_domain_edge

/-- `Field_solver::indicies_of_near_boundary_nodes_and_rhs_modifications` for an
`Inner_region_with_model`. -/
def indicies_of_near_boundary_nodes_and_rhs_modifications_with_model (nx ny nz : Int)
    (dx dy dz : R) (inner_region : Inner_region_with_model R) : Option (List Int × List R) :=
  collect_rhs_modifications (fun adj_node => inner_region.check_if_node_inside adj_node dx dy dz)
    inner_region.potential nx ny nz dx dy dz
    inner_region.near_boundary_nodes_not_at_domain_edge

/-- `Field_solver::modify_rhs_near_object_boundaries` for an `Inner_region`. -/
def modify_rhs_near_object_boundaries (spat_mesh : Spatial_mesh R) (rhs : Vec R)
    (inner_region : Inner_region R) : Option (Vec R) :=
  let nx := spat_mesh.x_n_nodes
  let ny := spat_mesh.y_n_nodes
  let nz := spat_mesh.z_n_nodes
  let dx := spat_mesh.x_cell_size
  let dy := spat_mesh.y_cell_size
  let dz := spat_mesh.z_cell_size
  match indicies_of_near_boundary_nodes_and_rhs_modifications nx ny nz dx dy dz
      inner_region with
  | none => none
  | some (indices_of_nodes_near_boundaries, rhs_modification_for_nodes_near_boundaries) =>
    let number_of_elements := indices_of_nodes_near_boundaries.length
    if number_of_elements ≠ 0 then
      some (VecSetValues_add rhs indices_of_nodes_near_boundaries
        rhs_modification_for_nodes_near_boundaries)
    else some rhs

/-- `Field_solver::modify_rhs_near_object_boundaries` for an
`Inner_region_with_model`. -/
def modify_rhs_near_object_boundaries_with_model (spat_mesh : Spatial_mesh R) (rhs : Vec R)
    (inner_region : Inner_region_with_model R) : Option (Vec R) :=
  let nx := spat_mesh.x_n_nodes
  let ny := spat_mesh.y_n_nodes
  let nz := spat_mesh.z_n_nodes
  let dx := spat_mesh.x_cell_size
  let dy := spat_mesh.y_cell_size
  let dz := spat_mesh.z_cell_size
  match indicies_of_near_boundary_nodes_and_rhs_modifications_with_model nx ny nz dx dy dz
      inner_region with
  | none => none
  | some (indices_of_nodes_near_boundaries, rhs_modification_for_nodes_near_boundaries) =>
    let number_of_elements := indices_of_nodes_near_boundaries.length
    if number_of_elements ≠ 0 then
      some (VecSetValues_add rhs indices_of_nodes_near_boundaries
        rhs_modification_for_nodes_near_boundaries)
    else some rhs

/-- `Field_solver::modify_rhs_near_object_boundaries` over both managers. -/
def modify_rhs_near_object_boundaries_all (spat_mesh : Spatial_mesh R) (rhs : Vec R)
    (inner_regions : Inner_regions_manager R)
    (inner_regions_with_models : Inner_regions_with_models_manager R) : Option (Vec R) :=
  match inner_regions.regions.foldlM
      (fun v reg => modify_rhs_near_object_boundaries spat_mesh v reg) rhs with
  | none => none
  | some rhs =>
    inner_regions_with_models.regions.foldlM
      (fun v reg => modify_rhs_near_object_boundaries_with_model spat_mesh v reg) rhs

/-- `Field_solver::init_rhs_vector`. -/
def init_rhs_vector (M_PI : R) (spat_mesh : Spatial_mesh R) (rhs : Vec R)
    (inner_regions : Inner_regions_manager R)
    (inner_regions_with_models : Inner_regions_with_models_manager R) : Option (Vec R) :=
  match init_rhs_vector_in_full_domain M_PI spat_mesh rhs with
  | none => none
  | some rhs =>
    match set_rhs_at_nodes_occupied_by_objects_all spat_mesh rhs inner_regions
        inner_regions_with_models with
    | none => none
    | some rhs =>
      modify_rhs_near_object_boundaries_all spat_mesh rhs inner_regions
        inner_regions_with_models

end Rhs

/-! ## Specification-side functions -/

section SpecFunctions

variable {R : Type} [CommRing R] [DecidableEq R]

/-- The row function obtained from `f` by the stores `l` of one `MatSetValues`
call, in order (a negative column is skipped). -/
def write_row (f : Int → R) (l : List (Int × R)) : Int → R :=
  l.foldl (fun g cv => if cv.1 < 0 then g else fun c => if c = cv.1 then cv.2 else g c) f

/-- Entry `(r, c)` of the second-difference operator along an axis whose
unknowns are `s` indices apart: `-2` on the diagonal, `1` towards the next
unknown unless the node is the last of its axis (`pos + 1 = n`) and `1`
towards the previous one unless it is the first (`pos = 0`). -/
def band (s n pos r c : Int) : R :=
  (if c = r then -2 else 0) + (if c = r + s ∧ pos + 1 < n then 1 else 0)
    + (if c = r - s ∧ 0 < pos then 1 else 0)

/-- Entry `(idx p, c)` of the 7-point operator scaled to clear denominators. -/
def stencil_entry (nx ny nz : Int) (dx dy dz : R) (p : Node_reference) (c : Int) : R :=
  dy * dy * dz * dz * band 1 (nx - 2) (p.x - 1) (idx p nx ny) c
    + dx * dx * dz * dz * band (nx - 2) (ny - 2) (p.y - 1) (idx p nx ny) c
    + dx * dx * dy * dy * band ((nx - 2) * (ny - 2)) (nz - 2) (p.z - 1) (idx p nx ny) c

end SpecFunctions

/-! ## Concrete data used to instantiate the theorems -/

/-- A 5x5x5 mesh with unit cells over the integers. -/
def example_mesh : Spatial_mesh Int :=
  ⟨5, 5, 5, 1, 1, 1, fun i j k => i + 2 * j + 3 * k, fun i j k => i * j + k,
    fun _ _ _ => (0, 0, 0)⟩

/-- A region of the 5x5x5 mesh that holds the centre node only, at potential
`10`; its near-boundary nodes are the six neighbours of the centre. -/
def example_region : Inner_region Int :=
  { name := "centre"
    potential := 10
    inner_nodes := [⟨2, 2, 2⟩]
    inner_nodes_not_at_domain_edge := [⟨2, 2, 2⟩]
    near_boundary_nodes :=
      [⟨1, 2, 2⟩, ⟨3, 2, 2⟩, ⟨2, 3, 2⟩, ⟨2, 1, 2⟩, ⟨2, 2, 1⟩, ⟨2, 2, 3⟩]
    near_boundary_nodes_not_at_domain_edge :=
      [⟨1, 2, 2⟩, ⟨3, 2, 2⟩, ⟨2, 3, 2⟩, ⟨2, 1, 2⟩, ⟨2, 2, 1⟩, ⟨2, 2, 3⟩]
    check_if_node_inside := fun n _ _ _ => decide (n = ⟨2, 2, 2⟩) }

section SpecFunctions2

variable {R : Type} [CommRing R] [DecidableEq R]

/-- The test of the source on a neighbour: not at the domain edge and inside the
region. -/
def qualifies (inside : Node_reference → Bool) (nx ny nz : Int) (adj_node : Node_reference) :
    Bool :=
  !adj_node.at_domain_edge nx ny nz && inside adj_node

/-- The unknown indices of the neighbours of `node` that pass the test. -/
def qualifying_columns (inside : Node_reference → Bool) (nx ny nz : Int)
    (node : Node_reference) : List Int :=
  (node.adjacent_nodes.filter (qualifies inside nx ny nz)).map (fun n => idx n nx ny)

/-- The body of the loop of `modify_equation_near_object_boundaries` for one
node, with the region's containment test at the cell sizes of the call. -/
def modify_step (inside : Node_reference → Bool) (nx ny nz : Int) (B : Mat R)
    (node : Node_reference) : Option (Mat R) :=
  match node_global_index_in_matrix node nx ny nz with
  | none => none
  | some row_to_modify =>
    match collect_adjacent_indices inside nx ny nz node.adjacent_nodes with
    | none => none
    | some cols_to_modify =>
      if cols_to_modify.length ≠ 0 then
        MatSetValues B row_to_modify cols_to_modify (List.replicate 6 (0 : R))
      else some B

end SpecFunctions2

section SpecFunctions3

variable {R : Type} [CommRing R] [DecidableEq R]

/-- The second difference of `x` along one axis at the unknown `r`, with the
neighbour beyond either end of the axis left out. -/
def band_apply (s n pos r : Int) (x : Vec R) : R :=
  -2 * x r + (if pos + 1 < n then x (r + s) else 0) + (if 0 < pos then x (r - s) else 0)

/-- The 7-point operator applied to `x` at the interior node `p`. -/
def stencil_apply (nx ny nz : Int) (dx dy dz : R) (p : Node_reference) (x : Vec R) : R :=
  dy * dy * dz * dz * band_apply 1 (nx - 2) (p.x - 1) (idx p nx ny) x
    + dx * dx * dz * dz * band_apply (nx - 2) (ny - 2) (p.y - 1) (idx p nx ny) x
    + dx * dx * dy * dy * band_apply ((nx - 2) * (ny - 2)) (nz - 2) (p.z - 1) (idx p nx ny) x

/-- The potential at a grid node once the unknowns have the values `x`: the
unknown of the node at interior nodes, the mesh potential at domain-edge nodes. -/
def potential_with_unknowns (spat_mesh : Spatial_mesh R) (x : Vec R) (i j k : Int) : R :=
  if interior ⟨i, j, k⟩ spat_mesh.x_n_nodes spat_mesh.y_n_nodes spat_mesh.z_n_nodes then
    x (idx ⟨i, j, k⟩ spat_mesh.x_n_nodes spat_mesh.y_n_nodes)
  else spat_mesh.potential i j k

end SpecFunctions3

section SpecFunctions4

variable {R : Type} [CommRing R] [DecidableEq R]

/-- The unknowns of the neighbours of `node` that are listed in the region's
`inner_nodes_not_at_domain_edge`: the region-interior unknowns adjacent to
`node`. -/
def region_interior_columns (inner_region : Inner_region R) (nx ny : Int)
    (node : Node_reference) : List Int :=
  (node.adjacent_nodes.filter
    (fun a => decide (a ∈ inner_region.inner_nodes_not_at_domain_edge))).map
    (fun a => idx a nx ny)

/-- The vector `x` with the potential of the region substituted at every
region-interior unknown adjacent to `node`. -/
def substitute_potential (inner_region : Inner_region R) (nx ny : Int)
    (node : Node_reference) (x : Vec R) : Vec R :=
  fun c =>
    if c ∈ region_interior_columns inner_region nx ny node then inner_region.potential
    else x c

end SpecFunctions4

/-! ## The solve: override of the solution, scatter to the mesh -/

section Solve

variable {R : Type} [CommRing R] [DecidableEq R]

/-- The members of `Field_solver` that hold numbers: the operator, the solution
vector and the right-hand side.  (The `KSP` and `PC` handles carry no value of
their own; the linear solve is a parameter of `solve_poisson_eqn`.) -/
structure Field_solver (R : Type) where
  A : Mat R
  phi_vec : Vec R
  rhs : Vec R

/-- The constructor `Field_solver::Field_solver`: the two vectors and the
operator are allocated with one entry (row) per unknown, the solution vector
is zeroed by `VecSet`, and the operator is built by
`construct_equation_matrix`. -/
def Field_solver.construct (spat_mesh : Spatial_mesh R)
    (inner_regions : Inner_regions_manager R)
    (inner_regions_with_models : Inner_regions_with_models_manager R) :
    Option (Field_solver R) :=
  let nx := spat_mesh.x_n_nodes
  let ny := spat_mesh.y_n_nodes
  let nz := spat_mesh.z_n_nodes
  let dx := spat_mesh.x_cell_size
  let dy := spat_mesh.y_cell_size
  let dz := spat_mesh.z_cell_size
  let nrows := (nx - 2) * (ny - 2) * (nz - 2)
  let ncols := nrows
  let A_approx_nonzero_per_row := 7
  match (alloc_petsc_vector nrows : Option (Vec R)) with
  | none => none
  | some _ =>
    let phi_vec : Vec R := fun _ => 0
    match (alloc_petsc_vector nrows : Option (Vec R)) with
    | none => none
    | some rhs =>
      match (alloc_petsc_matrix nrows ncols A_approx_nonzero_per_row : Option (Mat R)) with
      | none => none
      | some A =>
        match construct_equation_matrix A nx ny nz dx dy dz inner_regions
            inner_regions_with_models with
        | none => none
        | some A => some ⟨A, phi_vec, rhs⟩

/-- `Field_solver::set_solution_at_nodes_of_inner_regions` for an `Inner_region`;
`phi_vec` is the solution vector before the call. -/
def set_solution_at_nodes_of_inner_regions (spat_mesh : Spatial_mesh R) (phi_vec : Vec R)
    (inner_region : Inner_region R) : Option (Vec R) :=
  let nx := spat_mesh.x_n_nodes
  let ny := spat_mesh.y_n_nodes
  let nz := spat_mesh.z_n_nodes
  match list_of_nodes_global_indices_in_matrix
      inner_region.inner_nodes_not_at_domain_edge nx ny nz with
  | none => none
  | some occupied_nodes_global_indices =>
    let num_of_elements_to_set := occupied_nodes_global_indices.length
    if num_of_elements_to_set ≠ 0 then
      let phi_inside_region : List R :=
        List.replicate num_of_elements_to_set inner_region.potential
      some (VecSetValues_insert phi_vec occupied_nodes_global_indices phi_inside_region)
    else some phi_vec

/-- `Field_solver::set_solution_at_nodes_of_inner_regions` for an
`Inner_region_with_model`. -/
def set_solution_at_nodes_of_inner_regions_with_model (spat_mesh : Spatial_mesh R)
    (phi_vec : Vec R) (inner_region : Inner_region_with_model R) : Option (Vec R) :=
  let nx := spat_mesh.x_n_nodes
  let ny := spat_mesh.y_n_nodes
  let nz := spat_mesh.z_n_nodes
  match list_of_nodes_global_indices_in_matrix
      inner_region.inner_nodes_not_at_domain_edge nx ny nz with
  | none => none
  | some occupied_nodes_global_indices =>
    let num_of_elements_to_set := occupied_nodes_global_indices.length
    if num_of_elements_to_set ≠ 0 then
      let phi_inside_region : List R :=
        List.replicate num_of_elements_to_set inner_region.potential
      some (VecSetValues_insert phi_vec occupied_nodes_global_indices phi_inside_region)
    else some phi_vec

/-- `Field_solver::set_solution_at_nodes_of_inner_regions` over both managers. -/
def set_solution_at_nodes_of_inner_regions_all (spat_mesh : Spatial_mesh R) (phi_vec : Vec R)
    (inner_regions : Inner_regions_manager R)
    (inner_regions_with_models : Inner_regions_with_models_manager R) : Option (Vec R) :=
  match inner_regions.regions.foldlM
      (fun v reg => set_solution_at_nodes_of_inner_regions spat_mesh v reg) phi_vec with
  | none => none
  | some phi_vec =>
    inner_regions_with_models.regions.foldlM
      (fun v reg => set_solution_at_nodes_of_inner_regions_with_model spat_mesh v reg) phi_vec

/-- The assignment `array[i][j][k] = v` on a dense 3-D array. -/
def set_at {α : Type} (array : Int → Int → Int → α) (i j k : Int) (v : α) :
    Int → Int → Int → α :=
  fun a b c => if a = i ∧ b = j ∧ c = k then v else array a b c

/-- `Field_solver::transfer_solution_to_spat_mesh`: the mesh after the call. -/
def transfer_solution_to_spat_mesh (phi_vec : Vec R) (spat_mesh : Spatial_mesh R) :
    Option (Spatial_mesh R) :=
  let nx := spat_mesh.x_n_nodes
  let ny := spat_mesh.y_n_nodes
  let nz := spat_mesh.z_n_nodes
  (loop_from_to 1 (nz - 2)).foldlM
    (fun (spat_mesh : Spatial_mesh R) (k : Int) =>
      (loop_from_to 1 (ny - 2)).foldlM
        (fun (spat_mesh : Spatial_mesh R) (j : Int) =>
          (loop_from_to 1 (nx - 2)).foldlM
            (fun (spat_mesh : Spatial_mesh R) (i : Int) =>
              match node_ijk_to_global_index_in_matrix i j k nx ny nz with
              | none => none
              | some ix =>
                let phi_at_point := phi_vec ix
                some { spat_mesh with
                  potential := set_at spat_mesh.potential i j k phi_at_point })
            spat_mesh)
        spat_mesh)
    spat_mesh

/-- `Field_solver::solve_poisson_eqn`.  `KSPSolve` is the linear solve of the
backend: from the operator, the right-hand side and the initial guess it
returns a solution vector, or fails. -/
def solve_poisson_eqn (KSPSolve : Mat R → Vec R → Vec R → Option (Vec R)) (M_PI : R)
    (solver : Field_solver R) (spat_mesh : Spatial_mesh R)
    (inner_regions : Inner_regions_manager R)
    (inner_regions_with_models : Inner_regions_with_models_manager R) :
    Option (Field_solver R × Spatial_mesh R) :=
  match init_rhs_vector M_PI spat_mesh solver.rhs inner_regions inner_regions_with_models with
  | none => none
  | some rhs =>
    match KSPSolve solver.A rhs solver.phi_vec with
    | none => none
    | some phi_vec =>
      match set_solution_at_nodes_of_inner_regions_all spat_mesh phi_vec inner_regions
          inner_regions_with_models with
      | none => none
      | some phi_vec =>
        match transfer_solution_to_spat_mesh phi_vec spat_mesh with
        | none => none
        | some spat_mesh => some (⟨solver.A, phi_vec, rhs⟩, spat_mesh)

/-- `Field_solver::eval_potential`. -/
def eval_potential (KSPSolve : Mat R → Vec R → Vec R → Option (Vec R)) (M_PI : R)
    (solver : Field_solver R) (spat_mesh : Spatial_mesh R)
    (inner_regions : Inner_regions_manager R)
    (inner_regions_with_models : Inner_regions_with_models_manager R) :
    Option (Field_solver R × Spatial_mesh R) :=
  solve_poisson_eqn KSPSolve M_PI solver spat_mesh inner_regions inner_regions_with_models

end Solve

/-! ## Field extraction -/

section Fields

variable {R : Type} [Field R]

/-- `Field_solver::central_difference`.  The quotient is the one of the field,
which is the quotient of the source when `dx` is not `0`; the division by a
zero cell size, which gives no number in the source, is kept apart in
`central_difference_checked`. -/
def central_difference (phi1 phi2 dx : R) : R :=
  (phi2 - phi1) / (2 * dx)

/-- `Field_solver::boundary_difference`.  The quotient is the one of the field,
which is the quotient of the source when `dx` is not `0`; the division by a
zero cell size, which gives no number in the source, is kept apart in
`boundary_difference_checked`. -/
def boundary_difference (phi1 phi2 dx : R) : R :=
  (phi2 - phi1) / dx

/-- The body of the loops of `eval_fields_from_potential`: the vector
`vec3d_init( ex, ey, ez )` stored at the node `(i, j, k)`. -/
def field_at_node (nx ny nz : Int) (dx dy dz : R) (phi : Int → Int → Int → R)
    (i j k : Int) : R × R × R :=
  let ex :=
    if i = 0 then - boundary_difference (phi i j k) (phi (i + 1) j k) dx
    else if i = nx - 1 then - boundary_difference (phi (i - 1) j k) (phi i j k) dx
    else - central_difference (phi (i - 1) j k) (phi (i + 1) j k) dx
  let ey :=
    if j = 0 then - boundary_difference (phi i j k) (phi i (j + 1) k) dy
    else if j = ny - 1 then - boundary_difference (phi i (j - 1) k) (phi i j k) dy
    else - central_difference (phi i (j - 1) k) (phi i (j + 1) k) dy
  let ez :=
    if k = 0 then - boundary_difference (phi i j k) (phi i j (k + 1)) dz
    else if k = nz - 1 then - boundary_difference (phi i j (k - 1)) (phi i j k) dz
    else - central_difference (phi i j (k - 1)) (phi i j (k + 1)) dz
  (ex, ey, ez)

/-- `Field_solver::eval_fields_from_potential`: the mesh after the call. -/
def eval_fields_from_potential (spat_mesh : Spatial_mesh R) : Spatial_mesh R :=
  let nx := spat_mesh.x_n_nodes
  let ny := spat_mesh.y_n_nodes
  let nz := spat_mesh.z_n_nodes
  let dx := spat_mesh.x_cell_size
  let dy := spat_mesh.y_cell_size
  let dz := spat_mesh.z_cell_size
  let phi := spat_mesh.potential
  (loop_from_to 0 (nx - 1)).foldl
    (fun (spat_mesh : Spatial_mesh R) (i : Int) =>
      (loop_from_to 0 (ny - 1)).foldl
        (fun (spat_mesh : Spatial_mesh R) (j : Int) =>
          (loop_from_to 0 (nz - 1)).foldl
            (fun (spat_mesh : Spatial_mesh R) (k : Int) =>
              { spat_mesh with
                electric_field := set_at spat_mesh.electric_field i j k
                  (field_at_node nx ny nz dx dy dz phi i j k) })
            spat_mesh)
        spat_mesh)
    spat_mesh

end Fields

section CheckedFields

variable {R : Type} [Field R] [DecidableEq R]

/-- The quotient `a / b` of two `double`s of the source as a number of the
field: `none` when the divisor is zero, where the division of the source gives
NaN or an infinity and no number. -/
def quotient_of_doubles (a b : R) : Option R :=
  if b = 0 then none else some (a / b)

/-- `Field_solver::central_difference` with the division kept partial. -/
def central_difference_checked (phi1 phi2 dx : R) : Option R :=
  quotient_of_doubles (phi2 - phi1) (2 * dx)

/-- `Field_solver::boundary_difference` with the division kept partial. -/
def boundary_difference_checked (phi1 phi2 dx : R) : Option R :=
  quotient_of_doubles (phi2 - phi1) dx

/-- The body of the loops of `eval_fields_from_potential` with the division kept
partial: the vector `vec3d_init( ex, ey, ez )` stored at the node `(i, j, k)`
when its three components are numbers, `none` when one of them is NaN or
infinite. -/
def field_at_node_checked (nx ny nz : Int) (dx dy dz : R) (phi : Int → Int → Int → R)
    (i j k : Int) : Option (R × R × R) :=
  let ex :=
    if i = 0 then
      (boundary_difference_checked (phi i j k) (phi (i + 1) j k) dx).map (fun q => -q)
    else if i = nx - 1 then
      (boundary_difference_checked (phi (i - 1) j k) (phi i j k) dx).map (fun q => -q)
    else (central_difference_checked (phi (i - 1) j k) (phi (i + 1) j k) dx).map (fun q => -q)
  let ey :=
    if j = 0 then
      (boundary_difference_checked (phi i j k) (phi i (j + 1) k) dy).map (fun q => -q)
    else if j = ny - 1 then
      (boundary_difference_checked (phi i (j - 1) k) (phi i j k) dy).map (fun q => -q)
    else (central_difference_checked (phi i (j - 1) k) (phi i (j + 1) k) dy).map (fun q => -q)
  let ez :=
    if k = 0 then
      (boundary_difference_checked (phi i j k) (phi i j (k + 1)) dz).map (fun q => -q)
    else if k = nz - 1 then
      (boundary_difference_checked (phi i j (k - 1)) (phi i j k) dz).map (fun q => -q)
    else (central_difference_checked (phi i j (k - 1)) (phi i j (k + 1)) dz).map (fun q => -q)
  match ex, ey, ez with
  | some ex, some ey, some ez => some (ex, ey, ez)
  | _, _, _ => none

end CheckedFields

section SpecFunctions5

variable {R : Type} [CommRing R] [DecidableEq R]

/-- How many of the listed neighbours pass the test of the source (not at the
domain edge and inside the region). -/
def qualifying_count (inside : Node_reference → Bool) (nx ny nz : Int)
    (neighbours : List Node_reference) : Nat :=
  (neighbours.filter (qualifies inside nx ny nz)).length

/-- The compensation `-V*(a*dy^2dz^2 + b*dx^2dz^2 + c*dx^2dy^2)` of a node, with
`a`, `b`, `c` the numbers of its qualifying left/right, top/bottom and
near/far neighbours. -/
def compensation (inside : Node_reference → Bool) (V : R) (nx ny nz : Int) (dx dy dz : R)
    (n : Node_reference) : R :=
  -V * ((qualifying_count inside nx ny nz [⟨n.x - 1, n.y, n.z⟩, ⟨n.x + 1, n.y, n.z⟩] : R)
          * (dy * dy * dz * dz)
        + (qualifying_count inside nx ny nz [⟨n.x, n.y + 1, n.z⟩, ⟨n.x, n.y - 1, n.z⟩] : R)
          * (dx * dx * dz * dz)
        + (qualifying_count inside nx ny nz [⟨n.x, n.y, n.z - 1⟩, ⟨n.x, n.y, n.z + 1⟩] : R)
          * (dx * dx * dy * dy))

end SpecFunctions5

/-- A 3x3x3 mesh over the rationals with `dx = 2`, `dy = dz = 1` and the linear
potential ramp `5 * (i * dx)`. -/
def ramp_mesh : Spatial_mesh ℚ :=
  ⟨3, 3, 3, 2, 1, 1, fun _ _ _ => 0, fun i _ _ => 5 * ((i : ℚ) * 2), fun _ _ _ => (0, 0, 0)⟩

/-- A 3x3x3 mesh over the rationals with `dx = 2`, `dy = 0`, `dz = 1` and the
linear potential ramp `5 * (i * dx)`. -/
def flat_ramp_mesh : Spatial_mesh ℚ :=
  ⟨3, 3, 3, 2, 0, 1, fun _ _ _ => 0, fun i _ _ => 5 * ((i : ℚ) * 2), fun _ _ _ => (0, 0, 0)⟩

section SpecFunctions6

variable {R : Type} [CommRing R] [DecidableEq R]

/-- The potential at a grid node once the unknowns have the values `x` and the
potential `V` of the region stands at the interior nodes inside the region:
what the mesh holds after the override and the scatter. -/
def potential_with_region (spat_mesh : Spatial_mesh R) (inside : Node_reference → Bool) (V : R)
    (x : Vec R) (i j k : Int) : R :=
  if interior ⟨i, j, k⟩ spat_mesh.x_n_nodes spat_mesh.y_n_nodes spat_mesh.z_n_nodes then
    (if inside ⟨i, j, k⟩ = true then V
     else x (idx ⟨i, j, k⟩ spat_mesh.x_n_nodes spat_mesh.y_n_nodes))
  else spat_mesh.potential i j k

/-- The 7-point operator on a grid function `U` at the node `(i, j, k)`: the
second differences along the three axes with the weights `dy^2dz^2`,
`dx^2dz^2` and `dx^2dy^2`. -/
def seven_point (dx dy dz : R) (U : Int → Int → Int → R) (i j k : Int) : R :=
  dy * dy * (dz * dz) * (U (i - 1) j k + U (i + 1) j k - 2 * U i j k)
    + dx * dx * (dz * dz) * (U i (j - 1) k + U i (j + 1) k - 2 * U i j k)
    + dx * dx * (dy * dy) * (U i j (k - 1) + U i j (k + 1) - 2 * U i j k)

/-- A backend for examples: it returns the candidate `x0` when `x0` solves the
system exactly at every row, and fails otherwise. -/
def checked_backend (x0 : Vec R) (A : Mat R) (b _guess : Vec R) : Option (Vec R) :=
  if (List.range A.nrow.toNat).all (fun r => decide (mat_vec A x0 (r : Int) = b (r : Int)))
  then some x0 else none

end SpecFunctions6

/-- The 5x5x5 mesh with unit cells, zero charge density and the potential `10`
at every domain-edge node (and `3` at the interior nodes before a solve). -/
def uniform_mesh : Spatial_mesh Int :=
  ⟨5, 5, 5, 1, 1, 1, fun _ _ _ => 0,
    fun i j k => if interior ⟨i, j, k⟩ 5 5 5 then 3 else 10, fun _ _ _ => (0, 0, 0)⟩

/-- A 4x4x4 mesh whose cell sizes are all `0`, with zero charge density and the
potential `1` at every domain-edge node (and `0` at the interior nodes). -/
def degenerate_mesh : Spatial_mesh Int :=
  ⟨4, 4, 4, 0, 0, 0, fun _ _ _ => 0,
    fun i j k => if interior ⟨i, j, k⟩ 4 4 4 then 0 else 1, fun _ _ _ => (0, 0, 0)⟩

/-- A region of the 4x4x4 mesh at potential `1` that holds the node `(1,1,1)`
only; its near-boundary nodes are the three interior neighbours of that node. -/
def corner_region : Inner_region Int :=
  { name := "corner"
    potential := 1
    inner_nodes := [⟨1, 1, 1⟩]
    inner_nodes_not_at_domain_edge := [⟨1, 1, 1⟩]
    near_boundary_nodes := [⟨2, 1, 1⟩, ⟨1, 2, 1⟩, ⟨1, 1, 2⟩]
    near_boundary_nodes_not_at_domain_edge := [⟨2, 1, 1⟩, ⟨1, 2, 1⟩, ⟨1, 1, 2⟩]
    check_if_node_inside := fun n _ _ _ => decide (n = ⟨1, 1, 1⟩) }

/-- The interior nodes of the grid, in the order of the loops of the solver. -/
def interior_nodes (nx ny nz : Int) : List Node_reference :=
  (((loop_from_to 1 (nz - 2)).flatMap (fun k =>
      (loop_from_to 1 (ny - 2)).map (fun j => (k, j)))).flatMap
      (fun q => (loop_from_to 1 (nx - 2)).map (fun i => (q, i)))).map
    (fun t => ⟨t.2, t.1.2, t.1.1⟩)

/-! ## The end-to-end scenario: a sphere of radius 1 in the 5x5x5 grid -/

/-- The squared distance, in cells, of a node from the node `(2,2,2)`. -/
def sq_dist_from_centre (n : Node_reference) : Int :=
  (n.x - 2) * (n.x - 2) + (n.y - 2) * (n.y - 2) + (n.z - 2) * (n.z - 2)

/-- The node lies in the sphere of radius 1 (unit cells) centred at the node
`(2,2,2)`, with the boundary of the sphere counted as inside or not. -/
def in_unit_sphere (inclusive : Bool) (n : Node_reference) : Prop :=
  if inclusive then sq_dist_from_centre n ≤ 1 else sq_dist_from_centre n < 1

instance (inclusive : Bool) (n : Node_reference) : Decidable (in_unit_sphere inclusive n) := by
  unfold in_unit_sphere; infer_instance

/-- The potential of the scenario at a node whose squared distance from the
centre is `d2`: the solution of the 7-point equations with `10` in the sphere
and `0` at the domain edge. -/
def scenario_potential {R : Type} [Field R] (inclusive : Bool) (d2 : Int) : R :=
  if inclusive then
    (if d2 ≤ 1 then 10 else if d2 = 2 then 4 else if d2 = 3 then 2 else 0)
  else
    (if d2 = 0 then 10 else if d2 = 1 then 25 / 11 else if d2 = 2 then 10 / 11
     else if d2 = 3 then 5 / 11 else 0)

/-- The mesh of the scenario: 5x5x5 nodes, unit cells, zero charge density and
zero potential. -/
def scenario_mesh : Spatial_mesh ℚ :=
  ⟨5, 5, 5, 1, 1, 1, fun _ _ _ => 0, fun _ _ _ => 0, fun _ _ _ => (0, 0, 0)⟩

/-- The spherical region of the scenario: radius 1, centred at the node
`(2,2,2)`, potential `10`, with the node lists of the data model. -/
def sphere_region (inclusive : Bool) : Inner_region ℚ :=
  { name := "sphere"
    potential := 10
    inner_nodes :=
      if inclusive then
        [⟨2, 2, 2⟩, ⟨1, 2, 2⟩, ⟨3, 2, 2⟩, ⟨2, 1, 2⟩, ⟨2, 3, 2⟩, ⟨2, 2, 1⟩, ⟨2, 2, 3⟩]
      else [⟨2, 2, 2⟩]
    inner_nodes_not_at_domain_edge :=
      if inclusive then
        [⟨2, 2, 2⟩, ⟨1, 2, 2⟩, ⟨3, 2, 2⟩, ⟨2, 1, 2⟩, ⟨2, 3, 2⟩, ⟨2, 2, 1⟩, ⟨2, 2, 3⟩]
      else [⟨2, 2, 2⟩]
    near_boundary_nodes :=
      if inclusive then
        [⟨1, 1, 2⟩, ⟨1, 3, 2⟩, ⟨3, 1, 2⟩, ⟨3, 3, 2⟩, ⟨1, 2, 1⟩, ⟨1, 2, 3⟩,
         ⟨3, 2, 1⟩, ⟨3, 2, 3⟩, ⟨2, 1, 1⟩, ⟨2, 1, 3⟩, ⟨2, 3, 1⟩, ⟨2, 3, 3⟩]
      else [⟨1, 2, 2⟩, ⟨3, 2, 2⟩, ⟨2, 1, 2⟩, ⟨2, 3, 2⟩, ⟨2, 2, 1⟩, ⟨2, 2, 3⟩]
    near_boundary_nodes_not_at_domain_edge :=
      if inclusive then
        [⟨1, 1, 2⟩, ⟨1, 3, 2⟩, ⟨3, 1, 2⟩, ⟨3, 3, 2⟩, ⟨1, 2, 1⟩, ⟨1, 2, 3⟩,
         ⟨3, 2, 1⟩, ⟨3, 2, 3⟩, ⟨2, 1, 1⟩, ⟨2, 1, 3⟩, ⟨2, 3, 1⟩, ⟨2, 3, 3⟩]
      else [⟨1, 2, 2⟩, ⟨3, 2, 2⟩, ⟨2, 1, 2⟩, ⟨2, 3, 2⟩, ⟨2, 2, 1⟩, ⟨2, 2, 3⟩]
    check_if_node_inside := fun n dx dy dz =>
      if inclusive then
        decide ((n.x * dx - 2) * (n.x * dx - 2) + (n.y * dy - 2) * (n.y * dy - 2)
          + (n.z * dz - 2) * (n.z * dz - 2) ≤ 1)
      else
        decide ((n.x * dx - 2) * (n.x * dx - 2) + (n.y * dy - 2) * (n.y * dy - 2)
          + (n.z * dz - 2) * (n.z * dz - 2) < 1) }

section SpecFunctions7

variable {R : Type} [CommRing R] [DecidableEq R]

/-- The vector of the interior values of the mesh potential: entry `m` is the
potential at the interior node whose unknown index is `m`. -/
def interior_values (spat_mesh : Spatial_mesh R) : Vec R :=
  fun m =>
    spat_mesh.potential (index_to_node m spat_mesh.x_n_nodes spat_mesh.y_n_nodes).x
      (index_to_node m spat_mesh.x_n_nodes spat_mesh.y_n_nodes).y
      (index_to_node m spat_mesh.x_n_nodes spat_mesh.y_n_nodes).z

end SpecFunctions7

/-- A 4x4x4 mesh over the rationals with cell sizes `1, 2, 1`, the quadratic
potential `1*(i*dx)^2 + 2*(j*dy)^2 + 3*(k*dz)^2 + (5 + 1*(i*dx) - 1*(j*dy)
+ 2*(k*dz))` and the matching charge density `-(2*1 + 2*2 + 2*3)/(4*3)` (with
`3` in the place of `pi`). -/
def quadratic_mesh : Spatial_mesh ℚ :=
  ⟨4, 4, 4, 1, 2, 1, fun _ _ _ => -(2 * 1 + 2 * 2 + 2 * 3) / (4 * 3),
    fun i j k => 1 * ((i : ℚ) * 1) ^ 2 + 2 * ((j : ℚ) * 2) ^ 2 + 3 * ((k : ℚ) * 1) ^ 2
      + (5 + 1 * ((i : ℚ) * 1) + (-1) * ((j : ℚ) * 2) + 2 * ((k : ℚ) * 1)),
    fun _ _ _ => (0, 0, 0)⟩

/-- A mesh with 2 nodes along x (no interior node) and 4 along y and z. -/
def thin_mesh : Spatial_mesh Int :=
  ⟨2, 4, 4, 1, 1, 1, fun _ _ _ => 0, fun _ _ _ => 0, fun _ _ _ => (0, 0, 0)⟩

/-- A mesh with 2 nodes along z (no interior node) and 4 along x and y. -/
def shallow_mesh : Spatial_mesh Int :=
  ⟨4, 4, 2, 1, 1, 1, fun _ _ _ => 0, fun _ _ _ => 0, fun _ _ _ => (0, 0, 0)⟩

/-- A region that contains no node: all four node lists are empty. -/
def empty_region : Inner_region Int :=
  ⟨"empty", 1, [], [], [], [], fun _ _ _ _ => false⟩

section SpecFunctions8

variable {R : Type} [CommRing R] [DecidableEq R]

/-- The matrix `B'` is `B` with the entries at the places `S` replaced by `k`:
same size, `B'(r, c) = k r c` where `S r c` holds and `B(r, c)` elsewhere. -/
def overridden (B B' : Mat R) (S : Int → Int → Prop) (k : Int → Int → R) : Prop :=
  B'.nrow = B.nrow ∧ B'.ncol = B.ncol ∧
  ∀ r c, (S r c → B'.val r c = k r c) ∧ (¬ S r c → B'.val r c = B.val r c)

/-- Modelled from the spec: an `Inner_region_with_model` seen as an
`Inner_region` (the solver reads the same members of both). -/
def as_inner_region (m : Inner_region_with_model R) : Inner_region R :=
  ⟨m.name, m.potential, m.inner_nodes, m.inner_nodes_not_at_domain_edge,
    m.near_boundary_nodes, m.near_boundary_nodes_not_at_domain_edge, m.check_if_node_inside⟩

/-- All regions in the order in which every step of the solver visits them: the
regions of the first manager, then those of the second. -/
def all_regions (inner_regions : Inner_regions_manager R)
    (inner_regions_with_models : Inner_regions_with_models_manager R) :
    List (Inner_region R) :=
  inner_regions.regions ++ inner_regions_with_models.regions.map as_inner_region

end SpecFunctions8

/-- A 4x4x4 mesh with unit cells, zero charge density and the potential `1` at
every domain-edge node (and `0` at the interior nodes). -/
def small_mesh : Spatial_mesh Int :=
  ⟨4, 4, 4, 1, 1, 1, fun _ _ _ => 0,
    fun i j k => if interior ⟨i, j, k⟩ 4 4 4 then 0 else 1, fun _ _ _ => (0, 0, 0)⟩

/-- A region of the 4x4x4 mesh at potential `1` that holds the node `(2,1,1)`
only, the right neighbour of the node of `corner_region`; its near-boundary
nodes are the three interior neighbours of its node. -/
def adjacent_region : Inner_region Int :=
  { name := "adjacent"
    potential := 1
    inner_nodes := [⟨2, 1, 1⟩]
    inner_nodes_not_at_domain_edge := [⟨2, 1, 1⟩]
    near_boundary_nodes := [⟨1, 1, 1⟩, ⟨2, 2, 1⟩, ⟨2, 1, 2⟩]
    near_boundary_nodes_not_at_domain_edge := [⟨1, 1, 1⟩, ⟨2, 2, 1⟩, ⟨2, 1, 2⟩]
    check_if_node_inside := fun n _ _ _ => decide (n = ⟨2, 1, 1⟩) }

/-- A region of the 4x4x4 mesh at potential `1` that holds the node `(2,2,1)`
only; its near-boundary nodes are the three interior neighbours of its node,
two of which are near-boundary nodes of `corner_region` as well. -/
def diagonal_region : Inner_region Int :=
  { name := "diagonal"
    potential := 1
    inner_nodes := [⟨2, 2, 1⟩]
    inner_nodes_not_at_domain_edge := [⟨2, 2, 1⟩]
    near_boundary_nodes := [⟨1, 2, 1⟩, ⟨2, 1, 1⟩, ⟨2, 2, 2⟩]
    near_boundary_nodes_not_at_domain_edge := [⟨1, 2, 1⟩, ⟨2, 1, 1⟩, ⟨2, 2, 2⟩]
    check_if_node_inside := fun n _ _ _ => decide (n = ⟨2, 2, 1⟩) }

/-- A vector of unknowns of the 4x4x4 mesh: `-1` at the unknowns `0` and `1` (the
nodes `(1,1,1)` and `(2,1,1)`), `1` at the others. -/
def two_region_solution : Vec Int :=
  fun m => if m = 0 ∨ m = 1 then -1 else 1

/-- The region of `corner_region` over the rationals: it holds the node `(1,1,1)`
of the 4x4x4 mesh only, at potential `1`. -/
def corner_region_rat : Inner_region ℚ :=
  { name := "corner"
    potential := 1
    inner_nodes := [⟨1, 1, 1⟩]
    inner_nodes_not_at_domain_edge := [⟨1, 1, 1⟩]
    near_boundary_nodes := [⟨2, 1, 1⟩, ⟨1, 2, 1⟩, ⟨1, 1, 2⟩]
    near_boundary_nodes_not_at_domain_edge := [⟨2, 1, 1⟩, ⟨1, 2, 1⟩, ⟨1, 1, 2⟩]
    check_if_node_inside := fun n _ _ _ => decide (n = ⟨1, 1, 1⟩) }

/-! ## The region manager -/

/-- Modelled from the spec: a configuration part of an inner region (config.h is
not part of the sources), as far as the constructor of the manager reads it:
the result of each of its `dynamic_cast`s to the configuration part of a
shape, `none` for a null pointer. -/
structure Inner_region_config_part (Box Sphere Cylinder Tube : Type) where
  as_box : Option Box
  as_sphere : Option Sphere
  as_cylinder : Option Cylinder
  as_tube : Option Tube

/-- Modelled from the spec: `Config` (config.h is not part of the sources), as far
as the constructor of the manager reads it: the ordered collection
`inner_regions_config_part`. -/
structure Config (Box Sphere Cylinder Tube : Type) where
  inner_regions_config_part : List (Inner_region_config_part Box Sphere Cylinder Tube)

/-- Modelled from the spec: the constructors of the four region shapes (only
declared in inner_region.h; their bodies are not part of the sources), taken
as given: each returns a region from the configuration, the configuration
part of its shape and the mesh. -/
structure Region_shapes (R Box Sphere Cylinder Tube : Type) where
  Inner_region_box : Config Box Sphere Cylinder Tube → Box → Spatial_mesh R → Inner_region R
  Inner_region_sphere :
    Config Box Sphere Cylinder Tube → Sphere → Spatial_mesh R → Inner_region R
  Inner_region_cylinder :
    Config Box Sphere Cylinder Tube → Cylinder → Spatial_mesh R → Inner_region R
  Inner_region_tube : Config Box Sphere Cylinder Tube → Tube → Spatial_mesh R → Inner_region R

/-- `Inner_regions_manager::Inner_regions_manager`: the loop over the
configuration parts with its chain of `dynamic_cast`s, on the manager under
construction, whose member `regions` is empty at the start;
`regions.push_back` appends at the end, `exit( EXIT_FAILURE )` is `none`. -/
def Inner_regions_manager.construct {R Box Sphere Cylinder Tube : Type}
    (shapes : Region_shapes R Box Sphere Cylinder Tube)
    (conf : Config Box Sphere Cylinder Tube) (spat_mesh : Spatial_mesh R) :
    Option (Inner_regions_manager R) :=
  conf.inner_regions_config_part.foldlM
    (fun (manager : Inner_regions_manager R)
        (inner_region_conf : Inner_region_config_part Box Sphere Cylinder Tube) =>
      match inner_region_conf.as_box with
      | some box_conf =>
        some ⟨manager.regions ++ [shapes.Inner_region_box conf box_conf spat_mesh]⟩
      | none =>
        match inner_region_conf.as_sphere with
        | some sphere_conf =>
          some ⟨manager.regions ++ [shapes.Inner_region_sphere conf sphere_conf spat_mesh]⟩
        | none =>
          match inner_region_conf.as_cylinder with
          | some cyl_conf =>
            some ⟨manager.regions ++ [shapes.Inner_region_cylinder conf cyl_conf spat_mesh]⟩
          | none =>
            match inner_region_conf.as_tube with
            | some tube_conf =>
              some ⟨manager.regions ++ [shapes.Inner_region_tube conf tube_conf spat_mesh]⟩
            | none => none)
    ⟨[]⟩

/-- The region of the matching shape of a configuration part: the region built
by the constructor of the first shape, in the order box, sphere, cylinder,
tube, that the part is a configuration of; `none` when it is none of them. -/
def region_of_config_part {R Box Sphere Cylinder Tube : Type}
    (shapes : Region_shapes R Box Sphere Cylinder Tube)
    (conf : Config Box Sphere Cylinder Tube) (spat_mesh : Spatial_mesh R)
    (part : Inner_region_config_part Box Sphere Cylinder Tube) : Option (Inner_region R) :=
  match part.as_box, part.as_sphere, part.as_cylinder, part.as_tube with
  | some box_conf, _, _, _ => some (shapes.Inner_region_box conf box_conf spat_mesh)
  | none, some sphere_conf, _, _ => some (shapes.Inner_region_sphere conf sphere_conf spat_mesh)
  | none, none, some cyl_conf, _ => some (shapes.Inner_region_cylinder conf cyl_conf spat_mesh)
  | none, none, none, some tube_conf => some (shapes.Inner_region_tube conf tube_conf spat_mesh)
  | none, none, none, none => none

/-- Shape constructors for examples: a configuration part of a shape is the
potential, and the region carries the name of its shape, that potential and
empty node lists. -/
def example_shapes : Region_shapes Int Int Int Int Int :=
  { Inner_region_box := fun _ V _ => ⟨"box", V, [], [], [], [], fun _ _ _ _ => false⟩
    Inner_region_sphere := fun _ V _ => ⟨"sphere", V, [], [], [], [], fun _ _ _ _ => false⟩
    Inner_region_cylinder := fun _ V _ => ⟨"cylinder", V, [], [], [], [], fun _ _ _ _ => false⟩
    Inner_region_tube := fun _ V _ => ⟨"tube", V, [], [], [], [], fun _ _ _ _ => false⟩ }

/-- A configuration with a box at potential `1`, a cylinder at potential `3` and
a sphere at potential `2`, in this order. -/
def example_config : Config Int Int Int Int :=
  ⟨[⟨some 1, none, none, none⟩, ⟨none, none, some 3, none⟩, ⟨none, some 2, none, none⟩]⟩

/-- A configuration whose second part is of none of the four shapes. -/
def unknown_shape_config : Config Int Int Int Int :=
  ⟨[⟨some 1, none, none, none⟩, ⟨none, none, none, none⟩, ⟨none, some 2, none, none⟩]⟩

set_option linter.unusedSectionVars false

/-! ## Arithmetic of the index mapping -/

theorem divmod_of_digits {N a b : Int} (hN : 0 < N) (ha : 0 ≤ a) (haN : a < N) :
    (a + b * N) / N = b ∧ (a + b * N) % N = a := by
  rw [Int.ediv_emod_unique hN]
  refine ⟨by ring, ha, haN⟩

theorem digits_bound {M N a b : Int} (ha : 0 ≤ a) (haN : a < M)
    (hb : 0 ≤ b) (hbN : b < N) : 0 ≤ a + b * M ∧ a + b * M < M * N := by
  have hM : 0 < M := by omega
  constructor
  · have : 0 ≤ b * M := mul_nonneg hb hM.le
    omega
  · have h1 : (b + 1) * M ≤ N * M := mul_le_mul_of_nonneg_right (by omega) hM.le
    nlinarith

theorem digits_unique {N a b a' b' : Int} (ha : 0 ≤ a) (haN : a < N) (ha' : 0 ≤ a')
    (haN' : a' < N) (h : a + b * N = a' + b' * N) : a = a' ∧ b = b' := by
  have hN : 0 < N := by omega
  have h1 := divmod_of_digits (b := b) hN ha haN
  have h2 := divmod_of_digits (b := b') hN ha' haN'
  rw [h] at h1
  exact ⟨h1.2.symm.trans h2.2, h1.1.symm.trans h2.1⟩

theorem node_index_of_interior {n : Node_reference} {nx ny nz : Int}
    (h : interior n nx ny nz) :
    node_global_index_in_matrix n nx ny nz = some (idx n nx ny) := by
  obtain ⟨h1, h2, h3, h4, h5, h6⟩ := h
  unfold node_global_index_in_matrix node_ijk_to_global_index_in_matrix idx
  rw [if_neg (by omega)]

theorem node_index_eq_some {n : Node_reference} {nx ny nz r : Int}
    (h : node_global_index_in_matrix n nx ny nz = some r) :
    interior n nx ny nz ∧ r = idx n nx ny := by
  unfold node_global_index_in_matrix node_ijk_to_global_index_in_matrix at h
  split at h
  · exact absurd h (by simp)
  · rename_i hc
    refine ⟨?_, ?_⟩
    · unfold interior; omega
    · simp only [Option.some.injEq] at h
      rw [← h]; rfl

theorem idx_range {n : Node_reference} {nx ny nz : Int} (h : interior n nx ny nz) :
    0 ≤ idx n nx ny ∧ idx n nx ny < (nx - 2) * (ny - 2) * (nz - 2) := by
  obtain ⟨h1, h2, h3, h4, h5, h6⟩ := h
  have hxy := digits_bound (M := nx - 2) (N := ny - 2) (a := n.x - 1) (b := n.y - 1)
    (by omega) (by omega) (by omega) (by omega)
  have hz := digits_bound (M := (nx - 2) * (ny - 2)) (N := nz - 2)
    (a := (n.x - 1) + (n.y - 1) * (nx - 2)) (b := n.z - 1) hxy.1 hxy.2 (by omega) (by omega)
  unfold idx
  have e : (n.x - 1) + (n.y - 1) * (nx - 2) + (n.z - 1) * (nx - 2) * (ny - 2)
      = (n.x - 1) + (n.y - 1) * (nx - 2) + (n.z - 1) * ((nx - 2) * (ny - 2)) := by ring
  rw [e]
  exact hz

theorem idx_injective {p q : Node_reference} {nx ny nz : Int} (hp : interior p nx ny nz)
    (hq : interior q nx ny nz) (h : idx p nx ny = idx q nx ny) : p = q := by
  obtain ⟨p1, p2, p3, p4, p5, p6⟩ := hp
  obtain ⟨q1, q2, q3, q4, q5, q6⟩ := hq
  have hpxy := digits_bound (M := nx - 2) (N := ny - 2) (a := p.x - 1) (b := p.y - 1)
    (by omega) (by omega) (by omega) (by omega)
  have hqxy := digits_bound (M := nx - 2) (N := ny - 2) (a := q.x - 1) (b := q.y - 1)
    (by omega) (by omega) (by omega) (by omega)
  unfold idx at h
  have e : (p.x - 1) + (p.y - 1) * (nx - 2) + (p.z - 1) * ((nx - 2) * (ny - 2))
      = (q.x - 1) + (q.y - 1) * (nx - 2) + (q.z - 1) * ((nx - 2) * (ny - 2)) := by
    linear_combination h
  obtain ⟨e1, e2⟩ := digits_unique hpxy.1 hpxy.2 hqxy.1 hqxy.2 e
  obtain ⟨e3, e4⟩ := digits_unique (N := nx - 2) (by omega) (by omega) (by omega) (by omega) e1
  cases p; cases q
  simp only [Node_reference.mk.injEq] at *
  omega

theorem index_to_node_idx {p : Node_reference} {nx ny nz : Int} (hp : interior p nx ny nz) :
    index_to_node (idx p nx ny) nx ny = p := by
  obtain ⟨p1, p2, p3, p4, p5, p6⟩ := hp
  have hxy := digits_bound (M := nx - 2) (N := ny - 2) (a := p.x - 1) (b := p.y - 1)
    (by omega) (by omega) (by omega) (by omega)
  have hN1 : 0 < nx - 2 := by omega
  have hN2 : 0 < ny - 2 := by omega
  have hP : 0 < (nx - 2) * (ny - 2) := mul_pos hN1 hN2
  have e1 : idx p nx ny = (p.x - 1) + ((p.y - 1) + (p.z - 1) * (ny - 2)) * (nx - 2) := by
    unfold idx; ring
  have e2 : idx p nx ny
      = ((p.x - 1) + (p.y - 1) * (nx - 2)) + (p.z - 1) * ((nx - 2) * (ny - 2)) := by
    unfold idx; ring
  have d1 := divmod_of_digits (b := (p.y - 1) + (p.z - 1) * (ny - 2)) hN1
    (show 0 ≤ p.x - 1 by omega) (by omega)
  have d2 := divmod_of_digits (b := p.z - 1) hN2 (show 0 ≤ p.y - 1 by omega) (by omega)
  have d3 := divmod_of_digits (b := p.z - 1) hP hxy.1 hxy.2
  cases p
  simp only [index_to_node, Node_reference.mk.injEq]
  refine ⟨?_, ?_, ?_⟩
  · rw [e1, d1.2]; simp
  · rw [e1, d1.1, d2.2]; simp
  · rw [e2, d3.1]; simp

theorem index_to_node_interior {n nx ny nz : Int} (hx : 3 ≤ nx) (hy : 3 ≤ ny)
    (h0 : 0 ≤ n) (hn : n < (nx - 2) * (ny - 2) * (nz - 2)) :
    interior (index_to_node n nx ny) nx ny nz ∧ idx (index_to_node n nx ny) nx ny = n := by
  have hN1 : 0 < nx - 2 := by omega
  have hN2 : 0 < ny - 2 := by omega
  have hP : 0 < (nx - 2) * (ny - 2) := mul_pos hN1 hN2
  have a0 := Int.emod_nonneg n hN1.ne'
  have a1 := Int.emod_lt_of_pos n hN1
  have b0 := Int.emod_nonneg (n / (nx - 2)) hN2.ne'
  have b1 := Int.emod_lt_of_pos (n / (nx - 2)) hN2
  have c0 : 0 ≤ n / ((nx - 2) * (ny - 2)) := Int.ediv_nonneg h0 hP.le
  have c1 : n / ((nx - 2) * (ny - 2)) < nz - 2 :=
    Int.ediv_lt_of_lt_mul hP (by linarith [mul_comm ((nx - 2) * (ny - 2)) (nz - 2)])
  have r1 := Int.emod_add_ediv n (nx - 2)
  have r2 := Int.emod_add_ediv (n / (nx - 2)) (ny - 2)
  have hdd : n / ((nx - 2) * (ny - 2)) = n / (nx - 2) / (ny - 2) := by
    have hb := digits_bound a0 a1 b0 b1
    have hu := (Int.ediv_emod_unique (a := n) (q := n / (nx - 2) / (ny - 2))
      (r := n % (nx - 2) + n / (nx - 2) % (ny - 2) * (nx - 2)) hP).2
      ⟨by linear_combination r1 + (nx - 2) * r2, hb.1, hb.2⟩
    exact hu.1
  refine ⟨?_, ?_⟩
  · simp only [interior, index_to_node]
    omega
  · simp only [idx, index_to_node]
    rw [hdd]
    linear_combination r1 + (nx - 2) * r2

/-! ## The index mapping -/

/-- C4: for every interior node `(i, j, k)` (`0 < i < nx-1`, `0 < j < ny-1`,
`0 < k < nz-1`) `node_ijk_to_global_index_in_matrix` returns
`(i-1) + (j-1)*(nx-2) + (k-1)*(nx-2)*(ny-2)`. -/
theorem node_ijk_index_of_interior (i j k nx ny nz : Int)
    (hi : 0 < i ∧ i < nx - 1) (hj : 0 < j ∧ j < ny - 1) (hk : 0 < k ∧ k < nz - 1) :
    node_ijk_to_global_index_in_matrix i j k nx ny nz
      = some ((i - 1) + (j - 1) * (nx - 2) + (k - 1) * (nx - 2) * (ny - 2)) := by
  unfold node_ijk_to_global_index_in_matrix
  rw [if_neg (by omega)]

theorem node_ijk_index_of_interior_witness :
    (0 < (2 : Int) ∧ (2 : Int) < 5 - 1) ∧
    node_ijk_to_global_index_in_matrix 2 3 1 5 6 4 = some 7 :=
  ⟨by decide, node_ijk_index_of_interior 2 3 1 5 6 4 (by decide) (by decide) (by decide)⟩

/-- C5: on a grid with `nx, ny, nz ≥ 3` the index mapping restricted to interior
nodes is a bijection onto `{0, ..., (nx-2)(ny-2)(nz-2) - 1}`: two distinct
interior nodes never get the same index, every index of the range is the
index of the interior node `index_to_node n`, and every interior node is
recovered from its index by `index_to_node`. -/
theorem node_index_bijection (nx ny nz : Int) (hx : 3 ≤ nx) (hy : 3 ≤ ny) (hz : 3 ≤ nz) :
    (∀ p q : Node_reference, interior p nx ny nz → interior q nx ny nz → p ≠ q →
        node_global_index_in_matrix p nx ny nz ≠ node_global_index_in_matrix q nx ny nz) ∧
    (∀ n : Int, 0 ≤ n → n < (nx - 2) * (ny - 2) * (nz - 2) →
        interior (index_to_node n nx ny) nx ny nz ∧
        node_global_index_in_matrix (index_to_node n nx ny) nx ny nz = some n) ∧
    (∀ p : Node_reference, interior p nx ny nz →
        ∃ n : Int, node_global_index_in_matrix p nx ny nz = some n ∧
          0 ≤ n ∧ n < (nx - 2) * (ny - 2) * (nz - 2) ∧ index_to_node n nx ny = p) := by
  have _hz := hz
  refine ⟨?_, ?_, ?_⟩
  · intro p q hp hq hne h
    rw [node_index_of_interior hp, node_index_of_interior hq] at h
    exact hne (idx_injective hp hq (Option.some.inj h))
  · intro n h0 hn
    obtain ⟨hi, he⟩ := @index_to_node_interior n nx ny nz hx hy h0 hn
    exact ⟨hi, by rw [node_index_of_interior hi, he]⟩
  · intro p hp
    exact ⟨idx p nx ny, node_index_of_interior hp, (idx_range hp).1, (idx_range hp).2,
      index_to_node_idx hp⟩

theorem node_index_bijection_witness :
    (3 : Int) ≤ 4 ∧
    node_global_index_in_matrix (index_to_node 5 4 5) 4 5 3 = some 5 :=
  ⟨by decide, ((node_index_bijection 4 5 3 (by decide) (by decide) (by decide)).2.1 5
    (by decide) (by decide)).2⟩

/-- C6: `node_ijk_to_global_index_in_matrix` aborts instead of returning an index
if and only if the node is not interior, i.e. `i ≤ 0` or `i ≥ nx-1` or `j ≤ 0`
or `j ≥ ny-1` or `k ≤ 0` or `k ≥ nz-1`; on every other node it returns an
index. -/
theorem node_ijk_index_fails_iff (i j k nx ny nz : Int) :
    (node_ijk_to_global_index_in_matrix i j k nx ny nz = none ↔
      (i ≤ 0 ∨ i ≥ nx - 1 ∨ j ≤ 0 ∨ j ≥ ny - 1 ∨ k ≤ 0 ∨ k ≥ nz - 1)) ∧
    (¬ (i ≤ 0 ∨ i ≥ nx - 1 ∨ j ≤ 0 ∨ j ≥ ny - 1 ∨ k ≤ 0 ∨ k ≥ nz - 1) →
      ∃ n, node_ijk_to_global_index_in_matrix i j k nx ny nz = some n) := by
  unfold node_ijk_to_global_index_in_matrix
  constructor
  · constructor
    · intro h
      by_contra hc
      rw [if_neg hc] at h
      exact absurd h (by simp)
    · intro h
      rw [if_pos h]
  · intro h
    rw [if_neg h]
    exact ⟨_, rfl⟩

theorem node_ijk_index_fails_iff_witness :
    node_ijk_to_global_index_in_matrix 0 1 1 4 4 4 = none ∧
    ∃ n, node_ijk_to_global_index_in_matrix 1 1 1 4 4 4 = some n :=
  ⟨(node_ijk_index_fails_iff 0 1 1 4 4 4).1.2 (by decide),
   (node_ijk_index_fails_iff 1 1 1 4 4 4).2 (by decide)⟩


section Backend
variable {R : Type} [CommRing R] [DecidableEq R]

theorem write_row_nil (f : Int → R) : write_row f [] = f := rfl

theorem write_row_cons (f : Int → R) (cv : Int × R) (l : List (Int × R)) :
    write_row f (cv :: l)
      = write_row (if cv.1 < 0 then f else fun c => if c = cv.1 then cv.2 else f c) l := rfl

theorem write_row_of_not_mem (l : List (Int × R)) (f : Int → R) (c : Int)
    (h : ∀ cv ∈ l, cv.1 ≠ c) : write_row f l c = f c := by
  induction l generalizing f with
  | nil => rfl
  | cons cv l ih =>
    rw [write_row_cons, ih _ (fun cv' h' => h cv' (List.mem_cons_of_mem _ h'))]
    have hc := h cv (List.mem_cons_self _ _)
    split
    · rfl
    · simp only []
      rw [if_neg (fun e => hc e.symm)]

theorem write_row_of_mem (l : List (Int × R)) (f : Int → R) (c : Int) (v : R)
    (hnd : (l.map Prod.fst).Nodup) (hc : 0 ≤ c) (h : (c, v) ∈ l) : write_row f l c = v := by
  induction l generalizing f with
  | nil => exact absurd h (List.not_mem_nil _)
  | cons cv l ih =>
    rw [write_row_cons]
    rw [List.map_cons, List.nodup_cons] at hnd
    rcases List.mem_cons.1 h with h1 | h1
    · subst h1
      rw [write_row_of_not_mem]
      · simp only []
        rw [if_neg (by omega)]
        simp
      · intro cv' h' e
        have hm := List.mem_map_of_mem Prod.fst h'
        rw [e] at hm
        exact hnd.1 hm
    · exact ih _ hnd.2 h1

theorem MatSetValues_fold_eq (row : Int) (l : List (Int × R)) (A : Mat R)
    (hl : ∀ cv ∈ l, cv.1 < A.ncol) :
    l.foldlM (fun (B : Mat R) (cv : Int × R) =>
        if cv.1 < 0 then some B
        else if B.ncol ≤ cv.1 then none
        else some (B.set_entry row cv.1 cv.2)) A
      = some ⟨A.nrow, A.ncol, fun r c =>
          if r = row then write_row (A.val row) l c else A.val r c⟩ := by
  induction l generalizing A with
  | nil =>
    simp only [List.foldlM_nil, write_row_nil]
    cases A
    simp only [pure, Option.some.injEq, Mat.mk.injEq, true_and]
    funext r c
    split
    · rename_i h; rw [h]
    · rfl
  | cons cv l ih =>
    rw [List.foldlM_cons, write_row_cons]
    have hcv := hl cv (List.mem_cons_self _ _)
    by_cases hneg : cv.1 < 0
    · rw [if_pos hneg, if_pos hneg]
      exact ih A (fun cv' h' => hl cv' (List.mem_cons_of_mem _ h'))
    · rw [if_neg hneg, if_neg (by omega), if_neg hneg]
      have := ih (A.set_entry row cv.1 cv.2) (fun cv' h' => hl cv' (List.mem_cons_of_mem _ h'))
      simp only [Option.some_bind, bind] at this ⊢
      rw [this]
      simp only [Mat.set_entry, Option.some.injEq, Mat.mk.injEq, true_and]
      funext r c
      by_cases hr : r = row
      · subst hr; simp
      · simp [hr]

theorem MatSetValues_eq (A : Mat R) (row : Int) (cols : List Int) (vals : List R)
    (h0 : 0 ≤ row) (h1 : row < A.nrow) (hc : ∀ c ∈ cols, c < A.ncol) :
    MatSetValues A row cols vals
      = some ⟨A.nrow, A.ncol, fun r c =>
          if r = row then write_row (A.val row) (cols.zip vals) c else A.val r c⟩ := by
  unfold MatSetValues
  rw [if_neg (by omega), if_neg (by omega)]
  apply MatSetValues_fold_eq
  intro cv h
  exact hc _ (List.of_mem_zip h).1

theorem for_each_row_nat (body : Int → Option (List Int × List R)) (rows : Int → List (Int × R))
    (M : Mat R) (n : Nat) (hn : (n : Int) ≤ M.nrow)
    (hb : ∀ i : Int, 0 ≤ i → i < n →
      ∃ cv, body i = some cv ∧ cv.1.zip cv.2 = rows i ∧ ∀ c ∈ cv.1, c < M.ncol) :
    ∃ M', (List.range n).foldlM
        (fun (B : Mat R) (i : Nat) =>
          match body (i : Int) with
          | none => none
          | some cv => MatSetValues B (i : Int) cv.1 cv.2) M = some M' ∧
      M'.nrow = M.nrow ∧ M'.ncol = M.ncol ∧
      ∀ r c, M'.val r c
        = if 0 ≤ r ∧ r < n then write_row (M.val r) (rows r) c else M.val r c := by
  induction n with
  | zero =>
    refine ⟨M, rfl, rfl, rfl, ?_⟩
    intro r c
    rw [if_neg (by omega)]
  | succ n ih =>
    obtain ⟨M1, h1, hr1, hc1, hv1⟩ := ih (by push_cast at hn; omega)
      (fun i h0 hi => hb i h0 (by push_cast; omega))
    obtain ⟨cv, hcv, hz, hcols⟩ := hb n (by omega) (by push_cast; omega)
    have hset := MatSetValues_eq M1 n cv.1 cv.2 (by omega) (by rw [hr1]; push_cast at hn; omega)
      (by rw [hc1]; exact hcols)
    refine ⟨⟨M1.nrow, M1.ncol, fun r c =>
      if r = n then write_row (M1.val n) (cv.1.zip cv.2) c else M1.val r c⟩, ?_, hr1, hc1, ?_⟩
    · rw [List.range_succ, List.foldlM_append, h1]
      simp only [Option.some_bind, bind, List.foldlM_cons, List.foldlM_nil, hcv, hset, pure,
        Option.bind]
    · intro r c
      simp only []
      by_cases hr : r = n
      · subst hr
        rw [if_pos rfl, if_pos (by push_cast; omega), hz]
        congr 1
        funext c'
        rw [hv1, if_neg (by omega)]
      · rw [if_neg hr, hv1]
        by_cases hlt : 0 ≤ r ∧ r < n
        · rw [if_pos hlt, if_pos (by push_cast; omega)]
        · rw [if_neg hlt, if_neg (by push_cast; omega)]

theorem for_each_row_eq (body : Int → Option (List Int × List R)) (rows : Int → List (Int × R))
    (M : Mat R) (nrow : Int) (hn : nrow ≤ M.nrow)
    (hb : ∀ i : Int, 0 ≤ i → i < nrow →
      ∃ cv, body i = some cv ∧ cv.1.zip cv.2 = rows i ∧ ∀ c ∈ cv.1, c < M.ncol) :
    ∃ M', for_each_row nrow body M = some M' ∧
      M'.nrow = M.nrow ∧ M'.ncol = M.ncol ∧
      ∀ r c, M'.val r c
        = if 0 ≤ r ∧ r < nrow then write_row (M.val r) (rows r) c else M.val r c := by
  unfold for_each_row
  by_cases h0 : 0 ≤ nrow
  · have e : ((nrow.toNat : Nat) : Int) = nrow := Int.toNat_of_nonneg h0
    have := for_each_row_nat body rows M nrow.toNat (by omega)
      (fun i hi0 hi => hb i hi0 (by omega))
    rw [e] at this
    exact this
  · have e : nrow.toNat = 0 := by omega
    rw [e]
    refine ⟨M, rfl, rfl, rfl, ?_⟩
    intro r c
    rw [if_neg (by omega)]

end Backend

section Builders
variable {R : Type} [CommRing R] [DecidableEq R]

theorem digits_of_lt {N1 N2 i : Int} (hN1 : 0 < N1) (h0 : 0 ≤ i) (hi : i < N1 * N2) :
    ∃ a b, i = a + b * N1 ∧ 0 ≤ a ∧ a < N1 ∧ 0 ≤ b ∧ b < N2 := by
  refine ⟨i % N1, i / N1, ?_, Int.emod_nonneg i hN1.ne', Int.emod_lt_of_pos i hN1,
    Int.ediv_nonneg h0 hN1.le, Int.ediv_lt_of_lt_mul hN1 (by linarith [mul_comm N1 N2])⟩
  linarith [Int.emod_add_ediv' i N1]

theorem tmod_succ_digits {N a b : Int} (hN : 2 ≤ N) (ha : 0 ≤ a) (haN : a < N) (hb : 0 ≤ b) :
    Int.tmod (a + b * N + 1) N = if a + 1 < N then a + 1 else 0 := by
  have hbN : 0 ≤ b * N := mul_nonneg hb (by omega)
  rw [Int.tmod_eq_emod (by omega) (by omega)]
  split
  · rename_i h
    have := (divmod_of_digits (N := N) (a := a + 1) (b := b) (by omega) (by omega) h).2
    rw [← this]; congr 1; ring
  · have e : a + b * N + 1 = 0 + (b + 1) * N := by
      have : a + 1 = N := by omega
      linear_combination this
    rw [e]
    exact (divmod_of_digits (N := N) (a := 0) (b := b + 1) (by omega) (by omega) (by omega)).2

/-- The three loops that store a second difference (`[-2, 1]` at the first node
of the axis, `[1, -2]` at the last, `[1, -2, 1]` in between) build `band`. -/
theorem three_pattern_eq (n s m : Int) (C1 C2 : Int → Prop) [DecidablePred C1]
    [DecidablePred C2] (pos : Int → Int) (hs : 0 < s) (hm : 2 ≤ m)
    (h1 : ∀ i, 0 ≤ i → i < n → (C1 i ↔ pos i = 0))
    (h2 : ∀ i, 0 ≤ i → i < n → (C2 i ↔ pos i + 1 = m))
    (hpos : ∀ i, 0 ≤ i → i < n → 0 ≤ pos i ∧ pos i + 1 ≤ m)
    (hup : ∀ i, 0 ≤ i → i < n → pos i + 1 < m → i + s < n)
    (hdn : ∀ i, 0 ≤ i → i < n → 0 < pos i → 0 ≤ i - s) :
    ∃ M' : Mat R, for_each_row n
        (fun i =>
          if C1 i then some ([i, i + s], ([-2, 1] : List R))
          else if C2 i then some ([i - s, i], ([1, -2] : List R))
          else some ([i - s, i, i + s], ([1, -2, 1] : List R)))
        (zero_matrix n n) = some M' ∧
      M'.nrow = n ∧ M'.ncol = n ∧
      ∀ i c, 0 ≤ i → i < n → M'.val i c = band s m (pos i) i c := by
  obtain ⟨M', e1, e2, e3, e4⟩ := for_each_row_eq (R := R)
    (fun i =>
      if C1 i then some ([i, i + s], ([-2, 1] : List R))
      else if C2 i then some ([i - s, i], ([1, -2] : List R))
      else some ([i - s, i, i + s], ([1, -2, 1] : List R)))
    (fun i =>
      if C1 i then [(i, (-2 : R)), (i + s, 1)]
      else if C2 i then [(i - s, 1), (i, -2)]
      else [(i - s, 1), (i, -2), (i + s, 1)])
    (zero_matrix n n) n (le_refl _)
    (by
      intro i h0 hi
      have p := hpos i h0 hi
      simp only [zero_matrix]
      by_cases c1 : C1 i
      · have := hup i h0 hi (by have := (h1 i h0 hi).1 c1; have := (h2 i h0 hi); omega)
        simp only [if_pos c1]
        refine ⟨_, rfl, rfl, ?_⟩
        intro c hc
        simp only [List.mem_cons, List.mem_singleton, List.not_mem_nil, or_false] at hc
        omega
      · by_cases c2 : C2 i
        · simp only [if_neg c1, if_pos c2]
          refine ⟨_, rfl, rfl, ?_⟩
          intro c hc
          simp only [List.mem_cons, List.mem_singleton, List.not_mem_nil, or_false] at hc
          omega
        · have q1 := (h1 i h0 hi).not.1 c1
          have q2 := (h2 i h0 hi).not.1 c2
          have := hup i h0 hi (by omega)
          simp only [if_neg c1, if_neg c2]
          refine ⟨_, rfl, rfl, ?_⟩
          intro c hc
          simp only [List.mem_cons, List.mem_singleton, List.not_mem_nil, or_false] at hc
          omega)
  refine ⟨M', e1, e2, e3, ?_⟩
  intro i c h0 hi
  have p := hpos i h0 hi
  rw [e4, if_pos ⟨h0, hi⟩]
  simp only [zero_matrix, band]
  have n0 : ¬ (i < 0) := by omega
  have n1 : ¬ (i + s < 0) := by omega
  by_cases c1 : C1 i
  · have q1 := (h1 i h0 hi).1 c1
    simp only [if_pos c1, write_row, List.foldl, if_neg n0, if_neg n1]
    split_ifs <;> first | omega | simp
  · have q1 := (h1 i h0 hi).not.1 c1
    have d := hdn i h0 hi (by omega)
    have n2 : ¬ (i - s < 0) := by omega
    by_cases c2 : C2 i
    · have q2 := (h2 i h0 hi).1 c2
      simp only [if_neg c1, if_pos c2, write_row, List.foldl, if_neg n0, if_neg n2]
      split_ifs <;> first | omega | simp
    · have q2 := (h2 i h0 hi).not.1 c2
      simp only [if_neg c1, if_neg c2, write_row, List.foldl, if_neg n0, if_neg n1, if_neg n2]
      split_ifs <;> first | omega | simp


theorem construct_d2dx2_in_2d_eq (nx ny : Int) (hx : 4 ≤ nx) :
    ∃ M' : Mat R, construct_d2dx2_in_2d
        (zero_matrix ((nx - 2) * (ny - 2)) ((nx - 2) * (ny - 2))) nx ny = some M' ∧
      M'.nrow = (nx - 2) * (ny - 2) ∧ M'.ncol = (nx - 2) * (ny - 2) ∧
      ∀ a b : Int, 0 ≤ a → a < nx - 2 → 0 ≤ b → b < ny - 2 → ∀ c,
        M'.val (a + b * (nx - 2)) c = band 1 (nx - 2) a (a + b * (nx - 2)) c := by
  have hN1 : 0 < nx - 2 := by omega
  have key : ∀ i, 0 ≤ i → i < (nx - 2) * (ny - 2) →
      0 ≤ i % (nx - 2) ∧ i % (nx - 2) + 1 ≤ nx - 2 ∧
      Int.tmod (i + 1) (nx - 2) = (if i % (nx - 2) + 1 < nx - 2 then i % (nx - 2) + 1 else 0) ∧
      (i % (nx - 2) + 1 < nx - 2 → i + 1 < (nx - 2) * (ny - 2)) ∧
      (0 < i % (nx - 2) → 0 ≤ i - 1) := by
    intro i h0 hi
    obtain ⟨a, b, e, a0, a1, b0, b1⟩ := digits_of_lt hN1 h0 hi
    have hm : i % (nx - 2) = a := by rw [e]; exact (divmod_of_digits hN1 a0 a1).2
    have ht := tmod_succ_digits (N := nx - 2) (a := a) (b := b) (by omega) a0 a1 b0
    rw [← e] at ht
    rw [hm]
    have hbn : 0 ≤ b * (nx - 2) := mul_nonneg b0 hN1.le
    refine ⟨a0, by omega, ht, ?_, by omega⟩
    intro h
    have := (digits_bound (M := nx - 2) (N := ny - 2) (a := a + 1) (b := b)
      (by omega) h b0 b1).2
    omega
  obtain ⟨M', e1, e2, e3, e4⟩ := three_pattern_eq (R := R) ((nx - 2) * (ny - 2)) 1 (nx - 2)
    (fun i => Int.tmod (i + 1) (nx - 2) = 1) (fun i => Int.tmod (i + 1) (nx - 2) = 0)
    (fun i => i % (nx - 2)) (by omega) (by omega)
    (fun i h0 hi => by
      obtain ⟨k1, k2, k3, _, _⟩ := key i h0 hi
      simp only [k3]; split <;> omega)
    (fun i h0 hi => by
      obtain ⟨k1, k2, k3, _, _⟩ := key i h0 hi
      simp only [k3]; split <;> omega)
    (fun i h0 hi => ⟨(key i h0 hi).1, (key i h0 hi).2.1⟩)
    (fun i h0 hi => (key i h0 hi).2.2.2.1)
    (fun i h0 hi => (key i h0 hi).2.2.2.2)
  refine ⟨M', e1, e2, e3, ?_⟩
  intro a b a0 a1 b0 b1 c
  have hr := digits_bound a0 a1 b0 b1
  rw [e4 _ c hr.1 hr.2]
  simp only [(divmod_of_digits (b := b) hN1 a0 a1).2]

theorem block_position {s m i : Int} (hs : 0 < s) (h0 : 0 ≤ i) (hi : i < s * m) :
    0 ≤ i / s ∧ i / s + 1 ≤ m ∧ (i < s ↔ i / s = 0) ∧ (i ≥ s * (m - 1) ↔ i / s + 1 = m) ∧
    (i / s + 1 < m → i + s < s * m) ∧ (0 < i / s → 0 ≤ i - s) := by
  obtain ⟨a, b, e, a0, a1, b0, b1⟩ := digits_of_lt hs h0 hi
  have hd : i / s = b := by rw [e]; exact (divmod_of_digits hs a0 a1).1
  rw [hd]
  have hbs : 0 ≤ b * s := mul_nonneg b0 hs.le
  refine ⟨b0, by omega, ?_, ?_, ?_, ?_⟩
  · constructor
    · intro h
      by_contra hb
      have : 1 * s ≤ b * s := mul_le_mul_of_nonneg_right (by omega) hs.le
      omega
    · intro h; rw [e, h]; omega
  · constructor
    · intro h
      by_contra hb
      have := (digits_bound (M := s) (N := m - 1) (a := a) (b := b) a0 a1 b0 (by omega)).2
      omega
    · intro h
      have : b = m - 1 := by omega
      rw [e, this]; nlinarith
  · intro h
    have := (digits_bound (M := s) (N := m) (a := a) (b := b + 1) a0 a1 (by omega) h).2
    rw [e]; linarith
  · intro h
    have : 1 * s ≤ b * s := mul_le_mul_of_nonneg_right (by omega) hs.le
    omega

theorem construct_d2dy2_in_2d_eq (nx ny : Int) (hx : 3 ≤ nx) (hy : 4 ≤ ny) :
    ∃ M' : Mat R, construct_d2dy2_in_2d
        (zero_matrix ((nx - 2) * (ny - 2)) ((nx - 2) * (ny - 2))) nx ny = some M' ∧
      M'.nrow = (nx - 2) * (ny - 2) ∧ M'.ncol = (nx - 2) * (ny - 2) ∧
      ∀ a b : Int, 0 ≤ a → a < nx - 2 → 0 ≤ b → b < ny - 2 → ∀ c,
        M'.val (a + b * (nx - 2)) c = band (nx - 2) (ny - 2) b (a + b * (nx - 2)) c := by
  have hN1 : 0 < nx - 2 := by omega
  have e3' : (nx - 2) * (ny - 3) = (nx - 2) * ((ny - 2) - 1) := by ring
  obtain ⟨M', e1, e2, e3, e4⟩ := three_pattern_eq (R := R) ((nx - 2) * (ny - 2)) (nx - 2)
    (ny - 2) (fun i => i < nx - 2) (fun i => i ≥ (nx - 2) * (ny - 3))
    (fun i => i / (nx - 2)) hN1 (by omega)
    (fun i h0 hi => (block_position hN1 h0 hi).2.2.1)
    (fun i h0 hi => by simp only [e3']; exact (block_position hN1 h0 hi).2.2.2.1)
    (fun i h0 hi => ⟨(block_position hN1 h0 hi).1, (block_position hN1 h0 hi).2.1⟩)
    (fun i h0 hi => (block_position hN1 h0 hi).2.2.2.2.1)
    (fun i h0 hi => (block_position hN1 h0 hi).2.2.2.2.2)
  refine ⟨M', e1, e2, e3, ?_⟩
  intro a b a0 a1 b0 b1 c
  have hr := digits_bound a0 a1 b0 b1
  rw [e4 _ c hr.1 hr.2]
  simp only [(divmod_of_digits (b := b) hN1 a0 a1).1]

theorem construct_d2dz2_in_3d_eq (nx ny nz : Int) (hx : 3 ≤ nx) (hy : 3 ≤ ny) (hz : 4 ≤ nz) :
    ∃ M' : Mat R, construct_d2dz2_in_3d
        (zero_matrix ((nx - 2) * (ny - 2) * (nz - 2)) ((nx - 2) * (ny - 2) * (nz - 2)))
        nx ny nz = some M' ∧
      M'.nrow = (nx - 2) * (ny - 2) * (nz - 2) ∧ M'.ncol = (nx - 2) * (ny - 2) * (nz - 2) ∧
      ∀ r2 k : Int, 0 ≤ r2 → r2 < (nx - 2) * (ny - 2) → 0 ≤ k → k < nz - 2 → ∀ c,
        M'.val (r2 + k * ((nx - 2) * (ny - 2))) c
          = band ((nx - 2) * (ny - 2)) (nz - 2) k (r2 + k * ((nx - 2) * (ny - 2))) c := by
  have hP : 0 < (nx - 2) * (ny - 2) := mul_pos (by omega) (by omega)
  have e3' : (nx - 2) * (ny - 2) * (nz - 3) = (nx - 2) * (ny - 2) * ((nz - 2) - 1) := by ring
  obtain ⟨M', e1, e2, e3, e4⟩ := three_pattern_eq (R := R) ((nx - 2) * (ny - 2) * (nz - 2))
    ((nx - 2) * (ny - 2)) (nz - 2) (fun i => i < (nx - 2) * (ny - 2))
    (fun i => i ≥ (nx - 2) * (ny - 2) * (nz - 3))
    (fun i => i / ((nx - 2) * (ny - 2))) hP (by omega)
    (fun i h0 hi => (block_position hP h0 hi).2.2.1)
    (fun i h0 hi => by simp only [e3']; exact (block_position hP h0 hi).2.2.2.1)
    (fun i h0 hi => ⟨(block_position hP h0 hi).1, (block_position hP h0 hi).2.1⟩)
    (fun i h0 hi => (block_position hP h0 hi).2.2.2.2.1)
    (fun i h0 hi => (block_position hP h0 hi).2.2.2.2.2)
  refine ⟨M', e1, e2, e3, ?_⟩
  intro r2 k a0 a1 b0 b1 c
  have hr := digits_bound a0 a1 b0 b1
  rw [e4 _ c hr.1 hr.2]
  simp only [(divmod_of_digits (b := k) hP a0 a1).1]


theorem MatGetRow_eq (A : Mat R) (row : Int) (h0 : 0 ≤ row) (h1 : row < A.nrow) :
    MatGetRow A row
      = some ((((List.range A.ncol.toNat).map (fun (c : Nat) => (c : Int))).filter
            (fun c => decide (A.val row c ≠ 0))),
          (((List.range A.ncol.toNat).map (fun (c : Nat) => (c : Int))).filter
            (fun c => decide (A.val row c ≠ 0))).map (A.val row)) := by
  unfold MatGetRow
  rw [if_neg (by omega)]

theorem mem_stored_cols (A : Mat R) (row c : Int) :
    c ∈ ((List.range A.ncol.toNat).map (fun (c : Nat) => (c : Int))).filter
        (fun c => decide (A.val row c ≠ 0))
      ↔ (0 ≤ c ∧ c < A.ncol) ∧ A.val row c ≠ 0 := by
  simp only [List.mem_filter, List.mem_map, List.mem_range, decide_eq_true_eq]
  constructor
  · rintro ⟨⟨t, ht, rfl⟩, hv⟩
    exact ⟨⟨by omega, by omega⟩, hv⟩
  · rintro ⟨⟨h0, h1⟩, hv⟩
    exact ⟨⟨c.toNat, by omega, by omega⟩, hv⟩

theorem stored_cols_nodup (A : Mat R) (row : Int) :
    (((List.range A.ncol.toNat).map (fun (c : Nat) => (c : Int))).filter
        (fun c => decide (A.val row c ≠ 0))).Nodup := by
  apply List.Nodup.filter
  apply List.Nodup.map
  · intro a b h; exact Int.ofNat.inj h
  · exact List.nodup_range _

theorem multiply_pattern_along_diagonal_eq (pattern : Mat R) (P n : Int) (hP : 0 < P)
    (hr : pattern.nrow = P) (hc : pattern.ncol = P) :
    ∃ M' : Mat R, multiply_pattern_along_diagonal (zero_matrix (P * n) (P * n)) pattern P n
        = some M' ∧
      M'.nrow = P * n ∧ M'.ncol = P * n ∧
      ∀ r2 k : Int, 0 ≤ r2 → r2 < P → 0 ≤ k → k < n → ∀ c,
        M'.val (r2 + k * P) c
          = if 0 ≤ c - k * P ∧ c - k * P < P then pattern.val r2 (c - k * P) else 0 := by
  have key : ∀ i, 0 ≤ i → i < P * n →
      0 ≤ Int.tmod i P ∧ Int.tmod i P < P ∧ 0 ≤ Int.tdiv i P ∧ Int.tdiv i P < n ∧
      i = Int.tmod i P + Int.tdiv i P * P := by
    intro i h0 hi
    obtain ⟨a, b, e, a0, a1, b0, b1⟩ := digits_of_lt hP h0 hi
    have d := divmod_of_digits (b := b) hP a0 a1
    rw [Int.tmod_eq_emod h0 hP.le, Int.tdiv_eq_ediv h0 hP.le, e, d.1, d.2]
    exact ⟨a0, a1, b0, b1, rfl⟩
  obtain ⟨M', e1, e2, e3, e4⟩ := for_each_row_eq (R := R)
    (fun i =>
      match MatGetRow pattern (Int.tmod i P) with
      | none => none
      | some (pattern_nonzero_cols, pattern_nonzero_vals) =>
        some (pattern_nonzero_cols.map (fun c => c + (Int.tdiv i P) * P), pattern_nonzero_vals))
    (fun i =>
      ((((List.range pattern.ncol.toNat).map (fun (c : Nat) => (c : Int))).filter
          (fun c => decide (pattern.val (Int.tmod i P) c ≠ 0))).map
        (fun c => (c + (Int.tdiv i P) * P, pattern.val (Int.tmod i P) c))))
    (zero_matrix (P * n) (P * n)) (P * n) (le_refl _)
    (by
      intro i h0 hi
      obtain ⟨k1, k2, k3, k4, k5⟩ := key i h0 hi
      have hg := MatGetRow_eq pattern _ k1 (by omega)
      simp only [hg]
      refine ⟨_, rfl, ?_, ?_⟩
      · simp only [List.zip_map']
      · intro c hcm
        simp only [List.mem_map] at hcm
        obtain ⟨c0, hc0, rfl⟩ := hcm
        have := ((mem_stored_cols pattern _ c0).1 hc0).1
        have hb := (digits_bound (M := P) (N := n) (a := c0) (b := Int.tdiv i P)
          this.1 (by omega) k3 k4).2
        simpa [zero_matrix] using hb)
  refine ⟨M', e1, e2, e3, ?_⟩
  intro r2 k a0 a1 b0 b1 c
  have hrng := digits_bound a0 a1 b0 b1
  have d := divmod_of_digits (b := k) hP a0 a1
  rw [e4, if_pos hrng, Int.tmod_eq_emod hrng.1 hP.le, Int.tdiv_eq_ediv hrng.1 hP.le,
    d.1, d.2]
  simp only [zero_matrix]
  by_cases hin : (0 ≤ c - k * P ∧ c - k * P < P) ∧ pattern.val r2 (c - k * P) ≠ 0
  · rw [if_pos hin.1]
    apply write_row_of_mem
    · rw [List.map_map]
      apply List.Nodup.map
      · intro x y h; simpa using h
      · exact stored_cols_nodup pattern r2
    · have hk : 0 ≤ k * P := mul_nonneg b0 hP.le
      omega
    · rw [List.mem_map]
      refine ⟨c - k * P, (mem_stored_cols pattern r2 _).2 ⟨by omega, hin.2⟩, ?_⟩
      simp
  · rw [write_row_of_not_mem]
    · split
      · rename_i h
        have : pattern.val r2 (c - k * P) = 0 := by
          by_contra hne; exact hin ⟨h, hne⟩
        rw [this]
      · rfl
    · intro cv hcv e
      rw [List.mem_map] at hcv
      obtain ⟨c0, hc0, rfl⟩ := hcv
      have hm := (mem_stored_cols pattern r2 c0).1 hc0
      simp only [] at e
      have e' : c - k * P = c0 := by omega
      rw [e'] at hin
      exact hin ⟨by omega, hm.2⟩


theorem band_shift (s m pos r2 k P c : Int) (hs : 0 < s) (h0 : 0 ≤ r2) (h1 : r2 < P)
    (hup : pos + 1 < m → r2 + s < P) (hdn : 0 < pos → 0 ≤ r2 - s) :
    (if 0 ≤ c - k * P ∧ c - k * P < P then (band s m pos r2 (c - k * P) : R) else 0)
      = band s m pos (r2 + k * P) c := by
  unfold band
  by_cases hin : 0 ≤ c - k * P ∧ c - k * P < P
  · rw [if_pos hin]
    have e1 : (c - k * P = r2) = (c = r2 + k * P) := by
      apply propext; constructor <;> intro h <;> omega
    have e2 : (c - k * P = r2 + s ∧ pos + 1 < m) = (c = r2 + k * P + s ∧ pos + 1 < m) := by
      apply propext; constructor <;> intro h <;> refine ⟨by omega, h.2⟩
    have e3 : (c - k * P = r2 - s ∧ 0 < pos) = (c = r2 + k * P - s ∧ 0 < pos) := by
      apply propext; constructor <;> intro h <;> refine ⟨by omega, h.2⟩
    simp only [e1, e2, e3]
  · rw [if_neg hin, if_neg (by intro h; apply hin; omega),
      if_neg (by intro h; apply hin; have := hup h.2; omega),
      if_neg (by intro h; apply hin; have := hdn h.2; omega)]
    simp

theorem idx_split (p : Node_reference) (nx ny : Int) :
    idx p nx ny
      = ((p.x - 1) + (p.y - 1) * (nx - 2)) + (p.z - 1) * ((nx - 2) * (ny - 2)) := by
  unfold idx; ring

/-- On a grid with at least four nodes along each axis the base operator is
built without error and its rows are the rows of the 7-point operator. -/
theorem construct_equation_matrix_in_full_domain_eq (nx ny nz : Int) (dx dy dz : R)
    (hx : 4 ≤ nx) (hy : 4 ≤ ny) (hz : 4 ≤ nz) :
    ∃ A : Mat R, construct_equation_matrix_in_full_domain
        (zero_matrix ((nx - 2) * (ny - 2) * (nz - 2)) ((nx - 2) * (ny - 2) * (nz - 2)))
        nx ny nz dx dy dz = some A ∧
      A.nrow = (nx - 2) * (ny - 2) * (nz - 2) ∧ A.ncol = (nx - 2) * (ny - 2) * (nz - 2) ∧
      ∀ p : Node_reference, interior p nx ny nz → ∀ c,
        A.val (idx p nx ny) c = stencil_entry nx ny nz dx dy dz p c := by
  have hN1 : 0 < nx - 2 := by omega
  have hN2 : 0 < ny - 2 := by omega
  have hP : 0 < (nx - 2) * (ny - 2) := mul_pos hN1 hN2
  have hPn : 0 ≤ (nx - 2) * (ny - 2) := hP.le
  have hN : 0 ≤ (nx - 2) * (ny - 2) * (nz - 2) := mul_nonneg hP.le (by omega)
  obtain ⟨X2, x1, x2, x3, x4⟩ := construct_d2dx2_in_2d_eq (R := R) nx ny hx
  obtain ⟨Y2, y1, y2, y3, y4⟩ := construct_d2dy2_in_2d_eq (R := R) nx ny (by omega) hy
  obtain ⟨Z, z1, z2, z3, z4⟩ := construct_d2dz2_in_3d_eq (R := R) nx ny nz (by omega)
    (by omega) hz
  obtain ⟨X, mx1, mx2, mx3, mx4⟩ := multiply_pattern_along_diagonal_eq X2
    ((nx - 2) * (ny - 2)) (nz - 2) hP x2 x3
  obtain ⟨Y, my1, my2, my3, my4⟩ := multiply_pattern_along_diagonal_eq Y2
    ((nx - 2) * (ny - 2)) (nz - 2) hP y2 y3
  have cx : construct_d2dx2_in_3d
      (zero_matrix ((nx - 2) * (ny - 2) * (nz - 2)) ((nx - 2) * (ny - 2) * (nz - 2)))
      nx ny nz = some X := by
    simp only [construct_d2dx2_in_3d, alloc_petsc_matrix, if_neg (show ¬ ((nx - 2) * (ny - 2) < 0
      ∨ (nx - 2) * (ny - 2) < 0) by omega), x1, mx1]
  have cy : construct_d2dy2_in_3d
      (zero_matrix ((nx - 2) * (ny - 2) * (nz - 2)) ((nx - 2) * (ny - 2) * (nz - 2)))
      nx ny nz = some Y := by
    simp only [construct_d2dy2_in_3d, alloc_petsc_matrix, if_neg (show ¬ ((nx - 2) * (ny - 2) < 0
      ∨ (nx - 2) * (ny - 2) < 0) by omega), y1, my1]
  refine ⟨⟨(nx - 2) * (ny - 2) * (nz - 2), (nx - 2) * (ny - 2) * (nz - 2), fun r c =>
    dx * dx * dy * dy * Z.val r c
      + (dx * dx * dz * dz * Y.val r c + dy * dy * dz * dz * X.val r c)⟩, ?_, rfl, rfl, ?_⟩
  · simp only [construct_equation_matrix_in_full_domain, cx, alloc_petsc_matrix,
      if_neg (show ¬ ((nx - 2) * (ny - 2) * (nz - 2) < 0
        ∨ (nx - 2) * (ny - 2) * (nz - 2) < 0) by omega), cy, z1, MatAXPY, MatScale,
      mx2, mx3, my2, my3, z2, z3, and_self, if_true]
  · intro p hp c
    obtain ⟨p1, p2, p3, p4, p5, p6⟩ := hp
    have hb := digits_bound (M := nx - 2) (N := ny - 2) (a := p.x - 1) (b := p.y - 1)
      (by omega) (by omega) (by omega) (by omega)
    have hb1 := digits_bound (M := nx - 2) (N := ny - 2) (a := p.x - 1 + 1) (b := p.y - 1)
    have hb2 := digits_bound (M := nx - 2) (N := ny - 2) (a := p.x - 1) (b := p.y - 1 + 1)
    have hb3 := digits_bound (M := nx - 2) (N := ny - 2) (a := p.x - 1) (b := p.y - 1 - 1)
    have hyn : 0 ≤ (p.y - 1) * (nx - 2) := mul_nonneg (by omega) hN1.le
    have ex := mx4 _ (p.z - 1) hb.1 hb.2 (by omega) (by omega) c
    have ey := my4 _ (p.z - 1) hb.1 hb.2 (by omega) (by omega) c
    have ez := z4 _ (p.z - 1) hb.1 hb.2 (by omega) (by omega) c
    simp only [x4 _ _ (show 0 ≤ p.x - 1 by omega) (show p.x - 1 < nx - 2 by omega)
      (show 0 ≤ p.y - 1 by omega) (show p.y - 1 < ny - 2 by omega)] at ex
    simp only [y4 _ _ (show 0 ≤ p.x - 1 by omega) (show p.x - 1 < nx - 2 by omega)
      (show 0 ≤ p.y - 1 by omega) (show p.y - 1 < ny - 2 by omega)] at ey
    rw [band_shift 1 _ _ _ _ _ _ (by omega) hb.1 hb.2
      (fun h => by have := (hb1 (by omega) (by omega) (by omega) (by omega)).2; omega)
      (fun h => by omega)] at ex
    rw [band_shift (nx - 2) _ _ _ _ _ _ hN1 hb.1 hb.2
      (fun h => by
        have := (hb2 (by omega) (by omega) (by omega) (by omega)).2
        linarith)
      (fun h => by
        have := (hb3 (by omega) (by omega) (by omega) (by omega)).1
        linarith)] at ey
    simp only [stencil_entry, idx_split p nx ny, ex, ey, ez]
    ring

end Builders

section RhsLemmas
variable {R : Type} [CommRing R] [DecidableEq R]

theorem mem_loop_from_to (lo hi x : Int) : x ∈ loop_from_to lo hi ↔ lo ≤ x ∧ x ≤ hi := by
  simp only [loop_from_to, List.mem_map, List.mem_range]
  constructor
  · rintro ⟨t, ht, rfl⟩
    omega
  · rintro ⟨h1, h2⟩
    exact ⟨(x - lo).toNat, by omega, by omega⟩

theorem foldlM_nested {α β γ : Type} (l1 : List α) (l2 : List β) (f : γ → α → β → Option γ)
    (s : γ) :
    l1.foldlM (fun s a => l2.foldlM (fun s b => f s a b) s) s
      = (l1.flatMap (fun a => l2.map (fun b => (a, b)))).foldlM (fun s p => f s p.1 p.2) s := by
  induction l1 generalizing s with
  | nil => rfl
  | cons a l1 ih =>
    rw [List.foldlM_cons, List.flatMap_cons, List.foldlM_append, List.foldlM_map]
    congr 1
    funext s'
    exact ih s'

theorem foldlM_point_updates {α : Type} (l : List α) (g : α → Option Int) (val : α → R)
    (v : Vec R) (hg : ∀ a ∈ l, ∃ n, g a = some n) :
    ∃ v', l.foldlM (fun (w : Vec R) a =>
        match g a with
        | none => none
        | some ix => some (VecSetValue w ix (val a))) v = some v' ∧
      (∀ n, (∀ a ∈ l, g a ≠ some n) → v' n = v n) ∧
      (∀ a ∈ l, (∀ b ∈ l, g b = g a → val b = val a) → ∀ n, g a = some n → v' n = val a) := by
  induction l generalizing v with
  | nil =>
    exact ⟨v, rfl, fun _ _ => rfl, fun a ha => absurd ha (List.not_mem_nil _)⟩
  | cons a0 l ih =>
    obtain ⟨n0, hn0⟩ := hg a0 (List.mem_cons_self _ _)
    obtain ⟨v', h1, h2, h3⟩ := ih (VecSetValue v n0 (val a0))
      (fun a ha => hg a (List.mem_cons_of_mem _ ha))
    refine ⟨v', ?_, ?_, ?_⟩
    · rw [List.foldlM_cons]
      simp only [hn0, Option.some_bind, bind]
      exact h1
    · intro n hn
      rw [h2 n (fun a ha => hn a (List.mem_cons_of_mem _ ha))]
      have : n ≠ n0 := fun e => hn a0 (List.mem_cons_self _ _) (by rw [hn0, e])
      simp [VecSetValue, this]
    · intro a ha hsame n hn
      by_cases hex : ∃ b ∈ l, g b = some n
      · obtain ⟨b, hb, hgb⟩ := hex
        have hvb : val b = val a := hsame b (List.mem_cons_of_mem _ hb) (by rw [hgb, hn])
        rw [← hvb]
        apply h3 b hb _ n hgb
        intro b' hb' e
        rw [hsame b' (List.mem_cons_of_mem _ hb') (by rw [e, hgb, hn]), hvb]
      · have hno : ∀ b ∈ l, g b ≠ some n := fun b hb e => hex ⟨b, hb, e⟩
        rw [h2 n hno]
        rcases List.mem_cons.1 ha with rfl | hal
        · have : n = n0 := by rw [hn0] at hn; exact (Option.some.inj hn).symm
          simp [VecSetValue, this]
        · exact absurd hn (hno a hal)

theorem init_rhs_vector_in_full_domain_eq (M_PI : R) (spat_mesh : Spatial_mesh R)
    (rhs : Vec R) :
    ∃ b, init_rhs_vector_in_full_domain M_PI spat_mesh rhs = some b ∧
      (∀ p : Node_reference,
        interior p spat_mesh.x_n_nodes spat_mesh.y_n_nodes spat_mesh.z_n_nodes →
        b (idx p spat_mesh.x_n_nodes spat_mesh.y_n_nodes)
          = rhs_at_node M_PI spat_mesh p.x p.y p.z) ∧
      (∀ n, (∀ p : Node_reference,
          interior p spat_mesh.x_n_nodes spat_mesh.y_n_nodes spat_mesh.z_n_nodes →
          idx p spat_mesh.x_n_nodes spat_mesh.y_n_nodes ≠ n) → b n = rhs n) := by
  have hint : ∀ t : (Int × Int) × Int,
      t ∈ (((loop_from_to 1 (spat_mesh.z_n_nodes - 2)).flatMap (fun k =>
            (loop_from_to 1 (spat_mesh.y_n_nodes - 2)).map (fun j => (k, j)))).flatMap
            (fun q => (loop_from_to 1 (spat_mesh.x_n_nodes - 2)).map (fun i => (q, i))))
        ↔ interior ⟨t.2, t.1.2, t.1.1⟩ spat_mesh.x_n_nodes spat_mesh.y_n_nodes
            spat_mesh.z_n_nodes := by
    rintro ⟨⟨k, j⟩, i⟩
    simp only [List.mem_flatMap, List.mem_map, mem_loop_from_to, Prod.mk.injEq, interior,
      Prod.exists]
    constructor
    · rintro ⟨k', j', ⟨k'', hk, j'', hj, e1, e2⟩, i', hi, ⟨e3, e4⟩, e5⟩
      subst e1 e2 e3 e4 e5
      omega
    · intro h
      exact ⟨k, j, ⟨k, by omega, j, by omega, rfl, rfl⟩, i, by omega, ⟨rfl, rfl⟩, rfl⟩
  obtain ⟨b, h1, h2, h3⟩ := foldlM_point_updates
    (((loop_from_to 1 (spat_mesh.z_n_nodes - 2)).flatMap (fun k =>
        (loop_from_to 1 (spat_mesh.y_n_nodes - 2)).map (fun j => (k, j)))).flatMap
        (fun q => (loop_from_to 1 (spat_mesh.x_n_nodes - 2)).map (fun i => (q, i))))
    (fun t => node_ijk_to_global_index_in_matrix t.2 t.1.2 t.1.1 spat_mesh.x_n_nodes
      spat_mesh.y_n_nodes spat_mesh.z_n_nodes)
    (fun t => rhs_at_node M_PI spat_mesh t.2 t.1.2 t.1.1) rhs
    (fun t ht => ⟨_, node_index_of_interior ((hint t).1 ht)⟩)
  refine ⟨b, ?_, ?_, ?_⟩
  · rw [← h1]
    unfold init_rhs_vector_in_full_domain
    simp only []
    rw [foldlM_nested, foldlM_nested]
  · intro p hp
    have hm := (hint ((p.z, p.y), p.x)).2 hp
    apply h3 ((p.z, p.y), p.x) hm _ _ (node_index_of_interior hp)
    intro t ht e
    have hti := (hint t).1 ht
    have e1 : node_global_index_in_matrix ⟨t.2, t.1.2, t.1.1⟩ spat_mesh.x_n_nodes
        spat_mesh.y_n_nodes spat_mesh.z_n_nodes = node_global_index_in_matrix p
        spat_mesh.x_n_nodes spat_mesh.y_n_nodes spat_mesh.z_n_nodes := e
    rw [node_index_of_interior hti, node_index_of_interior hp] at e1
    have := idx_injective hti hp (Option.some.inj e1)
    rw [← this]
  · intro n hn
    apply h2
    intro t ht e
    have hti := (hint t).1 ht
    have e1 : node_global_index_in_matrix ⟨t.2, t.1.2, t.1.1⟩ spat_mesh.x_n_nodes
        spat_mesh.y_n_nodes spat_mesh.z_n_nodes = some n := e
    rw [node_index_of_interior hti] at e1
    exact hn _ hti (Option.some.inj e1)

end RhsLemmas

section RegionLemmas
variable {R : Type} [CommRing R] [DecidableEq R]

theorem list_of_nodes_eq_some_iff (nodes : List Node_reference) (nx ny nz : Int)
    (l : List Int) :
    list_of_nodes_global_indices_in_matrix nodes nx ny nz = some l
      ↔ (∀ n ∈ nodes, interior n nx ny nz) ∧ l = nodes.map (fun n => idx n nx ny) := by
  induction nodes generalizing l with
  | nil =>
    simp only [list_of_nodes_global_indices_in_matrix, Option.some.injEq, List.not_mem_nil,
      false_implies, implies_true, List.map_nil, true_and]
    exact eq_comm
  | cons n nodes ih =>
    unfold list_of_nodes_global_indices_in_matrix
    constructor
    · intro h
      split at h
      · exact absurd h (by simp)
      · rename_i ix hix
        obtain ⟨hin, rfl⟩ := node_index_eq_some hix
        split at h
        · exact absurd h (by simp)
        · rename_i rest hrest
          obtain ⟨hall, rfl⟩ := (ih rest).1 hrest
          refine ⟨?_, ?_⟩
          · intro m hm
            rcases List.mem_cons.1 hm with rfl | hm
            · exact hin
            · exact hall m hm
          · simp only [Option.some.injEq] at h
            rw [← h]; rfl
    · rintro ⟨hall, rfl⟩
      rw [node_index_of_interior (hall n (List.mem_cons_self _ _))]
      simp only []
      rw [(ih _).2 ⟨fun m hm => hall m (List.mem_cons_of_mem _ hm), rfl⟩]
      rfl

theorem VecSetValues_insert_replicate (v : Vec R) (ix : List Int) (y : R) (m : Nat)
    (hm : ix.length ≤ m) (n : Int) :
    VecSetValues_insert v ix (List.replicate m y) n = if n ∈ ix then y else v n := by
  unfold VecSetValues_insert
  induction ix generalizing v m with
  | nil => simp
  | cons i ix ih =>
    cases m with
    | zero => simp at hm
    | succ m =>
      rw [List.replicate_succ, List.zip_cons_cons, List.foldl_cons]
      rw [ih _ m (by simpa using hm)]
      by_cases h1 : n ∈ ix
      · simp [h1]
      · by_cases h2 : n = i
        · simp [h2]
        · simp [h1, h2]

/-- What `set_rhs_at_nodes_occupied_by_objects` does, in terms of the list of
nodes and the predicate-free data of the region. -/
theorem set_rhs_fold_eq (nx ny nz : Int) (nodes : List Node_reference) (rhs b' : Vec R)
    (h : (match list_of_nodes_global_indices_in_matrix nodes nx ny nz with
      | none => none
      | some ixs =>
        if ixs.length ≠ 0 then
          some (VecSetValues_insert rhs ixs (List.replicate ixs.length (0 : R)))
        else some rhs) = some b') :
    (∀ n ∈ nodes, interior n nx ny nz) ∧
    ∀ m, b' m = if m ∈ nodes.map (fun n => idx n nx ny) then 0 else rhs m := by
  split at h
  · exact absurd h (by simp)
  · rename_i ixs hixs
    obtain ⟨hall, rfl⟩ := (list_of_nodes_eq_some_iff _ _ _ _ _).1 hixs
    refine ⟨hall, ?_⟩
    intro m
    split at h
    · simp only [Option.some.injEq] at h
      rw [← h, VecSetValues_insert_replicate _ _ _ _ (le_refl _)]
    · rename_i hlen
      simp only [Option.some.injEq] at h
      have : nodes = [] := by simpa using hlen
      subst this
      rw [← h]; simp

theorem MatZeroRows_eq_some (A A' : Mat R) (rows : List Int) (diag : R)
    (h : MatZeroRows A rows diag = some A') :
    (∀ r ∈ rows, 0 ≤ r ∧ r < A.nrow) ∧ A'.nrow = A.nrow ∧ A'.ncol = A.ncol ∧
    ∀ r c, A'.val r c = if r ∈ rows then (if c = r then diag else 0) else A.val r c := by
  unfold MatZeroRows at h
  split at h
  · rename_i hall
    simp only [Option.some.injEq] at h
    subst h
    refine ⟨?_, rfl, rfl, fun r c => rfl⟩
    intro r hr
    simpa using (List.all_eq_true.1 hall) r hr
  · exact absurd h (by simp)

theorem MatZeroRows_of_range (A : Mat R) (rows : List Int) (diag : R)
    (h : ∀ r ∈ rows, 0 ≤ r ∧ r < A.nrow) : ∃ A', MatZeroRows A rows diag = some A' := by
  unfold MatZeroRows
  rw [if_pos]
  · exact ⟨_, rfl⟩
  · rw [List.all_eq_true]
    intro r hr
    simpa using h r hr

/-- What `cross_out_nodes_occupied_by_objects` does to the operator. -/
theorem cross_out_eq_some (nx ny nz : Int) (nodes : List Node_reference) (A A' : Mat R)
    (h : (match list_of_nodes_global_indices_in_matrix nodes nx ny nz with
      | none => none
      | some ixs => if ixs.length ≠ 0 then MatZeroRows A ixs (1 : R) else some A) = some A') :
    (∀ n ∈ nodes, interior n nx ny nz) ∧ A'.nrow = A.nrow ∧ A'.ncol = A.ncol ∧
    ∀ r c, A'.val r c
      = if r ∈ nodes.map (fun n => idx n nx ny) then (if c = r then 1 else 0)
        else A.val r c := by
  split at h
  · exact absurd h (by simp)
  · rename_i ixs hixs
    obtain ⟨hall, rfl⟩ := (list_of_nodes_eq_some_iff _ _ _ _ _).1 hixs
    split at h
    · obtain ⟨_, h2, h3, h4⟩ := MatZeroRows_eq_some _ _ _ _ h
      exact ⟨hall, h2, h3, h4⟩
    · rename_i hlen
      simp only [Option.some.injEq] at h
      have : nodes = [] := by simpa using hlen
      subst this
      subst h
      exact ⟨hall, rfl, rfl, fun r c => by simp⟩

theorem cross_out_exists (nx ny nz : Int) (nodes : List Node_reference) (A : Mat R)
    (hA : A.nrow = (nx - 2) * (ny - 2) * (nz - 2))
    (hall : ∀ n ∈ nodes, interior n nx ny nz) :
    ∃ A', (match list_of_nodes_global_indices_in_matrix nodes nx ny nz with
      | none => none
      | some ixs => if ixs.length ≠ 0 then MatZeroRows A ixs (1 : R) else some A) = some A' := by
  rw [(list_of_nodes_eq_some_iff nodes nx ny nz _).2 ⟨hall, rfl⟩]
  simp only []
  split
  · apply MatZeroRows_of_range
    intro r hr
    rw [List.mem_map] at hr
    obtain ⟨n, hn, rfl⟩ := hr
    rw [hA]
    exact idx_range (hall n hn)
  · exact ⟨A, rfl⟩

end RegionLemmas

section Claims7to10
variable {R : Type} [CommRing R] [DecidableEq R]

/-- C7: `cross_out_nodes_occupied_by_objects` for a region: when the operator has
one row per unknown and the nodes of `inner_nodes_not_at_domain_edge` are
interior nodes the call succeeds; and whenever it succeeds, every row whose
index belongs to a node of `inner_nodes_not_at_domain_edge` is an identity row
(`1` on the diagonal, `0` in every other column) and every other row of the
operator is unchanged. -/
theorem cross_out_identity_rows (A : Mat R) (nx ny nz : Int) (inner_region : Inner_region R) :
    (A.nrow = (nx - 2) * (ny - 2) * (nz - 2) →
      (∀ node ∈ inner_region.inner_nodes_not_at_domain_edge, interior node nx ny nz) →
      ∃ A', cross_out_nodes_occupied_by_objects A nx ny nz inner_region = some A') ∧
    (∀ A', cross_out_nodes_occupied_by_objects A nx ny nz inner_region = some A' →
      (∀ node ∈ inner_region.inner_nodes_not_at_domain_edge,
        ∃ r, node_global_index_in_matrix node nx ny nz = some r ∧
          ∀ c, A'.val r c = if c = r then 1 else 0) ∧
      (∀ r, (∀ node ∈ inner_region.inner_nodes_not_at_domain_edge,
          node_global_index_in_matrix node nx ny nz ≠ some r) →
        ∀ c, A'.val r c = A.val r c)) := by
  refine ⟨fun hA hall => cross_out_exists nx ny nz _ A hA hall, ?_⟩
  intro A' h
  obtain ⟨hall, _, _, hv⟩ := cross_out_eq_some nx ny nz _ A A' h
  refine ⟨?_, ?_⟩
  · intro node hn
    refine ⟨idx node nx ny, node_index_of_interior (hall node hn), fun c => ?_⟩
    rw [hv, if_pos (List.mem_map_of_mem _ hn)]
  · intro r hr c
    rw [hv, if_neg]
    intro hm
    obtain ⟨node, hn, rfl⟩ := List.mem_map.1 hm
    exact hr node hn (node_index_of_interior (hall node hn))

theorem cross_out_identity_rows_witness :
    ∃ A', cross_out_nodes_occupied_by_objects (zero_matrix 27 27 : Mat Int) 5 5 5
      example_region = some A' :=
  (cross_out_identity_rows (zero_matrix 27 27 : Mat Int) 5 5 5 example_region).1 rfl
    (by decide)

/-- C9: `init_rhs_vector_in_full_domain` always completes, and afterwards the
right-hand side at the index of every interior node `(i, j, k)` is
`-4*pi*rho[i][j][k]*dx^2dy^2dz^2`
`- dy^2dz^2*(d(i,1)*phi[0][j][k] + d(i,nx-2)*phi[nx-1][j][k])`
`- dx^2dz^2*(d(j,1)*phi[i][0][k] + d(j,ny-2)*phi[i][ny-1][k])`
`- dx^2dy^2*(d(k,1)*phi[i][j][0] + d(k,nz-2)*phi[i][j][nz-1])` with `d` the
`kronecker_delta`.  In particular a node with no domain-edge neighbour gets
exactly the charge term, and on an x axis with three nodes both edge
potentials are subtracted (likewise for y and z). -/
theorem init_rhs_vector_in_full_domain_entries (M_PI : R) (spat_mesh : Spatial_mesh R)
    (rhs : Vec R) :
    ∃ b, init_rhs_vector_in_full_domain M_PI spat_mesh rhs = some b ∧
      ∀ i j k : Int, 0 < i → i < spat_mesh.x_n_nodes - 1 → 0 < j →
        j < spat_mesh.y_n_nodes - 1 → 0 < k → k < spat_mesh.z_n_nodes - 1 →
        ∃ ix, node_ijk_to_global_index_in_matrix i j k spat_mesh.x_n_nodes
            spat_mesh.y_n_nodes spat_mesh.z_n_nodes = some ix ∧
          b ix = -4 * M_PI * spat_mesh.charge_density i j k *
              (spat_mesh.x_cell_size * spat_mesh.x_cell_size *
                (spat_mesh.y_cell_size * spat_mesh.y_cell_size) *
                (spat_mesh.z_cell_size * spat_mesh.z_cell_size))
            - spat_mesh.y_cell_size * spat_mesh.y_cell_size *
                (spat_mesh.z_cell_size * spat_mesh.z_cell_size) *
              ((kronecker_delta i 1 : R) * spat_mesh.potential 0 j k +
               (kronecker_delta i (spat_mesh.x_n_nodes - 2) : R) *
                 spat_mesh.potential (spat_mesh.x_n_nodes - 1) j k)
            - spat_mesh.x_cell_size * spat_mesh.x_cell_size *
                (spat_mesh.z_cell_size * spat_mesh.z_cell_size) *
              ((kronecker_delta j 1 : R) * spat_mesh.potential i 0 k +
               (kronecker_delta j (spat_mesh.y_n_nodes - 2) : R) *
                 spat_mesh.potential i (spat_mesh.y_n_nodes - 1) k)
            - spat_mesh.x_cell_size * spat_mesh.x_cell_size *
                (spat_mesh.y_cell_size * spat_mesh.y_cell_size) *
              ((kronecker_delta k 1 : R) * spat_mesh.potential i j 0 +
               (kronecker_delta k (spat_mesh.z_n_nodes - 2) : R) *
                 spat_mesh.potential i j (spat_mesh.z_n_nodes - 1)) ∧
          (1 < i → i < spat_mesh.x_n_nodes - 2 → 1 < j → j < spat_mesh.y_n_nodes - 2 →
            1 < k → k < spat_mesh.z_n_nodes - 2 →
            b ix = -4 * M_PI * spat_mesh.charge_density i j k *
              (spat_mesh.x_cell_size * spat_mesh.x_cell_size *
                (spat_mesh.y_cell_size * spat_mesh.y_cell_size) *
                (spat_mesh.z_cell_size * spat_mesh.z_cell_size))) ∧
          (spat_mesh.x_n_nodes = 3 →
            (kronecker_delta i 1 : R) * spat_mesh.potential 0 j k +
               (kronecker_delta i (spat_mesh.x_n_nodes - 2) : R) *
                 spat_mesh.potential (spat_mesh.x_n_nodes - 1) j k
              = spat_mesh.potential 0 j k + spat_mesh.potential 2 j k) ∧
          (spat_mesh.y_n_nodes = 3 →
            (kronecker_delta j 1 : R) * spat_mesh.potential i 0 k +
               (kronecker_delta j (spat_mesh.y_n_nodes - 2) : R) *
                 spat_mesh.potential i (spat_mesh.y_n_nodes - 1) k
              = spat_mesh.potential i 0 k + spat_mesh.potential i 2 k) ∧
          (spat_mesh.z_n_nodes = 3 →
            (kronecker_delta k 1 : R) * spat_mesh.potential i j 0 +
               (kronecker_delta k (spat_mesh.z_n_nodes - 2) : R) *
                 spat_mesh.potential i j (spat_mesh.z_n_nodes - 1)
              = spat_mesh.potential i j 0 + spat_mesh.potential i j 2) := by
  obtain ⟨b, h1, h2, _⟩ := init_rhs_vector_in_full_domain_eq M_PI spat_mesh rhs
  refine ⟨b, h1, ?_⟩
  intro i j k i0 i1 j0 j1 k0 k1
  have hint : interior ⟨i, j, k⟩ spat_mesh.x_n_nodes spat_mesh.y_n_nodes spat_mesh.z_n_nodes :=
    ⟨i0, i1, j0, j1, k0, k1⟩
  have hb := h2 ⟨i, j, k⟩ hint
  refine ⟨_, node_index_of_interior hint, ?_, ?_, ?_, ?_, ?_⟩
  · rw [hb]; simp only [rhs_at_node]; ring
  · intro a1 a2 a3 a4 a5 a6
    rw [hb]
    simp only [rhs_at_node, kronecker_delta, if_neg (show ¬ i = 1 by omega),
      if_neg (show ¬ i = spat_mesh.x_n_nodes - 2 by omega), if_neg (show ¬ j = 1 by omega),
      if_neg (show ¬ j = spat_mesh.y_n_nodes - 2 by omega), if_neg (show ¬ k = 1 by omega),
      if_neg (show ¬ k = spat_mesh.z_n_nodes - 2 by omega)]
    push_cast
    ring
  · intro h3
    have e : i = 1 := by omega
    subst e
    rw [h3]
    simp [kronecker_delta]
  · intro h3
    have e : j = 1 := by omega
    subst e
    rw [h3]
    simp [kronecker_delta]
  · intro h3
    have e : k = 1 := by omega
    subst e
    rw [h3]
    simp [kronecker_delta]

theorem init_rhs_vector_in_full_domain_entries_witness :
    ∃ b, init_rhs_vector_in_full_domain (3 : Int) example_mesh (fun _ => 0) = some b ∧
      b 0 = -75 := by
  obtain ⟨b, h1, h2⟩ :=
    init_rhs_vector_in_full_domain_entries (3 : Int) example_mesh (fun _ => 0)
  obtain ⟨ix, hix, hb, _⟩ := h2 1 1 1 (by decide) (by decide) (by decide) (by decide)
    (by decide) (by decide)
  have e : ix = 0 := by
    have : node_ijk_to_global_index_in_matrix 1 1 1 5 5 5 = some 0 := by decide
    exact Option.some.inj (hix.symm.trans this)
  subst e
  refine ⟨b, h1, ?_⟩
  rw [hb]
  decide

/-- C10: `set_rhs_at_nodes_occupied_by_objects` for a region: when the nodes of
`inner_nodes_not_at_domain_edge` are interior nodes the call succeeds; and
whenever it succeeds, the right-hand side at the index of every node of
`inner_nodes_not_at_domain_edge` is exactly `0`, whatever the entry was
before, and every other entry is unchanged. -/
theorem set_rhs_zero_at_inner_nodes (spat_mesh : Spatial_mesh R) (rhs : Vec R)
    (inner_region : Inner_region R) :
    ((∀ node ∈ inner_region.inner_nodes_not_at_domain_edge,
        interior node spat_mesh.x_n_nodes spat_mesh.y_n_nodes spat_mesh.z_n_nodes) →
      ∃ b, set_rhs_at_nodes_occupied_by_objects spat_mesh rhs inner_region = some b) ∧
    (∀ b, set_rhs_at_nodes_occupied_by_objects spat_mesh rhs inner_region = some b →
      (∀ node ∈ inner_region.inner_nodes_not_at_domain_edge,
        ∃ ix, node_global_index_in_matrix node spat_mesh.x_n_nodes spat_mesh.y_n_nodes
            spat_mesh.z_n_nodes = some ix ∧ b ix = 0) ∧
      (∀ n, (∀ node ∈ inner_region.inner_nodes_not_at_domain_edge,
          node_global_index_in_matrix node spat_mesh.x_n_nodes spat_mesh.y_n_nodes
            spat_mesh.z_n_nodes ≠ some n) → b n = rhs n)) := by
  refine ⟨?_, ?_⟩
  · intro hall
    unfold set_rhs_at_nodes_occupied_by_objects
    simp only []
    rw [(list_of_nodes_eq_some_iff _ _ _ _ _).2 ⟨hall, rfl⟩]
    simp only []
    split
    · exact ⟨_, rfl⟩
    · exact ⟨_, rfl⟩
  · intro b h
    obtain ⟨hall, hv⟩ := set_rhs_fold_eq _ _ _ _ rhs b h
    refine ⟨?_, ?_⟩
    · intro node hn
      refine ⟨_, node_index_of_interior (hall node hn), ?_⟩
      rw [hv, if_pos (List.mem_map_of_mem _ hn)]
    · intro n hn
      rw [hv, if_neg]
      intro hm
      obtain ⟨node, hnode, rfl⟩ := List.mem_map.1 hm
      exact hn node hnode (node_index_of_interior (hall node hnode))

theorem set_rhs_zero_at_inner_nodes_witness :
    ∃ b, set_rhs_at_nodes_occupied_by_objects example_mesh (fun _ => 7) example_region
      = some b :=
  (set_rhs_zero_at_inner_nodes example_mesh (fun _ => 7) example_region).1 (by decide)

end Claims7to10

section ModifyLemmas
variable {R : Type} [CommRing R] [DecidableEq R]

theorem adjacent_interior {node adj : Node_reference} {nx ny nz : Int}
    (hn : interior node nx ny nz) (ha : adj ∈ node.adjacent_nodes)
    (he : adj.at_domain_edge nx ny nz = false) : interior adj nx ny nz := by
  obtain ⟨h1, h2, h3, h4, h5, h6⟩ := hn
  simp only [Node_reference.at_domain_edge, decide_eq_false_iff_not, not_or] at he
  simp only [Node_reference.adjacent_nodes, List.mem_cons, List.mem_singleton,
    List.not_mem_nil, or_false] at ha
  unfold interior
  rcases ha with rfl | rfl | rfl | rfl | rfl | rfl <;> simp only [] at he ⊢ <;> omega

theorem adjacent_ne {node adj : Node_reference} (ha : adj ∈ node.adjacent_nodes) :
    adj ≠ node := by
  simp only [Node_reference.adjacent_nodes, List.mem_cons, List.mem_singleton,
    List.not_mem_nil, or_false] at ha
  cases node
  rcases ha with rfl | rfl | rfl | rfl | rfl | rfl <;>
    simp only [ne_eq, Node_reference.mk.injEq, not_and] <;> intros <;> omega

theorem collect_adjacent_eq_some_iff (inside : Node_reference → Bool) (nx ny nz : Int)
    (l : List Node_reference) (cols : List Int) :
    collect_adjacent_indices inside nx ny nz l = some cols
      ↔ (∀ adj ∈ l, qualifies inside nx ny nz adj = true → interior adj nx ny nz) ∧
        cols = (l.filter (qualifies inside nx ny nz)).map (fun n => idx n nx ny) := by
  induction l generalizing cols with
  | nil =>
    simp only [collect_adjacent_indices, Option.some.injEq, List.not_mem_nil, false_implies,
      implies_true, List.filter_nil, List.map_nil, true_and]
    exact eq_comm
  | cons a l ih =>
    unfold collect_adjacent_indices
    by_cases hq : qualifies inside nx ny nz a = true
    · have hq' : (!a.at_domain_edge nx ny nz && inside a) = true := hq
      rw [if_pos hq', List.filter_cons_of_pos hq]
      constructor
      · intro h
        split at h
        · exact absurd h (by simp)
        · rename_i ix hix
          obtain ⟨hin, rfl⟩ := node_index_eq_some hix
          split at h
          · exact absurd h (by simp)
          · rename_i tail htail
            obtain ⟨hall, rfl⟩ := (ih tail).1 htail
            refine ⟨?_, ?_⟩
            · intro m hm hqm
              rcases List.mem_cons.1 hm with rfl | hm
              · exact hin
              · exact hall m hm hqm
            · simp only [Option.some.injEq] at h
              rw [← h]; rfl
      · rintro ⟨hall, rfl⟩
        rw [node_index_of_interior (hall a (List.mem_cons_self _ _) hq)]
        simp only []
        rw [(ih _).2 ⟨fun m hm => hall m (List.mem_cons_of_mem _ hm), rfl⟩]
        rfl
    · have hq' : ¬ (!a.at_domain_edge nx ny nz && inside a) = true := hq
      rw [if_neg hq', List.filter_cons_of_neg hq, ih]
      constructor
      · rintro ⟨hall, rfl⟩
        refine ⟨?_, rfl⟩
        intro m hm hqm
        rcases List.mem_cons.1 hm with rfl | hm
        · exact absurd hqm hq
        · exact hall m hm hqm
      · rintro ⟨hall, rfl⟩
        exact ⟨fun m hm => hall m (List.mem_cons_of_mem _ hm), rfl⟩

theorem collect_adjacent_of_interior (inside : Node_reference → Bool) {nx ny nz : Int}
    {node : Node_reference} (hn : interior node nx ny nz) :
    collect_adjacent_indices inside nx ny nz node.adjacent_nodes
      = some (qualifying_columns inside nx ny nz node) := by
  rw [collect_adjacent_eq_some_iff]
  refine ⟨?_, rfl⟩
  intro adj ha hq
  simp only [qualifies, Bool.and_eq_true, Bool.not_eq_true'] at hq
  exact adjacent_interior hn ha hq.1

theorem mem_qualifying_columns (inside : Node_reference → Bool) (nx ny nz : Int)
    (node : Node_reference) (c : Int) :
    c ∈ qualifying_columns inside nx ny nz node
      ↔ ∃ adj ∈ node.adjacent_nodes, qualifies inside nx ny nz adj = true ∧
          idx adj nx ny = c := by
  simp only [qualifying_columns, List.mem_map, List.mem_filter]
  constructor
  · rintro ⟨a, ⟨h1, h2⟩, h3⟩; exact ⟨a, h1, h2, h3⟩
  · rintro ⟨a, h1, h2, h3⟩; exact ⟨a, ⟨h1, h2⟩, h3⟩

theorem qualifying_columns_length (inside : Node_reference → Bool) (nx ny nz : Int)
    (node : Node_reference) : (qualifying_columns inside nx ny nz node).length ≤ 6 := by
  simp only [qualifying_columns, List.length_map]
  exact (List.length_filter_le _ _).trans (le_of_eq rfl)

theorem write_row_zeros (f : Int → R) (cols : List Int) (m : Nat) (hm : cols.length ≤ m)
    (hnn : ∀ c ∈ cols, 0 ≤ c) (c : Int) :
    write_row f (cols.zip (List.replicate m (0 : R))) c = if c ∈ cols then 0 else f c := by
  induction cols generalizing f m with
  | nil => simp [write_row_nil]
  | cons k cols ih =>
    cases m with
    | zero => simp at hm
    | succ m =>
      rw [List.replicate_succ, List.zip_cons_cons, write_row_cons,
        ih _ m (by simpa using hm) (fun c hc => hnn c (List.mem_cons_of_mem _ hc))]
      have hk : ¬ (k < 0) := by have := hnn k (List.mem_cons_self _ _); omega
      simp only [if_neg hk]
      by_cases h1 : c ∈ cols
      · simp [h1]
      · by_cases h2 : c = k
        · simp [h2]
        · simp [h1, h2]

theorem modify_step_of_interior (inside : Node_reference → Bool) {nx ny nz : Int}
    (B : Mat R) {node : Node_reference} (hn : interior node nx ny nz)
    (hr : B.nrow = (nx - 2) * (ny - 2) * (nz - 2))
    (hc : B.ncol = (nx - 2) * (ny - 2) * (nz - 2)) :
    modify_step inside nx ny nz B node
      = some ⟨B.nrow, B.ncol, fun r c =>
          if r = idx node nx ny ∧ c ∈ qualifying_columns inside nx ny nz node then 0
          else B.val r c⟩ := by
  unfold modify_step
  rw [node_index_of_interior hn]
  simp only []
  rw [collect_adjacent_of_interior inside hn]
  simp only []
  have hcols : ∀ c ∈ qualifying_columns inside nx ny nz node,
      0 ≤ c ∧ c < (nx - 2) * (ny - 2) * (nz - 2) := by
    intro c hcm
    obtain ⟨adj, ha, hq, rfl⟩ := (mem_qualifying_columns _ _ _ _ _ _).1 hcm
    simp only [qualifies, Bool.and_eq_true, Bool.not_eq_true'] at hq
    exact idx_range (adjacent_interior hn ha hq.1)
  split
  · rw [MatSetValues_eq B _ _ _ (idx_range hn).1 (by rw [hr]; exact (idx_range hn).2)
      (fun c hcm => by rw [hc]; exact (hcols c hcm).2)]
    simp only [Option.some.injEq, Mat.mk.injEq, true_and]
    funext r c
    by_cases h1 : r = idx node nx ny
    · subst h1
      rw [if_pos rfl, write_row_zeros _ _ _ (qualifying_columns_length _ _ _ _ _)
        (fun c hcm => (hcols c hcm).1)]
      simp
    · simp [h1]
  · rename_i hlen
    have he : qualifying_columns inside nx ny nz node = [] := by simpa using hlen
    cases B
    simp [he]

theorem modify_fold_eq (inside : Node_reference → Bool) (nx ny nz : Int)
    (l : List Node_reference) (A : Mat R)
    (hr : A.nrow = (nx - 2) * (ny - 2) * (nz - 2))
    (hc : A.ncol = (nx - 2) * (ny - 2) * (nz - 2)) :
    ((∀ node ∈ l, interior node nx ny nz) →
      ∃ A', l.foldlM (modify_step inside nx ny nz) A = some A') ∧
    (∀ A', l.foldlM (modify_step inside nx ny nz) A = some A' →
      (∀ node ∈ l, interior node nx ny nz) ∧ A'.nrow = A.nrow ∧ A'.ncol = A.ncol ∧
      ∀ r c, A'.val r c
        = if ∃ node ∈ l, r = idx node nx ny ∧ c ∈ qualifying_columns inside nx ny nz node
          then 0 else A.val r c) := by
  induction l generalizing A with
  | nil =>
    refine ⟨fun _ => ⟨A, rfl⟩, ?_⟩
    intro A' h
    simp only [List.foldlM_nil, pure, Option.some.injEq] at h
    subst h
    exact ⟨fun _ h => absurd h (List.not_mem_nil _), rfl, rfl, fun r c => by simp⟩
  | cons node l ih =>
    have hstep : ∀ hn : interior node nx ny nz, _ :=
      fun hn => modify_step_of_interior inside A hn hr hc
    have hih := ih (⟨A.nrow, A.ncol, fun r c =>
      if r = idx node nx ny ∧ c ∈ qualifying_columns inside nx ny nz node then 0
      else A.val r c⟩ : Mat R) hr hc
    refine ⟨?_, ?_⟩
    · intro hall
      rw [List.foldlM_cons, hstep (hall node (List.mem_cons_self _ _))]
      exact hih.1 (fun m hm => hall m (List.mem_cons_of_mem _ hm))
    · intro A' h
      rw [List.foldlM_cons] at h
      have hn : interior node nx ny nz := by
        cases hix : node_global_index_in_matrix node nx ny nz with
        | none =>
          simp only [modify_step, hix] at h
          exact absurd h (by simp)
        | some ix => exact (node_index_eq_some hix).1
      rw [hstep hn] at h
      obtain ⟨hall, e1, e2, e3⟩ := hih.2 A' h
      refine ⟨?_, e1, e2, ?_⟩
      · intro m hm
        rcases List.mem_cons.1 hm with rfl | hm
        · exact hn
        · exact hall m hm
      · intro r c
        rw [e3]
        simp only []
        by_cases h1 : ∃ node ∈ l, r = idx node nx ny ∧
            c ∈ qualifying_columns inside nx ny nz node
        · obtain ⟨m, hm, hm2⟩ := h1
          rw [if_pos ⟨m, hm, hm2⟩, if_pos ⟨m, List.mem_cons_of_mem _ hm, hm2⟩]
        · rw [if_neg h1]
          by_cases h2 : r = idx node nx ny ∧ c ∈ qualifying_columns inside nx ny nz node
          · rw [if_pos h2, if_pos ⟨node, List.mem_cons_self _ _, h2⟩]
          · rw [if_neg h2, if_neg]
            rintro ⟨m, hm, hm2⟩
            rcases List.mem_cons.1 hm with rfl | hm
            · exact h2 hm2
            · exact h1 ⟨m, hm, hm2⟩

theorem modify_equation_unfold (A : Mat R) (nx ny nz : Int) (dx dy dz : R)
    (inner_region : Inner_region R) :
    modify_equation_near_object_boundaries A nx ny nz dx dy dz inner_region
      = inner_region.near_boundary_nodes_not_at_domain_edge.foldlM
          (modify_step (fun adj => inner_region.check_if_node_inside adj dx dy dz) nx ny nz)
          A := rfl

end ModifyLemmas

section Claim8
variable {R : Type} [CommRing R] [DecidableEq R]

/-- C8: `modify_equation_near_object_boundaries` for a region, on an operator
with one row and one column per unknown: when the nodes of
`near_boundary_nodes_not_at_domain_edge` are interior nodes the call succeeds;
and whenever it succeeds, for every node of that list and every axis-adjacent
node that is not at the domain edge and is inside the region the entry
`(index(node), index(adjacent))` is exactly `0`; every other entry is
unchanged, in particular the whole row of a near-boundary node with no
qualifying neighbour and every diagonal entry. -/
theorem modify_equation_zeroes_entries (A : Mat R) (nx ny nz : Int) (dx dy dz : R)
    (inner_region : Inner_region R)
    (hr : A.nrow = (nx - 2) * (ny - 2) * (nz - 2))
    (hc : A.ncol = (nx - 2) * (ny - 2) * (nz - 2)) :
    ((∀ node ∈ inner_region.near_boundary_nodes_not_at_domain_edge, interior node nx ny nz) →
      ∃ A', modify_equation_near_object_boundaries A nx ny nz dx dy dz inner_region
        = some A') ∧
    (∀ A', modify_equation_near_object_boundaries A nx ny nz dx dy dz inner_region = some A' →
      (∀ node ∈ inner_region.near_boundary_nodes_not_at_domain_edge,
        ∀ adj ∈ node.adjacent_nodes, adj.at_domain_edge nx ny nz = false →
          inner_region.check_if_node_inside adj dx dy dz = true →
          ∃ r c, node_global_index_in_matrix node nx ny nz = some r ∧
            node_global_index_in_matrix adj nx ny nz = some c ∧ A'.val r c = 0) ∧
      (∀ r c, (¬ ∃ node ∈ inner_region.near_boundary_nodes_not_at_domain_edge,
          ∃ adj ∈ node.adjacent_nodes, adj.at_domain_edge nx ny nz = false ∧
            inner_region.check_if_node_inside adj dx dy dz = true ∧
            node_global_index_in_matrix node nx ny nz = some r ∧
            node_global_index_in_matrix adj nx ny nz = some c) →
        A'.val r c = A.val r c) ∧
      (∀ node ∈ inner_region.near_boundary_nodes_not_at_domain_edge,
        (∀ adj ∈ node.adjacent_nodes, ¬ (adj.at_domain_edge nx ny nz = false ∧
            inner_region.check_if_node_inside adj dx dy dz = true)) →
        ∃ r, node_global_index_in_matrix node nx ny nz = some r ∧
          ∀ c, A'.val r c = A.val r c) ∧
      (∀ r, A'.val r r = A.val r r)) := by
  rw [modify_equation_unfold]
  obtain ⟨hex, hall⟩ := modify_fold_eq
    (fun adj => inner_region.check_if_node_inside adj dx dy dz) nx ny nz
    inner_region.near_boundary_nodes_not_at_domain_edge A hr hc
  refine ⟨hex, ?_⟩
  intro A' h
  obtain ⟨hint, _, _, hv⟩ := hall A' h
  have hq : ∀ adj : Node_reference,
      qualifies (fun adj => inner_region.check_if_node_inside adj dx dy dz) nx ny nz adj = true
        ↔ adj.at_domain_edge nx ny nz = false ∧
          inner_region.check_if_node_inside adj dx dy dz = true := by
    intro adj
    simp only [qualifies, Bool.and_eq_true, Bool.not_eq_true']
  refine ⟨?_, ?_, ?_, ?_⟩
  · intro node hn adj ha he hi
    have hai := adjacent_interior (hint node hn) ha he
    refine ⟨_, _, node_index_of_interior (hint node hn), node_index_of_interior hai, ?_⟩
    rw [hv, if_pos]
    exact ⟨node, hn, rfl, (mem_qualifying_columns _ _ _ _ _ _).2 ⟨adj, ha, (hq adj).2 ⟨he, hi⟩, rfl⟩⟩
  · intro r c hno
    rw [hv, if_neg]
    rintro ⟨node, hn, rfl, hcm⟩
    obtain ⟨adj, ha, hqa, rfl⟩ := (mem_qualifying_columns _ _ _ _ _ _).1 hcm
    have hq2 := (hq adj).1 hqa
    exact hno ⟨node, hn, adj, ha, hq2.1, hq2.2, node_index_of_interior (hint node hn),
      node_index_of_interior (adjacent_interior (hint node hn) ha hq2.1)⟩
  · intro node hn hnone
    refine ⟨_, node_index_of_interior (hint node hn), fun c => ?_⟩
    rw [hv, if_neg]
    rintro ⟨m, hm, e, hcm⟩
    have := idx_injective (hint node hn) (hint m hm) e
    subst this
    obtain ⟨adj, ha, hqa, _⟩ := (mem_qualifying_columns _ _ _ _ _ _).1 hcm
    exact hnone adj ha ((hq adj).1 hqa)
  · intro r
    rw [hv, if_neg]
    rintro ⟨node, hn, rfl, hcm⟩
    obtain ⟨adj, ha, hqa, e⟩ := (mem_qualifying_columns _ _ _ _ _ _).1 hcm
    have hq2 := (hq adj).1 hqa
    exact adjacent_ne ha
      (idx_injective (adjacent_interior (hint node hn) ha hq2.1) (hint node hn) e)

theorem modify_equation_zeroes_entries_witness :
    ∃ A', modify_equation_near_object_boundaries (zero_matrix 27 27 : Mat Int) 5 5 5 1 1 1
      example_region = some A' :=
  (modify_equation_zeroes_entries (zero_matrix 27 27 : Mat Int) 5 5 5 1 1 1 example_region
    rfl rfl).1 (by decide)

end Claim8

section MatVec
variable {R : Type} [CommRing R] [DecidableEq R]

theorem sum_indicator (n : Nat) (t : Int) (f : Int → R) :
    (∑ c in Finset.range n, if (c : Int) = t then f c else 0)
      = if 0 ≤ t ∧ t < n then f t else 0 := by
  by_cases h : 0 ≤ t ∧ t < n
  · rw [if_pos h, Finset.sum_eq_single t.toNat]
    · rw [if_pos (by omega)]
      congr 1
      omega
    · intro b _ hb
      rw [if_neg (by omega)]
    · intro hn
      exact absurd (Finset.mem_range.2 (by omega)) hn
  · rw [if_neg h]
    apply Finset.sum_eq_zero
    intro c hc
    rw [if_neg]
    intro e
    have := Finset.mem_range.1 hc
    omega

theorem sum_band (s m pos r : Int) (n : Nat) (x : Vec R) (h0 : 0 ≤ r) (h1 : r < n)
    (hup : pos + 1 < m → 0 ≤ r + s ∧ r + s < n) (hdn : 0 < pos → 0 ≤ r - s ∧ r - s < n) :
    (∑ c in Finset.range n, band s m pos r (c : Int) * x (c : Int)) = band_apply s m pos r x := by
  unfold band band_apply
  simp only [add_mul, Finset.sum_add_distrib, ite_mul, zero_mul, one_mul]
  rw [sum_indicator n r (fun c => -2 * x c), if_pos ⟨h0, h1⟩]
  congr 1
  · congr 1
    by_cases h : pos + 1 < m
    · simp only [h, and_true, if_true]
      rw [sum_indicator n (r + s) x, if_pos (hup h)]
    · simp [h]
  · by_cases h : 0 < pos
    · simp only [h, and_true, if_true]
      rw [sum_indicator n (r - s) x, if_pos (hdn h)]
    · simp [h]

theorem idx_shift_x (p : Node_reference) (nx ny d : Int) :
    idx ⟨p.x + d, p.y, p.z⟩ nx ny = idx p nx ny + d := by
  unfold idx; ring

theorem idx_shift_y (p : Node_reference) (nx ny d : Int) :
    idx ⟨p.x, p.y + d, p.z⟩ nx ny = idx p nx ny + d * (nx - 2) := by
  unfold idx; ring

theorem idx_shift_z (p : Node_reference) (nx ny d : Int) :
    idx ⟨p.x, p.y, p.z + d⟩ nx ny = idx p nx ny + d * ((nx - 2) * (ny - 2)) := by
  unfold idx; ring

/-- A row of the 7-point operator applied to a vector. -/
theorem mat_vec_of_stencil (A : Mat R) (nx ny nz : Int) (dx dy dz : R) (p : Node_reference)
    (hp : interior p nx ny nz) (hc : A.ncol = (nx - 2) * (ny - 2) * (nz - 2))
    (hA : ∀ c, A.val (idx p nx ny) c = stencil_entry nx ny nz dx dy dz p c) (x : Vec R) :
    mat_vec A x (idx p nx ny) = stencil_apply nx ny nz dx dy dz p x := by
  have hr := idx_range hp
  obtain ⟨p1, p2, p3, p4, p5, p6⟩ := hp
  have hN : ((A.ncol.toNat : Nat) : Int) = (nx - 2) * (ny - 2) * (nz - 2) := by
    rw [Int.toNat_of_nonneg (by rw [hc]; omega), hc]
  have nb : ∀ q : Node_reference, interior q nx ny nz →
      0 ≤ idx q nx ny ∧ idx q nx ny < (A.ncol.toNat : Nat) := by
    intro q hq
    rw [hN]
    exact idx_range hq
  unfold mat_vec stencil_apply
  simp only [hA, stencil_entry, add_mul, Finset.sum_add_distrib, mul_assoc]
  simp only [← Finset.mul_sum]
  rw [sum_band 1 (nx - 2) (p.x - 1) (idx p nx ny) _ x hr.1 (by rw [hN]; exact hr.2)
      (fun h => by
        have := nb ⟨p.x + 1, p.y, p.z⟩ ⟨by simp only []; omega, by simp only []; omega, p3, p4,
          p5, p6⟩
        rwa [idx_shift_x] at this)
      (fun h => by
        have := nb ⟨p.x + (-1), p.y, p.z⟩ ⟨by simp only []; omega, by simp only []; omega, p3,
          p4, p5, p6⟩
        rw [idx_shift_x] at this
        exact this),
    sum_band (nx - 2) (ny - 2) (p.y - 1) (idx p nx ny) _ x hr.1 (by rw [hN]; exact hr.2)
      (fun h => by
        have := nb ⟨p.x, p.y + 1, p.z⟩ ⟨p1, p2, by simp only []; omega, by simp only []; omega,
          p5, p6⟩
        rw [idx_shift_y, one_mul] at this
        exact this)
      (fun h => by
        have := nb ⟨p.x, p.y + (-1), p.z⟩ ⟨p1, p2, by simp only []; omega,
          by simp only []; omega, p5, p6⟩
        rw [idx_shift_y, neg_one_mul] at this
        exact this),
    sum_band ((nx - 2) * (ny - 2)) (nz - 2) (p.z - 1) (idx p nx ny) _ x hr.1
      (by rw [hN]; exact hr.2)
      (fun h => by
        have := nb ⟨p.x, p.y, p.z + 1⟩ ⟨p1, p2, p3, p4, by simp only []; omega,
          by simp only []; omega⟩
        rw [idx_shift_z, one_mul] at this
        exact this)
      (fun h => by
        have := nb ⟨p.x, p.y, p.z + (-1)⟩ ⟨p1, p2, p3, p4, by simp only []; omega,
          by simp only []; omega⟩
        rw [idx_shift_z, neg_one_mul] at this
        exact this)]

end MatVec

section SevenPoint
variable {R : Type} [CommRing R] [DecidableEq R]

theorem kronecker_delta_cast (i j : Int) :
    ((kronecker_delta i j : Int) : R) = if i = j then 1 else 0 := by
  unfold kronecker_delta
  split <;> simp

theorem band_apply_with_edges (s n t r : Int) (x : Vec R) (Plo Phi : R) (h0 : 0 < t)
    (h1 : t < n - 1) :
    band_apply s (n - 2) (t - 1) r x
      + ((kronecker_delta t 1 : R) * Plo + (kronecker_delta t (n - 2) : R) * Phi)
      = (if 1 < t then x (r - s) else Plo) + (if t + 1 < n - 1 then x (r + s) else Phi)
        - 2 * x r := by
  simp only [band_apply, kronecker_delta_cast]
  by_cases c1 : t = 1
  · by_cases c2 : t = n - 2
    · rw [if_neg (by omega), if_neg (by omega), if_pos c1, if_pos c2, if_neg (by omega),
        if_neg (by omega)]
      ring
    · rw [if_pos (by omega), if_neg (by omega), if_pos c1, if_neg c2, if_neg (by omega),
        if_pos (by omega)]
      ring
  · by_cases c2 : t = n - 2
    · rw [if_neg (by omega), if_pos (by omega), if_neg c1, if_pos c2, if_pos (by omega),
        if_neg (by omega)]
      ring
    · rw [if_pos (by omega), if_pos (by omega), if_neg c1, if_neg c2, if_pos (by omega),
        if_pos (by omega)]
      ring

theorem potential_with_unknowns_self (spat_mesh : Spatial_mesh R) (x : Vec R) (i j k : Int)
    (h : interior ⟨i, j, k⟩ spat_mesh.x_n_nodes spat_mesh.y_n_nodes spat_mesh.z_n_nodes) :
    potential_with_unknowns spat_mesh x i j k
      = x (idx ⟨i, j, k⟩ spat_mesh.x_n_nodes spat_mesh.y_n_nodes) := by
  unfold potential_with_unknowns
  rw [if_pos h]

theorem potential_with_unknowns_x_axis (spat_mesh : Spatial_mesh R) (x : Vec R) (i j k : Int)
    (h : interior ⟨i, j, k⟩ spat_mesh.x_n_nodes spat_mesh.y_n_nodes spat_mesh.z_n_nodes) :
    potential_with_unknowns spat_mesh x (i - 1) j k
        = (if 1 < i then
            x (idx ⟨i, j, k⟩ spat_mesh.x_n_nodes spat_mesh.y_n_nodes - 1)
          else spat_mesh.potential 0 j k) ∧
    potential_with_unknowns spat_mesh x (i + 1) j k
        = (if i + 1 < spat_mesh.x_n_nodes - 1 then
            x (idx ⟨i, j, k⟩ spat_mesh.x_n_nodes spat_mesh.y_n_nodes + 1)
          else spat_mesh.potential (spat_mesh.x_n_nodes - 1) j k) := by
  have e1 := idx_shift_x ⟨i, j, k⟩ spat_mesh.x_n_nodes spat_mesh.y_n_nodes 1
  have e2 := idx_shift_x ⟨i, j, k⟩ spat_mesh.x_n_nodes spat_mesh.y_n_nodes (-1)
  simp only [← sub_eq_add_neg] at e1 e2
  obtain ⟨h1, h2, h3, h4, h5, h6⟩ := h
  simp only [] at h1 h2 h3 h4 h5 h6
  unfold potential_with_unknowns
  constructor
  · by_cases c : 1 < i
    · rw [if_pos c, if_pos (show interior _ _ _ _ from ⟨by simp only []; omega, by simp only []; omega, h3, h4, h5, h6⟩), e2]
    · rw [if_neg c, if_neg]
      · rw [show i - 1 = 0 by omega]
      · intro hc
        have := hc.1
        have := hc.2.2.1
        have := hc.2.2.2.2.1
        simp only [] at *
        omega
  · by_cases c : i + 1 < spat_mesh.x_n_nodes - 1
    · rw [if_pos c, if_pos (show interior _ _ _ _ from ⟨by simp only []; omega, by simp only []; omega, h3, h4, h5, h6⟩), e1]
    · rw [if_neg c, if_neg]
      · rw [show i + 1 = spat_mesh.x_n_nodes - 1 by omega]
      · intro hc
        have := hc.2.1
        have := hc.2.2.2.1
        have := hc.2.2.2.2.2
        simp only [] at *
        omega

theorem axis_identity_x (spat_mesh : Spatial_mesh R) (x : Vec R) (i j k : Int)
    (h : interior ⟨i, j, k⟩ spat_mesh.x_n_nodes spat_mesh.y_n_nodes spat_mesh.z_n_nodes) :
    band_apply 1 (spat_mesh.x_n_nodes - 2) (i - 1)
        (idx ⟨i, j, k⟩ spat_mesh.x_n_nodes spat_mesh.y_n_nodes) x
      + ((kronecker_delta i 1 : R) * spat_mesh.potential 0 j k
        + (kronecker_delta i (spat_mesh.x_n_nodes - 2) : R)
          * spat_mesh.potential (spat_mesh.x_n_nodes - 1) j k)
      = potential_with_unknowns spat_mesh x (i - 1) j k
        + potential_with_unknowns spat_mesh x (i + 1) j k
        - 2 * potential_with_unknowns spat_mesh x i j k := by
  obtain ⟨ea, eb⟩ := potential_with_unknowns_x_axis spat_mesh x i j k h
  rw [ea, eb, potential_with_unknowns_self spat_mesh x i j k h]
  obtain ⟨h1, h2, h3, h4, h5, h6⟩ := h
  simp only [] at h1 h2 h3 h4 h5 h6
  exact band_apply_with_edges _ _ _ _ _ _ _ (by omega) (by omega)

theorem potential_with_unknowns_y_axis (spat_mesh : Spatial_mesh R) (x : Vec R) (i j k : Int)
    (h : interior ⟨i, j, k⟩ spat_mesh.x_n_nodes spat_mesh.y_n_nodes spat_mesh.z_n_nodes) :
    potential_with_unknowns spat_mesh x i (j - 1) k
        = (if 1 < j then
            x (idx ⟨i, j, k⟩ spat_mesh.x_n_nodes spat_mesh.y_n_nodes - (spat_mesh.x_n_nodes - 2))
          else spat_mesh.potential i 0 k) ∧
    potential_with_unknowns spat_mesh x i (j + 1) k
        = (if j + 1 < spat_mesh.y_n_nodes - 1 then
            x (idx ⟨i, j, k⟩ spat_mesh.x_n_nodes spat_mesh.y_n_nodes + (spat_mesh.x_n_nodes - 2))
          else spat_mesh.potential i (spat_mesh.y_n_nodes - 1) k) := by
  have e1 := idx_shift_y ⟨i, j, k⟩ spat_mesh.x_n_nodes spat_mesh.y_n_nodes 1
  have e2 := idx_shift_y ⟨i, j, k⟩ spat_mesh.x_n_nodes spat_mesh.y_n_nodes (-1)
  simp only [one_mul, neg_one_mul] at e1 e2
  simp only [← sub_eq_add_neg] at e1 e2
  obtain ⟨h1, h2, h3, h4, h5, h6⟩ := h
  simp only [] at h1 h2 h3 h4 h5 h6
  unfold potential_with_unknowns
  constructor
  · by_cases c : 1 < j
    · rw [if_pos c, if_pos (show interior _ _ _ _ from ⟨h1, h2, by simp only []; omega, by simp only []; omega, h5, h6⟩), e2]
    · rw [if_neg c, if_neg]
      · rw [show j - 1 = 0 by omega]
      · intro hc
        have := hc.1
        have := hc.2.2.1
        have := hc.2.2.2.2.1
        simp only [] at *
        omega
  · by_cases c : j + 1 < spat_mesh.y_n_nodes - 1
    · rw [if_pos c, if_pos (show interior _ _ _ _ from ⟨h1, h2, by simp only []; omega, by simp only []; omega, h5, h6⟩), e1]
    · rw [if_neg c, if_neg]
      · rw [show j + 1 = spat_mesh.y_n_nodes - 1 by omega]
      · intro hc
        have := hc.2.1
        have := hc.2.2.2.1
        have := hc.2.2.2.2.2
        simp only [] at *
        omega

theorem axis_identity_y (spat_mesh : Spatial_mesh R) (x : Vec R) (i j k : Int)
    (h : interior ⟨i, j, k⟩ spat_mesh.x_n_nodes spat_mesh.y_n_nodes spat_mesh.z_n_nodes) :
    band_apply (spat_mesh.x_n_nodes - 2) (spat_mesh.y_n_nodes - 2) (j - 1)
        (idx ⟨i, j, k⟩ spat_mesh.x_n_nodes spat_mesh.y_n_nodes) x
      + ((kronecker_delta j 1 : R) * spat_mesh.potential i 0 k
        + (kronecker_delta j (spat_mesh.y_n_nodes - 2) : R)
          * spat_mesh.potential i (spat_mesh.y_n_nodes - 1) k)
      = potential_with_unknowns spat_mesh x i (j - 1) k
        + potential_with_unknowns spat_mesh x i (j + 1) k
        - 2 * potential_with_unknowns spat_mesh x i j k := by
  obtain ⟨ea, eb⟩ := potential_with_unknowns_y_axis spat_mesh x i j k h
  rw [ea, eb, potential_with_unknowns_self spat_mesh x i j k h]
  obtain ⟨h1, h2, h3, h4, h5, h6⟩ := h
  simp only [] at h1 h2 h3 h4 h5 h6
  exact band_apply_with_edges _ _ _ _ _ _ _ (by omega) (by omega)

theorem potential_with_unknowns_z_axis (spat_mesh : Spatial_mesh R) (x : Vec R) (i j k : Int)
    (h : interior ⟨i, j, k⟩ spat_mesh.x_n_nodes spat_mesh.y_n_nodes spat_mesh.z_n_nodes) :
    potential_with_unknowns spat_mesh x i j (k - 1)
        = (if 1 < k then
            x (idx ⟨i, j, k⟩ spat_mesh.x_n_nodes spat_mesh.y_n_nodes - ((spat_mesh.x_n_nodes - 2) * (spat_mesh.y_n_nodes - 2)))
          else spat_mesh.potential i j 0) ∧
    potential_with_unknowns spat_mesh x i j (k + 1)
        = (if k + 1 < spat_mesh.z_n_nodes - 1 then
            x (idx ⟨i, j, k⟩ spat_mesh.x_n_nodes spat_mesh.y_n_nodes + ((spat_mesh.x_n_nodes - 2) * (spat_mesh.y_n_nodes - 2)))
          else spat_mesh.potential i j (spat_mesh.z_n_nodes - 1)) := by
  have e1 := idx_shift_z ⟨i, j, k⟩ spat_mesh.x_n_nodes spat_mesh.y_n_nodes 1
  have e2 := idx_shift_z ⟨i, j, k⟩ spat_mesh.x_n_nodes spat_mesh.y_n_nodes (-1)
  simp only [one_mul, neg_one_mul] at e1 e2
  simp only [← sub_eq_add_neg] at e1 e2
  obtain ⟨h1, h2, h3, h4, h5, h6⟩ := h
  simp only [] at h1 h2 h3 h4 h5 h6
  unfold potential_with_unknowns
  constructor
  · by_cases c : 1 < k
    · rw [if_pos c, if_pos (show interior _ _ _ _ from ⟨h1, h2, h3, h4, by simp only []; omega, by simp only []; omega⟩), e2]
    · rw [if_neg c, if_neg]
      · rw [show k - 1 = 0 by omega]
      · intro hc
        have := hc.1
        have := hc.2.2.1
        have := hc.2.2.2.2.1
        simp only [] at *
        omega
  · by_cases c : k + 1 < spat_mesh.z_n_nodes - 1
    · rw [if_pos c, if_pos (show interior _ _ _ _ from ⟨h1, h2, h3, h4, by simp only []; omega, by simp only []; omega⟩), e1]
    · rw [if_neg c, if_neg]
      · rw [show k + 1 = spat_mesh.z_n_nodes - 1 by omega]
      · intro hc
        have := hc.2.1
        have := hc.2.2.2.1
        have := hc.2.2.2.2.2
        simp only [] at *
        omega

theorem axis_identity_z (spat_mesh : Spatial_mesh R) (x : Vec R) (i j k : Int)
    (h : interior ⟨i, j, k⟩ spat_mesh.x_n_nodes spat_mesh.y_n_nodes spat_mesh.z_n_nodes) :
    band_apply ((spat_mesh.x_n_nodes - 2) * (spat_mesh.y_n_nodes - 2)) (spat_mesh.z_n_nodes - 2) (k - 1)
        (idx ⟨i, j, k⟩ spat_mesh.x_n_nodes spat_mesh.y_n_nodes) x
      + ((kronecker_delta k 1 : R) * spat_mesh.potential i j 0
        + (kronecker_delta k (spat_mesh.z_n_nodes - 2) : R)
          * spat_mesh.potential i j (spat_mesh.z_n_nodes - 1))
      = potential_with_unknowns spat_mesh x i j (k - 1)
        + potential_with_unknowns spat_mesh x i j (k + 1)
        - 2 * potential_with_unknowns spat_mesh x i j k := by
  obtain ⟨ea, eb⟩ := potential_with_unknowns_z_axis spat_mesh x i j k h
  rw [ea, eb, potential_with_unknowns_self spat_mesh x i j k h]
  obtain ⟨h1, h2, h3, h4, h5, h6⟩ := h
  simp only [] at h1 h2 h3 h4 h5 h6
  exact band_apply_with_edges _ _ _ _ _ _ _ (by omega) (by omega)

/-- The residual of a full-domain row is the residual of the 7-point equation
with the edge potentials in place. -/
theorem full_domain_residual (M_PI : R) (spat_mesh : Spatial_mesh R) (x : Vec R) (i j k : Int)
    (h : interior ⟨i, j, k⟩ spat_mesh.x_n_nodes spat_mesh.y_n_nodes spat_mesh.z_n_nodes) :
    stencil_apply spat_mesh.x_n_nodes spat_mesh.y_n_nodes spat_mesh.z_n_nodes
        spat_mesh.x_cell_size spat_mesh.y_cell_size spat_mesh.z_cell_size ⟨i, j, k⟩ x
      - rhs_at_node M_PI spat_mesh i j k
    = spat_mesh.y_cell_size * spat_mesh.y_cell_size *
        (spat_mesh.z_cell_size * spat_mesh.z_cell_size) *
        (potential_with_unknowns spat_mesh x (i - 1) j k
          + potential_with_unknowns spat_mesh x (i + 1) j k
          - 2 * potential_with_unknowns spat_mesh x i j k)
      + spat_mesh.x_cell_size * spat_mesh.x_cell_size *
        (spat_mesh.z_cell_size * spat_mesh.z_cell_size) *
        (potential_with_unknowns spat_mesh x i (j - 1) k
          + potential_with_unknowns spat_mesh x i (j + 1) k
          - 2 * potential_with_unknowns spat_mesh x i j k)
      + spat_mesh.x_cell_size * spat_mesh.x_cell_size *
        (spat_mesh.y_cell_size * spat_mesh.y_cell_size) *
        (potential_with_unknowns spat_mesh x i j (k - 1)
          + potential_with_unknowns spat_mesh x i j (k + 1)
          - 2 * potential_with_unknowns spat_mesh x i j k)
      - -4 * M_PI * spat_mesh.charge_density i j k *
        (spat_mesh.x_cell_size * spat_mesh.x_cell_size *
          (spat_mesh.y_cell_size * spat_mesh.y_cell_size) *
          (spat_mesh.z_cell_size * spat_mesh.z_cell_size)) := by
  have hx := axis_identity_x spat_mesh x i j k h
  have hy := axis_identity_y spat_mesh x i j k h
  have hz := axis_identity_z spat_mesh x i j k h
  simp only [stencil_apply, rhs_at_node]
  linear_combination
    spat_mesh.y_cell_size * spat_mesh.y_cell_size *
        (spat_mesh.z_cell_size * spat_mesh.z_cell_size) * hx
    + spat_mesh.x_cell_size * spat_mesh.x_cell_size *
        (spat_mesh.z_cell_size * spat_mesh.z_cell_size) * hy
    + spat_mesh.x_cell_size * spat_mesh.x_cell_size *
        (spat_mesh.y_cell_size * spat_mesh.y_cell_size) * hz

end SevenPoint

section Claim2
variable {R : Type} [CommRing R] [DecidableEq R]

/-- C2: with no embedded regions, on a grid with at least 4 nodes along each
axis, the operator of `construct_equation_matrix_in_full_domain` and the
right-hand side of `init_rhs_vector_in_full_domain` are both produced, and a
vector `x` satisfies `A_base*x = b_1` (row by row) if and only if at every
interior node `(i, j, k)` the scaled 7-point equation
`dy^2dz^2*(p[i-1]+p[i+1]-2p) + dx^2dz^2*(p[j-1]+p[j+1]-2p)
 + dx^2dy^2*(p[k-1]+p[k+1]-2p) = -4*pi*rho(i,j,k)*dx^2dy^2dz^2` holds, where `p`
is `x` at interior nodes and the mesh potential at domain-edge nodes. -/
theorem full_domain_system_iff_seven_point (M_PI : R) (spat_mesh : Spatial_mesh R)
    (rhs : Vec R) (x : Vec R) (hx : 4 ≤ spat_mesh.x_n_nodes) (hy : 4 ≤ spat_mesh.y_n_nodes)
    (hz : 4 ≤ spat_mesh.z_n_nodes) :
    ∃ (A : Mat R) (b : Vec R),
      construct_equation_matrix_in_full_domain
        (zero_matrix
          ((spat_mesh.x_n_nodes - 2) * (spat_mesh.y_n_nodes - 2) * (spat_mesh.z_n_nodes - 2))
          ((spat_mesh.x_n_nodes - 2) * (spat_mesh.y_n_nodes - 2) * (spat_mesh.z_n_nodes - 2)))
        spat_mesh.x_n_nodes spat_mesh.y_n_nodes spat_mesh.z_n_nodes
        spat_mesh.x_cell_size spat_mesh.y_cell_size spat_mesh.z_cell_size = some A ∧
      init_rhs_vector_in_full_domain M_PI spat_mesh rhs = some b ∧
      ((∀ r : Int, 0 ≤ r →
          r < (spat_mesh.x_n_nodes - 2) * (spat_mesh.y_n_nodes - 2) * (spat_mesh.z_n_nodes - 2) →
          mat_vec A x r = b r) ↔
        (∀ i j k : Int, 0 < i → i < spat_mesh.x_n_nodes - 1 → 0 < j →
          j < spat_mesh.y_n_nodes - 1 → 0 < k → k < spat_mesh.z_n_nodes - 1 →
          spat_mesh.y_cell_size * spat_mesh.y_cell_size *
              (spat_mesh.z_cell_size * spat_mesh.z_cell_size) *
              (potential_with_unknowns spat_mesh x (i - 1) j k
                + potential_with_unknowns spat_mesh x (i + 1) j k
                - 2 * potential_with_unknowns spat_mesh x i j k)
            + spat_mesh.x_cell_size * spat_mesh.x_cell_size *
              (spat_mesh.z_cell_size * spat_mesh.z_cell_size) *
              (potential_with_unknowns spat_mesh x i (j - 1) k
                + potential_with_unknowns spat_mesh x i (j + 1) k
                - 2 * potential_with_unknowns spat_mesh x i j k)
            + spat_mesh.x_cell_size * spat_mesh.x_cell_size *
              (spat_mesh.y_cell_size * spat_mesh.y_cell_size) *
              (potential_with_unknowns spat_mesh x i j (k - 1)
                + potential_with_unknowns spat_mesh x i j (k + 1)
                - 2 * potential_with_unknowns spat_mesh x i j k)
            = -4 * M_PI * spat_mesh.charge_density i j k *
              (spat_mesh.x_cell_size * spat_mesh.x_cell_size *
                (spat_mesh.y_cell_size * spat_mesh.y_cell_size) *
                (spat_mesh.z_cell_size * spat_mesh.z_cell_size)))) := by
  obtain ⟨A, hA, _, hAc, hAv⟩ := construct_equation_matrix_in_full_domain_eq
    spat_mesh.x_n_nodes spat_mesh.y_n_nodes spat_mesh.z_n_nodes
    spat_mesh.x_cell_size spat_mesh.y_cell_size spat_mesh.z_cell_size hx hy hz
  obtain ⟨b, hb, hbv, _⟩ := init_rhs_vector_in_full_domain_eq M_PI spat_mesh rhs
  refine ⟨A, b, hA, hb, ?_⟩
  have key : ∀ i j k : Int,
      interior ⟨i, j, k⟩ spat_mesh.x_n_nodes spat_mesh.y_n_nodes spat_mesh.z_n_nodes →
      mat_vec A x (idx ⟨i, j, k⟩ spat_mesh.x_n_nodes spat_mesh.y_n_nodes)
        - b (idx ⟨i, j, k⟩ spat_mesh.x_n_nodes spat_mesh.y_n_nodes)
      = stencil_apply spat_mesh.x_n_nodes spat_mesh.y_n_nodes spat_mesh.z_n_nodes
          spat_mesh.x_cell_size spat_mesh.y_cell_size spat_mesh.z_cell_size ⟨i, j, k⟩ x
        - rhs_at_node M_PI spat_mesh i j k := by
    intro i j k h
    rw [mat_vec_of_stencil A _ _ _ _ _ _ ⟨i, j, k⟩ h hAc (hAv _ h) x, hbv _ h]
  constructor
  · intro hall i j k i0 i1 j0 j1 k0 k1
    have h : interior ⟨i, j, k⟩ spat_mesh.x_n_nodes spat_mesh.y_n_nodes spat_mesh.z_n_nodes :=
      ⟨i0, i1, j0, j1, k0, k1⟩
    have hk := key i j k h
    have hr := idx_range h
    rw [hall _ hr.1 hr.2, sub_self, full_domain_residual M_PI spat_mesh x i j k h] at hk
    exact (sub_eq_zero.1 hk.symm)
  · intro hall r r0 r1
    obtain ⟨hint, hidx⟩ := @index_to_node_interior r spat_mesh.x_n_nodes spat_mesh.y_n_nodes
      spat_mesh.z_n_nodes (by omega) (by omega) r0 r1
    cases hnode : index_to_node r spat_mesh.x_n_nodes spat_mesh.y_n_nodes with
    | mk i j k =>
      rw [hnode] at hint hidx
      have hk := key i j k hint
      rw [hidx, full_domain_residual M_PI spat_mesh x i j k hint] at hk
      obtain ⟨i0, i1, j0, j1, k0, k1⟩ := hint
      rw [hall i j k i0 i1 j0 j1 k0 k1, sub_self] at hk
      exact sub_eq_zero.1 hk

theorem full_domain_system_iff_seven_point_witness :
    (4 : Int) ≤ example_mesh.x_n_nodes ∧
    ∃ (A : Mat Int) (b : Vec Int),
      construct_equation_matrix_in_full_domain (zero_matrix 27 27) 5 5 5 (1 : Int) 1 1 = some A ∧
      init_rhs_vector_in_full_domain 3 example_mesh (fun _ => 0) = some b := by
  refine ⟨by decide, ?_⟩
  obtain ⟨A, b, h1, h2, _⟩ := full_domain_system_iff_seven_point (3 : Int) example_mesh
    (fun _ => 0) (fun _ => 1) (by decide) (by decide) (by decide)
  exact ⟨A, b, h1, h2⟩

end Claim2

section Claim3

/-- C3: evaluation at failing inputs.  On the 3x4x4 grid with unit cells the
nodes `(1,2,1)` and `(1,1,1)` are y-neighbours with the indices `1` and `0`,
and the operator built by `construct_equation_matrix_in_full_domain` has the
entry `2` at `(1, 0)`, where the 7-point stencil has `dx^2dz^2 = 1`, while the
entry at `(0, 1)` is `1`.  On the 4x3x4 and 4x4x3 grids the build stores a
column outside the matrix and produces no operator. -/
theorem base_operator_on_three_node_axis :
    node_global_index_in_matrix ⟨1, 2, 1⟩ 3 4 4 = some 1 ∧
    node_global_index_in_matrix ⟨1, 1, 1⟩ 3 4 4 = some 0 ∧
    (construct_equation_matrix_in_full_domain (zero_matrix 4 4) 3 4 4 (1 : Int) 1 1).map
      (fun A => (A.val 1 0, A.val 0 1)) = some (2, 1) ∧
    construct_equation_matrix_in_full_domain (zero_matrix 4 4) 4 3 4 (1 : Int) 1 1 = none ∧
    construct_equation_matrix_in_full_domain (zero_matrix 4 4) 4 4 3 (1 : Int) 1 1 = none := by
  refine ⟨by decide, by decide, by decide, rfl, rfl⟩

end Claim3

section RhsModLemmas
variable {R : Type} [CommRing R] [DecidableEq R]

theorem collect_rhs_modifications_eq (inside : Node_reference → Bool) (potential : R)
    (nx ny nz : Int) (dx dy dz : R) (nodes : List Node_reference)
    (hall : ∀ n ∈ nodes, interior n nx ny nz) :
    collect_rhs_modifications inside potential nx ny nz dx dy dz nodes
      = some (nodes.map (fun n => idx n nx ny),
          nodes.map (rhs_mod_of_node inside potential nx ny nz dx dy dz)) := by
  induction nodes with
  | nil => rfl
  | cons n nodes ih =>
    unfold collect_rhs_modifications
    simp only []
    rw [node_index_of_interior (hall n (List.mem_cons_self _ _)),
      ih (fun m hm => hall m (List.mem_cons_of_mem _ hm))]
    rfl

theorem VecSetValues_add_map (nodes : List Node_reference) (g : Node_reference → Int)
    (f : Node_reference → R) (v : Vec R) (n : Int) :
    VecSetValues_add v (nodes.map g) (nodes.map f) n
      = v n + ((nodes.filter (fun m => decide (g m = n))).map f).sum := by
  unfold VecSetValues_add
  induction nodes generalizing v with
  | nil => simp
  | cons m nodes ih =>
    rw [List.map_cons, List.map_cons, List.zip_cons_cons, List.foldl_cons, ih]
    by_cases h : g m = n
    · rw [List.filter_cons_of_pos (by simpa using h)]
      simp only [List.map_cons, List.sum_cons, if_pos h.symm]
      ring
    · rw [List.filter_cons_of_neg (by simpa using h)]
      simp only [if_neg (fun e : n = g m => h e.symm)]

theorem sum_filter_idx_eq (nodes : List Node_reference) (nx ny nz : Int) (f : Node_reference → R)
    (node : Node_reference) (hall : ∀ n ∈ nodes, interior n nx ny nz)
    (hn : interior node nx ny nz) :
    ((nodes.filter (fun m => decide (idx m nx ny = idx node nx ny))).map f).sum
      = (nodes.count node : R) * f node := by
  induction nodes with
  | nil => simp
  | cons m nodes ih =>
    have ih' := ih (fun k hk => hall k (List.mem_cons_of_mem _ hk))
    by_cases h : idx m nx ny = idx node nx ny
    · have e := idx_injective (hall m (List.mem_cons_self _ _)) hn h
      subst e
      rw [List.filter_cons_of_pos (by simp), List.map_cons, List.sum_cons, ih',
        List.count_cons_self]
      push_cast
      ring
    · have hne : m ≠ node := fun e => h (by rw [e])
      rw [List.filter_cons_of_neg (by simpa using h), ih', List.count_cons_of_ne hne.symm]

/-- The compensation that `indicies_of_near_boundary_nodes_and_rhs_modifications`
accumulates for a node, neighbour by neighbour. -/
theorem rhs_mod_of_node_eq (inside : Node_reference → Bool) (V : R) (nx ny nz : Int)
    (dx dy dz : R) (n : Node_reference) :
    rhs_mod_of_node inside V nx ny nz dx dy dz n
      = (if qualifies inside nx ny nz ⟨n.x - 1, n.y, n.z⟩ = true
          then -V * dy * dy * dz * dz else 0)
        + (if qualifies inside nx ny nz ⟨n.x + 1, n.y, n.z⟩ = true
          then -V * dy * dy * dz * dz else 0)
        + (if qualifies inside nx ny nz ⟨n.x, n.y + 1, n.z⟩ = true
          then -V * dx * dx * dz * dz else 0)
        + (if qualifies inside nx ny nz ⟨n.x, n.y - 1, n.z⟩ = true
          then -V * dx * dx * dz * dz else 0)
        + (if qualifies inside nx ny nz ⟨n.x, n.y, n.z - 1⟩ = true
          then -V * dx * dx * dy * dy else 0)
        + (if qualifies inside nx ny nz ⟨n.x, n.y, n.z + 1⟩ = true
          then -V * dx * dx * dy * dy else 0) := by
  have step : ∀ (c : Bool) (a t : R), (if c = true then a + t else a)
      = a + (if c = true then t else 0) := by
    intro c a t; split <;> simp
  have t1 : (n.x - 1 < n.x) = True := by simp
  have t2 : (n.x < n.x - 1) = False := by simp
  have t3 : (n.x < n.x + 1) = True := by simp
  have t4 : (n.x + 1 < n.x) = False := by simp
  have t5 : (n.y - 1 < n.y) = True := by simp
  have t6 : (n.y < n.y - 1) = False := by simp
  have t7 : (n.y < n.y + 1) = True := by simp
  have t8 : (n.y + 1 < n.y) = False := by simp
  have t9 : (n.z - 1 < n.z) = True := by simp
  have t10 : (n.z < n.z - 1) = False := by simp
  have t11 : (n.z < n.z + 1) = True := by simp
  have t12 : (n.z + 1 < n.z) = False := by simp
  simp only [rhs_mod_of_node, Node_reference.adjacent_nodes, List.foldl, qualifies,
    Node_reference.left_from, Node_reference.right_from, Node_reference.top_from,
    Node_reference.bottom_from, Node_reference.near_from, Node_reference.far_from,
    t1, t2, t3, t4, t5, t6, t7, t8, t9, t10, t11, t12, lt_self_iff_false, decide_True,
    decide_False, if_true, if_false, Bool.false_eq_true, step, zero_add]

end RhsModLemmas

section Claim1Lemmas
variable {R : Type} [CommRing R] [DecidableEq R]

theorem qualifies_iff_mem (inside : Node_reference → Bool) {nx ny nz : Int}
    {node adj : Node_reference} (hn : interior node nx ny nz)
    (ha : adj ∈ node.adjacent_nodes) :
    qualifies inside nx ny nz adj = true
      ↔ interior adj nx ny nz ∧ idx adj nx ny ∈ qualifying_columns inside nx ny nz node := by
  have hq : ∀ a ∈ node.adjacent_nodes, qualifies inside nx ny nz a = true →
      interior a nx ny nz := by
    intro a ha' h
    simp only [qualifies, Bool.and_eq_true, Bool.not_eq_true'] at h
    exact adjacent_interior hn ha' h.1
  constructor
  · intro h
    exact ⟨hq adj ha h, (mem_qualifying_columns _ _ _ _ _ _).2 ⟨adj, ha, h, rfl⟩⟩
  · rintro ⟨hi, hm⟩
    obtain ⟨a, ha', hqa, e⟩ := (mem_qualifying_columns _ _ _ _ _ _).1 hm
    have := idx_injective (hq a ha' hqa) hi e
    rw [← this]
    exact hqa

theorem band_apply_diff (s m pos r : Int) (x : Vec R) (V : R) (Q : List Int) (hr : r ∉ Q) :
    band_apply s m pos r (fun c => if c ∈ Q then V else x c)
      - band_apply s m pos r (fun c => if c ∈ Q then 0 else x c)
      = (if pos + 1 < m ∧ r + s ∈ Q then V else 0)
        + (if 0 < pos ∧ r - s ∈ Q then V else 0) := by
  simp only [band_apply, if_neg hr]
  by_cases h1 : pos + 1 < m <;> by_cases h2 : r + s ∈ Q <;> by_cases h3 : 0 < pos <;>
    by_cases h4 : r - s ∈ Q <;> simp only [h1, h2, h3, h4, if_true, if_false, and_self,
      and_true, and_false, true_and, false_and] <;> ring

/-- The difference of the 7-point operator on the substituted and on the masked
vector is the sum of the compensations. -/
theorem stencil_apply_diff (inside : Node_reference → Bool) (nx ny nz : Int) (dx dy dz V : R)
    (n : Node_reference) (hn : interior n nx ny nz) (x : Vec R) :
    stencil_apply nx ny nz dx dy dz n
        (fun c => if c ∈ qualifying_columns inside nx ny nz n then V else x c)
      - stencil_apply nx ny nz dx dy dz n
        (fun c => if c ∈ qualifying_columns inside nx ny nz n then 0 else x c)
      = - rhs_mod_of_node inside V nx ny nz dx dy dz n := by
  have hself : idx n nx ny ∉ qualifying_columns inside nx ny nz n := by
    intro hm
    obtain ⟨a, ha, hqa, e⟩ := (mem_qualifying_columns _ _ _ _ _ _).1 hm
    have hai := ((qualifies_iff_mem inside hn ha).1 hqa).1
    exact adjacent_ne ha (idx_injective hai hn e)
  have mem : ∀ a, a ∈ n.adjacent_nodes ↔ a = ⟨n.x - 1, n.y, n.z⟩ ∨ a = ⟨n.x + 1, n.y, n.z⟩ ∨
      a = ⟨n.x, n.y + 1, n.z⟩ ∨ a = ⟨n.x, n.y - 1, n.z⟩ ∨ a = ⟨n.x, n.y, n.z - 1⟩ ∨
      a = ⟨n.x, n.y, n.z + 1⟩ := by
    intro a
    simp only [Node_reference.adjacent_nodes, List.mem_cons, List.mem_singleton,
      List.not_mem_nil, or_false]
  obtain ⟨p1, p2, p3, p4, p5, p6⟩ := id hn
  have sx1 := idx_shift_x n nx ny 1
  have sx2 := idx_shift_x n nx ny (-1)
  have sy1 := idx_shift_y n nx ny 1
  have sy2 := idx_shift_y n nx ny (-1)
  have sz1 := idx_shift_z n nx ny 1
  have sz2 := idx_shift_z n nx ny (-1)
  simp only [one_mul, neg_one_mul, ← sub_eq_add_neg] at sx1 sx2 sy1 sy2 sz1 sz2
  have cxp : (n.x - 1 + 1 < nx - 2 ∧ idx n nx ny + 1 ∈ qualifying_columns inside nx ny nz n)
      ↔ qualifies inside nx ny nz ⟨n.x + 1, n.y, n.z⟩ = true := by
    rw [qualifies_iff_mem inside hn ((mem _).2 (by simp)), sx1]
    simp only [interior]
    constructor
    · rintro ⟨h, hm⟩; exact ⟨⟨by omega, by omega, p3, p4, p5, p6⟩, hm⟩
    · rintro ⟨h, hm⟩; exact ⟨by have := h.2.1; omega, hm⟩
  have cxm : (0 < n.x - 1 ∧ idx n nx ny - 1 ∈ qualifying_columns inside nx ny nz n)
      ↔ qualifies inside nx ny nz ⟨n.x - 1, n.y, n.z⟩ = true := by
    rw [qualifies_iff_mem inside hn ((mem _).2 (by simp)), sx2]
    simp only [interior]
    constructor
    · rintro ⟨h, hm⟩; exact ⟨⟨by omega, by omega, p3, p4, p5, p6⟩, hm⟩
    · rintro ⟨h, hm⟩; exact ⟨by have := h.1; omega, hm⟩
  have cyp : (n.y - 1 + 1 < ny - 2 ∧
        idx n nx ny + (nx - 2) ∈ qualifying_columns inside nx ny nz n)
      ↔ qualifies inside nx ny nz ⟨n.x, n.y + 1, n.z⟩ = true := by
    rw [qualifies_iff_mem inside hn ((mem _).2 (by simp)), sy1]
    simp only [interior]
    constructor
    · rintro ⟨h, hm⟩; exact ⟨⟨p1, p2, by omega, by omega, p5, p6⟩, hm⟩
    · rintro ⟨h, hm⟩; exact ⟨by have := h.2.2.2.1; omega, hm⟩
  have cym : (0 < n.y - 1 ∧ idx n nx ny - (nx - 2) ∈ qualifying_columns inside nx ny nz n)
      ↔ qualifies inside nx ny nz ⟨n.x, n.y - 1, n.z⟩ = true := by
    rw [qualifies_iff_mem inside hn ((mem _).2 (by simp)), sy2]
    simp only [interior]
    constructor
    · rintro ⟨h, hm⟩; exact ⟨⟨p1, p2, by omega, by omega, p5, p6⟩, hm⟩
    · rintro ⟨h, hm⟩; exact ⟨by have := h.2.2.1; omega, hm⟩
  have czp : (n.z - 1 + 1 < nz - 2 ∧
        idx n nx ny + (nx - 2) * (ny - 2) ∈ qualifying_columns inside nx ny nz n)
      ↔ qualifies inside nx ny nz ⟨n.x, n.y, n.z + 1⟩ = true := by
    rw [qualifies_iff_mem inside hn ((mem _).2 (by simp)), sz1]
    simp only [interior]
    constructor
    · rintro ⟨h, hm⟩; exact ⟨⟨p1, p2, p3, p4, by omega, by omega⟩, hm⟩
    · rintro ⟨h, hm⟩; exact ⟨by have := h.2.2.2.2.2; omega, hm⟩
  have czm : (0 < n.z - 1 ∧
        idx n nx ny - (nx - 2) * (ny - 2) ∈ qualifying_columns inside nx ny nz n)
      ↔ qualifies inside nx ny nz ⟨n.x, n.y, n.z - 1⟩ = true := by
    rw [qualifies_iff_mem inside hn ((mem _).2 (by simp)), sz2]
    simp only [interior]
    constructor
    · rintro ⟨h, hm⟩; exact ⟨⟨p1, p2, p3, p4, by omega, by omega⟩, hm⟩
    · rintro ⟨h, hm⟩; exact ⟨by have := h.2.2.2.2.1; omega, hm⟩
  have bx := band_apply_diff 1 (nx - 2) (n.x - 1) (idx n nx ny) x V _ hself
  have bY := band_apply_diff (nx - 2) (ny - 2) (n.y - 1) (idx n nx ny) x V _ hself
  have bz := band_apply_diff ((nx - 2) * (ny - 2)) (nz - 2) (n.z - 1) (idx n nx ny) x V _ hself
  simp only [cxp, cxm] at bx
  simp only [cyp, cym] at bY
  simp only [czp, czm] at bz
  rw [rhs_mod_of_node_eq]
  simp only [stencil_apply]
  have e1 : ∀ (c : Prop) [Decidable c], (if c then -V * dy * dy * dz * dz else 0)
      = -((if c then V else 0) * (dy * dy * dz * dz)) := by
    intro c _; split <;> ring
  have e2 : ∀ (c : Prop) [Decidable c], (if c then -V * dx * dx * dz * dz else 0)
      = -((if c then V else 0) * (dx * dx * dz * dz)) := by
    intro c _; split <;> ring
  have e3 : ∀ (c : Prop) [Decidable c], (if c then -V * dx * dx * dy * dy else 0)
      = -((if c then V else 0) * (dx * dx * dy * dy)) := by
    intro c _; split <;> ring
  simp only [e1, e2, e3]
  linear_combination dy * dy * dz * dz * bx + dx * dx * dz * dz * bY + dx * dx * dy * dy * bz

end Claim1Lemmas

section Claim1
variable {R : Type} [CommRing R] [DecidableEq R]

/-- C1: for a single region with potential `V` on a grid with at least 4 nodes
along each axis, whose listed nodes are not at the domain edge: the base
operator `A_base`, the final operator `A_final`, the full-domain right-hand
side `b_1` and the final right-hand side `b_final` are all produced, and for
every near-boundary unknown `r` of the region (its node listed once in
`near_boundary_nodes_not_at_domain_edge`, not listed in
`inner_nodes_not_at_domain_edge`, and with exactly those neighbours listed in
`inner_nodes_not_at_domain_edge` that are inside the region and not at the
domain edge) and every vector `x`,
`(A_final*x)[r] - b_final[r] = (A_base*x')[r] - b_1[r]`, where `x'` is `x` with
`V` substituted at every region-interior unknown adjacent to `r`. -/
theorem near_boundary_equation_preserved (M_PI : R) (spat_mesh : Spatial_mesh R)
    (rhs : Vec R) (inner_region : Inner_region R)
    (hx : 4 ≤ spat_mesh.x_n_nodes) (hy : 4 ≤ spat_mesh.y_n_nodes)
    (hz : 4 ≤ spat_mesh.z_n_nodes)
    (hin : ∀ n ∈ inner_region.inner_nodes_not_at_domain_edge,
      interior n spat_mesh.x_n_nodes spat_mesh.y_n_nodes spat_mesh.z_n_nodes)
    (hnb : ∀ n ∈ inner_region.near_boundary_nodes_not_at_domain_edge,
      interior n spat_mesh.x_n_nodes spat_mesh.y_n_nodes spat_mesh.z_n_nodes) :
    ∃ (A_base A_final : Mat R) (b_1 b_final : Vec R),
      construct_equation_matrix_in_full_domain
        (zero_matrix
          ((spat_mesh.x_n_nodes - 2) * (spat_mesh.y_n_nodes - 2) * (spat_mesh.z_n_nodes - 2))
          ((spat_mesh.x_n_nodes - 2) * (spat_mesh.y_n_nodes - 2) * (spat_mesh.z_n_nodes - 2)))
        spat_mesh.x_n_nodes spat_mesh.y_n_nodes spat_mesh.z_n_nodes
        spat_mesh.x_cell_size spat_mesh.y_cell_size spat_mesh.z_cell_size = some A_base ∧
      construct_equation_matrix
        (zero_matrix
          ((spat_mesh.x_n_nodes - 2) * (spat_mesh.y_n_nodes - 2) * (spat_mesh.z_n_nodes - 2))
          ((spat_mesh.x_n_nodes - 2) * (spat_mesh.y_n_nodes - 2) * (spat_mesh.z_n_nodes - 2)))
        spat_mesh.x_n_nodes spat_mesh.y_n_nodes spat_mesh.z_n_nodes
        spat_mesh.x_cell_size spat_mesh.y_cell_size spat_mesh.z_cell_size
        ⟨[inner_region]⟩ ⟨[]⟩ = some A_final ∧
      init_rhs_vector_in_full_domain M_PI spat_mesh rhs = some b_1 ∧
      init_rhs_vector M_PI spat_mesh rhs ⟨[inner_region]⟩ ⟨[]⟩ = some b_final ∧
      ∀ node ∈ inner_region.near_boundary_nodes_not_at_domain_edge,
        inner_region.near_boundary_nodes_not_at_domain_edge.count node = 1 →
        node ∉ inner_region.inner_nodes_not_at_domain_edge →
        (∀ adj ∈ node.adjacent_nodes,
          adj ∈ inner_region.inner_nodes_not_at_domain_edge ↔
            (adj.at_domain_edge spat_mesh.x_n_nodes spat_mesh.y_n_nodes spat_mesh.z_n_nodes
                = false ∧
              inner_region.check_if_node_inside adj spat_mesh.x_cell_size
                spat_mesh.y_cell_size spat_mesh.z_cell_size = true)) →
        ∃ r, node_global_index_in_matrix node spat_mesh.x_n_nodes spat_mesh.y_n_nodes
            spat_mesh.z_n_nodes = some r ∧
          ∀ x : Vec R,
            mat_vec A_final x r - b_final r
              = mat_vec A_base
                  (substitute_potential inner_region spat_mesh.x_n_nodes spat_mesh.y_n_nodes
                    node x) r
                - b_1 r := by
  obtain ⟨A, hA, hAr, hAc, hAv⟩ := construct_equation_matrix_in_full_domain_eq
    spat_mesh.x_n_nodes spat_mesh.y_n_nodes spat_mesh.z_n_nodes
    spat_mesh.x_cell_size spat_mesh.y_cell_size spat_mesh.z_cell_size hx hy hz
  obtain ⟨b, hb, hbv, _⟩ := init_rhs_vector_in_full_domain_eq M_PI spat_mesh rhs
  -- the operator
  obtain ⟨A1, hA1⟩ := cross_out_exists spat_mesh.x_n_nodes spat_mesh.y_n_nodes
    spat_mesh.z_n_nodes inner_region.inner_nodes_not_at_domain_edge A hAr hin
  obtain ⟨_, hA1r, hA1c, hA1v⟩ := cross_out_eq_some _ _ _ _ A A1 hA1
  obtain ⟨hmex, hmall⟩ := modify_fold_eq
    (fun adj => inner_region.check_if_node_inside adj spat_mesh.x_cell_size
      spat_mesh.y_cell_size spat_mesh.z_cell_size)
    spat_mesh.x_n_nodes spat_mesh.y_n_nodes spat_mesh.z_n_nodes
    inner_region.near_boundary_nodes_not_at_domain_edge A1 (hA1r.trans hAr) (hA1c.trans hAc)
  obtain ⟨A2, hA2⟩ := hmex hnb
  obtain ⟨_, hA2r, hA2c, hA2v⟩ := hmall A2 hA2
  have hfinal : construct_equation_matrix
      (zero_matrix
        ((spat_mesh.x_n_nodes - 2) * (spat_mesh.y_n_nodes - 2) * (spat_mesh.z_n_nodes - 2))
        ((spat_mesh.x_n_nodes - 2) * (spat_mesh.y_n_nodes - 2) * (spat_mesh.z_n_nodes - 2)))
      spat_mesh.x_n_nodes spat_mesh.y_n_nodes spat_mesh.z_n_nodes
      spat_mesh.x_cell_size spat_mesh.y_cell_size spat_mesh.z_cell_size
      ⟨[inner_region]⟩ ⟨[]⟩ = some A2 := by
    have c1 : cross_out_nodes_occupied_by_objects A spat_mesh.x_n_nodes spat_mesh.y_n_nodes
        spat_mesh.z_n_nodes inner_region = some A1 := hA1
    have c2 : modify_equation_near_object_boundaries A1 spat_mesh.x_n_nodes
        spat_mesh.y_n_nodes spat_mesh.z_n_nodes spat_mesh.x_cell_size spat_mesh.y_cell_size
        spat_mesh.z_cell_size inner_region = some A2 := hA2
    simp only [construct_equation_matrix, hA, cross_out_nodes_occupied_by_objects_all,
      modify_equation_near_object_boundaries_all, List.foldlM_cons, List.foldlM_nil, c1, c2,
      Option.some_bind, bind, pure, Option.bind]
  -- the right-hand side
  have hb2 : set_rhs_at_nodes_occupied_by_objects spat_mesh b inner_region
      = some (fun m => if m ∈ inner_region.inner_nodes_not_at_domain_edge.map
          (fun n => idx n spat_mesh.x_n_nodes spat_mesh.y_n_nodes) then 0 else b m) := by
    unfold set_rhs_at_nodes_occupied_by_objects
    simp only []
    rw [(list_of_nodes_eq_some_iff _ _ _ _ _).2 ⟨hin, rfl⟩]
    simp only []
    split
    · congr 1
      funext m
      rw [VecSetValues_insert_replicate _ _ _ _ (le_refl _)]
    · rename_i hlen
      have : inner_region.inner_nodes_not_at_domain_edge = [] := by simpa using hlen
      rw [this]
      simp
  have hb3 : ∃ bf, modify_rhs_near_object_boundaries spat_mesh
      (fun m => if m ∈ inner_region.inner_nodes_not_at_domain_edge.map
          (fun n => idx n spat_mesh.x_n_nodes spat_mesh.y_n_nodes) then 0 else b m)
      inner_region = some bf ∧
      bf = VecSetValues_add
          (fun m => if m ∈ inner_region.inner_nodes_not_at_domain_edge.map
            (fun n => idx n spat_mesh.x_n_nodes spat_mesh.y_n_nodes) then 0 else b m)
          (inner_region.near_boundary_nodes_not_at_domain_edge.map
            (fun n => idx n spat_mesh.x_n_nodes spat_mesh.y_n_nodes))
          (inner_region.near_boundary_nodes_not_at_domain_edge.map
            (rhs_mod_of_node
              (fun adj => inner_region.check_if_node_inside adj spat_mesh.x_cell_size
                spat_mesh.y_cell_size spat_mesh.z_cell_size)
              inner_region.potential spat_mesh.x_n_nodes spat_mesh.y_n_nodes
              spat_mesh.z_n_nodes spat_mesh.x_cell_size spat_mesh.y_cell_size
              spat_mesh.z_cell_size)) := by
    refine ⟨_, ?_, rfl⟩
    unfold modify_rhs_near_object_boundaries
      indicies_of_near_boundary_nodes_and_rhs_modifications
    simp only []
    rw [collect_rhs_modifications_eq _ _ _ _ _ _ _ _ _ hnb]
    simp only []
    split
    · rfl
    · rename_i hlen
      have : inner_region.near_boundary_nodes_not_at_domain_edge = [] := by simpa using hlen
      rw [this]
      simp [VecSetValues_add]
  obtain ⟨bf, hb3, hbfdef⟩ := hb3
  have hrhs : init_rhs_vector M_PI spat_mesh rhs ⟨[inner_region]⟩ ⟨[]⟩ = some bf := by
    simp only [init_rhs_vector, hb, set_rhs_at_nodes_occupied_by_objects_all,
      modify_rhs_near_object_boundaries_all, List.foldlM_cons, List.foldlM_nil, hb2, hb3,
      Option.some_bind, bind, pure, Option.bind]
  refine ⟨A, A2, b, bf, hA, hfinal, hb, hrhs, ?_⟩
  intro node hnode hcount hnotin hcls
  have hn := hnb node hnode
  refine ⟨_, node_index_of_interior hn, fun x => ?_⟩
  have hrow_notin : idx node spat_mesh.x_n_nodes spat_mesh.y_n_nodes ∉
      inner_region.inner_nodes_not_at_domain_edge.map
        (fun n => idx n spat_mesh.x_n_nodes spat_mesh.y_n_nodes) := by
    intro hm
    obtain ⟨m, hm1, hm2⟩ := List.mem_map.1 hm
    have := idx_injective (hin m hm1) hn hm2
    exact hnotin (this ▸ hm1)
  -- rows of the final operator at the node
  have hrow : ∀ c, A2.val (idx node spat_mesh.x_n_nodes spat_mesh.y_n_nodes) c
      = if c ∈ qualifying_columns
            (fun adj => inner_region.check_if_node_inside adj spat_mesh.x_cell_size
              spat_mesh.y_cell_size spat_mesh.z_cell_size)
            spat_mesh.x_n_nodes spat_mesh.y_n_nodes spat_mesh.z_n_nodes node then 0
        else A.val (idx node spat_mesh.x_n_nodes spat_mesh.y_n_nodes) c := by
    intro c
    rw [hA2v, hA1v, if_neg hrow_notin]
    by_cases hc : c ∈ qualifying_columns
        (fun adj => inner_region.check_if_node_inside adj spat_mesh.x_cell_size
          spat_mesh.y_cell_size spat_mesh.z_cell_size)
        spat_mesh.x_n_nodes spat_mesh.y_n_nodes spat_mesh.z_n_nodes node
    · rw [if_pos hc, if_pos ⟨node, hnode, rfl, hc⟩]
    · rw [if_neg hc, if_neg]
      rintro ⟨m, hm, e, hcm⟩
      have := idx_injective hn (hnb m hm) e
      rw [← this] at hcm
      exact hc hcm
  have hmask : mat_vec A2 x (idx node spat_mesh.x_n_nodes spat_mesh.y_n_nodes)
      = mat_vec A (fun c => if c ∈ qualifying_columns
            (fun adj => inner_region.check_if_node_inside adj spat_mesh.x_cell_size
              spat_mesh.y_cell_size spat_mesh.z_cell_size)
            spat_mesh.x_n_nodes spat_mesh.y_n_nodes spat_mesh.z_n_nodes node then 0 else x c)
          (idx node spat_mesh.x_n_nodes spat_mesh.y_n_nodes) := by
    unfold mat_vec
    rw [hA2c, hA1c]
    apply Finset.sum_congr rfl
    intro c _
    rw [hrow]
    by_cases hq : (c : Int) ∈ qualifying_columns
        (fun adj => inner_region.check_if_node_inside adj spat_mesh.x_cell_size
          spat_mesh.y_cell_size spat_mesh.z_cell_size)
        spat_mesh.x_n_nodes spat_mesh.y_n_nodes spat_mesh.z_n_nodes node
    · simp only [if_pos hq, zero_mul, mul_zero]
    · simp only [if_neg hq]
  -- the substituted vector
  have hsub : substitute_potential inner_region spat_mesh.x_n_nodes spat_mesh.y_n_nodes node x
      = (fun c => if c ∈ qualifying_columns
            (fun adj => inner_region.check_if_node_inside adj spat_mesh.x_cell_size
              spat_mesh.y_cell_size spat_mesh.z_cell_size)
            spat_mesh.x_n_nodes spat_mesh.y_n_nodes spat_mesh.z_n_nodes node
          then inner_region.potential else x c) := by
    have hl : region_interior_columns inner_region spat_mesh.x_n_nodes spat_mesh.y_n_nodes node
        = qualifying_columns
            (fun adj => inner_region.check_if_node_inside adj spat_mesh.x_cell_size
              spat_mesh.y_cell_size spat_mesh.z_cell_size)
            spat_mesh.x_n_nodes spat_mesh.y_n_nodes spat_mesh.z_n_nodes node := by
      unfold region_interior_columns qualifying_columns
      congr 1
      apply List.filter_congr
      intro a ha
      have h1 := hcls a ha
      simp only [qualifies]
      by_cases hm : a ∈ inner_region.inner_nodes_not_at_domain_edge
      · have := h1.1 hm
        simp [hm, this.1, this.2]
      · have h2 : ¬ (a.at_domain_edge spat_mesh.x_n_nodes spat_mesh.y_n_nodes
            spat_mesh.z_n_nodes = false ∧ inner_region.check_if_node_inside a
              spat_mesh.x_cell_size spat_mesh.y_cell_size spat_mesh.z_cell_size = true) :=
          fun h => hm (h1.2 h)
        simp only [hm, decide_False]
        cases hE : a.at_domain_edge spat_mesh.x_n_nodes spat_mesh.y_n_nodes
            spat_mesh.z_n_nodes
        · cases hI : inner_region.check_if_node_inside a spat_mesh.x_cell_size
              spat_mesh.y_cell_size spat_mesh.z_cell_size
          · rfl
          · exact absurd ⟨hE, hI⟩ h2
        · rfl
    funext c
    simp only [substitute_potential, hl]
  -- the right-hand side at the node
  have hbf : VecSetValues_add
        (fun m => if m ∈ inner_region.inner_nodes_not_at_domain_edge.map
          (fun n => idx n spat_mesh.x_n_nodes spat_mesh.y_n_nodes) then 0 else b m)
        (inner_region.near_boundary_nodes_not_at_domain_edge.map
          (fun n => idx n spat_mesh.x_n_nodes spat_mesh.y_n_nodes))
        (inner_region.near_boundary_nodes_not_at_domain_edge.map
          (rhs_mod_of_node
            (fun adj => inner_region.check_if_node_inside adj spat_mesh.x_cell_size
              spat_mesh.y_cell_size spat_mesh.z_cell_size)
            inner_region.potential spat_mesh.x_n_nodes spat_mesh.y_n_nodes
            spat_mesh.z_n_nodes spat_mesh.x_cell_size spat_mesh.y_cell_size
            spat_mesh.z_cell_size))
        (idx node spat_mesh.x_n_nodes spat_mesh.y_n_nodes)
      = b (idx node spat_mesh.x_n_nodes spat_mesh.y_n_nodes)
        + rhs_mod_of_node
            (fun adj => inner_region.check_if_node_inside adj spat_mesh.x_cell_size
              spat_mesh.y_cell_size spat_mesh.z_cell_size)
            inner_region.potential spat_mesh.x_n_nodes spat_mesh.y_n_nodes
            spat_mesh.z_n_nodes spat_mesh.x_cell_size spat_mesh.y_cell_size
            spat_mesh.z_cell_size node := by
    rw [VecSetValues_add_map, sum_filter_idx_eq _ _ _ spat_mesh.z_n_nodes _ node hnb hn,
      hcount]
    simp only [if_neg hrow_notin, Nat.cast_one, one_mul]
  rw [hbfdef, hbf, hmask, hsub,
    mat_vec_of_stencil A _ _ _ _ _ _ node hn hAc (hAv node hn),
    mat_vec_of_stencil A _ _ _ _ _ _ node hn hAc (hAv node hn)]
  have hd := stencil_apply_diff
    (fun adj => inner_region.check_if_node_inside adj spat_mesh.x_cell_size
      spat_mesh.y_cell_size spat_mesh.z_cell_size)
    spat_mesh.x_n_nodes spat_mesh.y_n_nodes spat_mesh.z_n_nodes
    spat_mesh.x_cell_size spat_mesh.y_cell_size spat_mesh.z_cell_size inner_region.potential
    node hn x
  linear_combination -hd

theorem near_boundary_equation_preserved_witness :
    (4 : Int) ≤ example_mesh.x_n_nodes ∧
    ∃ (A_base A_final : Mat Int) (b_1 b_final : Vec Int),
      construct_equation_matrix_in_full_domain (zero_matrix 27 27) 5 5 5 (1 : Int) 1 1
        = some A_base ∧
      construct_equation_matrix (zero_matrix 27 27) 5 5 5 (1 : Int) 1 1
        ⟨[example_region]⟩ ⟨[]⟩ = some A_final ∧
      init_rhs_vector_in_full_domain 3 example_mesh (fun _ => 0) = some b_1 ∧
      init_rhs_vector 3 example_mesh (fun _ => 0) ⟨[example_region]⟩ ⟨[]⟩ = some b_final ∧
      ∃ r, node_global_index_in_matrix ⟨1, 2, 2⟩ 5 5 5 = some r ∧
        ∀ x : Vec Int,
          mat_vec A_final x r - b_final r
            = mat_vec A_base (substitute_potential example_region 5 5 ⟨1, 2, 2⟩ x) r
              - b_1 r := by
  refine ⟨by decide, ?_⟩
  obtain ⟨A, A2, b, bf, h1, h2, h3, h4, h5⟩ :=
    near_boundary_equation_preserved (3 : Int) example_mesh (fun _ => 0) example_region
      (by decide) (by decide) (by decide) (by decide) (by decide)
  exact ⟨A, A2, b, bf, h1, h2, h3, h4,
    h5 ⟨1, 2, 2⟩ (by decide) (by decide) (by decide) (by decide)⟩

end Claim1

section StencilEntries
variable {R : Type} [CommRing R] [DecidableEq R]

theorem idx_eq_shift_iff {nx ny nz : Int} {p q p' : Node_reference} (d : Int)
    (hq : interior q nx ny nz) (cond : Prop) (hs : idx p' nx ny = idx p nx ny + d)
    (hc : cond ↔ interior p' nx ny nz) :
    (idx q nx ny = idx p nx ny + d ∧ cond) ↔ q = p' := by
  constructor
  · rintro ⟨h1, h2⟩
    exact idx_injective hq (hc.1 h2) (by rw [h1, hs])
  · rintro rfl
    exact ⟨hs, hc.2 hq⟩

/-- On a grid with at least four nodes along each axis the entries of the base
operator between interior nodes are those of the 7-point stencil. -/
theorem base_operator_entries (nx ny nz : Int) (dx dy dz : R)
    (hx : 4 ≤ nx) (hy : 4 ≤ ny) (hz : 4 ≤ nz) :
    ∃ A : Mat R, construct_equation_matrix_in_full_domain
        (zero_matrix ((nx - 2) * (ny - 2) * (nz - 2)) ((nx - 2) * (ny - 2) * (nz - 2)))
        nx ny nz dx dy dz = some A ∧
      ∀ p q : Node_reference, interior p nx ny nz → interior q nx ny nz →
        A.val (idx p nx ny) (idx q nx ny)
          = if q = p then -2 * (dy * dy * dz * dz + dx * dx * dz * dz + dx * dx * dy * dy)
            else if q = ⟨p.x + 1, p.y, p.z⟩ ∨ q = ⟨p.x - 1, p.y, p.z⟩ then dy * dy * dz * dz
            else if q = ⟨p.x, p.y + 1, p.z⟩ ∨ q = ⟨p.x, p.y - 1, p.z⟩ then dx * dx * dz * dz
            else if q = ⟨p.x, p.y, p.z + 1⟩ ∨ q = ⟨p.x, p.y, p.z - 1⟩ then dx * dx * dy * dy
            else 0 := by
  obtain ⟨A, hA, _, _, hAv⟩ := construct_equation_matrix_in_full_domain_eq nx ny nz dx dy dz
    hx hy hz
  refine ⟨A, hA, ?_⟩
  intro p q hp hq
  rw [hAv p hp]
  obtain ⟨p1, p2, p3, p4, p5, p6⟩ := id hp
  have sx1 := idx_shift_x p nx ny 1
  have sx2 := idx_shift_x p nx ny (-1)
  have sy1 := idx_shift_y p nx ny 1
  have sy2 := idx_shift_y p nx ny (-1)
  have sz1 := idx_shift_z p nx ny 1
  have sz2 := idx_shift_z p nx ny (-1)
  simp only [one_mul, neg_one_mul, ← sub_eq_add_neg] at sx1 sx2 sy1 sy2 sz1 sz2
  have c0 : (idx q nx ny = idx p nx ny) ↔ q = p :=
    ⟨fun h => idx_injective hq hp h, fun h => by rw [h]⟩
  have cxp := idx_eq_shift_iff (p := p) 1 hq (p.x - 1 + 1 < nx - 2) sx1
    (by simp only [interior]; constructor
        · intro h; exact ⟨by omega, by omega, p3, p4, p5, p6⟩
        · intro h; have := h.2.1; omega)
  have cxm := idx_eq_shift_iff (p := p) (-1) hq (0 < p.x - 1) sx2
    (by simp only [interior]; constructor
        · intro h; exact ⟨by omega, by omega, p3, p4, p5, p6⟩
        · intro h; have := h.1; omega)
  have cyp := idx_eq_shift_iff (p := p) (nx - 2) hq (p.y - 1 + 1 < ny - 2) sy1
    (by simp only [interior]; constructor
        · intro h; exact ⟨p1, p2, by omega, by omega, p5, p6⟩
        · intro h; have := h.2.2.2.1; omega)
  have cym := idx_eq_shift_iff (p := p) (-(nx - 2)) hq (0 < p.y - 1) sy2
    (by simp only [interior]; constructor
        · intro h; exact ⟨p1, p2, by omega, by omega, p5, p6⟩
        · intro h; have := h.2.2.1; omega)
  have czp := idx_eq_shift_iff (p := p) ((nx - 2) * (ny - 2)) hq (p.z - 1 + 1 < nz - 2) sz1
    (by simp only [interior]; constructor
        · intro h; exact ⟨p1, p2, p3, p4, by omega, by omega⟩
        · intro h; have := h.2.2.2.2.2; omega)
  have czm := idx_eq_shift_iff (p := p) (-((nx - 2) * (ny - 2))) hq (0 < p.z - 1) sz2
    (by simp only [interior]; constructor
        · intro h; exact ⟨p1, p2, p3, p4, by omega, by omega⟩
        · intro h; have := h.2.2.2.2.1; omega)
  simp only [← sub_eq_add_neg] at cxm cym czm
  simp only [stencil_entry, band, c0, cxp, cxm, cyp, cym, czp, czm]
  cases p with
  | mk a b c =>
    cases q with
    | mk a' b' c' =>
      simp only [Node_reference.mk.injEq]
      by_cases h0 : a' = a ∧ b' = b ∧ c' = c
      · obtain ⟨e1, e2, e3⟩ := h0
        clear hq c0 cxp cxm cyp cym czp czm hAv
        subst e1 e2 e3
        repeat (first | rw [if_pos (by omega)] | rw [if_neg (by omega)])
        ring
      by_cases h1 : a' = a + 1 ∧ b' = b ∧ c' = c
      · obtain ⟨e1, e2, e3⟩ := h1
        clear h0
        clear hq c0 cxp cxm cyp cym czp czm hAv
        subst e1 e2 e3
        repeat (first | rw [if_pos (by omega)] | rw [if_neg (by omega)])
        ring
      by_cases h2 : a' = a - 1 ∧ b' = b ∧ c' = c
      · obtain ⟨e1, e2, e3⟩ := h2
        clear h0 h1
        clear hq c0 cxp cxm cyp cym czp czm hAv
        subst e1 e2 e3
        repeat (first | rw [if_pos (by omega)] | rw [if_neg (by omega)])
        ring
      by_cases h3 : a' = a ∧ b' = b + 1 ∧ c' = c
      · obtain ⟨e1, e2, e3⟩ := h3
        clear h0 h1 h2
        clear hq c0 cxp cxm cyp cym czp czm hAv
        subst e1 e2 e3
        repeat (first | rw [if_pos (by omega)] | rw [if_neg (by omega)])
        ring
      by_cases h4 : a' = a ∧ b' = b - 1 ∧ c' = c
      · obtain ⟨e1, e2, e3⟩ := h4
        clear h0 h1 h2 h3
        clear hq c0 cxp cxm cyp cym czp czm hAv
        subst e1 e2 e3
        repeat (first | rw [if_pos (by omega)] | rw [if_neg (by omega)])
        ring
      by_cases h5 : a' = a ∧ b' = b ∧ c' = c + 1
      · obtain ⟨e1, e2, e3⟩ := h5
        clear h0 h1 h2 h3 h4
        clear hq c0 cxp cxm cyp cym czp czm hAv
        subst e1 e2 e3
        repeat (first | rw [if_pos (by omega)] | rw [if_neg (by omega)])
        ring
      by_cases h6 : a' = a ∧ b' = b ∧ c' = c - 1
      · obtain ⟨e1, e2, e3⟩ := h6
        clear h0 h1 h2 h3 h4 h5
        clear hq c0 cxp cxm cyp cym czp czm hAv
        subst e1 e2 e3
        repeat (first | rw [if_pos (by omega)] | rw [if_neg (by omega)])
        ring
      · simp only [h0, h1, h2, h3, h4, h5, h6, if_false, or_self]
        ring

end StencilEntries

section SolverHelpers
variable {R : Type} [CommRing R] [DecidableEq R]

theorem fill_at_nodes_eq_some (nx ny nz : Int) (nodes : List Node_reference) (v v' : Vec R)
    (y : R)
    (h : (match list_of_nodes_global_indices_in_matrix nodes nx ny nz with
      | none => none
      | some ixs =>
        if ixs.length ≠ 0 then
          some (VecSetValues_insert v ixs (List.replicate ixs.length y))
        else some v) = some v') :
    (∀ n ∈ nodes, interior n nx ny nz) ∧
    ∀ m, v' m = if m ∈ nodes.map (fun n => idx n nx ny) then y else v m := by
  split at h
  · exact absurd h (by simp)
  · rename_i ixs hixs
    obtain ⟨hall, rfl⟩ := (list_of_nodes_eq_some_iff _ _ _ _ _).1 hixs
    refine ⟨hall, ?_⟩
    intro m
    split at h
    · simp only [Option.some.injEq] at h
      rw [← h, VecSetValues_insert_replicate _ _ _ _ (le_refl _)]
    · rename_i hlen
      simp only [Option.some.injEq] at h
      have : nodes = [] := by simpa using hlen
      subst this
      rw [← h]; simp

theorem fill_at_nodes_exists (nx ny nz : Int) (nodes : List Node_reference) (v : Vec R) (y : R)
    (hall : ∀ n ∈ nodes, interior n nx ny nz) :
    (match list_of_nodes_global_indices_in_matrix nodes nx ny nz with
      | none => none
      | some ixs =>
        if ixs.length ≠ 0 then
          some (VecSetValues_insert v ixs (List.replicate ixs.length y))
        else some v)
      = some (fun m => if m ∈ nodes.map (fun n => idx n nx ny) then y else v m) := by
  rw [(list_of_nodes_eq_some_iff nodes nx ny nz _).2 ⟨hall, rfl⟩]
  simp only []
  split
  · congr 1
    funext m
    rw [VecSetValues_insert_replicate _ _ _ _ (le_refl _)]
  · rename_i hlen
    have : nodes = [] := by simpa using hlen
    rw [this]
    simp

theorem mem_interior_triples (nx ny nz : Int) (t : (Int × Int) × Int) :
    t ∈ (((loop_from_to 1 (nz - 2)).flatMap (fun k =>
          (loop_from_to 1 (ny - 2)).map (fun j => (k, j)))).flatMap
          (fun q => (loop_from_to 1 (nx - 2)).map (fun i => (q, i))))
      ↔ interior ⟨t.2, t.1.2, t.1.1⟩ nx ny nz := by
  obtain ⟨⟨k, j⟩, i⟩ := t
  simp only [List.mem_flatMap, List.mem_map, mem_loop_from_to, Prod.mk.injEq, interior,
    Prod.exists]
  constructor
  · rintro ⟨k', j', ⟨k'', hk, j'', hj, e1, e2⟩, i', hi, ⟨e3, e4⟩, e5⟩
    subst e1 e2 e3 e4 e5
    omega
  · intro h
    exact ⟨k, j, ⟨k, by omega, j, by omega, rfl, rfl⟩, i, by omega, ⟨rfl, rfl⟩, rfl⟩

theorem foldlM_potential_updates (nx ny nz : Int) (phi : Vec R) (l : List ((Int × Int) × Int))
    (spat_mesh : Spatial_mesh R)
    (hl : ∀ t ∈ l, interior ⟨t.2, t.1.2, t.1.1⟩ nx ny nz) :
    ∃ m', l.foldlM (fun (m : Spatial_mesh R) (t : (Int × Int) × Int) =>
        match node_ijk_to_global_index_in_matrix t.2 t.1.2 t.1.1 nx ny nz with
        | none => none
        | some ix =>
          some { m with potential := set_at m.potential t.2 t.1.2 t.1.1 (phi ix) })
        spat_mesh = some m' ∧
      m'.x_n_nodes = spat_mesh.x_n_nodes ∧ m'.y_n_nodes = spat_mesh.y_n_nodes ∧
      m'.z_n_nodes = spat_mesh.z_n_nodes ∧ m'.x_cell_size = spat_mesh.x_cell_size ∧
      m'.y_cell_size = spat_mesh.y_cell_size ∧ m'.z_cell_size = spat_mesh.z_cell_size ∧
      m'.charge_density = spat_mesh.charge_density ∧
      m'.electric_field = spat_mesh.electric_field ∧
      ∀ i j k, m'.potential i j k
        = if ((k, j), i) ∈ l then phi (idx ⟨i, j, k⟩ nx ny) else spat_mesh.potential i j k := by
  induction l generalizing spat_mesh with
  | nil =>
    exact ⟨spat_mesh, rfl, rfl, rfl, rfl, rfl, rfl, rfl, rfl, rfl, fun i j k => by simp⟩
  | cons t l ih =>
    have ht := hl t (List.mem_cons_self _ _)
    have hix : node_ijk_to_global_index_in_matrix t.2 t.1.2 t.1.1 nx ny nz
        = some (idx ⟨t.2, t.1.2, t.1.1⟩ nx ny) := node_index_of_interior ht
    obtain ⟨m', h1, h2, h3, h4, h5, h6, h7, h8, h9, h10⟩ :=
      ih { spat_mesh with potential := (set_at spat_mesh.potential t.2 t.1.2 t.1.1
        (phi (idx ⟨t.2, t.1.2, t.1.1⟩ nx ny))) }
        (fun s hs => hl s (List.mem_cons_of_mem _ hs))
    refine ⟨m', ?_, h2, h3, h4, h5, h6, h7, h8, h9, ?_⟩
    · rw [List.foldlM_cons]
      simp only [hix, Option.some_bind, bind]
      exact h1
    · intro i j k
      rw [h10]
      by_cases hm : ((k, j), i) ∈ l
      · rw [if_pos hm, if_pos (List.mem_cons_of_mem _ hm)]
      · rw [if_neg hm]
        simp only [set_at]
        by_cases he : i = t.2 ∧ j = t.1.2 ∧ k = t.1.1
        · obtain ⟨e1, e2, e3⟩ := he
          have : ((k, j), i) = t := by
            obtain ⟨⟨tk, tj⟩, ti⟩ := t
            simp only [] at e1 e2 e3
            rw [e1, e2, e3]
          rw [if_pos ⟨e1, e2, e3⟩, if_pos (by rw [this]; exact List.mem_cons_self _ _), e1, e2, e3]
        · rw [if_neg he, if_neg]
          intro hmem
          rcases List.mem_cons.1 hmem with h | h
          · apply he
            rw [← h]
            exact ⟨rfl, rfl, rfl⟩
          · exact hm h

/-- What `transfer_solution_to_spat_mesh` does: it always completes, the
potential becomes the solution entry at interior nodes and nothing else
changes. -/
theorem transfer_solution_eq (phi : Vec R) (spat_mesh : Spatial_mesh R) :
    ∃ m', transfer_solution_to_spat_mesh phi spat_mesh = some m' ∧
      m'.x_n_nodes = spat_mesh.x_n_nodes ∧ m'.y_n_nodes = spat_mesh.y_n_nodes ∧
      m'.z_n_nodes = spat_mesh.z_n_nodes ∧ m'.x_cell_size = spat_mesh.x_cell_size ∧
      m'.y_cell_size = spat_mesh.y_cell_size ∧ m'.z_cell_size = spat_mesh.z_cell_size ∧
      m'.charge_density = spat_mesh.charge_density ∧
      m'.electric_field = spat_mesh.electric_field ∧
      ∀ i j k, m'.potential i j k
        = if interior ⟨i, j, k⟩ spat_mesh.x_n_nodes spat_mesh.y_n_nodes spat_mesh.z_n_nodes
          then phi (idx ⟨i, j, k⟩ spat_mesh.x_n_nodes spat_mesh.y_n_nodes)
          else spat_mesh.potential i j k := by
  obtain ⟨m', h1, h2, h3, h4, h5, h6, h7, h8, h9, h10⟩ := foldlM_potential_updates
    spat_mesh.x_n_nodes spat_mesh.y_n_nodes spat_mesh.z_n_nodes phi
    (((loop_from_to 1 (spat_mesh.z_n_nodes - 2)).flatMap (fun k =>
        (loop_from_to 1 (spat_mesh.y_n_nodes - 2)).map (fun j => (k, j)))).flatMap
        (fun q => (loop_from_to 1 (spat_mesh.x_n_nodes - 2)).map (fun i => (q, i))))
    spat_mesh (fun t ht => (mem_interior_triples _ _ _ t).1 ht)
  refine ⟨m', ?_, h2, h3, h4, h5, h6, h7, h8, h9, ?_⟩
  · rw [← h1]
    unfold transfer_solution_to_spat_mesh
    simp only []
    rw [foldlM_nested, foldlM_nested]
  · intro i j k
    rw [h10]
    by_cases h : interior ⟨i, j, k⟩ spat_mesh.x_n_nodes spat_mesh.y_n_nodes
        spat_mesh.z_n_nodes
    · rw [if_pos h, if_pos ((mem_interior_triples _ _ _ ((k, j), i)).2 h)]
    · rw [if_neg h, if_neg (fun hm => h ((mem_interior_triples _ _ _ ((k, j), i)).1 hm))]

end SolverHelpers

section Claims14to15
variable {R : Type} [CommRing R] [DecidableEq R]

/-- C14: `set_solution_at_nodes_of_inner_regions` for a region: when the nodes of
`inner_nodes_not_at_domain_edge` are interior nodes the call succeeds; and
whenever it succeeds, the solution vector at the index of every node of
`inner_nodes_not_at_domain_edge` is the potential of the region, and every
other entry of the solution vector is unchanged. -/
theorem set_solution_at_inner_nodes (spat_mesh : Spatial_mesh R) (phi_vec : Vec R)
    (inner_region : Inner_region R) :
    ((∀ node ∈ inner_region.inner_nodes_not_at_domain_edge,
        interior node spat_mesh.x_n_nodes spat_mesh.y_n_nodes spat_mesh.z_n_nodes) →
      ∃ v, set_solution_at_nodes_of_inner_regions spat_mesh phi_vec inner_region = some v) ∧
    (∀ v, set_solution_at_nodes_of_inner_regions spat_mesh phi_vec inner_region = some v →
      (∀ node ∈ inner_region.inner_nodes_not_at_domain_edge,
        ∃ ix, node_global_index_in_matrix node spat_mesh.x_n_nodes spat_mesh.y_n_nodes
            spat_mesh.z_n_nodes = some ix ∧ v ix = inner_region.potential) ∧
      (∀ n, (∀ node ∈ inner_region.inner_nodes_not_at_domain_edge,
          node_global_index_in_matrix node spat_mesh.x_n_nodes spat_mesh.y_n_nodes
            spat_mesh.z_n_nodes ≠ some n) → v n = phi_vec n)) := by
  refine ⟨?_, ?_⟩
  · intro hall
    exact ⟨_, fill_at_nodes_exists _ _ _ _ phi_vec inner_region.potential hall⟩
  · intro v h
    obtain ⟨hall, hv⟩ := fill_at_nodes_eq_some _ _ _ _ phi_vec v inner_region.potential h
    refine ⟨?_, ?_⟩
    · intro node hn
      refine ⟨_, node_index_of_interior (hall node hn), ?_⟩
      rw [hv, if_pos (List.mem_map_of_mem _ hn)]
    · intro n hn
      rw [hv, if_neg]
      intro hm
      obtain ⟨node, hnode, rfl⟩ := List.mem_map.1 hm
      exact hn node hnode (node_index_of_interior (hall node hnode))

theorem set_solution_at_inner_nodes_witness :
    ∃ v, set_solution_at_nodes_of_inner_regions example_mesh (fun _ => 7) example_region
      = some v :=
  (set_solution_at_inner_nodes example_mesh (fun _ => 7) example_region).1 (by decide)

/-- C15: `transfer_solution_to_spat_mesh` always completes; afterwards the
potential at every interior node `(i,j,k)` is the entry of the solution vector
at the index of that node, and the potential at every domain-edge node (an
index equal to `0` or to `n - 1`) is the one the mesh had before. -/
theorem transfer_solution_sets_interior_only (phi_vec : Vec R) (spat_mesh : Spatial_mesh R) :
    ∃ m, transfer_solution_to_spat_mesh phi_vec spat_mesh = some m ∧
      (∀ i j k, interior ⟨i, j, k⟩ spat_mesh.x_n_nodes spat_mesh.y_n_nodes
          spat_mesh.z_n_nodes →
        ∃ ix, node_ijk_to_global_index_in_matrix i j k spat_mesh.x_n_nodes
            spat_mesh.y_n_nodes spat_mesh.z_n_nodes = some ix ∧
          m.potential i j k = phi_vec ix) ∧
      (∀ i j k, (i = 0 ∨ i = spat_mesh.x_n_nodes - 1 ∨ j = 0 ∨ j = spat_mesh.y_n_nodes - 1 ∨
          k = 0 ∨ k = spat_mesh.z_n_nodes - 1) →
        m.potential i j k = spat_mesh.potential i j k) := by
  obtain ⟨m, h1, _, _, _, _, _, _, _, _, h10⟩ := transfer_solution_eq phi_vec spat_mesh
  refine ⟨m, h1, ?_, ?_⟩
  · intro i j k h
    refine ⟨_, node_index_of_interior h, ?_⟩
    rw [h10, if_pos h]
  · intro i j k h
    rw [h10, if_neg]
    intro hi
    simp only [interior] at hi
    omega

theorem transfer_solution_sets_interior_only_witness :
    ∃ m, transfer_solution_to_spat_mesh (fun n => n + 100) example_mesh = some m ∧
      m.potential 2 1 1 = 101 ∧ m.potential 0 3 1 = 1 := by
  obtain ⟨m, h, h1, h2⟩ :=
    transfer_solution_sets_interior_only (fun n => n + 100) example_mesh
  refine ⟨m, h, ?_, ?_⟩
  · obtain ⟨ix, hix, e⟩ := h1 2 1 1 (by decide)
    have h0 : some ix = some 1 := hix.symm.trans (by decide)
    rw [e, Option.some.inj h0]
    rfl
  · rw [h2 0 3 1 (Or.inl rfl)]
    decide

end Claims14to15

section FieldLemmas
variable {R : Type} [Field R]

theorem foldl_nested {α β γ : Type} (l1 : List α) (l2 : List β) (f : γ → α → β → γ) (s : γ) :
    l1.foldl (fun s a => l2.foldl (fun s b => f s a b) s) s
      = (l1.flatMap (fun a => l2.map (fun b => (a, b)))).foldl (fun s p => f s p.1 p.2) s := by
  induction l1 generalizing s with
  | nil => rfl
  | cons a l1 ih =>
    rw [List.foldl_cons, List.flatMap_cons, List.foldl_append, List.foldl_map]
    exact ih _

theorem mem_grid_triples (nx ny nz : Int) (t : (Int × Int) × Int) :
    t ∈ (((loop_from_to 0 (nx - 1)).flatMap (fun i =>
          (loop_from_to 0 (ny - 1)).map (fun j => (i, j)))).flatMap
          (fun q => (loop_from_to 0 (nz - 1)).map (fun k => (q, k))))
      ↔ (0 ≤ t.1.1 ∧ t.1.1 < nx) ∧ (0 ≤ t.1.2 ∧ t.1.2 < ny) ∧ (0 ≤ t.2 ∧ t.2 < nz) := by
  obtain ⟨⟨i, j⟩, k⟩ := t
  simp only [List.mem_flatMap, List.mem_map, mem_loop_from_to, Prod.mk.injEq, Prod.exists]
  constructor
  · rintro ⟨i', j', ⟨i'', hi, j'', hj, e1, e2⟩, k', hk, ⟨e3, e4⟩, e5⟩
    subst e1 e2 e3 e4 e5
    omega
  · intro h
    exact ⟨i, j, ⟨i, by omega, j, by omega, rfl, rfl⟩, k, by omega, ⟨rfl, rfl⟩, rfl⟩

theorem foldl_field_updates (F : Int → Int → Int → R × R × R) (l : List ((Int × Int) × Int))
    (spat_mesh : Spatial_mesh R) :
    (l.foldl (fun (m : Spatial_mesh R) (t : (Int × Int) × Int) =>
        { m with electric_field := (set_at m.electric_field t.1.1 t.1.2 t.2
            (F t.1.1 t.1.2 t.2)) }) spat_mesh).potential = spat_mesh.potential ∧
    ∀ i j k, (l.foldl (fun (m : Spatial_mesh R) (t : (Int × Int) × Int) =>
        { m with electric_field := (set_at m.electric_field t.1.1 t.1.2 t.2
            (F t.1.1 t.1.2 t.2)) }) spat_mesh).electric_field i j k
      = if ((i, j), k) ∈ l then F i j k else spat_mesh.electric_field i j k := by
  induction l generalizing spat_mesh with
  | nil => exact ⟨rfl, fun i j k => by simp⟩
  | cons t l ih =>
    rw [List.foldl_cons]
    obtain ⟨h1, h2⟩ := ih { spat_mesh with electric_field :=
      (set_at spat_mesh.electric_field t.1.1 t.1.2 t.2 (F t.1.1 t.1.2 t.2)) }
    refine ⟨h1, ?_⟩
    intro i j k
    rw [h2]
    by_cases hm : ((i, j), k) ∈ l
    · rw [if_pos hm, if_pos (List.mem_cons_of_mem _ hm)]
    · rw [if_neg hm]
      simp only [set_at]
      by_cases he : i = t.1.1 ∧ j = t.1.2 ∧ k = t.2
      · obtain ⟨e1, e2, e3⟩ := he
        have : ((i, j), k) = t := by
          obtain ⟨⟨ti, tj⟩, tk⟩ := t
          simp only [] at e1 e2 e3
          rw [e1, e2, e3]
        rw [if_pos ⟨e1, e2, e3⟩, if_pos (by rw [this]; exact List.mem_cons_self _ _), e1, e2, e3]
      · rw [if_neg he, if_neg]
        intro hmem
        rcases List.mem_cons.1 hmem with h | h
        · apply he
          rw [← h]
          exact ⟨rfl, rfl, rfl⟩
        · exact hm h

/-- What `eval_fields_from_potential` does: the potential is untouched and the
field at every node of the grid is the vector of `field_at_node`, computed
from the potential the mesh had at the call. -/
theorem eval_fields_from_potential_eq (spat_mesh : Spatial_mesh R) :
    (eval_fields_from_potential spat_mesh).potential = spat_mesh.potential ∧
    ∀ i j k, (eval_fields_from_potential spat_mesh).electric_field i j k
      = if (0 ≤ i ∧ i < spat_mesh.x_n_nodes) ∧ (0 ≤ j ∧ j < spat_mesh.y_n_nodes) ∧
          (0 ≤ k ∧ k < spat_mesh.z_n_nodes)
        then field_at_node spat_mesh.x_n_nodes spat_mesh.y_n_nodes spat_mesh.z_n_nodes
          spat_mesh.x_cell_size spat_mesh.y_cell_size spat_mesh.z_cell_size
          spat_mesh.potential i j k
        else spat_mesh.electric_field i j k := by
  obtain ⟨h1, h2⟩ := foldl_field_updates
    (field_at_node spat_mesh.x_n_nodes spat_mesh.y_n_nodes spat_mesh.z_n_nodes
      spat_mesh.x_cell_size spat_mesh.y_cell_size spat_mesh.z_cell_size spat_mesh.potential)
    (((loop_from_to 0 (spat_mesh.x_n_nodes - 1)).flatMap (fun i =>
        (loop_from_to 0 (spat_mesh.y_n_nodes - 1)).map (fun j => (i, j)))).flatMap
        (fun q => (loop_from_to 0 (spat_mesh.z_n_nodes - 1)).map (fun k => (q, k))))
    spat_mesh
  have e : eval_fields_from_potential spat_mesh = _ :=
    (foldl_nested _ _ _ _).trans (foldl_nested _ _ _ _)
  rw [e]
  refine ⟨h1, ?_⟩
  intro i j k
  rw [h2]
  by_cases h : (0 ≤ i ∧ i < spat_mesh.x_n_nodes) ∧ (0 ≤ j ∧ j < spat_mesh.y_n_nodes) ∧
      (0 ≤ k ∧ k < spat_mesh.z_n_nodes)
  · rw [if_pos h, if_pos ((mem_grid_triples _ _ _ ((i, j), k)).2 h)]
  · rw [if_neg h, if_neg (fun hm => h ((mem_grid_triples _ _ _ ((i, j), k)).1 hm))]

end FieldLemmas

section Claims16to18
variable {R : Type} [Field R]

/-- C16: after `eval_fields_from_potential`, at every node `(i,j,k)` of the grid
each field component whose index is strictly between `0` and `n - 1` along its
axis is `-(phi_next - phi_prev) / (2 * cell_size)`, with `phi_next` and
`phi_prev` the potentials of the two neighbours along that axis; the condition
and the value of a component involve its own axis only. -/
theorem eval_fields_central_difference (spat_mesh : Spatial_mesh R) (i j k : Int)
    (hi : 0 ≤ i ∧ i < spat_mesh.x_n_nodes) (hj : 0 ≤ j ∧ j < spat_mesh.y_n_nodes)
    (hk : 0 ≤ k ∧ k < spat_mesh.z_n_nodes) :
    ((0 < i ∧ i < spat_mesh.x_n_nodes - 1) →
      ((eval_fields_from_potential spat_mesh).electric_field i j k).1
        = -((spat_mesh.potential (i + 1) j k - spat_mesh.potential (i - 1) j k)
            / (2 * spat_mesh.x_cell_size))) ∧
    ((0 < j ∧ j < spat_mesh.y_n_nodes - 1) →
      ((eval_fields_from_potential spat_mesh).electric_field i j k).2.1
        = -((spat_mesh.potential i (j + 1) k - spat_mesh.potential i (j - 1) k)
            / (2 * spat_mesh.y_cell_size))) ∧
    ((0 < k ∧ k < spat_mesh.z_n_nodes - 1) →
      ((eval_fields_from_potential spat_mesh).electric_field i j k).2.2
        = -((spat_mesh.potential i j (k + 1) - spat_mesh.potential i j (k - 1))
            / (2 * spat_mesh.z_cell_size))) := by
  rw [(eval_fields_from_potential_eq spat_mesh).2, if_pos ⟨hi, hj, hk⟩]
  refine ⟨?_, ?_, ?_⟩
  · intro h
    simp only [field_at_node]
    rw [if_neg (by omega), if_neg (by omega)]
    rfl
  · intro h
    simp only [field_at_node]
    rw [if_neg (by omega), if_neg (by omega)]
    rfl
  · intro h
    simp only [field_at_node]
    rw [if_neg (by omega), if_neg (by omega)]
    rfl

theorem eval_fields_central_difference_witness :
    ((eval_fields_from_potential ramp_mesh).electric_field 1 1 1).1
      = -((ramp_mesh.potential (1 + 1) 1 1 - ramp_mesh.potential (1 - 1) 1 1)
          / (2 * ramp_mesh.x_cell_size)) :=
  (eval_fields_central_difference ramp_mesh 1 1 1 (by decide) (by decide) (by decide)).1
    (by decide)

/-- C17 (amended): after `eval_fields_from_potential`, at every node `(i,j,k)` of
the grid a field component at index `0` of its axis is
`-(phi_neighbour - phi_self) / cell_size`, and a component at index `n - 1` of
its axis (on an axis with more than one node) is
`-(phi_self - phi_neighbour) / cell_size`: in both cases minus the forward
difference quotient, the potential at the higher index minus the potential at
the lower index. -/
theorem eval_fields_boundary_difference (spat_mesh : Spatial_mesh R) (i j k : Int)
    (hi : 0 ≤ i ∧ i < spat_mesh.x_n_nodes) (hj : 0 ≤ j ∧ j < spat_mesh.y_n_nodes)
    (hk : 0 ≤ k ∧ k < spat_mesh.z_n_nodes) :
    ((i = 0 →
      ((eval_fields_from_potential spat_mesh).electric_field i j k).1
        = -((spat_mesh.potential (i + 1) j k - spat_mesh.potential i j k)
            / spat_mesh.x_cell_size)) ∧
     (i = spat_mesh.x_n_nodes - 1 ∧ i ≠ 0 →
      ((eval_fields_from_potential spat_mesh).electric_field i j k).1
        = -((spat_mesh.potential i j k - spat_mesh.potential (i - 1) j k)
            / spat_mesh.x_cell_size))) ∧
    ((j = 0 →
      ((eval_fields_from_potential spat_mesh).electric_field i j k).2.1
        = -((spat_mesh.potential i (j + 1) k - spat_mesh.potential i j k)
            / spat_mesh.y_cell_size)) ∧
     (j = spat_mesh.y_n_nodes - 1 ∧ j ≠ 0 →
      ((eval_fields_from_potential spat_mesh).electric_field i j k).2.1
        = -((spat_mesh.potential i j k - spat_mesh.potential i (j - 1) k)
            / spat_mesh.y_cell_size))) ∧
    ((k = 0 →
      ((eval_fields_from_potential spat_mesh).electric_field i j k).2.2
        = -((spat_mesh.potential i j (k + 1) - spat_mesh.potential i j k)
            / spat_mesh.z_cell_size)) ∧
     (k = spat_mesh.z_n_nodes - 1 ∧ k ≠ 0 →
      ((eval_fields_from_potential spat_mesh).electric_field i j k).2.2
        = -((spat_mesh.potential i j k - spat_mesh.potential i j (k - 1))
            / spat_mesh.z_cell_size))) := by
  rw [(eval_fields_from_potential_eq spat_mesh).2, if_pos ⟨hi, hj, hk⟩]
  refine ⟨⟨?_, ?_⟩, ⟨?_, ?_⟩, ⟨?_, ?_⟩⟩
  · intro h
    simp only [field_at_node]
    rw [if_pos h]
    rfl
  · intro h
    simp only [field_at_node]
    rw [if_neg h.2, if_pos h.1]
    rfl
  · intro h
    simp only [field_at_node]
    rw [if_pos h]
    rfl
  · intro h
    simp only [field_at_node]
    rw [if_neg h.2, if_pos h.1]
    rfl
  · intro h
    simp only [field_at_node]
    rw [if_pos h]
    rfl
  · intro h
    simp only [field_at_node]
    rw [if_neg h.2, if_pos h.1]
    rfl

theorem eval_fields_boundary_difference_witness :
    ((eval_fields_from_potential ramp_mesh).electric_field 2 1 1).1
      = -((ramp_mesh.potential 2 1 1 - ramp_mesh.potential (2 - 1) 1 1)
          / ramp_mesh.x_cell_size) :=
  (eval_fields_boundary_difference ramp_mesh 2 1 1 (by decide) (by decide) (by decide)).1.2
    (by decide)

/-- C17 (counterexample to the claim as written): on the 3x3x3 ramp mesh, at the
node `(2,1,1)` at the upper extreme of the x axis, the x component set by
`eval_fields_from_potential` is `-5`, whereas
`-(phi_neighbour - phi_self) / cell_size` with `phi_self` the potential at
`(2,1,1)` and `phi_neighbour` the potential at its single x neighbour `(1,1,1)`
is `5`. -/
theorem eval_fields_upper_extreme_sign :
    ((eval_fields_from_potential ramp_mesh).electric_field 2 1 1).1 = -5 ∧
    -((ramp_mesh.potential 1 1 1 - ramp_mesh.potential 2 1 1) / ramp_mesh.x_cell_size) = 5 ∧
    ((eval_fields_from_potential ramp_mesh).electric_field 2 1 1).1
      ≠ -((ramp_mesh.potential 1 1 1 - ramp_mesh.potential 2 1 1)
          / ramp_mesh.x_cell_size) := by
  have h1 : ((eval_fields_from_potential ramp_mesh).electric_field 2 1 1).1 = -5 := by
    rw [(eval_fields_from_potential_eq ramp_mesh).2, if_pos (by decide)]
    simp only [field_at_node, ramp_mesh, boundary_difference]
    norm_num
  have h2 : -((ramp_mesh.potential 1 1 1 - ramp_mesh.potential 2 1 1)
      / ramp_mesh.x_cell_size) = 5 := by
    simp only [ramp_mesh]
    norm_num
  refine ⟨h1, h2, ?_⟩
  rw [h1, h2]
  norm_num

/-- With nonzero cell sizes (and `2` nonzero in the field) every quotient of
the body of the loops of `eval_fields_from_potential` has a nonzero divisor,
and the vector stored at a node is the one of `field_at_node`. -/
theorem field_at_node_checked_eq_some [DecidableEq R] (nx ny nz : Int) (dx dy dz : R)
    (phi : Int → Int → Int → R) (i j k : Int) (h2 : (2 : R) ≠ 0)
    (hdx : dx ≠ 0) (hdy : dy ≠ 0) (hdz : dz ≠ 0) :
    field_at_node_checked nx ny nz dx dy dz phi i j k
      = some (field_at_node nx ny nz dx dy dz phi i j k) := by
  have ex : 2 * dx ≠ 0 := mul_ne_zero h2 hdx
  have ey : 2 * dy ≠ 0 := mul_ne_zero h2 hdy
  have ez : 2 * dz ≠ 0 := mul_ne_zero h2 hdz
  unfold field_at_node_checked field_at_node central_difference_checked
    boundary_difference_checked quotient_of_doubles central_difference boundary_difference
  simp only [if_neg hdx, if_neg hdy, if_neg hdz, if_neg ex, if_neg ey, if_neg ez,
    Option.map_some']
  split_ifs <;> rfl

/-- C18 (counterexample to the claim as written): the 3x3x3 mesh with `dx = 2`,
`dy = 0`, `dz = 1` and the potential `5 * (i * dx)` at every node.  The grid
has at least 2 nodes along each axis and `dx` is not `0`, but the y component
that the source computes at the node `(1,1,1)` is `central_difference` with
the divisor `2 * dy = 0`, which is no number: the vector stored at the node
is not `(-5, 0, 0)`. -/
theorem linear_ramp_divides_by_zero_cell_size :
    (2 ≤ flat_ramp_mesh.x_n_nodes ∧ 2 ≤ flat_ramp_mesh.y_n_nodes ∧
      2 ≤ flat_ramp_mesh.z_n_nodes) ∧
    flat_ramp_mesh.x_cell_size ≠ 0 ∧
    (∀ i j k, flat_ramp_mesh.potential i j k
      = 5 * ((i : ℚ) * flat_ramp_mesh.x_cell_size)) ∧
    flat_ramp_mesh.y_cell_size = 0 ∧
    central_difference_checked (flat_ramp_mesh.potential 1 0 1)
      (flat_ramp_mesh.potential 1 2 1) flat_ramp_mesh.y_cell_size = none ∧
    field_at_node_checked flat_ramp_mesh.x_n_nodes flat_ramp_mesh.y_n_nodes
      flat_ramp_mesh.z_n_nodes flat_ramp_mesh.x_cell_size flat_ramp_mesh.y_cell_size
      flat_ramp_mesh.z_cell_size flat_ramp_mesh.potential 1 1 1 = none ∧
    field_at_node_checked flat_ramp_mesh.x_n_nodes flat_ramp_mesh.y_n_nodes
      flat_ramp_mesh.z_n_nodes flat_ramp_mesh.x_cell_size flat_ramp_mesh.y_cell_size
      flat_ramp_mesh.z_cell_size flat_ramp_mesh.potential 1 1 1 ≠ some (-5, 0, 0) := by
  have hc : central_difference_checked (flat_ramp_mesh.potential 1 0 1)
      (flat_ramp_mesh.potential 1 2 1) flat_ramp_mesh.y_cell_size = none := by
    simp [central_difference_checked, quotient_of_doubles, flat_ramp_mesh]
  have hf : field_at_node_checked flat_ramp_mesh.x_n_nodes flat_ramp_mesh.y_n_nodes
      flat_ramp_mesh.z_n_nodes flat_ramp_mesh.x_cell_size flat_ramp_mesh.y_cell_size
      flat_ramp_mesh.z_cell_size flat_ramp_mesh.potential 1 1 1 = none := by
    simp [field_at_node_checked, central_difference_checked, boundary_difference_checked,
      quotient_of_doubles, flat_ramp_mesh]
  refine ⟨by decide, by decide, fun _ _ _ => rfl, rfl, hc, hf, ?_⟩
  rw [hf]
  exact fun h => absurd h (by simp)

/-- C18 (amended): on a grid with at least 2 nodes along each axis and cell
sizes `dx`, `dy`, `dz` that are not `0`, if the potential is the linear ramp
`c * (i * dx)` at every node of the grid, then `eval_fields_from_potential`
sets the field to `(-c, 0, 0)` at every node of the grid, the nodes at the
extremes of the axes included, and every quotient computed on the way has a
nonzero divisor (exact arithmetic in a field of characteristic zero). -/
theorem eval_fields_of_linear_ramp [CharZero R] [DecidableEq R] (spat_mesh : Spatial_mesh R)
    (c : R)
    (hnx : 2 ≤ spat_mesh.x_n_nodes) (hny : 2 ≤ spat_mesh.y_n_nodes)
    (hnz : 2 ≤ spat_mesh.z_n_nodes)
    (hdx : spat_mesh.x_cell_size ≠ 0) (hdy : spat_mesh.y_cell_size ≠ 0)
    (hdz : spat_mesh.z_cell_size ≠ 0)
    (hphi : ∀ i j k, (0 ≤ i ∧ i < spat_mesh.x_n_nodes) → (0 ≤ j ∧ j < spat_mesh.y_n_nodes) →
      (0 ≤ k ∧ k < spat_mesh.z_n_nodes) →
      spat_mesh.potential i j k = c * ((i : R) * spat_mesh.x_cell_size))
    (i j k : Int) (hi : 0 ≤ i ∧ i < spat_mesh.x_n_nodes)
    (hj : 0 ≤ j ∧ j < spat_mesh.y_n_nodes) (hk : 0 ≤ k ∧ k < spat_mesh.z_n_nodes) :
    (eval_fields_from_potential spat_mesh).electric_field i j k = (-c, 0, 0) ∧
    field_at_node_checked spat_mesh.x_n_nodes spat_mesh.y_n_nodes spat_mesh.z_n_nodes
      spat_mesh.x_cell_size spat_mesh.y_cell_size spat_mesh.z_cell_size
      spat_mesh.potential i j k = some (-c, 0, 0) := by
  have h2 : (2 : R) ≠ 0 := two_ne_zero
  have hfield : field_at_node spat_mesh.x_n_nodes spat_mesh.y_n_nodes spat_mesh.z_n_nodes
      spat_mesh.x_cell_size spat_mesh.y_cell_size spat_mesh.z_cell_size
      spat_mesh.potential i j k = (-c, 0, 0) := by
    simp only [field_at_node, Prod.mk.injEq, central_difference, boundary_difference]
    refine ⟨?_, ?_, ?_⟩
    · by_cases h0 : i = 0
      · rw [if_pos h0, hphi i j k hi hj hk, hphi (i + 1) j k (by omega) hj hk]
        push_cast
        field_simp
        ring
      · rw [if_neg h0]
        by_cases h1 : i = spat_mesh.x_n_nodes - 1
        · rw [if_pos h1, hphi i j k hi hj hk, hphi (i - 1) j k (by omega) hj hk]
          push_cast
          field_simp
          ring
        · rw [if_neg h1, hphi (i + 1) j k (by omega) hj hk, hphi (i - 1) j k (by omega) hj hk]
          push_cast
          field_simp
          ring
    · by_cases h0 : j = 0
      · rw [if_pos h0, hphi i j k hi hj hk, hphi i (j + 1) k hi (by omega) hk]
        simp
      · rw [if_neg h0]
        by_cases h1 : j = spat_mesh.y_n_nodes - 1
        · rw [if_pos h1, hphi i j k hi hj hk, hphi i (j - 1) k hi (by omega) hk]
          simp
        · rw [if_neg h1, hphi i (j + 1) k hi (by omega) hk, hphi i (j - 1) k hi (by omega) hk]
          simp
    · by_cases h0 : k = 0
      · rw [if_pos h0, hphi i j k hi hj hk, hphi i j (k + 1) hi hj (by omega)]
        simp
      · rw [if_neg h0]
        by_cases h1 : k = spat_mesh.z_n_nodes - 1
        · rw [if_pos h1, hphi i j k hi hj hk, hphi i j (k - 1) hi hj (by omega)]
          simp
        · rw [if_neg h1, hphi i j (k + 1) hi hj (by omega), hphi i j (k - 1) hi hj (by omega)]
          simp
  refine ⟨?_, ?_⟩
  · rw [(eval_fields_from_potential_eq spat_mesh).2, if_pos ⟨hi, hj, hk⟩]
    exact hfield
  · rw [field_at_node_checked_eq_some _ _ _ _ _ _ _ _ _ _ h2 hdx hdy hdz, hfield]

theorem eval_fields_of_linear_ramp_witness :
    (eval_fields_from_potential ramp_mesh).electric_field 2 0 1 = (-5, 0, 0) ∧
    field_at_node_checked 3 3 3 2 1 1 ramp_mesh.potential 2 0 1 = some (-5, 0, 0) :=
  eval_fields_of_linear_ramp ramp_mesh 5 (by decide) (by decide) (by decide)
    (by decide) (by decide) (by decide) (fun _ _ _ _ _ _ => rfl) 2 0 1
    (by decide) (by decide) (by decide)

end Claims16to18

section SingleRegionLemmas
variable {R : Type} [CommRing R] [DecidableEq R]

theorem collect_rhs_modifications_some (inside : Node_reference → Bool) (potential : R)
    (nx ny nz : Int) (dx dy dz : R) (nodes : List Node_reference) (p : List Int × List R)
    (h : collect_rhs_modifications inside potential nx ny nz dx dy dz nodes = some p) :
    ∀ n ∈ nodes, interior n nx ny nz := by
  induction nodes generalizing p with
  | nil => intro n hn; cases hn
  | cons a l ih =>
    unfold collect_rhs_modifications at h
    simp only [] at h
    split at h
    · exact absurd h (by simp)
    · rename_i ix hix
      split at h
      · exact absurd h (by simp)
      · rename_i indices mods hrest
        intro n hn
        rcases List.mem_cons.1 hn with e | hm
        · rw [e]; exact (node_index_eq_some hix).1
        · exact ih _ hrest n hm

theorem modify_rhs_exists (spat_mesh : Spatial_mesh R) (rhs : Vec R)
    (inner_region : Inner_region R)
    (hnb : ∀ n ∈ inner_region.near_boundary_nodes_not_at_domain_edge,
      interior n spat_mesh.x_n_nodes spat_mesh.y_n_nodes spat_mesh.z_n_nodes) :
    modify_rhs_near_object_boundaries spat_mesh rhs inner_region
      = some (VecSetValues_add rhs
          (inner_region.near_boundary_nodes_not_at_domain_edge.map
            (fun n => idx n spat_mesh.x_n_nodes spat_mesh.y_n_nodes))
          (inner_region.near_boundary_nodes_not_at_domain_edge.map
            (rhs_mod_of_node
              (fun adj => inner_region.check_if_node_inside adj spat_mesh.x_cell_size
                spat_mesh.y_cell_size spat_mesh.z_cell_size)
              inner_region.potential spat_mesh.x_n_nodes spat_mesh.y_n_nodes
              spat_mesh.z_n_nodes spat_mesh.x_cell_size spat_mesh.y_cell_size
              spat_mesh.z_cell_size))) := by
  unfold modify_rhs_near_object_boundaries
    indicies_of_near_boundary_nodes_and_rhs_modifications
  simp only []
  rw [collect_rhs_modifications_eq _ _ _ _ _ _ _ _ _ hnb]
  simp only []
  split
  · rfl
  · rename_i hlen
    have : inner_region.near_boundary_nodes_not_at_domain_edge = [] := by simpa using hlen
    rw [this]
    simp [VecSetValues_add]

theorem modify_rhs_eq_some (spat_mesh : Spatial_mesh R) (rhs b' : Vec R)
    (inner_region : Inner_region R)
    (h : modify_rhs_near_object_boundaries spat_mesh rhs inner_region = some b') :
    (∀ n ∈ inner_region.near_boundary_nodes_not_at_domain_edge,
      interior n spat_mesh.x_n_nodes spat_mesh.y_n_nodes spat_mesh.z_n_nodes) ∧
    b' = VecSetValues_add rhs
          (inner_region.near_boundary_nodes_not_at_domain_edge.map
            (fun n => idx n spat_mesh.x_n_nodes spat_mesh.y_n_nodes))
          (inner_region.near_boundary_nodes_not_at_domain_edge.map
            (rhs_mod_of_node
              (fun adj => inner_region.check_if_node_inside adj spat_mesh.x_cell_size
                spat_mesh.y_cell_size spat_mesh.z_cell_size)
              inner_region.potential spat_mesh.x_n_nodes spat_mesh.y_n_nodes
              spat_mesh.z_n_nodes spat_mesh.x_cell_size spat_mesh.y_cell_size
              spat_mesh.z_cell_size)) := by
  have hnb : ∀ n ∈ inner_region.near_boundary_nodes_not_at_domain_edge,
      interior n spat_mesh.x_n_nodes spat_mesh.y_n_nodes spat_mesh.z_n_nodes := by
    cases hc : indicies_of_near_boundary_nodes_and_rhs_modifications spat_mesh.x_n_nodes
        spat_mesh.y_n_nodes spat_mesh.z_n_nodes spat_mesh.x_cell_size spat_mesh.y_cell_size
        spat_mesh.z_cell_size inner_region with
    | none =>
      unfold modify_rhs_near_object_boundaries at h
      simp only [hc] at h
      exact absurd h (by simp)
    | some p => exact collect_rhs_modifications_some _ _ _ _ _ _ _ _ _ p hc
  refine ⟨hnb, ?_⟩
  rw [modify_rhs_exists spat_mesh rhs inner_region hnb] at h
  exact (Option.some.inj h).symm

theorem count_two (q : Node_reference → Bool) (a b : Node_reference) :
    ((([a, b].filter q).length : Nat) : R)
      = (if q a = true then 1 else 0) + (if q b = true then 1 else 0) := by
  cases ha : q a <;> cases hb : q b <;> simp [List.filter, ha, hb]
  norm_num

theorem rhs_mod_of_node_eq_compensation (inside : Node_reference → Bool) (V : R)
    (nx ny nz : Int) (dx dy dz : R) (n : Node_reference) :
    rhs_mod_of_node inside V nx ny nz dx dy dz n
      = compensation inside V nx ny nz dx dy dz n := by
  rw [rhs_mod_of_node_eq]
  unfold compensation qualifying_count
  rw [count_two, count_two, count_two]
  have e : ∀ (c : Prop) [Decidable c] (t : R),
      (if c then -V * t else 0) = -V * ((if c then 1 else 0) * t) := by
    intro c _ t
    split <;> ring
  have e1 : ∀ (c : Prop) [Decidable c], (if c then -V * dy * dy * dz * dz else 0)
      = -V * ((if c then 1 else 0) * (dy * dy * dz * dz)) := by
    intro c _
    rw [← e]; congr 1; ring
  have e2 : ∀ (c : Prop) [Decidable c], (if c then -V * dx * dx * dz * dz else 0)
      = -V * ((if c then 1 else 0) * (dx * dx * dz * dz)) := by
    intro c _
    rw [← e]; congr 1; ring
  have e3 : ∀ (c : Prop) [Decidable c], (if c then -V * dx * dx * dy * dy else 0)
      = -V * ((if c then 1 else 0) * (dx * dx * dy * dy)) := by
    intro c _
    rw [← e]; congr 1; ring
  simp only [e1, e2, e3]
  ring

end SingleRegionLemmas

section Claim11
variable {R : Type} [CommRing R] [DecidableEq R]

/-- C11: `modify_rhs_near_object_boundaries` for a region with potential `V`: when
the nodes of `near_boundary_nodes_not_at_domain_edge` are interior nodes the
call succeeds; and whenever it succeeds, the right-hand side at the index of a
node of that list is the entry it had before plus, once for each time the
node is listed, the value `-V*(a*dy^2dz^2 + b*dx^2dz^2 + c*dx^2dy^2)`, where
`a`, `b`, `c` are the numbers of its left/right, top/bottom and near/far
neighbours that are not at the domain edge and are inside the region (so for
a node listed once the value is added once to the existing entry); every
other entry is unchanged. -/
theorem modify_rhs_adds_compensation (spat_mesh : Spatial_mesh R) (rhs : Vec R)
    (inner_region : Inner_region R) :
    ((∀ node ∈ inner_region.near_boundary_nodes_not_at_domain_edge,
        interior node spat_mesh.x_n_nodes spat_mesh.y_n_nodes spat_mesh.z_n_nodes) →
      ∃ b, modify_rhs_near_object_boundaries spat_mesh rhs inner_region = some b) ∧
    (∀ b, modify_rhs_near_object_boundaries spat_mesh rhs inner_region = some b →
      (∀ node ∈ inner_region.near_boundary_nodes_not_at_domain_edge,
        ∃ ix, node_global_index_in_matrix node spat_mesh.x_n_nodes spat_mesh.y_n_nodes
            spat_mesh.z_n_nodes = some ix ∧
          b ix = rhs ix
            + (inner_region.near_boundary_nodes_not_at_domain_edge.count node : R)
              * compensation
                (fun adj => inner_region.check_if_node_inside adj spat_mesh.x_cell_size
                  spat_mesh.y_cell_size spat_mesh.z_cell_size)
                inner_region.potential spat_mesh.x_n_nodes spat_mesh.y_n_nodes
                spat_mesh.z_n_nodes spat_mesh.x_cell_size spat_mesh.y_cell_size
                spat_mesh.z_cell_size node ∧
          (inner_region.near_boundary_nodes_not_at_domain_edge.count node = 1 →
            b ix = rhs ix
              + compensation
                (fun adj => inner_region.check_if_node_inside adj spat_mesh.x_cell_size
                  spat_mesh.y_cell_size spat_mesh.z_cell_size)
                inner_region.potential spat_mesh.x_n_nodes spat_mesh.y_n_nodes
                spat_mesh.z_n_nodes spat_mesh.x_cell_size spat_mesh.y_cell_size
                spat_mesh.z_cell_size node)) ∧
      (∀ n, (∀ node ∈ inner_region.near_boundary_nodes_not_at_domain_edge,
          node_global_index_in_matrix node spat_mesh.x_n_nodes spat_mesh.y_n_nodes
            spat_mesh.z_n_nodes ≠ some n) → b n = rhs n)) := by
  refine ⟨fun hnb => ⟨_, modify_rhs_exists spat_mesh rhs inner_region hnb⟩, ?_⟩
  intro b h
  obtain ⟨hnb, hb⟩ := modify_rhs_eq_some spat_mesh rhs b inner_region h
  refine ⟨?_, ?_⟩
  · intro node hnode
    have hn := hnb node hnode
    have hval : b (idx node spat_mesh.x_n_nodes spat_mesh.y_n_nodes)
        = rhs (idx node spat_mesh.x_n_nodes spat_mesh.y_n_nodes)
          + (inner_region.near_boundary_nodes_not_at_domain_edge.count node : R)
            * compensation
              (fun adj => inner_region.check_if_node_inside adj spat_mesh.x_cell_size
                spat_mesh.y_cell_size spat_mesh.z_cell_size)
              inner_region.potential spat_mesh.x_n_nodes spat_mesh.y_n_nodes
              spat_mesh.z_n_nodes spat_mesh.x_cell_size spat_mesh.y_cell_size
              spat_mesh.z_cell_size node := by
      rw [hb, VecSetValues_add_map, sum_filter_idx_eq _ _ _ spat_mesh.z_n_nodes _ node hnb hn,
        rhs_mod_of_node_eq_compensation]
    refine ⟨_, node_index_of_interior hn, hval, ?_⟩
    intro hc
    rw [hval, hc]
    simp
  · intro n hn
    rw [hb, VecSetValues_add_map]
    have : inner_region.near_boundary_nodes_not_at_domain_edge.filter
        (fun m => decide (idx m spat_mesh.x_n_nodes spat_mesh.y_n_nodes = n)) = [] := by
      rw [List.filter_eq_nil_iff]
      intro m hm
      simp only [decide_eq_true_eq]
      intro e
      exact hn m hm (by rw [node_index_of_interior (hnb m hm), e])
    rw [this]
    simp

theorem modify_rhs_adds_compensation_witness :
    ∃ b, modify_rhs_near_object_boundaries example_mesh (fun _ => 7) example_region
      = some b :=
  (modify_rhs_adds_compensation example_mesh (fun _ => 7) example_region).1 (by decide)

end Claim11

section ThreeNodeLemmas
variable {R : Type} [CommRing R] [DecidableEq R]

theorem for_each_row_first_fails (nrow : Int) (body : Int → Option (List Int × List R))
    (M : Mat R) (hn : 0 < nrow) (cv : List Int × List R) (hb : body 0 = some cv)
    (hM : MatSetValues M 0 cv.1 cv.2 = none) : for_each_row nrow body M = none := by
  unfold for_each_row
  obtain ⟨k, hk⟩ : ∃ k, nrow.toNat = k + 1 := ⟨nrow.toNat - 1, by omega⟩
  rw [hk, List.range_succ_eq_map, List.foldlM_cons]
  simp only [Nat.cast_zero, hb, hM]
  rfl

theorem MatSetValues_second_out_of_range (P : Int) (hP : 0 < P) (a b : R) :
    MatSetValues (zero_matrix P P : Mat R) 0 [0, P] [a, b] = none := by
  unfold MatSetValues
  have h1 : ¬ (0 : Int) < 0 := by omega
  have h2 : ¬ (zero_matrix P P : Mat R).nrow ≤ 0 := by
    simp only [zero_matrix]; omega
  rw [if_neg h1, if_neg h2]
  simp only [List.zip_cons_cons, List.zip_nil_right, List.foldlM_cons, List.foldlM_nil]
  rw [if_neg h1, if_neg (by simp only [zero_matrix]; omega)]
  simp only [Option.some_bind, bind, Option.bind]
  rw [if_neg (by omega), if_pos (by simp only [Mat.set_entry, zero_matrix]; omega)]

theorem construct_d2dy2_in_2d_three_nodes (nx : Int) (hx : 3 ≤ nx) :
    construct_d2dy2_in_2d (zero_matrix ((nx - 2) * (3 - 2)) ((nx - 2) * (3 - 2)) : Mat R) nx 3
      = none := by
  unfold construct_d2dy2_in_2d
  have e : (nx - 2) * (3 - 2) = nx - 2 := by ring
  apply for_each_row_first_fails _ _ _ (by omega) ([0, 0 + (nx - 2)], [-2, 1])
  · show (if (0 : Int) < nx - 2 then _ else _) = _
    rw [if_pos (by omega)]
  · simp only [e, zero_add]
    exact MatSetValues_second_out_of_range (nx - 2) (by omega) _ _

theorem construct_d2dz2_in_3d_three_nodes (nx ny : Int) (hx : 3 ≤ nx) (hy : 3 ≤ ny) :
    construct_d2dz2_in_3d
      (zero_matrix ((nx - 2) * (ny - 2) * (3 - 2)) ((nx - 2) * (ny - 2) * (3 - 2)) : Mat R)
      nx ny 3 = none := by
  unfold construct_d2dz2_in_3d
  have hP : 0 < (nx - 2) * (ny - 2) := mul_pos (by omega) (by omega)
  have e : (nx - 2) * (ny - 2) * (3 - 2) = (nx - 2) * (ny - 2) := by ring
  apply for_each_row_first_fails _ _ _ (by rw [e]; exact hP)
    ([0, 0 + (nx - 2) * (ny - 2)], [-2, 1])
  · show (if (0 : Int) < (nx - 2) * (ny - 2) then _ else _) = _
    rw [if_pos hP]
  · simp only [e, zero_add]
    exact MatSetValues_second_out_of_range _ hP _ _

/-- On a grid with 3 nodes along y or along z (and at least 3 along the other
axes) the base operator is not produced: the build stops at a column index
outside the matrix. -/
theorem construct_equation_matrix_in_full_domain_three_nodes (nx ny nz : Int) (dx dy dz : R)
    (hx : 3 ≤ nx) (hy : 3 ≤ ny) (hz : 3 ≤ nz) (h3 : ny = 3 ∨ nz = 3) :
    construct_equation_matrix_in_full_domain
        (zero_matrix ((nx - 2) * (ny - 2) * (nz - 2)) ((nx - 2) * (ny - 2) * (nz - 2)))
        nx ny nz dx dy dz = none := by
  have hN : ¬ ((nx - 2) * (ny - 2) * (nz - 2) < 0 ∨ (nx - 2) * (ny - 2) * (nz - 2) < 0) := by
    have : 0 < (nx - 2) * (ny - 2) * (nz - 2) :=
      mul_pos (mul_pos (by omega) (by omega)) (by omega)
    omega
  have hP : ¬ ((nx - 2) * (ny - 2) < 0 ∨ (nx - 2) * (ny - 2) < 0) := by
    have : 0 < (nx - 2) * (ny - 2) := mul_pos (by omega) (by omega)
    omega
  unfold construct_equation_matrix_in_full_domain
  simp only []
  cases hA : construct_d2dx2_in_3d
      (zero_matrix ((nx - 2) * (ny - 2) * (nz - 2)) ((nx - 2) * (ny - 2) * (nz - 2)) : Mat R)
      nx ny nz with
  | none => rfl
  | some A =>
    simp only [alloc_petsc_matrix, if_neg hN]
    by_cases hy3 : ny = 3
    · subst hy3
      have : construct_d2dy2_in_3d
          (zero_matrix ((nx - 2) * (3 - 2) * (nz - 2)) ((nx - 2) * (3 - 2) * (nz - 2)) : Mat R)
          nx 3 nz = none := by
        unfold construct_d2dy2_in_3d
        simp only [alloc_petsc_matrix, if_neg hP, construct_d2dy2_in_2d_three_nodes nx hx]
      simp only [this]
    · have hz3 : nz = 3 := by omega
      subst hz3
      cases hB : construct_d2dy2_in_3d
          (zero_matrix ((nx - 2) * (ny - 2) * (3 - 2)) ((nx - 2) * (ny - 2) * (3 - 2)) : Mat R)
          nx ny 3 with
      | none => rfl
      | some B =>
        simp only []
        cases hC : MatAXPY (MatScale A (dy * dy * dz * dz)) (dx * dx * dz * dz) B with
        | none => rfl
        | some C =>
          simp only [construct_d2dz2_in_3d_three_nodes nx ny hx hy]

end ThreeNodeLemmas

section PipelineLemmas
variable {R : Type} [CommRing R] [DecidableEq R]

/-- The operator of a single region on a grid with at least 4 nodes along each
axis: the base operator and the final operator are produced, and the final
operator is the base operator with the rows of the region-interior unknowns
replaced by identity rows and the couplings of the near-boundary unknowns to
region-interior unknowns set to zero. -/
theorem single_region_operator (nx ny nz : Int) (dx dy dz : R) (inner_region : Inner_region R)
    (hx : 4 ≤ nx) (hy : 4 ≤ ny) (hz : 4 ≤ nz)
    (hin : ∀ n ∈ inner_region.inner_nodes_not_at_domain_edge, interior n nx ny nz)
    (hnb : ∀ n ∈ inner_region.near_boundary_nodes_not_at_domain_edge, interior n nx ny nz) :
    ∃ A A2 : Mat R,
      construct_equation_matrix_in_full_domain
        (zero_matrix ((nx - 2) * (ny - 2) * (nz - 2)) ((nx - 2) * (ny - 2) * (nz - 2)))
        nx ny nz dx dy dz = some A ∧
      construct_equation_matrix
        (zero_matrix ((nx - 2) * (ny - 2) * (nz - 2)) ((nx - 2) * (ny - 2) * (nz - 2)))
        nx ny nz dx dy dz ⟨[inner_region]⟩ ⟨[]⟩ = some A2 ∧
      A.ncol = (nx - 2) * (ny - 2) * (nz - 2) ∧
      A2.nrow = (nx - 2) * (ny - 2) * (nz - 2) ∧ A2.ncol = (nx - 2) * (ny - 2) * (nz - 2) ∧
      (∀ p : Node_reference, interior p nx ny nz → ∀ c,
        A.val (idx p nx ny) c = stencil_entry nx ny nz dx dy dz p c) ∧
      ∀ r c, A2.val r c
        = if ∃ node ∈ inner_region.near_boundary_nodes_not_at_domain_edge,
              r = idx node nx ny ∧
              c ∈ qualifying_columns
                (fun adj => inner_region.check_if_node_inside adj dx dy dz) nx ny nz node
          then 0
          else if r ∈ inner_region.inner_nodes_not_at_domain_edge.map (fun n => idx n nx ny)
            then (if c = r then 1 else 0)
            else A.val r c := by
  obtain ⟨A, hA, hAr, hAc, hAv⟩ :=
    construct_equation_matrix_in_full_domain_eq nx ny nz dx dy dz hx hy hz
  obtain ⟨A1, hA1⟩ := cross_out_exists nx ny nz
    inner_region.inner_nodes_not_at_domain_edge A hAr hin
  obtain ⟨_, hA1r, hA1c, hA1v⟩ := cross_out_eq_some _ _ _ _ A A1 hA1
  obtain ⟨hmex, hmall⟩ := modify_fold_eq
    (fun adj => inner_region.check_if_node_inside adj dx dy dz) nx ny nz
    inner_region.near_boundary_nodes_not_at_domain_edge A1 (hA1r.trans hAr) (hA1c.trans hAc)
  obtain ⟨A2, hA2⟩ := hmex hnb
  obtain ⟨_, hA2r, hA2c, hA2v⟩ := hmall A2 hA2
  refine ⟨A, A2, hA, ?_, hAc, hA2r.trans (hA1r.trans hAr), hA2c.trans (hA1c.trans hAc), hAv, ?_⟩
  · have c1 : cross_out_nodes_occupied_by_objects A nx ny nz inner_region = some A1 := hA1
    have c2 : modify_equation_near_object_boundaries A1 nx ny nz dx dy dz inner_region
        = some A2 := hA2
    simp only [construct_equation_matrix, hA, cross_out_nodes_occupied_by_objects_all,
      modify_equation_near_object_boundaries_all, List.foldlM_cons, List.foldlM_nil, c1, c2,
      Option.some_bind, bind, pure, Option.bind]
  · intro r c
    rw [hA2v, hA1v]

/-- The right-hand side of a single region: the full-domain right-hand side and
the final right-hand side are produced, and the final one is the full-domain
one with zero at the region-interior unknowns and the compensations added at
the near-boundary unknowns. -/
theorem single_region_rhs (M_PI : R) (spat_mesh : Spatial_mesh R) (rhs : Vec R)
    (inner_region : Inner_region R)
    (hin : ∀ n ∈ inner_region.inner_nodes_not_at_domain_edge,
      interior n spat_mesh.x_n_nodes spat_mesh.y_n_nodes spat_mesh.z_n_nodes)
    (hnb : ∀ n ∈ inner_region.near_boundary_nodes_not_at_domain_edge,
      interior n spat_mesh.x_n_nodes spat_mesh.y_n_nodes spat_mesh.z_n_nodes) :
    ∃ b : Vec R, init_rhs_vector_in_full_domain M_PI spat_mesh rhs = some b ∧
      (∀ p : Node_reference,
        interior p spat_mesh.x_n_nodes spat_mesh.y_n_nodes spat_mesh.z_n_nodes →
        b (idx p spat_mesh.x_n_nodes spat_mesh.y_n_nodes)
          = rhs_at_node M_PI spat_mesh p.x p.y p.z) ∧
      init_rhs_vector M_PI spat_mesh rhs ⟨[inner_region]⟩ ⟨[]⟩
        = some (VecSetValues_add
          (fun m => if m ∈ inner_region.inner_nodes_not_at_domain_edge.map
            (fun n => idx n spat_mesh.x_n_nodes spat_mesh.y_n_nodes) then 0 else b m)
          (inner_region.near_boundary_nodes_not_at_domain_edge.map
            (fun n => idx n spat_mesh.x_n_nodes spat_mesh.y_n_nodes))
          (inner_region.near_boundary_nodes_not_at_domain_edge.map
            (rhs_mod_of_node
              (fun adj => inner_region.check_if_node_inside adj spat_mesh.x_cell_size
                spat_mesh.y_cell_size spat_mesh.z_cell_size)
              inner_region.potential spat_mesh.x_n_nodes spat_mesh.y_n_nodes
              spat_mesh.z_n_nodes spat_mesh.x_cell_size spat_mesh.y_cell_size
              spat_mesh.z_cell_size))) := by
  obtain ⟨b, hb, hbv, _⟩ := init_rhs_vector_in_full_domain_eq M_PI spat_mesh rhs
  refine ⟨b, hb, hbv, ?_⟩
  have hb2 : set_rhs_at_nodes_occupied_by_objects spat_mesh b inner_region
      = some (fun m => if m ∈ inner_region.inner_nodes_not_at_domain_edge.map
          (fun n => idx n spat_mesh.x_n_nodes spat_mesh.y_n_nodes) then 0 else b m) :=
    fill_at_nodes_exists _ _ _ _ b 0 hin
  have hb3 := modify_rhs_exists spat_mesh
    (fun m => if m ∈ inner_region.inner_nodes_not_at_domain_edge.map
      (fun n => idx n spat_mesh.x_n_nodes spat_mesh.y_n_nodes) then 0 else b m)
    inner_region hnb
  simp only [init_rhs_vector, hb, set_rhs_at_nodes_occupied_by_objects_all,
    modify_rhs_near_object_boundaries_all, List.foldlM_cons, List.foldlM_nil, hb2, hb3,
    Option.some_bind, bind, pure, Option.bind]

/-- A run of `solve_poisson_eqn` for a single region that completes: the
right-hand side was produced, the backend returned some vector `x`, the
region-interior nodes are interior nodes, and the mesh potential afterwards
is, at interior nodes, the potential of the region at region-interior unknowns
and `x` elsewhere, and unchanged at the other nodes. -/
theorem solve_poisson_eqn_eq_some (KSPSolve : Mat R → Vec R → Vec R → Option (Vec R))
    (M_PI : R) (solver : Field_solver R) (spat_mesh : Spatial_mesh R)
    (inner_region : Inner_region R) (res : Field_solver R × Spatial_mesh R)
    (h : solve_poisson_eqn KSPSolve M_PI solver spat_mesh ⟨[inner_region]⟩ ⟨[]⟩ = some res) :
    ∃ (bf x : Vec R),
      init_rhs_vector M_PI spat_mesh solver.rhs ⟨[inner_region]⟩ ⟨[]⟩ = some bf ∧
      KSPSolve solver.A bf solver.phi_vec = some x ∧
      (∀ n ∈ inner_region.inner_nodes_not_at_domain_edge,
        interior n spat_mesh.x_n_nodes spat_mesh.y_n_nodes spat_mesh.z_n_nodes) ∧
      ∀ i j k, res.2.potential i j k
        = if interior ⟨i, j, k⟩ spat_mesh.x_n_nodes spat_mesh.y_n_nodes spat_mesh.z_n_nodes
          then (if idx ⟨i, j, k⟩ spat_mesh.x_n_nodes spat_mesh.y_n_nodes
              ∈ inner_region.inner_nodes_not_at_domain_edge.map
                (fun n => idx n spat_mesh.x_n_nodes spat_mesh.y_n_nodes)
            then inner_region.potential
            else x (idx ⟨i, j, k⟩ spat_mesh.x_n_nodes spat_mesh.y_n_nodes))
          else spat_mesh.potential i j k := by
  cases hr : init_rhs_vector M_PI spat_mesh solver.rhs ⟨[inner_region]⟩ ⟨[]⟩ with
  | none => simp only [solve_poisson_eqn, hr] at h; exact absurd h (by simp)
  | some bf =>
    cases hk : KSPSolve solver.A bf solver.phi_vec with
    | none => simp only [solve_poisson_eqn, hr, hk] at h; exact absurd h (by simp)
    | some x =>
      cases hs : set_solution_at_nodes_of_inner_regions spat_mesh x inner_region with
      | none =>
        simp only [solve_poisson_eqn, hr, hk, set_solution_at_nodes_of_inner_regions_all,
          List.foldlM_cons, List.foldlM_nil, hs, Option.some_bind, bind, pure, Option.bind] at h
        exact absurd h (by simp)
      | some x' =>
        obtain ⟨hall, hx'⟩ := fill_at_nodes_eq_some _ _ _ _ x x' inner_region.potential hs
        obtain ⟨m', ht, _, _, _, _, _, _, _, _, hpot⟩ := transfer_solution_eq x' spat_mesh
        simp only [solve_poisson_eqn, hr, hk, set_solution_at_nodes_of_inner_regions_all,
          List.foldlM_cons, List.foldlM_nil, hs, ht, Option.some_bind, bind, pure,
          Option.bind, Option.some.injEq] at h
        refine ⟨bf, x, rfl, hk, hall, ?_⟩
        intro i j k
        rw [← h]
        simp only []
        rw [hpot, hx']

/-- A run of `solve_poisson_eqn` for a single region completes as soon as the
right-hand side is produced, the backend returns a vector and the
region-interior nodes are interior nodes. -/
theorem solve_poisson_eqn_exists (KSPSolve : Mat R → Vec R → Vec R → Option (Vec R))
    (M_PI : R) (solver : Field_solver R) (spat_mesh : Spatial_mesh R)
    (inner_region : Inner_region R) (bf x : Vec R)
    (hr : init_rhs_vector M_PI spat_mesh solver.rhs ⟨[inner_region]⟩ ⟨[]⟩ = some bf)
    (hk : KSPSolve solver.A bf solver.phi_vec = some x)
    (hin : ∀ n ∈ inner_region.inner_nodes_not_at_domain_edge,
      interior n spat_mesh.x_n_nodes spat_mesh.y_n_nodes spat_mesh.z_n_nodes) :
    ∃ res, solve_poisson_eqn KSPSolve M_PI solver spat_mesh ⟨[inner_region]⟩ ⟨[]⟩
      = some res := by
  have hs : set_solution_at_nodes_of_inner_regions spat_mesh x inner_region = some _ :=
    fill_at_nodes_exists _ _ _ _ x inner_region.potential hin
  obtain ⟨m', ht, _⟩ := transfer_solution_eq
    (fun m => if m ∈ inner_region.inner_nodes_not_at_domain_edge.map
      (fun n => idx n spat_mesh.x_n_nodes spat_mesh.y_n_nodes)
      then inner_region.potential else x m) spat_mesh
  simp only [solve_poisson_eqn, hr, hk, set_solution_at_nodes_of_inner_regions_all,
    List.foldlM_cons, List.foldlM_nil, hs, ht, Option.some_bind, bind, pure, Option.bind]
  exact ⟨_, rfl⟩

end PipelineLemmas

section Claims12to13
variable {R : Type} [CommRing R] [DecidableEq R]

/-- C12: for a node listed (at position `t`) in
`near_boundary_nodes_not_at_domain_edge` whose only qualifying neighbour (not
at the domain edge, inside the region) is its +x neighbour:
`indicies_of_near_boundary_nodes_and_rhs_modifications` returns, at position
`t`, the index of the node and the compensation `-V*(dy*dy*dz*dz)`; whenever
the unmodified operator of `construct_equation_matrix_in_full_domain` is
produced (it is on a grid with at least 4 nodes along each axis), its entry at
`(index(node), index(+x neighbour))` is `dy*dy*dz*dz`; and that entry is `0`
in the final operator of `construct_equation_matrix`, and after
`modify_equation_near_object_boundaries` on any operator with one row and one
column per unknown. -/
theorem compensation_matches_dropped_coefficient (nx ny nz : Int) (dx dy dz : R)
    (inner_region : Inner_region R) (node : Node_reference) (t : Nat)
    (hnb : ∀ n ∈ inner_region.near_boundary_nodes_not_at_domain_edge, interior n nx ny nz)
    (ht : inner_region.near_boundary_nodes_not_at_domain_edge[t]? = some node)
    (hq : qualifies (fun adj => inner_region.check_if_node_inside adj dx dy dz) nx ny nz
      ⟨node.x + 1, node.y, node.z⟩ = true)
    (hothers : ∀ adj ∈ node.adjacent_nodes,
      qualifies (fun adj => inner_region.check_if_node_inside adj dx dy dz) nx ny nz adj = true →
      adj = ⟨node.x + 1, node.y, node.z⟩) :
    (∃ ixs mods,
      indicies_of_near_boundary_nodes_and_rhs_modifications nx ny nz dx dy dz inner_region
        = some (ixs, mods) ∧
      ixs[t]? = node_global_index_in_matrix node nx ny nz ∧
      mods[t]? = some (-inner_region.potential * (dy * dy * dz * dz))) ∧
    (∃ r c, node_global_index_in_matrix node nx ny nz = some r ∧
      node_global_index_in_matrix ⟨node.x + 1, node.y, node.z⟩ nx ny nz = some c ∧
      (∀ A, construct_equation_matrix_in_full_domain
          (zero_matrix ((nx - 2) * (ny - 2) * (nz - 2)) ((nx - 2) * (ny - 2) * (nz - 2)))
          nx ny nz dx dy dz = some A → A.val r c = dy * dy * dz * dz) ∧
      (4 ≤ ny → 4 ≤ nz → ∃ A, construct_equation_matrix_in_full_domain
          (zero_matrix ((nx - 2) * (ny - 2) * (nz - 2)) ((nx - 2) * (ny - 2) * (nz - 2)))
          nx ny nz dx dy dz = some A) ∧
      (∀ B B' : Mat R, B.nrow = (nx - 2) * (ny - 2) * (nz - 2) →
        B.ncol = (nx - 2) * (ny - 2) * (nz - 2) →
        modify_equation_near_object_boundaries B nx ny nz dx dy dz inner_region = some B' →
        B'.val r c = 0) ∧
      (∀ A_final, (∀ n ∈ inner_region.inner_nodes_not_at_domain_edge, interior n nx ny nz) →
        construct_equation_matrix
          (zero_matrix ((nx - 2) * (ny - 2) * (nz - 2)) ((nx - 2) * (ny - 2) * (nz - 2)))
          nx ny nz dx dy dz ⟨[inner_region]⟩ ⟨[]⟩ = some A_final → A_final.val r c = 0)) := by
  have hmem : node ∈ inner_region.near_boundary_nodes_not_at_domain_edge :=
    List.getElem?_mem ht
  have hn : interior node nx ny nz := hnb node hmem
  have hadj : (⟨node.x + 1, node.y, node.z⟩ : Node_reference) ∈ node.adjacent_nodes := by
    simp [Node_reference.adjacent_nodes]
  have hqi : interior ⟨node.x + 1, node.y, node.z⟩ nx ny nz := by
    apply adjacent_interior hn hadj
    simp only [qualifies, Bool.and_eq_true, Bool.not_eq_true'] at hq
    exact hq.1
  have hcol : idx ⟨node.x + 1, node.y, node.z⟩ nx ny
      ∈ qualifying_columns (fun adj => inner_region.check_if_node_inside adj dx dy dz)
        nx ny nz node :=
    (mem_qualifying_columns _ _ _ _ _ _).2 ⟨_, hadj, hq, rfl⟩
  have hx4 : 4 ≤ nx := by
    simp only [interior] at hn hqi
    omega
  have hy3 : 3 ≤ ny := by
    simp only [interior] at hn
    omega
  have hz3 : 3 ≤ nz := by
    simp only [interior] at hn
    omega
  have hbase : ∀ A, construct_equation_matrix_in_full_domain
      (zero_matrix ((nx - 2) * (ny - 2) * (nz - 2)) ((nx - 2) * (ny - 2) * (nz - 2)))
      nx ny nz dx dy dz = some A →
      4 ≤ ny ∧ 4 ≤ nz ∧ A.nrow = (nx - 2) * (ny - 2) * (nz - 2) ∧
      A.ncol = (nx - 2) * (ny - 2) * (nz - 2) ∧
      A.val (idx node nx ny) (idx ⟨node.x + 1, node.y, node.z⟩ nx ny) = dy * dy * dz * dz := by
    intro A hA
    have h4 : 4 ≤ ny ∧ 4 ≤ nz := by
      by_contra hc
      have h3 : ny = 3 ∨ nz = 3 := by omega
      rw [construct_equation_matrix_in_full_domain_three_nodes nx ny nz dx dy dz
        (by omega) hy3 hz3 h3] at hA
      exact absurd hA (by simp)
    obtain ⟨A', hA', hr, hc, _⟩ :=
      construct_equation_matrix_in_full_domain_eq nx ny nz dx dy dz hx4 h4.1 h4.2
    obtain ⟨A'', hA'', hv⟩ := base_operator_entries nx ny nz dx dy dz hx4 h4.1 h4.2
    have e1 : A' = A := Option.some.inj (hA'.symm.trans hA)
    have e2 : A'' = A := Option.some.inj (hA''.symm.trans hA)
    subst e1
    subst e2
    refine ⟨h4.1, h4.2, hr, hc, ?_⟩
    rw [hv node _ hn hqi, if_neg, if_pos (Or.inl rfl)]
    intro e
    have := congrArg Node_reference.x e
    simp only [] at this
    omega
  have hmod : ∀ B B' : Mat R, B.nrow = (nx - 2) * (ny - 2) * (nz - 2) →
      B.ncol = (nx - 2) * (ny - 2) * (nz - 2) →
      modify_equation_near_object_boundaries B nx ny nz dx dy dz inner_region = some B' →
      B'.val (idx node nx ny) (idx ⟨node.x + 1, node.y, node.z⟩ nx ny) = 0 := by
    intro B B' hr hc hB
    rw [modify_equation_unfold] at hB
    obtain ⟨_, _, _, hv⟩ := (modify_fold_eq _ nx ny nz _ B hr hc).2 B' hB
    rw [hv, if_pos ⟨node, hmem, rfl, hcol⟩]
  refine ⟨?_, ?_⟩
  · refine ⟨_, _, collect_rhs_modifications_eq _ _ _ _ _ _ _ _ _ hnb, ?_, ?_⟩
    · rw [List.getElem?_map, ht, node_index_of_interior hn]
      rfl
    · rw [List.getElem?_map, ht]
      simp only [Option.map_some', Option.some.injEq]
      have hf : ∀ adj ∈ node.adjacent_nodes, adj ≠ ⟨node.x + 1, node.y, node.z⟩ →
          ¬ qualifies (fun adj => inner_region.check_if_node_inside adj dx dy dz) nx ny nz adj
            = true := fun adj ha hne hqa => hne (hothers adj ha hqa)
      have ne : ∀ (a b c : Int), (a ≠ node.x + 1 ∨ b ≠ node.y ∨ c ≠ node.z) →
          (⟨a, b, c⟩ : Node_reference) ≠ ⟨node.x + 1, node.y, node.z⟩ := by
        intro a b c h e
        simp only [Node_reference.mk.injEq] at e
        omega
      rw [rhs_mod_of_node_eq, if_pos hq,
        if_neg (hf ⟨node.x - 1, node.y, node.z⟩ (by simp [Node_reference.adjacent_nodes])
          (ne _ _ _ (by omega))),
        if_neg (hf ⟨node.x, node.y + 1, node.z⟩ (by simp [Node_reference.adjacent_nodes])
          (ne _ _ _ (by omega))),
        if_neg (hf ⟨node.x, node.y - 1, node.z⟩ (by simp [Node_reference.adjacent_nodes])
          (ne _ _ _ (by omega))),
        if_neg (hf ⟨node.x, node.y, node.z - 1⟩ (by simp [Node_reference.adjacent_nodes])
          (ne _ _ _ (by omega))),
        if_neg (hf ⟨node.x, node.y, node.z + 1⟩ (by simp [Node_reference.adjacent_nodes])
          (ne _ _ _ (by omega)))]
      ring
  · refine ⟨_, _, node_index_of_interior hn, node_index_of_interior hqi, ?_, ?_, hmod, ?_⟩
    · intro A hA
      exact (hbase A hA).2.2.2.2
    · intro hy hz
      obtain ⟨A, hA, _⟩ :=
        construct_equation_matrix_in_full_domain_eq nx ny nz dx dy dz hx4 hy hz
      exact ⟨A, hA⟩
    · intro A_final hin hfin
      cases hA : construct_equation_matrix_in_full_domain
          (zero_matrix ((nx - 2) * (ny - 2) * (nz - 2)) ((nx - 2) * (ny - 2) * (nz - 2)) : Mat R)
          nx ny nz dx dy dz with
      | none =>
        simp only [construct_equation_matrix, hA] at hfin
        exact absurd hfin (by simp)
      | some A =>
        obtain ⟨hy4, hz4, _, _, _⟩ := hbase A hA
        obtain ⟨A', A2, hA', hA2, _, _, _, _, hv⟩ :=
          single_region_operator nx ny nz dx dy dz inner_region hx4 hy4 hz4 hin hnb
        have e : A2 = A_final := Option.some.inj (hA2.symm.trans hfin)
        rw [← e, hv, if_pos ⟨node, hmem, rfl, hcol⟩]

theorem compensation_matches_dropped_coefficient_witness :
    ∃ A : Mat Int, construct_equation_matrix_in_full_domain (zero_matrix ((5 - 2) * (5 - 2) * (5 - 2))
        ((5 - 2) * (5 - 2) * (5 - 2))) 5 5 5 1 1 1 = some A :=
  match compensation_matches_dropped_coefficient 5 5 5 (1 : Int) 1 1 example_region ⟨1, 2, 2⟩ 0
      (by decide) (by decide) (by decide) (by decide) with
  | ⟨_, _, _, _, _, _, hex, _, _⟩ => hex (by decide) (by decide)

/-- C13: `solve_poisson_eqn` for a single region with potential `V` none of whose
inner nodes is at the domain edge (`inner_nodes_not_at_domain_edge` being the
inner nodes that are not at the domain edge): the call completes when the
listed nodes are nodes of the grid and the backend returns a vector; and
whenever it completes, whatever vector the backend returned, the mesh
potential at every inner node of the region is exactly `V`. -/
theorem solve_poisson_sets_region_potential
    (KSPSolve : Mat R → Vec R → Vec R → Option (Vec R)) (M_PI : R) (solver : Field_solver R)
    (spat_mesh : Spatial_mesh R) (inner_region : Inner_region R)
    (hedge : ∀ n ∈ inner_region.inner_nodes,
      n.at_domain_edge spat_mesh.x_n_nodes spat_mesh.y_n_nodes spat_mesh.z_n_nodes = false)
    (hsel : inner_region.inner_nodes_not_at_domain_edge
      = inner_region.inner_nodes.filter (fun n =>
          !n.at_domain_edge spat_mesh.x_n_nodes spat_mesh.y_n_nodes spat_mesh.z_n_nodes)) :
    ((∀ n ∈ inner_region.inner_nodes,
        interior n spat_mesh.x_n_nodes spat_mesh.y_n_nodes spat_mesh.z_n_nodes) →
      (∀ n ∈ inner_region.near_boundary_nodes_not_at_domain_edge,
        interior n spat_mesh.x_n_nodes spat_mesh.y_n_nodes spat_mesh.z_n_nodes) →
      (∀ b, ∃ x, KSPSolve solver.A b solver.phi_vec = some x) →
      ∃ res, solve_poisson_eqn KSPSolve M_PI solver spat_mesh ⟨[inner_region]⟩ ⟨[]⟩
        = some res) ∧
    (∀ res, solve_poisson_eqn KSPSolve M_PI solver spat_mesh ⟨[inner_region]⟩ ⟨[]⟩
        = some res →
      ∀ n ∈ inner_region.inner_nodes, res.2.potential n.x n.y n.z = inner_region.potential) := by
  have hlist : inner_region.inner_nodes_not_at_domain_edge = inner_region.inner_nodes := by
    rw [hsel, List.filter_eq_self]
    intro n hn
    rw [hedge n hn]
    rfl
  refine ⟨?_, ?_⟩
  · intro hin hnb hK
    rw [← hlist] at hin
    obtain ⟨b, _, _, hr⟩ := single_region_rhs M_PI spat_mesh solver.rhs inner_region hin hnb
    obtain ⟨x, hx⟩ := hK _
    exact solve_poisson_eqn_exists KSPSolve M_PI solver spat_mesh inner_region _ x hr hx hin
  · intro res h n hn
    obtain ⟨bf, x, _, _, hin, hpot⟩ :=
      solve_poisson_eqn_eq_some KSPSolve M_PI solver spat_mesh inner_region res h
    have hn' : n ∈ inner_region.inner_nodes_not_at_domain_edge := by rw [hlist]; exact hn
    rw [hpot, if_pos (hin n hn'), if_pos (List.mem_map_of_mem _ hn')]

theorem solve_poisson_sets_region_potential_witness :
    ∃ res, solve_poisson_eqn (fun _ b _ => some b) (3 : Int)
        ⟨zero_matrix 27 27, fun _ => 0, fun _ => 0⟩ example_mesh ⟨[example_region]⟩ ⟨[]⟩
        = some res ∧ res.2.potential 2 2 2 = 10 :=
  match (solve_poisson_sets_region_potential (fun _ b _ => some b) (3 : Int)
      ⟨zero_matrix 27 27, fun _ => 0, fun _ => 0⟩ example_mesh example_region
      (by decide) (by decide)).1 (by decide) (by decide) (fun b => ⟨b, rfl⟩) with
  | ⟨res, h⟩ => ⟨res, h, (solve_poisson_sets_region_potential (fun _ b _ => some b) (3 : Int)
      ⟨zero_matrix 27 27, fun _ => 0, fun _ => 0⟩ example_mesh example_region
      (by decide) (by decide)).2 res h ⟨2, 2, 2⟩ (by decide)⟩

end Claims12to13

section MaximumPrinciple
variable {R : Type} [LinearOrderedCommRing R]

/-- Discrete maximum principle on the grid: a grid function that is at most `0`
at the nodes that are not free and whose weighted second differences have a
nonnegative sum at the free nodes (all of them interior nodes) is at most `0`
at every node of the grid. -/
theorem max_principle (nx ny nz : Int) (a b c : R) (ha : 0 < a) (hb : 0 ≤ b) (hc : 0 ≤ c)
    (D : Int → Int → Int → R) (free : Int → Int → Int → Prop)
    (hfree : ∀ i j k, free i j k → interior ⟨i, j, k⟩ nx ny nz)
    (hbound : ∀ i j k, (0 ≤ i ∧ i < nx) → (0 ≤ j ∧ j < ny) → (0 ≤ k ∧ k < nz) →
      ¬ free i j k → D i j k ≤ 0)
    (hsub : ∀ i j k, free i j k →
      0 ≤ a * (D (i - 1) j k + D (i + 1) j k - 2 * D i j k)
        + b * (D i (j - 1) k + D i (j + 1) k - 2 * D i j k)
        + c * (D i j (k - 1) + D i j (k + 1) - 2 * D i j k)) :
    ∀ i j k, (0 ≤ i ∧ i < nx) → (0 ≤ j ∧ j < ny) → (0 ≤ k ∧ k < nz) → D i j k ≤ 0 := by
  intro i j k hi hj hk
  by_contra hpos
  have hpos' : 0 < D i j k := lt_of_not_ge hpos
  have hne : ((Finset.Icc 0 (nx - 1)) ×ˢ ((Finset.Icc 0 (ny - 1)) ×ˢ (Finset.Icc 0 (nz - 1)))
      : Finset (Int × Int × Int)).Nonempty :=
    ⟨(i, j, k), by
      simp only [Finset.mem_product, Finset.mem_Icc]
      omega⟩
  obtain ⟨m, hmG, hmax⟩ := Finset.exists_max_image _ (fun t => D t.1 t.2.1 t.2.2) hne
  obtain ⟨mi, mj, mk⟩ := m
  simp only [Finset.mem_product, Finset.mem_Icc] at hmG
  have hmax' : ∀ i' j' k', (0 ≤ i' ∧ i' < nx) → (0 ≤ j' ∧ j' < ny) → (0 ≤ k' ∧ k' < nz) →
      D i' j' k' ≤ D mi mj mk := by
    intro i' j' k' hi' hj' hk'
    exact hmax (i', j', k') (by
      simp only [Finset.mem_product, Finset.mem_Icc]
      omega)
  have hM : 0 < D mi mj mk := lt_of_lt_of_le hpos' (hmax' i j k hi hj hk)
  have hfree_of_pos : ∀ i', (0 ≤ i' ∧ i' < nx) → D i' mj mk = D mi mj mk → free i' mj mk := by
    intro i' hi' he
    by_contra hnf
    have := hbound i' mj mk hi' (by omega) (by omega) hnf
    rw [he] at this
    exact absurd hM (not_lt.2 this)
  have hwalk : ∀ t : Nat, (t : Int) ≤ mi → D (mi - t) mj mk = D mi mj mk := by
    intro t
    induction t with
    | zero => intro _; simp
    | succ t ih =>
      intro ht
      have ht' : (t : Int) ≤ mi := by push_cast at ht; omega
      have he := ih ht'
      have hq := hfree_of_pos (mi - t) (by omega) he
      have hint := hfree _ _ _ hq
      simp only [interior] at hint
      have hs := hsub _ _ _ hq
      have h1 := hmax' (mi - t - 1) mj mk (by omega) (by omega) (by omega)
      have h2 := hmax' (mi - t + 1) mj mk (by omega) (by omega) (by omega)
      have h3 := hmax' (mi - t) (mj - 1) mk (by omega) (by omega) (by omega)
      have h4 := hmax' (mi - t) (mj + 1) mk (by omega) (by omega) (by omega)
      have h5 := hmax' (mi - t) mj (mk - 1) (by omega) (by omega) (by omega)
      have h6 := hmax' (mi - t) mj (mk + 1) (by omega) (by omega) (by omega)
      rw [he] at hs
      have e : mi - ((t + 1 : Nat) : Int) = mi - t - 1 := by push_cast; ring
      rw [e]
      apply le_antisymm h1
      have n2 : a * (D (mi - t + 1) mj mk - D mi mj mk) ≤ 0 :=
        mul_nonpos_of_nonneg_of_nonpos ha.le (by linarith)
      have n3 : b * (D (mi - t) (mj - 1) mk + D (mi - t) (mj + 1) mk - 2 * D mi mj mk) ≤ 0 :=
        mul_nonpos_of_nonneg_of_nonpos hb (by linarith)
      have n4 : c * (D (mi - t) mj (mk - 1) + D (mi - t) mj (mk + 1) - 2 * D mi mj mk) ≤ 0 :=
        mul_nonpos_of_nonneg_of_nonpos hc (by linarith)
      have n1 : 0 ≤ a * (D (mi - t - 1) mj mk - D mi mj mk) := by linarith
      by_contra hlt
      have hneg : D (mi - t - 1) mj mk - D mi mj mk < 0 := by linarith [lt_of_not_ge hlt]
      have := mul_neg_of_pos_of_neg ha hneg
      linarith
  have h0 := hwalk mi.toNat (by omega)
  have e0 : mi - (mi.toNat : Int) = 0 := by omega
  rw [e0] at h0
  have hq := hfree_of_pos 0 (by omega) h0
  have hint := hfree _ _ _ hq
  simp only [interior] at hint
  omega

end MaximumPrinciple

section SystemLemmas
variable {R : Type} [CommRing R] [DecidableEq R]

/-- The assembled system of a single region whose node lists are classified:
the final operator and right-hand side are produced, and the residual of row
`index(p)` at a vector `x` is `x[index(p)]` for an interior node inside the
region and, for every other interior node, the 7-point operator on the
potential (unknowns `x`, `V` inside the region, mesh potential at the domain
edge) minus the source term. -/
theorem single_region_system (M_PI : R) (spat_mesh : Spatial_mesh R) (rhs : Vec R)
    (inner_region : Inner_region R)
    (hx : 4 ≤ spat_mesh.x_n_nodes) (hy : 4 ≤ spat_mesh.y_n_nodes)
    (hz : 4 ≤ spat_mesh.z_n_nodes)
    (hcls : ∀ n, n ∈ inner_region.inner_nodes_not_at_domain_edge ↔
      interior n spat_mesh.x_n_nodes spat_mesh.y_n_nodes spat_mesh.z_n_nodes ∧
      inner_region.check_if_node_inside n spat_mesh.x_cell_size spat_mesh.y_cell_size
        spat_mesh.z_cell_size = true)
    (hsound : ∀ n ∈ inner_region.near_boundary_nodes_not_at_domain_edge,
      interior n spat_mesh.x_n_nodes spat_mesh.y_n_nodes spat_mesh.z_n_nodes ∧
      inner_region.check_if_node_inside n spat_mesh.x_cell_size spat_mesh.y_cell_size
        spat_mesh.z_cell_size = false)
    (hnodup : inner_region.near_boundary_nodes_not_at_domain_edge.Nodup)
    (hcomplete : ∀ n,
      interior n spat_mesh.x_n_nodes spat_mesh.y_n_nodes spat_mesh.z_n_nodes →
      inner_region.check_if_node_inside n spat_mesh.x_cell_size spat_mesh.y_cell_size
        spat_mesh.z_cell_size = false →
      (∃ adj ∈ n.adjacent_nodes,
        qualifies (fun a => inner_region.check_if_node_inside a spat_mesh.x_cell_size
          spat_mesh.y_cell_size spat_mesh.z_cell_size)
          spat_mesh.x_n_nodes spat_mesh.y_n_nodes spat_mesh.z_n_nodes adj = true) →
      n ∈ inner_region.near_boundary_nodes_not_at_domain_edge) :
    ∃ (A2 : Mat R) (bf : Vec R),
      construct_equation_matrix
        (zero_matrix
          ((spat_mesh.x_n_nodes - 2) * (spat_mesh.y_n_nodes - 2) * (spat_mesh.z_n_nodes - 2))
          ((spat_mesh.x_n_nodes - 2) * (spat_mesh.y_n_nodes - 2) * (spat_mesh.z_n_nodes - 2)))
        spat_mesh.x_n_nodes spat_mesh.y_n_nodes spat_mesh.z_n_nodes
        spat_mesh.x_cell_size spat_mesh.y_cell_size spat_mesh.z_cell_size
        ⟨[inner_region]⟩ ⟨[]⟩ = some A2 ∧
      init_rhs_vector M_PI spat_mesh rhs ⟨[inner_region]⟩ ⟨[]⟩ = some bf ∧
      A2.nrow = (spat_mesh.x_n_nodes - 2) * (spat_mesh.y_n_nodes - 2)
        * (spat_mesh.z_n_nodes - 2) ∧
      ∀ (x : Vec R) (i j k : Int),
        interior ⟨i, j, k⟩ spat_mesh.x_n_nodes spat_mesh.y_n_nodes spat_mesh.z_n_nodes →
        mat_vec A2 x (idx ⟨i, j, k⟩ spat_mesh.x_n_nodes spat_mesh.y_n_nodes)
            - bf (idx ⟨i, j, k⟩ spat_mesh.x_n_nodes spat_mesh.y_n_nodes)
          = if inner_region.check_if_node_inside ⟨i, j, k⟩ spat_mesh.x_cell_size
                spat_mesh.y_cell_size spat_mesh.z_cell_size = true
            then x (idx ⟨i, j, k⟩ spat_mesh.x_n_nodes spat_mesh.y_n_nodes)
            else seven_point spat_mesh.x_cell_size spat_mesh.y_cell_size spat_mesh.z_cell_size
                (potential_with_region spat_mesh
                  (fun a => inner_region.check_if_node_inside a spat_mesh.x_cell_size
                    spat_mesh.y_cell_size spat_mesh.z_cell_size)
                  inner_region.potential x) i j k
              - -4 * M_PI * spat_mesh.charge_density i j k *
                (spat_mesh.x_cell_size * spat_mesh.x_cell_size *
                  (spat_mesh.y_cell_size * spat_mesh.y_cell_size) *
                  (spat_mesh.z_cell_size * spat_mesh.z_cell_size)) := by
  have hin : ∀ n ∈ inner_region.inner_nodes_not_at_domain_edge,
      interior n spat_mesh.x_n_nodes spat_mesh.y_n_nodes spat_mesh.z_n_nodes :=
    fun n hn => ((hcls n).1 hn).1
  have hnb : ∀ n ∈ inner_region.near_boundary_nodes_not_at_domain_edge,
      interior n spat_mesh.x_n_nodes spat_mesh.y_n_nodes spat_mesh.z_n_nodes :=
    fun n hn => (hsound n hn).1
  obtain ⟨A, A2, hA, hA2, hAc, hA2r, hA2c, hAv, hA2v⟩ := single_region_operator
    spat_mesh.x_n_nodes spat_mesh.y_n_nodes spat_mesh.z_n_nodes
    spat_mesh.x_cell_size spat_mesh.y_cell_size spat_mesh.z_cell_size inner_region
    hx hy hz hin hnb
  obtain ⟨b, hb, hbv, hbf⟩ := single_region_rhs M_PI spat_mesh rhs inner_region hin hnb
  refine ⟨A2, _, hA2, hbf, hA2r, ?_⟩
  intro x i j k hp
  have hrange := idx_range hp
  by_cases hins : inner_region.check_if_node_inside ⟨i, j, k⟩ spat_mesh.x_cell_size
      spat_mesh.y_cell_size spat_mesh.z_cell_size = true
  · rw [if_pos hins]
    have hpin : (⟨i, j, k⟩ : Node_reference) ∈ inner_region.inner_nodes_not_at_domain_edge :=
      (hcls _).2 ⟨hp, hins⟩
    have hpnear : (⟨i, j, k⟩ : Node_reference)
        ∉ inner_region.near_boundary_nodes_not_at_domain_edge := by
      intro h
      have := (hsound _ h).2
      rw [hins] at this
      cases this
    have hrow : ∀ c, A2.val (idx ⟨i, j, k⟩ spat_mesh.x_n_nodes spat_mesh.y_n_nodes) c
        = if c = idx ⟨i, j, k⟩ spat_mesh.x_n_nodes spat_mesh.y_n_nodes then 1 else 0 := by
      intro c
      rw [hA2v, if_neg, if_pos (List.mem_map_of_mem _ hpin)]
      rintro ⟨node, hnode, e, _⟩
      have := idx_injective hp (hnb node hnode) e
      exact hpnear (this ▸ hnode)
    have hmv : mat_vec A2 x (idx ⟨i, j, k⟩ spat_mesh.x_n_nodes spat_mesh.y_n_nodes)
        = x (idx ⟨i, j, k⟩ spat_mesh.x_n_nodes spat_mesh.y_n_nodes) := by
      unfold mat_vec
      simp only [hrow, ite_mul, one_mul, zero_mul]
      rw [sum_indicator, if_pos]
      rw [hA2c]
      omega
    have hbfv : VecSetValues_add
        (fun m => if m ∈ inner_region.inner_nodes_not_at_domain_edge.map
          (fun n => idx n spat_mesh.x_n_nodes spat_mesh.y_n_nodes) then 0 else b m)
        (inner_region.near_boundary_nodes_not_at_domain_edge.map
          (fun n => idx n spat_mesh.x_n_nodes spat_mesh.y_n_nodes))
        (inner_region.near_boundary_nodes_not_at_domain_edge.map
          (rhs_mod_of_node
            (fun adj => inner_region.check_if_node_inside adj spat_mesh.x_cell_size
              spat_mesh.y_cell_size spat_mesh.z_cell_size)
            inner_region.potential spat_mesh.x_n_nodes spat_mesh.y_n_nodes
            spat_mesh.z_n_nodes spat_mesh.x_cell_size spat_mesh.y_cell_size
            spat_mesh.z_cell_size))
        (idx ⟨i, j, k⟩ spat_mesh.x_n_nodes spat_mesh.y_n_nodes) = 0 := by
      rw [VecSetValues_add_map, if_pos (List.mem_map_of_mem _ hpin),
        sum_filter_idx_eq _ _ _ spat_mesh.z_n_nodes _ _ hnb hp,
        List.count_eq_zero_of_not_mem hpnear]
      simp
    rw [hmv, hbfv, sub_zero]
  · rw [if_neg hins]
    have hins' : inner_region.check_if_node_inside ⟨i, j, k⟩ spat_mesh.x_cell_size
        spat_mesh.y_cell_size spat_mesh.z_cell_size = false := by simpa using hins
    have hpnotin : idx ⟨i, j, k⟩ spat_mesh.x_n_nodes spat_mesh.y_n_nodes ∉
        inner_region.inner_nodes_not_at_domain_edge.map
          (fun n => idx n spat_mesh.x_n_nodes spat_mesh.y_n_nodes) := by
      intro hm
      obtain ⟨m, hm1, hm2⟩ := List.mem_map.1 hm
      have := idx_injective (hin m hm1) hp hm2
      rw [this] at hm1
      exact hins ((hcls _).1 hm1).2
    have hQ : (⟨i, j, k⟩ : Node_reference)
        ∉ inner_region.near_boundary_nodes_not_at_domain_edge →
        ∀ c, c ∉ qualifying_columns
          (fun adj => inner_region.check_if_node_inside adj spat_mesh.x_cell_size
            spat_mesh.y_cell_size spat_mesh.z_cell_size)
          spat_mesh.x_n_nodes spat_mesh.y_n_nodes spat_mesh.z_n_nodes ⟨i, j, k⟩ := by
      intro hpn c hc
      obtain ⟨adj, ha, hq, _⟩ := (mem_qualifying_columns _ _ _ _ _ _).1 hc
      exact hpn (hcomplete _ hp hins' ⟨adj, ha, hq⟩)
    have hrow : ∀ c, A2.val (idx ⟨i, j, k⟩ spat_mesh.x_n_nodes spat_mesh.y_n_nodes) c
        = if c ∈ qualifying_columns
              (fun adj => inner_region.check_if_node_inside adj spat_mesh.x_cell_size
                spat_mesh.y_cell_size spat_mesh.z_cell_size)
              spat_mesh.x_n_nodes spat_mesh.y_n_nodes spat_mesh.z_n_nodes ⟨i, j, k⟩ then 0
          else A.val (idx ⟨i, j, k⟩ spat_mesh.x_n_nodes spat_mesh.y_n_nodes) c := by
      intro c
      rw [hA2v]
      by_cases hc : c ∈ qualifying_columns
          (fun adj => inner_region.check_if_node_inside adj spat_mesh.x_cell_size
            spat_mesh.y_cell_size spat_mesh.z_cell_size)
          spat_mesh.x_n_nodes spat_mesh.y_n_nodes spat_mesh.z_n_nodes ⟨i, j, k⟩
      · have hpn : (⟨i, j, k⟩ : Node_reference)
            ∈ inner_region.near_boundary_nodes_not_at_domain_edge := by
          by_contra h
          exact hQ h c hc
        rw [if_pos hc, if_pos ⟨_, hpn, rfl, hc⟩]
      · rw [if_neg hc, if_neg, if_neg hpnotin]
        rintro ⟨m, hm, e, hcm⟩
        have := idx_injective hp (hnb m hm) e
        rw [← this] at hcm
        exact hc hcm
    have hmask : mat_vec A2 x (idx ⟨i, j, k⟩ spat_mesh.x_n_nodes spat_mesh.y_n_nodes)
        = mat_vec A (fun c => if c ∈ qualifying_columns
              (fun adj => inner_region.check_if_node_inside adj spat_mesh.x_cell_size
                spat_mesh.y_cell_size spat_mesh.z_cell_size)
              spat_mesh.x_n_nodes spat_mesh.y_n_nodes spat_mesh.z_n_nodes ⟨i, j, k⟩
            then 0 else x c)
            (idx ⟨i, j, k⟩ spat_mesh.x_n_nodes spat_mesh.y_n_nodes) := by
      unfold mat_vec
      rw [hA2c, hAc]
      apply Finset.sum_congr rfl
      intro c _
      rw [hrow]
      by_cases hq : (c : Int) ∈ qualifying_columns
          (fun adj => inner_region.check_if_node_inside adj spat_mesh.x_cell_size
            spat_mesh.y_cell_size spat_mesh.z_cell_size)
          spat_mesh.x_n_nodes spat_mesh.y_n_nodes spat_mesh.z_n_nodes ⟨i, j, k⟩
      · simp only [if_pos hq, zero_mul, mul_zero]
      · simp only [if_neg hq]
    have hd := stencil_apply_diff
      (fun adj => inner_region.check_if_node_inside adj spat_mesh.x_cell_size
        spat_mesh.y_cell_size spat_mesh.z_cell_size)
      spat_mesh.x_n_nodes spat_mesh.y_n_nodes spat_mesh.z_n_nodes
      spat_mesh.x_cell_size spat_mesh.y_cell_size spat_mesh.z_cell_size
      inner_region.potential ⟨i, j, k⟩ hp x
    have hbfv : VecSetValues_add
        (fun m => if m ∈ inner_region.inner_nodes_not_at_domain_edge.map
          (fun n => idx n spat_mesh.x_n_nodes spat_mesh.y_n_nodes) then 0 else b m)
        (inner_region.near_boundary_nodes_not_at_domain_edge.map
          (fun n => idx n spat_mesh.x_n_nodes spat_mesh.y_n_nodes))
        (inner_region.near_boundary_nodes_not_at_domain_edge.map
          (rhs_mod_of_node
            (fun adj => inner_region.check_if_node_inside adj spat_mesh.x_cell_size
              spat_mesh.y_cell_size spat_mesh.z_cell_size)
            inner_region.potential spat_mesh.x_n_nodes spat_mesh.y_n_nodes
            spat_mesh.z_n_nodes spat_mesh.x_cell_size spat_mesh.y_cell_size
            spat_mesh.z_cell_size))
        (idx ⟨i, j, k⟩ spat_mesh.x_n_nodes spat_mesh.y_n_nodes)
        = rhs_at_node M_PI spat_mesh i j k
          + rhs_mod_of_node
            (fun adj => inner_region.check_if_node_inside adj spat_mesh.x_cell_size
              spat_mesh.y_cell_size spat_mesh.z_cell_size)
            inner_region.potential spat_mesh.x_n_nodes spat_mesh.y_n_nodes
            spat_mesh.z_n_nodes spat_mesh.x_cell_size spat_mesh.y_cell_size
            spat_mesh.z_cell_size ⟨i, j, k⟩ := by
      rw [VecSetValues_add_map, if_neg hpnotin, hbv _ hp,
        sum_filter_idx_eq _ _ _ spat_mesh.z_n_nodes _ _ hnb hp]
      by_cases hpn : (⟨i, j, k⟩ : Node_reference)
          ∈ inner_region.near_boundary_nodes_not_at_domain_edge
      · rw [List.count_eq_one_of_mem hnodup hpn]
        simp
      · rw [List.count_eq_zero_of_not_mem hpn]
        have e : ∀ y : R, (fun c => if c ∈ qualifying_columns
              (fun adj => inner_region.check_if_node_inside adj spat_mesh.x_cell_size
                spat_mesh.y_cell_size spat_mesh.z_cell_size)
              spat_mesh.x_n_nodes spat_mesh.y_n_nodes spat_mesh.z_n_nodes ⟨i, j, k⟩
            then y else x c) = x := by
          intro y
          funext c
          rw [if_neg (hQ hpn c)]
        rw [e, e, sub_self] at hd
        have h0 : rhs_mod_of_node
            (fun adj => inner_region.check_if_node_inside adj spat_mesh.x_cell_size
              spat_mesh.y_cell_size spat_mesh.z_cell_size)
            inner_region.potential spat_mesh.x_n_nodes spat_mesh.y_n_nodes
            spat_mesh.z_n_nodes spat_mesh.x_cell_size spat_mesh.y_cell_size
            spat_mesh.z_cell_size ⟨i, j, k⟩ = 0 := by
          linear_combination hd
        rw [h0]
        simp
    have hres := full_domain_residual M_PI spat_mesh
      (fun c => if c ∈ qualifying_columns
          (fun adj => inner_region.check_if_node_inside adj spat_mesh.x_cell_size
            spat_mesh.y_cell_size spat_mesh.z_cell_size)
          spat_mesh.x_n_nodes spat_mesh.y_n_nodes spat_mesh.z_n_nodes ⟨i, j, k⟩
        then inner_region.potential else x c) i j k hp
    have hW : ∀ a b c : Int, ((⟨a, b, c⟩ : Node_reference) = ⟨i, j, k⟩ ∨
          (⟨a, b, c⟩ : Node_reference) ∈ (⟨i, j, k⟩ : Node_reference).adjacent_nodes) →
        potential_with_unknowns spat_mesh
          (fun c => if c ∈ qualifying_columns
              (fun adj => inner_region.check_if_node_inside adj spat_mesh.x_cell_size
                spat_mesh.y_cell_size spat_mesh.z_cell_size)
              spat_mesh.x_n_nodes spat_mesh.y_n_nodes spat_mesh.z_n_nodes ⟨i, j, k⟩
            then inner_region.potential else x c) a b c
        = potential_with_region spat_mesh
            (fun a => inner_region.check_if_node_inside a spat_mesh.x_cell_size
              spat_mesh.y_cell_size spat_mesh.z_cell_size)
            inner_region.potential x a b c := by
      intro a b c hq
      unfold potential_with_unknowns potential_with_region
      by_cases hqi : interior ⟨a, b, c⟩ spat_mesh.x_n_nodes spat_mesh.y_n_nodes
          spat_mesh.z_n_nodes
      · rw [if_pos hqi, if_pos hqi]
        beta_reduce
        rcases hq with hq | hq
        · rw [hq]
          rw [if_neg, if_neg hins]
          intro hc
          obtain ⟨adj, ha, hqa, e⟩ := (mem_qualifying_columns _ _ _ _ _ _).1 hc
          have hai : interior adj spat_mesh.x_n_nodes spat_mesh.y_n_nodes
              spat_mesh.z_n_nodes := by
            apply adjacent_interior hp ha
            simp only [qualifies, Bool.and_eq_true, Bool.not_eq_true'] at hqa
            exact hqa.1
          exact adjacent_ne ha (idx_injective hai hp e)
        · have hiff := qualifies_iff_mem
            (fun adj => inner_region.check_if_node_inside adj spat_mesh.x_cell_size
              spat_mesh.y_cell_size spat_mesh.z_cell_size) hp hq
          have hqe : (⟨a, b, c⟩ : Node_reference).at_domain_edge spat_mesh.x_n_nodes
              spat_mesh.y_n_nodes spat_mesh.z_n_nodes = false := by
            simp only [Node_reference.at_domain_edge, decide_eq_false_iff_not]
            simp only [interior] at hqi
            omega
          by_cases hqin : inner_region.check_if_node_inside ⟨a, b, c⟩ spat_mesh.x_cell_size
              spat_mesh.y_cell_size spat_mesh.z_cell_size = true
          · have hqq : qualifies
                (fun adj => inner_region.check_if_node_inside adj spat_mesh.x_cell_size
                  spat_mesh.y_cell_size spat_mesh.z_cell_size)
                spat_mesh.x_n_nodes spat_mesh.y_n_nodes spat_mesh.z_n_nodes ⟨a, b, c⟩
                = true := by
              simp only [qualifies, hqe, hqin]
              rfl
            rw [if_pos (hiff.1 hqq).2, if_pos hqin]
          · rw [if_neg, if_neg hqin]
            intro hc
            have := hiff.2 ⟨hqi, hc⟩
            simp only [qualifies, Bool.and_eq_true] at this
            exact hqin this.2
      · rw [if_neg hqi, if_neg hqi]
    have w0 := hW i j k (Or.inl rfl)
    have w1 := hW (i - 1) j k (Or.inr (by simp [Node_reference.adjacent_nodes]))
    have w2 := hW (i + 1) j k (Or.inr (by simp [Node_reference.adjacent_nodes]))
    have w3 := hW i (j + 1) k (Or.inr (by simp [Node_reference.adjacent_nodes]))
    have w4 := hW i (j - 1) k (Or.inr (by simp [Node_reference.adjacent_nodes]))
    have w5 := hW i j (k - 1) (Or.inr (by simp [Node_reference.adjacent_nodes]))
    have w6 := hW i j (k + 1) (Or.inr (by simp [Node_reference.adjacent_nodes]))
    rw [w0, w1, w2, w3, w4, w5, w6] at hres
    rw [hmask, mat_vec_of_stencil A _ _ _ _ _ _ ⟨i, j, k⟩ hp hAc (hAv _ hp), hbfv]
    unfold seven_point
    linear_combination hres - hd

end SystemLemmas

section SolverLemmas
variable {R : Type} [CommRing R] [DecidableEq R]

theorem Field_solver_construct_eq_some (spat_mesh : Spatial_mesh R)
    (inner_regions : Inner_regions_manager R)
    (inner_regions_with_models : Inner_regions_with_models_manager R) (solver : Field_solver R)
    (h : Field_solver.construct spat_mesh inner_regions inner_regions_with_models
      = some solver) :
    construct_equation_matrix
      (zero_matrix
        ((spat_mesh.x_n_nodes - 2) * (spat_mesh.y_n_nodes - 2) * (spat_mesh.z_n_nodes - 2))
        ((spat_mesh.x_n_nodes - 2) * (spat_mesh.y_n_nodes - 2) * (spat_mesh.z_n_nodes - 2)))
      spat_mesh.x_n_nodes spat_mesh.y_n_nodes spat_mesh.z_n_nodes
      spat_mesh.x_cell_size spat_mesh.y_cell_size spat_mesh.z_cell_size
      inner_regions inner_regions_with_models = some solver.A := by
  unfold Field_solver.construct at h
  simp only [alloc_petsc_vector, alloc_petsc_matrix] at h
  split at h
  · exact absurd h (by simp)
  · split at h
    · exact absurd h (by simp)
    · split at h
      · exact absurd h (by simp)
      · rename_i A0 hA0
        split at h
        · exact absurd h (by simp)
        · rename_i A hA
          simp only [Option.some.injEq] at h
          rw [← h]
          split at hA0
          · exact absurd hA0 (by simp)
          · simp only [Option.some.injEq] at hA0
            rw [hA0]
            exact hA

theorem Field_solver_construct_exists (spat_mesh : Spatial_mesh R)
    (inner_regions : Inner_regions_manager R)
    (inner_regions_with_models : Inner_regions_with_models_manager R) (A : Mat R)
    (hN : 0 ≤ (spat_mesh.x_n_nodes - 2) * (spat_mesh.y_n_nodes - 2) * (spat_mesh.z_n_nodes - 2))
    (h : construct_equation_matrix
      (zero_matrix
        ((spat_mesh.x_n_nodes - 2) * (spat_mesh.y_n_nodes - 2) * (spat_mesh.z_n_nodes - 2))
        ((spat_mesh.x_n_nodes - 2) * (spat_mesh.y_n_nodes - 2) * (spat_mesh.z_n_nodes - 2)))
      spat_mesh.x_n_nodes spat_mesh.y_n_nodes spat_mesh.z_n_nodes
      spat_mesh.x_cell_size spat_mesh.y_cell_size spat_mesh.z_cell_size
      inner_regions inner_regions_with_models = some A) :
    Field_solver.construct spat_mesh inner_regions inner_regions_with_models
      = some ⟨A, fun _ => 0, fun _ => 0⟩ := by
  unfold Field_solver.construct
  simp only [alloc_petsc_vector, alloc_petsc_matrix]
  rw [if_neg (by omega), if_neg (by omega)]
  simp only [h]

theorem checked_backend_exact (x0 : Vec R) (A : Mat R) (b g x : Vec R)
    (h : checked_backend x0 A b g = some x) :
    ∀ r, 0 ≤ r → r < A.nrow → mat_vec A x r = b r := by
  unfold checked_backend at h
  split at h
  · rename_i hall
    simp only [Option.some.injEq] at h
    intro r h0 h1
    rw [List.all_eq_true] at hall
    have := hall r.toNat (List.mem_range.2 (by omega))
    simp only [decide_eq_true_eq] at this
    have e : ((r.toNat : Nat) : Int) = r := by omega
    rw [e] at this
    rw [← h]
    exact this
  · exact absurd h (by simp)

theorem checked_backend_of_exact (x0 : Vec R) (A : Mat R) (b g : Vec R)
    (h : ∀ r, 0 ≤ r → r < A.nrow → mat_vec A x0 r = b r) :
    checked_backend x0 A b g = some x0 := by
  unfold checked_backend
  rw [if_pos]
  rw [List.all_eq_true]
  intro r hr
  simp only [decide_eq_true_eq]
  have := List.mem_range.1 hr
  exact h r (by omega) (by omega)

/-- The assembled system of a single region has an exact solution as soon as
some grid function `W` has the 7-point operator equal to the source term at
the interior nodes outside the region, is `V` at the interior nodes inside it
and is the mesh potential at the domain edge: the unknowns take `W` outside
the region and `0` inside. -/
theorem region_solution_exists (M_PI : R) (spat_mesh : Spatial_mesh R) (rhs : Vec R)
    (inner_region : Inner_region R) (W : Int → Int → Int → R)
    (hx : 4 ≤ spat_mesh.x_n_nodes) (hy : 4 ≤ spat_mesh.y_n_nodes)
    (hz : 4 ≤ spat_mesh.z_n_nodes)
    (hcls : ∀ n, n ∈ inner_region.inner_nodes_not_at_domain_edge ↔
      interior n spat_mesh.x_n_nodes spat_mesh.y_n_nodes spat_mesh.z_n_nodes ∧
      inner_region.check_if_node_inside n spat_mesh.x_cell_size spat_mesh.y_cell_size
        spat_mesh.z_cell_size = true)
    (hsound : ∀ n ∈ inner_region.near_boundary_nodes_not_at_domain_edge,
      interior n spat_mesh.x_n_nodes spat_mesh.y_n_nodes spat_mesh.z_n_nodes ∧
      inner_region.check_if_node_inside n spat_mesh.x_cell_size spat_mesh.y_cell_size
        spat_mesh.z_cell_size = false)
    (hnodup : inner_region.near_boundary_nodes_not_at_domain_edge.Nodup)
    (hcomplete : ∀ n,
      interior n spat_mesh.x_n_nodes spat_mesh.y_n_nodes spat_mesh.z_n_nodes →
      inner_region.check_if_node_inside n spat_mesh.x_cell_size spat_mesh.y_cell_size
        spat_mesh.z_cell_size = false →
      (∃ adj ∈ n.adjacent_nodes,
        qualifies (fun a => inner_region.check_if_node_inside a spat_mesh.x_cell_size
          spat_mesh.y_cell_size spat_mesh.z_cell_size)
          spat_mesh.x_n_nodes spat_mesh.y_n_nodes spat_mesh.z_n_nodes adj = true) →
      n ∈ inner_region.near_boundary_nodes_not_at_domain_edge)
    (hWedge : ∀ i j k, (0 ≤ i ∧ i < spat_mesh.x_n_nodes) → (0 ≤ j ∧ j < spat_mesh.y_n_nodes) →
      (0 ≤ k ∧ k < spat_mesh.z_n_nodes) →
      ¬ interior ⟨i, j, k⟩ spat_mesh.x_n_nodes spat_mesh.y_n_nodes spat_mesh.z_n_nodes →
      W i j k = spat_mesh.potential i j k)
    (hWin : ∀ i j k,
      interior ⟨i, j, k⟩ spat_mesh.x_n_nodes spat_mesh.y_n_nodes spat_mesh.z_n_nodes →
      inner_region.check_if_node_inside ⟨i, j, k⟩ spat_mesh.x_cell_size spat_mesh.y_cell_size
        spat_mesh.z_cell_size = true → W i j k = inner_region.potential)
    (hWeq : ∀ i j k,
      interior ⟨i, j, k⟩ spat_mesh.x_n_nodes spat_mesh.y_n_nodes spat_mesh.z_n_nodes →
      inner_region.check_if_node_inside ⟨i, j, k⟩ spat_mesh.x_cell_size spat_mesh.y_cell_size
        spat_mesh.z_cell_size = false →
      seven_point spat_mesh.x_cell_size spat_mesh.y_cell_size spat_mesh.z_cell_size W i j k
        = -4 * M_PI * spat_mesh.charge_density i j k *
            (spat_mesh.x_cell_size * spat_mesh.x_cell_size *
              (spat_mesh.y_cell_size * spat_mesh.y_cell_size) *
              (spat_mesh.z_cell_size * spat_mesh.z_cell_size))) :
    ∃ (solver : Field_solver R) (bf x : Vec R),
      Field_solver.construct spat_mesh ⟨[inner_region]⟩ ⟨[]⟩ = some solver ∧
      init_rhs_vector M_PI spat_mesh rhs ⟨[inner_region]⟩ ⟨[]⟩ = some bf ∧
      ∀ r, 0 ≤ r → r < solver.A.nrow → mat_vec solver.A x r = bf r := by
  obtain ⟨A2, bf, hA2, hbf, hA2r, hres⟩ := single_region_system M_PI spat_mesh rhs
    inner_region hx hy hz hcls hsound hnodup hcomplete
  have hN : 0 ≤ (spat_mesh.x_n_nodes - 2) * (spat_mesh.y_n_nodes - 2)
      * (spat_mesh.z_n_nodes - 2) :=
    mul_nonneg (mul_nonneg (by omega) (by omega)) (by omega)
  refine ⟨_, bf,
    (fun m =>
      if inner_region.check_if_node_inside
          (index_to_node m spat_mesh.x_n_nodes spat_mesh.y_n_nodes)
          spat_mesh.x_cell_size spat_mesh.y_cell_size spat_mesh.z_cell_size = true then 0
      else W (index_to_node m spat_mesh.x_n_nodes spat_mesh.y_n_nodes).x
        (index_to_node m spat_mesh.x_n_nodes spat_mesh.y_n_nodes).y
        (index_to_node m spat_mesh.x_n_nodes spat_mesh.y_n_nodes).z),
    Field_solver_construct_exists spat_mesh _ _ A2 hN hA2, hbf, ?_⟩
  intro r hr0 hr1
  simp only [] at hr1
  rw [hA2r] at hr1
  obtain ⟨hp, hpe⟩ := @index_to_node_interior r spat_mesh.x_n_nodes spat_mesh.y_n_nodes
    spat_mesh.z_n_nodes (by omega) (by omega) hr0 hr1
  obtain ⟨i, j, k, hijk⟩ : ∃ i j k,
      index_to_node r spat_mesh.x_n_nodes spat_mesh.y_n_nodes = ⟨i, j, k⟩ := ⟨_, _, _, rfl⟩
  rw [hijk] at hp hpe
  have h := hres (fun m =>
      if inner_region.check_if_node_inside
          (index_to_node m spat_mesh.x_n_nodes spat_mesh.y_n_nodes)
          spat_mesh.x_cell_size spat_mesh.y_cell_size spat_mesh.z_cell_size = true then 0
      else W (index_to_node m spat_mesh.x_n_nodes spat_mesh.y_n_nodes).x
        (index_to_node m spat_mesh.x_n_nodes spat_mesh.y_n_nodes).y
        (index_to_node m spat_mesh.x_n_nodes spat_mesh.y_n_nodes).z) i j k hp
  rw [hpe] at h
  apply sub_eq_zero.1
  simp only []
  rw [h]
  by_cases hins : inner_region.check_if_node_inside ⟨i, j, k⟩ spat_mesh.x_cell_size
      spat_mesh.y_cell_size spat_mesh.z_cell_size = true
  · rw [if_pos hins]
    beta_reduce
    rw [hijk, if_pos hins]
  · rw [if_neg hins]
    have hU : ∀ a b c, (0 ≤ a ∧ a < spat_mesh.x_n_nodes) → (0 ≤ b ∧ b < spat_mesh.y_n_nodes) →
        (0 ≤ c ∧ c < spat_mesh.z_n_nodes) →
        potential_with_region spat_mesh
          (fun a => inner_region.check_if_node_inside a spat_mesh.x_cell_size
            spat_mesh.y_cell_size spat_mesh.z_cell_size) inner_region.potential
          (fun m =>
            if inner_region.check_if_node_inside
                (index_to_node m spat_mesh.x_n_nodes spat_mesh.y_n_nodes)
                spat_mesh.x_cell_size spat_mesh.y_cell_size spat_mesh.z_cell_size = true then 0
            else W (index_to_node m spat_mesh.x_n_nodes spat_mesh.y_n_nodes).x
              (index_to_node m spat_mesh.x_n_nodes spat_mesh.y_n_nodes).y
              (index_to_node m spat_mesh.x_n_nodes spat_mesh.y_n_nodes).z) a b c
          = W a b c := by
      intro a b c ha hb hc
      unfold potential_with_region
      by_cases hq : interior ⟨a, b, c⟩ spat_mesh.x_n_nodes spat_mesh.y_n_nodes
          spat_mesh.z_n_nodes
      · rw [if_pos hq]
        beta_reduce
        by_cases hqi : inner_region.check_if_node_inside ⟨a, b, c⟩ spat_mesh.x_cell_size
            spat_mesh.y_cell_size spat_mesh.z_cell_size = true
        · rw [if_pos hqi, hWin a b c hq hqi]
        · rw [if_neg hqi, index_to_node_idx hq, if_neg hqi]
      · rw [if_neg hq, hWedge a b c ha hb hc hq]
    have hp' := hp
    simp only [interior] at hp'
    have e := hWeq i j k hp (by simpa using hins)
    unfold seven_point at e ⊢
    rw [hU i j k (by omega) (by omega) (by omega),
      hU (i - 1) j k (by omega) (by omega) (by omega),
      hU (i + 1) j k (by omega) (by omega) (by omega),
      hU i (j - 1) k (by omega) (by omega) (by omega),
      hU i (j + 1) k (by omega) (by omega) (by omega),
      hU i j (k - 1) (by omega) (by omega) (by omega),
      hU i j (k + 1) (by omega) (by omega) (by omega), e]
    ring

end SolverLemmas

section Uniqueness
variable {R : Type} [LinearOrderedCommRing R]

/-- The potential after `solve_poisson_eqn` with an exact backend is determined:
it is any grid function `W` that has the 7-point operator equal to the source
term at the interior nodes outside the region, is `V` at the interior nodes
inside it and is the mesh potential at the domain edge (cell sizes `dy` and
`dz` nonzero, node lists classified). -/
theorem region_solution_unique (KSPSolve : Mat R → Vec R → Vec R → Option (Vec R))
    (M_PI : R) (spat_mesh : Spatial_mesh R)
    (inner_region : Inner_region R) (W : Int → Int → Int → R)
    (hx : 4 ≤ spat_mesh.x_n_nodes) (hy : 4 ≤ spat_mesh.y_n_nodes)
    (hz : 4 ≤ spat_mesh.z_n_nodes)
    (hdy : spat_mesh.y_cell_size ≠ 0) (hdz : spat_mesh.z_cell_size ≠ 0)
    (hcls : ∀ n, n ∈ inner_region.inner_nodes_not_at_domain_edge ↔
      interior n spat_mesh.x_n_nodes spat_mesh.y_n_nodes spat_mesh.z_n_nodes ∧
      inner_region.check_if_node_inside n spat_mesh.x_cell_size spat_mesh.y_cell_size
        spat_mesh.z_cell_size = true)
    (hsound : ∀ n ∈ inner_region.near_boundary_nodes_not_at_domain_edge,
      interior n spat_mesh.x_n_nodes spat_mesh.y_n_nodes spat_mesh.z_n_nodes ∧
      inner_region.check_if_node_inside n spat_mesh.x_cell_size spat_mesh.y_cell_size
        spat_mesh.z_cell_size = false)
    (hnodup : inner_region.near_boundary_nodes_not_at_domain_edge.Nodup)
    (hcomplete : ∀ n,
      interior n spat_mesh.x_n_nodes spat_mesh.y_n_nodes spat_mesh.z_n_nodes →
      inner_region.check_if_node_inside n spat_mesh.x_cell_size spat_mesh.y_cell_size
        spat_mesh.z_cell_size = false →
      (∃ adj ∈ n.adjacent_nodes,
        qualifies (fun a => inner_region.check_if_node_inside a spat_mesh.x_cell_size
          spat_mesh.y_cell_size spat_mesh.z_cell_size)
          spat_mesh.x_n_nodes spat_mesh.y_n_nodes spat_mesh.z_n_nodes adj = true) →
      n ∈ inner_region.near_boundary_nodes_not_at_domain_edge)
    (hWedge : ∀ i j k, (0 ≤ i ∧ i < spat_mesh.x_n_nodes) → (0 ≤ j ∧ j < spat_mesh.y_n_nodes) →
      (0 ≤ k ∧ k < spat_mesh.z_n_nodes) →
      ¬ interior ⟨i, j, k⟩ spat_mesh.x_n_nodes spat_mesh.y_n_nodes spat_mesh.z_n_nodes →
      W i j k = spat_mesh.potential i j k)
    (hWin : ∀ i j k,
      interior ⟨i, j, k⟩ spat_mesh.x_n_nodes spat_mesh.y_n_nodes spat_mesh.z_n_nodes →
      inner_region.check_if_node_inside ⟨i, j, k⟩ spat_mesh.x_cell_size spat_mesh.y_cell_size
        spat_mesh.z_cell_size = true → W i j k = inner_region.potential)
    (hWeq : ∀ i j k,
      interior ⟨i, j, k⟩ spat_mesh.x_n_nodes spat_mesh.y_n_nodes spat_mesh.z_n_nodes →
      inner_region.check_if_node_inside ⟨i, j, k⟩ spat_mesh.x_cell_size spat_mesh.y_cell_size
        spat_mesh.z_cell_size = false →
      seven_point spat_mesh.x_cell_size spat_mesh.y_cell_size spat_mesh.z_cell_size W i j k
        = -4 * M_PI * spat_mesh.charge_density i j k *
            (spat_mesh.x_cell_size * spat_mesh.x_cell_size *
              (spat_mesh.y_cell_size * spat_mesh.y_cell_size) *
              (spat_mesh.z_cell_size * spat_mesh.z_cell_size)))
    (hexact : ∀ A b g x, KSPSolve A b g = some x →
      ∀ r, 0 ≤ r → r < A.nrow → mat_vec A x r = b r)
    (solver : Field_solver R)
    (hsolver : Field_solver.construct spat_mesh ⟨[inner_region]⟩ ⟨[]⟩ = some solver)
    (res : Field_solver R × Spatial_mesh R)
    (hsolve : solve_poisson_eqn KSPSolve M_PI solver spat_mesh ⟨[inner_region]⟩ ⟨[]⟩
      = some res) :
    ∀ i j k, (0 ≤ i ∧ i < spat_mesh.x_n_nodes) → (0 ≤ j ∧ j < spat_mesh.y_n_nodes) →
      (0 ≤ k ∧ k < spat_mesh.z_n_nodes) → res.2.potential i j k = W i j k := by
  obtain ⟨bf, x, hr, hk, hin, hpot⟩ :=
    solve_poisson_eqn_eq_some KSPSolve M_PI solver spat_mesh inner_region res hsolve
  have hA := Field_solver_construct_eq_some spat_mesh _ _ solver hsolver
  obtain ⟨A2, bf', hA2, hbf', hA2r, hresid⟩ := single_region_system M_PI spat_mesh solver.rhs
    inner_region hx hy hz hcls hsound hnodup hcomplete
  have eA : A2 = solver.A := Option.some.inj (hA2.symm.trans hA)
  have eb : bf' = bf := Option.some.inj (hbf'.symm.trans hr)
  subst eb
  rw [eA] at hresid hA2r
  have hex := hexact _ _ _ _ hk
  -- the potential after the solve
  have hUpot : ∀ i j k, res.2.potential i j k
      = potential_with_region spat_mesh
          (fun a => inner_region.check_if_node_inside a spat_mesh.x_cell_size
            spat_mesh.y_cell_size spat_mesh.z_cell_size) inner_region.potential x i j k := by
    intro i j k
    rw [hpot]
    unfold potential_with_region
    by_cases hp : interior ⟨i, j, k⟩ spat_mesh.x_n_nodes spat_mesh.y_n_nodes
        spat_mesh.z_n_nodes
    · rw [if_pos hp, if_pos hp]
      beta_reduce
      by_cases hins : inner_region.check_if_node_inside ⟨i, j, k⟩ spat_mesh.x_cell_size
          spat_mesh.y_cell_size spat_mesh.z_cell_size = true
      · rw [if_pos hins, if_pos (List.mem_map_of_mem _ ((hcls _).2 ⟨hp, hins⟩))]
      · rw [if_neg hins, if_neg]
        intro hm
        obtain ⟨m, hm1, hm2⟩ := List.mem_map.1 hm
        have := idx_injective (hin m hm1) hp hm2
        rw [this] at hm1
        exact hins ((hcls _).1 hm1).2
    · rw [if_neg hp, if_neg hp]
  -- the equations of the unknowns outside the region
  have hUeq : ∀ i j k,
      interior ⟨i, j, k⟩ spat_mesh.x_n_nodes spat_mesh.y_n_nodes spat_mesh.z_n_nodes →
      inner_region.check_if_node_inside ⟨i, j, k⟩ spat_mesh.x_cell_size spat_mesh.y_cell_size
        spat_mesh.z_cell_size = false →
      seven_point spat_mesh.x_cell_size spat_mesh.y_cell_size spat_mesh.z_cell_size
          (potential_with_region spat_mesh
            (fun a => inner_region.check_if_node_inside a spat_mesh.x_cell_size
              spat_mesh.y_cell_size spat_mesh.z_cell_size) inner_region.potential x) i j k
        = seven_point spat_mesh.x_cell_size spat_mesh.y_cell_size spat_mesh.z_cell_size
            W i j k := by
    intro i j k hp hins
    have h1 := hresid x i j k hp
    have hrange := idx_range hp
    rw [hex _ hrange.1 (by rw [hA2r]; exact hrange.2), sub_self, if_neg (by simp [hins])] at h1
    rw [hWeq i j k hp hins]
    linear_combination -h1
  have ha : 0 < spat_mesh.y_cell_size * spat_mesh.y_cell_size *
      (spat_mesh.z_cell_size * spat_mesh.z_cell_size) :=
    mul_pos (mul_self_pos.2 hdy) (mul_self_pos.2 hdz)
  have hb : 0 ≤ spat_mesh.x_cell_size * spat_mesh.x_cell_size *
      (spat_mesh.z_cell_size * spat_mesh.z_cell_size) :=
    mul_nonneg (mul_self_nonneg _) (mul_self_nonneg _)
  have hc : 0 ≤ spat_mesh.x_cell_size * spat_mesh.x_cell_size *
      (spat_mesh.y_cell_size * spat_mesh.y_cell_size) :=
    mul_nonneg (mul_self_nonneg _) (mul_self_nonneg _)
  have hzero : ∀ i j k, (0 ≤ i ∧ i < spat_mesh.x_n_nodes) →
      (0 ≤ j ∧ j < spat_mesh.y_n_nodes) → (0 ≤ k ∧ k < spat_mesh.z_n_nodes) →
      ¬ (interior ⟨i, j, k⟩ spat_mesh.x_n_nodes spat_mesh.y_n_nodes spat_mesh.z_n_nodes ∧
        inner_region.check_if_node_inside ⟨i, j, k⟩ spat_mesh.x_cell_size
          spat_mesh.y_cell_size spat_mesh.z_cell_size = false) →
      potential_with_region spat_mesh
          (fun a => inner_region.check_if_node_inside a spat_mesh.x_cell_size
            spat_mesh.y_cell_size spat_mesh.z_cell_size) inner_region.potential x i j k
        = W i j k := by
    intro i j k hi hj hk hnf
    unfold potential_with_region
    by_cases hp : interior ⟨i, j, k⟩ spat_mesh.x_n_nodes spat_mesh.y_n_nodes
        spat_mesh.z_n_nodes
    · have hins : inner_region.check_if_node_inside ⟨i, j, k⟩ spat_mesh.x_cell_size
          spat_mesh.y_cell_size spat_mesh.z_cell_size = true := by
        by_contra h
        exact hnf ⟨hp, by simpa using h⟩
      rw [if_pos hp, if_pos hins, hWin i j k hp hins]
    · rw [if_neg hp, hWedge i j k hi hj hk hp]
  have hle := max_principle spat_mesh.x_n_nodes spat_mesh.y_n_nodes spat_mesh.z_n_nodes
    _ _ _ ha hb hc
    (fun i j k => potential_with_region spat_mesh
      (fun a => inner_region.check_if_node_inside a spat_mesh.x_cell_size
        spat_mesh.y_cell_size spat_mesh.z_cell_size) inner_region.potential x i j k - W i j k)
    (fun i j k =>
      interior ⟨i, j, k⟩ spat_mesh.x_n_nodes spat_mesh.y_n_nodes spat_mesh.z_n_nodes ∧
      inner_region.check_if_node_inside ⟨i, j, k⟩ spat_mesh.x_cell_size
        spat_mesh.y_cell_size spat_mesh.z_cell_size = false)
    (fun i j k h => h.1)
    (fun i j k hi hj hk hnf => by
      simp only []
      rw [hzero i j k hi hj hk hnf, sub_self])
    (fun i j k h => by
      have e := hUeq i j k h.1 h.2
      unfold seven_point at e
      simp only []
      apply le_of_eq
      linear_combination -e)
  have hge := max_principle spat_mesh.x_n_nodes spat_mesh.y_n_nodes spat_mesh.z_n_nodes
    _ _ _ ha hb hc
    (fun i j k => W i j k - potential_with_region spat_mesh
      (fun a => inner_region.check_if_node_inside a spat_mesh.x_cell_size
        spat_mesh.y_cell_size spat_mesh.z_cell_size) inner_region.potential x i j k)
    (fun i j k =>
      interior ⟨i, j, k⟩ spat_mesh.x_n_nodes spat_mesh.y_n_nodes spat_mesh.z_n_nodes ∧
      inner_region.check_if_node_inside ⟨i, j, k⟩ spat_mesh.x_cell_size
        spat_mesh.y_cell_size spat_mesh.z_cell_size = false)
    (fun i j k h => h.1)
    (fun i j k hi hj hk hnf => by
      simp only []
      rw [hzero i j k hi hj hk hnf, sub_self])
    (fun i j k h => by
      have e := hUeq i j k h.1 h.2
      unfold seven_point at e
      simp only []
      apply le_of_eq
      linear_combination e)
  intro i j k hi hj hk
  rw [hUpot]
  have h1 := hle i j k hi hj hk
  have h2 := hge i j k hi hj hk
  simp only [] at h1 h2
  linarith

end Uniqueness

section ClassificationLemmas

theorem mem_interior_nodes (nx ny nz : Int) (n : Node_reference) :
    n ∈ interior_nodes nx ny nz ↔ interior n nx ny nz := by
  unfold interior_nodes
  rw [List.mem_map]
  constructor
  · rintro ⟨t, ht, rfl⟩
    exact (mem_interior_triples nx ny nz t).1 ht
  · intro h
    exact ⟨((n.z, n.y), n.x), (mem_interior_triples nx ny nz _).2 h, rfl⟩

/-- A list of interior nodes holds exactly the interior nodes with a property
as soon as it does so among the interior nodes of the grid. -/
theorem mem_iff_of_check (nx ny nz : Int) (l : List Node_reference)
    (Q : Node_reference → Prop)
    (h1 : ∀ n ∈ l, interior n nx ny nz)
    (h2 : ∀ n ∈ interior_nodes nx ny nz, (n ∈ l ↔ Q n)) :
    ∀ n, n ∈ l ↔ interior n nx ny nz ∧ Q n := by
  intro n
  constructor
  · intro h
    exact ⟨h1 n h, (h2 n ((mem_interior_nodes _ _ _ _).2 (h1 n h))).1 h⟩
  · rintro ⟨hi, hq⟩
    exact (h2 n ((mem_interior_nodes _ _ _ _).2 hi)).2 hq

end ClassificationLemmas

section Claim19
variable {R : Type} [LinearOrderedCommRing R]

/-- C19 (counterexample to the claim as written): the 4x4x4 mesh with all cell
sizes `0`, zero charge density and potential `1` at every domain-edge node,
and the region at potential `1` that holds the node `(1,1,1)` (node lists
classified as in the data model).  The solver is constructed, the vector `0`
that the backend returns is an exact solution of the assembled system, the
solve completes, and afterwards the mesh potential at the interior node
`(2,1,1)` is `0`, not `1`. -/
theorem uniform_potential_needs_cell_sizes :
    (4 ≤ degenerate_mesh.x_n_nodes ∧ 4 ≤ degenerate_mesh.y_n_nodes ∧
      4 ≤ degenerate_mesh.z_n_nodes) ∧
    (∀ i ∈ loop_from_to 0 3, ∀ j ∈ loop_from_to 0 3, ∀ k ∈ loop_from_to 0 3,
      degenerate_mesh.charge_density i j k = 0 ∧
      (¬ interior ⟨i, j, k⟩ 4 4 4 → degenerate_mesh.potential i j k = corner_region.potential)) ∧
    (∀ n, n ∈ corner_region.inner_nodes_not_at_domain_edge ↔
      interior n 4 4 4 ∧ corner_region.check_if_node_inside n 0 0 0 = true) ∧
    (∀ n, n ∈ corner_region.near_boundary_nodes_not_at_domain_edge ↔
      interior n 4 4 4 ∧ (corner_region.check_if_node_inside n 0 0 0 = false ∧
        ∃ adj ∈ n.adjacent_nodes, corner_region.check_if_node_inside adj 0 0 0 = true)) ∧
    corner_region.near_boundary_nodes_not_at_domain_edge.Nodup ∧
    ∃ solver res,
      Field_solver.construct degenerate_mesh ⟨[corner_region]⟩ ⟨[]⟩ = some solver ∧
      solve_poisson_eqn (fun _ _ _ => some (fun _ => 0)) 3 solver degenerate_mesh
        ⟨[corner_region]⟩ ⟨[]⟩ = some res ∧
      (∀ r ∈ loop_from_to 0 7, mat_vec res.1.A (fun _ => 0) r = res.1.rhs r) ∧
      res.1.A.nrow = 8 ∧
      res.2.potential 2 1 1 = 0 ∧ corner_region.potential = 1 := by
  refine ⟨by decide, by decide, mem_iff_of_check 4 4 4 _ _ (by decide) (by decide),
    mem_iff_of_check 4 4 4 _ _ (by decide) (by decide), by decide, ?_⟩
  have T : ((Field_solver.construct degenerate_mesh ⟨[corner_region]⟩ ⟨[]⟩).bind (fun solver =>
        solve_poisson_eqn (fun _ _ _ => some (fun _ => 0)) 3 solver degenerate_mesh
          ⟨[corner_region]⟩ ⟨[]⟩)).map
      (fun res => (decide (∀ r ∈ loop_from_to 0 7,
          mat_vec res.1.A (fun _ => 0) r = res.1.rhs r),
        res.1.A.nrow, res.2.potential 2 1 1)) = some (true, 8, 0) := by decide
  cases hs : Field_solver.construct degenerate_mesh ⟨[corner_region]⟩ ⟨[]⟩ with
  | none => rw [hs] at T; exact absurd T (by simp)
  | some solver =>
    rw [hs] at T
    simp only [Option.some_bind] at T
    cases hr : solve_poisson_eqn (fun _ _ _ => some (fun _ => 0)) 3 solver degenerate_mesh
        ⟨[corner_region]⟩ ⟨[]⟩ with
    | none => rw [hr] at T; exact absurd T (by simp)
    | some res =>
      rw [hr] at T
      simp only [Option.map_some', Option.some.injEq, Prod.mk.injEq, decide_eq_true_eq] at T
      exact ⟨solver, res, rfl, hr, T.1, T.2.1, T.2.2, rfl⟩

/-- C19 (amended): on a grid with at least 4 nodes along each axis and nonzero
cell sizes (`dy` and `dz` not `0` is what the proof needs), with zero charge
density, mesh potential `V` at every domain-edge
node and a single region with potential `V` whose node lists are classified
as in the data model: the solver is constructed and the assembled system
`A_final*x = b_final` has an exact solution; and for every backend whose
answers are exact solutions, `solve_poisson_eqn` completes whenever the
backend answers, and afterwards the mesh potential is `V` at every node of
the grid. -/
theorem uniform_potential_stays_uniform (M_PI : R) (spat_mesh : Spatial_mesh R)
    (inner_region : Inner_region R)
    (hx : 4 ≤ spat_mesh.x_n_nodes) (hy : 4 ≤ spat_mesh.y_n_nodes)
    (hz : 4 ≤ spat_mesh.z_n_nodes)
    (hdy : spat_mesh.y_cell_size ≠ 0) (hdz : spat_mesh.z_cell_size ≠ 0)
    (hrho : ∀ i j k, spat_mesh.charge_density i j k = 0)
    (hedge : ∀ i j k, (0 ≤ i ∧ i < spat_mesh.x_n_nodes) → (0 ≤ j ∧ j < spat_mesh.y_n_nodes) →
      (0 ≤ k ∧ k < spat_mesh.z_n_nodes) →
      ¬ interior ⟨i, j, k⟩ spat_mesh.x_n_nodes spat_mesh.y_n_nodes spat_mesh.z_n_nodes →
      spat_mesh.potential i j k = inner_region.potential)
    (hcls : ∀ n, n ∈ inner_region.inner_nodes_not_at_domain_edge ↔
      interior n spat_mesh.x_n_nodes spat_mesh.y_n_nodes spat_mesh.z_n_nodes ∧
      inner_region.check_if_node_inside n spat_mesh.x_cell_size spat_mesh.y_cell_size
        spat_mesh.z_cell_size = true)
    (hnear : ∀ n, n ∈ inner_region.near_boundary_nodes_not_at_domain_edge ↔
      interior n spat_mesh.x_n_nodes spat_mesh.y_n_nodes spat_mesh.z_n_nodes ∧
      (inner_region.check_if_node_inside n spat_mesh.x_cell_size spat_mesh.y_cell_size
        spat_mesh.z_cell_size = false ∧
      ∃ adj ∈ n.adjacent_nodes,
        inner_region.check_if_node_inside adj spat_mesh.x_cell_size spat_mesh.y_cell_size
          spat_mesh.z_cell_size = true))
    (hnodup : inner_region.near_boundary_nodes_not_at_domain_edge.Nodup) :
    (∃ (solver : Field_solver R) (bf x : Vec R),
      Field_solver.construct spat_mesh ⟨[inner_region]⟩ ⟨[]⟩ = some solver ∧
      init_rhs_vector M_PI spat_mesh solver.rhs ⟨[inner_region]⟩ ⟨[]⟩ = some bf ∧
      ∀ r, 0 ≤ r → r < solver.A.nrow → mat_vec solver.A x r = bf r) ∧
    (∀ (KSPSolve : Mat R → Vec R → Vec R → Option (Vec R)) (solver : Field_solver R),
      Field_solver.construct spat_mesh ⟨[inner_region]⟩ ⟨[]⟩ = some solver →
      (∀ A b g x, KSPSolve A b g = some x →
        ∀ r, 0 ≤ r → r < A.nrow → mat_vec A x r = b r) →
      ((∀ bf, init_rhs_vector M_PI spat_mesh solver.rhs ⟨[inner_region]⟩ ⟨[]⟩ = some bf →
          ∃ x, KSPSolve solver.A bf solver.phi_vec = some x) →
        ∃ res, solve_poisson_eqn KSPSolve M_PI solver spat_mesh ⟨[inner_region]⟩ ⟨[]⟩
          = some res) ∧
      (∀ res, solve_poisson_eqn KSPSolve M_PI solver spat_mesh ⟨[inner_region]⟩ ⟨[]⟩
          = some res →
        ∀ i j k, (0 ≤ i ∧ i < spat_mesh.x_n_nodes) → (0 ≤ j ∧ j < spat_mesh.y_n_nodes) →
          (0 ≤ k ∧ k < spat_mesh.z_n_nodes) →
          res.2.potential i j k = inner_region.potential)) := by
  have hsound : ∀ n ∈ inner_region.near_boundary_nodes_not_at_domain_edge,
      interior n spat_mesh.x_n_nodes spat_mesh.y_n_nodes spat_mesh.z_n_nodes ∧
      inner_region.check_if_node_inside n spat_mesh.x_cell_size spat_mesh.y_cell_size
        spat_mesh.z_cell_size = false :=
    fun n hn => ⟨((hnear n).1 hn).1, ((hnear n).1 hn).2.1⟩
  have hcomplete : ∀ n,
      interior n spat_mesh.x_n_nodes spat_mesh.y_n_nodes spat_mesh.z_n_nodes →
      inner_region.check_if_node_inside n spat_mesh.x_cell_size spat_mesh.y_cell_size
        spat_mesh.z_cell_size = false →
      (∃ adj ∈ n.adjacent_nodes,
        qualifies (fun a => inner_region.check_if_node_inside a spat_mesh.x_cell_size
          spat_mesh.y_cell_size spat_mesh.z_cell_size)
          spat_mesh.x_n_nodes spat_mesh.y_n_nodes spat_mesh.z_n_nodes adj = true) →
      n ∈ inner_region.near_boundary_nodes_not_at_domain_edge := by
    rintro n hn hout ⟨adj, hadj, hq⟩
    simp only [qualifies, Bool.and_eq_true] at hq
    exact (hnear n).2 ⟨hn, hout, adj, hadj, hq.2⟩
  have hin : ∀ n ∈ inner_region.inner_nodes_not_at_domain_edge,
      interior n spat_mesh.x_n_nodes spat_mesh.y_n_nodes spat_mesh.z_n_nodes :=
    fun n hn => ((hcls n).1 hn).1
  have hWeq : ∀ i j k,
      interior ⟨i, j, k⟩ spat_mesh.x_n_nodes spat_mesh.y_n_nodes spat_mesh.z_n_nodes →
      inner_region.check_if_node_inside ⟨i, j, k⟩ spat_mesh.x_cell_size spat_mesh.y_cell_size
        spat_mesh.z_cell_size = false →
      seven_point spat_mesh.x_cell_size spat_mesh.y_cell_size spat_mesh.z_cell_size
          (fun _ _ _ => inner_region.potential) i j k
        = -4 * M_PI * spat_mesh.charge_density i j k *
            (spat_mesh.x_cell_size * spat_mesh.x_cell_size *
              (spat_mesh.y_cell_size * spat_mesh.y_cell_size) *
              (spat_mesh.z_cell_size * spat_mesh.z_cell_size)) := by
    intro i j k _ _
    rw [hrho]
    unfold seven_point
    ring
  refine ⟨?_, ?_⟩
  · obtain ⟨solver, bf, x, hc, hr, hex⟩ := region_solution_exists M_PI spat_mesh
      (fun _ => 0) inner_region (fun _ _ _ => inner_region.potential) hx hy hz hcls hsound
      hnodup hcomplete (fun i j k hi hj hk hp => (hedge i j k hi hj hk hp).symm)
      (fun _ _ _ _ _ => rfl) hWeq
    have hN : 0 ≤ (spat_mesh.x_n_nodes - 2) * (spat_mesh.y_n_nodes - 2)
        * (spat_mesh.z_n_nodes - 2) :=
      mul_nonneg (mul_nonneg (by omega) (by omega)) (by omega)
    have e := Field_solver_construct_exists spat_mesh ⟨[inner_region]⟩ ⟨[]⟩ solver.A hN
      (Field_solver_construct_eq_some spat_mesh _ _ solver hc)
    have es : solver = ⟨solver.A, fun _ => 0, fun _ => 0⟩ :=
      Option.some.inj (hc.symm.trans e)
    refine ⟨solver, bf, x, hc, ?_, hex⟩
    rw [es]
    exact hr
  · intro KSPSolve solver hsolver hexact
    refine ⟨?_, ?_⟩
    · intro hK
      obtain ⟨b, _, _, hr⟩ := single_region_rhs M_PI spat_mesh solver.rhs inner_region hin
        (fun n hn => (hsound n hn).1)
      obtain ⟨x, hxk⟩ := hK _ hr
      exact solve_poisson_eqn_exists KSPSolve M_PI solver spat_mesh inner_region _ x hr hxk hin
    · intro res hres
      exact region_solution_unique KSPSolve M_PI spat_mesh inner_region
        (fun _ _ _ => inner_region.potential) hx hy hz hdy hdz hcls hsound hnodup hcomplete
        (fun i j k hi hj hk hp => (hedge i j k hi hj hk hp).symm)
        (fun _ _ _ _ _ => rfl) hWeq hexact solver hsolver res hres

end Claim19

theorem uniform_potential_stays_uniform_witness :
    ∃ (KSPSolve : Mat Int → Vec Int → Vec Int → Option (Vec Int)) (solver : Field_solver Int)
      (res : Field_solver Int × Spatial_mesh Int),
      Field_solver.construct uniform_mesh ⟨[example_region]⟩ ⟨[]⟩ = some solver ∧
      solve_poisson_eqn KSPSolve 3 solver uniform_mesh ⟨[example_region]⟩ ⟨[]⟩ = some res ∧
      res.2.potential 1 2 3 = 10 := by
  have T := uniform_potential_stays_uniform (3 : Int) uniform_mesh example_region
    (by decide) (by decide) (by decide) (by decide) (by decide)
    (fun _ _ _ => rfl)
    (fun i j k hi hj hk hp => by
      have hp' : ¬ interior ⟨i, j, k⟩ 5 5 5 := hp
      show (if interior ⟨i, j, k⟩ 5 5 5 then (3 : Int) else 10) = 10
      rw [if_neg hp'])
    (mem_iff_of_check 5 5 5 _ _ (by decide) (by decide))
    (mem_iff_of_check 5 5 5 _ _ (by decide) (by decide)) (by decide)
  obtain ⟨solver, bf, x, hc, hr, hex⟩ := T.1
  obtain ⟨hret, hval⟩ := T.2 (checked_backend x) solver hc (checked_backend_exact x)
  obtain ⟨res, hres⟩ := hret (fun bf' hbf' =>
    ⟨x, checked_backend_of_exact x _ _ _ (by
      rw [← Option.some.inj (hr.symm.trans hbf')]
      exact hex)⟩)
  exact ⟨checked_backend x, solver, res, hc, hres,
    hval res hres 1 2 3 (by decide) (by decide) (by decide)⟩

section ScenarioLemmas
variable {R : Type} [LinearOrderedField R]

theorem scenario_potential_antitone (inclusive : Bool) (s t : Int) (hs : 0 ≤ s) (hst : s ≤ t) :
    (scenario_potential inclusive t : R) ≤ scenario_potential inclusive s := by
  unfold scenario_potential
  cases inclusive
  · simp only [Bool.false_eq_true, if_false]
    split_ifs <;> first | omega | norm_num
  · simp only [if_true]
    split_ifs <;> first | omega | norm_num

set_option maxHeartbeats 2000000 in
theorem scenario_potential_seven_point (inclusive : Bool) (i j k : Int)
    (hi : 0 < i ∧ i < 4) (hj : 0 < j ∧ j < 4) (hk : 0 < k ∧ k < 4)
    (hout : ¬ in_unit_sphere inclusive ⟨i, j, k⟩) :
    seven_point (1 : R) 1 1
      (fun a b c => scenario_potential inclusive (sq_dist_from_centre ⟨a, b, c⟩)) i j k = 0 := by
  obtain ⟨hi1, hi2⟩ := hi
  obtain ⟨hj1, hj2⟩ := hj
  obtain ⟨hk1, hk2⟩ := hk
  cases inclusive <;> interval_cases i <;> interval_cases j <;> interval_cases k <;>
    first
    | (simp [seven_point, scenario_potential, sq_dist_from_centre]; norm_num; done)
    | (exfalso; apply hout; decide)

end ScenarioLemmas

section ScenarioLemmas2
variable {R : Type} [LinearOrderedField R]

theorem sq_dist_from_centre_nonneg (n : Node_reference) : 0 ≤ sq_dist_from_centre n := by
  unfold sq_dist_from_centre
  have h1 := mul_self_nonneg (n.x - 2)
  have h2 := mul_self_nonneg (n.y - 2)
  have h3 := mul_self_nonneg (n.z - 2)
  linarith

theorem sq_dist_from_centre_edge (i j k : Int) (hi : 0 ≤ i ∧ i < 5) (hj : 0 ≤ j ∧ j < 5)
    (hk : 0 ≤ k ∧ k < 5) (hp : ¬ interior ⟨i, j, k⟩ 5 5 5) :
    4 ≤ sq_dist_from_centre ⟨i, j, k⟩ := by
  unfold sq_dist_from_centre
  simp only [interior] at hp ⊢
  have h1 := mul_self_nonneg (i - 2)
  have h2 := mul_self_nonneg (j - 2)
  have h3 := mul_self_nonneg (k - 2)
  have hcases : i = 0 ∨ i = 4 ∨ j = 0 ∨ j = 4 ∨ k = 0 ∨ k = 4 := by omega
  rcases hcases with h | h | h | h | h | h <;> subst h <;> norm_num at h1 h2 h3 ⊢ <;> linarith

theorem sq_dist_from_centre_interior (i j k : Int) (hp : interior ⟨i, j, k⟩ 5 5 5) :
    sq_dist_from_centre ⟨i, j, k⟩ ≤ 3 := by
  unfold sq_dist_from_centre
  simp only [interior] at hp ⊢
  have hi : (i - 2) * (i - 2) ≤ 1 := by
    rcases (by omega : i = 1 ∨ i = 2 ∨ i = 3) with h | h | h <;> subst h <;> norm_num
  have hj : (j - 2) * (j - 2) ≤ 1 := by
    rcases (by omega : j = 1 ∨ j = 2 ∨ j = 3) with h | h | h <;> subst h <;> norm_num
  have hk : (k - 2) * (k - 2) ≤ 1 := by
    rcases (by omega : k = 1 ∨ k = 2 ∨ k = 3) with h | h | h <;> subst h <;> norm_num
  linarith

theorem scenario_potential_edge (inclusive : Bool) (d2 : Int) (h : 4 ≤ d2) :
    (scenario_potential inclusive d2 : R) = 0 := by
  unfold scenario_potential
  cases inclusive
  · simp only [Bool.false_eq_true, if_false]
    rw [if_neg (by omega), if_neg (by omega), if_neg (by omega), if_neg (by omega)]
  · simp only [if_true]
    rw [if_neg (by omega), if_neg (by omega), if_neg (by omega)]

theorem scenario_potential_inside (inclusive : Bool) (n : Node_reference)
    (h : in_unit_sphere inclusive n) :
    (scenario_potential inclusive (sq_dist_from_centre n) : R) = 10 := by
  have h0 := sq_dist_from_centre_nonneg n
  unfold in_unit_sphere at h
  unfold scenario_potential
  cases inclusive
  · simp only [Bool.false_eq_true, if_false] at h ⊢
    rw [if_pos (by omega)]
  · simp only [if_true] at h ⊢
    rw [if_pos h]

theorem scenario_potential_outside (inclusive : Bool) (n : Node_reference)
    (h : ¬ in_unit_sphere inclusive n) (h3 : sq_dist_from_centre n ≤ 3) :
    (0 : R) < scenario_potential inclusive (sq_dist_from_centre n) ∧
    (scenario_potential inclusive (sq_dist_from_centre n) : R) < 10 := by
  unfold in_unit_sphere at h
  unfold scenario_potential
  cases inclusive
  · simp only [Bool.false_eq_true, if_false] at h ⊢
    split_ifs <;> first | omega | norm_num
  · simp only [if_true] at h ⊢
    split_ifs <;> first | omega | norm_num

end ScenarioLemmas2

section Claim20
variable {R : Type} [LinearOrderedField R]

/-- C20: the end-to-end scenario.  On the 5x5x5 grid with unit cells, zero charge
density and potential `0` at every domain-edge node, with one spherical region
of radius 1 centred at the node `(2,2,2)` at potential `10` (the boundary of
the sphere counted as inside or not; node lists classified as in the data
model): the solver is constructed and the assembled system has an exact
solution; and for every backend whose answers are exact solutions,
`solve_poisson_eqn` completes whenever the backend answers, and afterwards
the mesh potential is exactly `10` at every node of the grid inside the
sphere, strictly between `0` and `10` at every other interior node, and does
not increase with the distance from the centre of the sphere: of two nodes
of the grid, the one not nearer to the centre has the potential not greater. -/
theorem sphere_scenario (inclusive : Bool) (M_PI : R) (spat_mesh : Spatial_mesh R)
    (inner_region : Inner_region R)
    (hnx : spat_mesh.x_n_nodes = 5) (hny : spat_mesh.y_n_nodes = 5)
    (hnz : spat_mesh.z_n_nodes = 5)
    (hdx : spat_mesh.x_cell_size = 1) (hdy : spat_mesh.y_cell_size = 1)
    (hdz : spat_mesh.z_cell_size = 1)
    (hrho : ∀ i j k, spat_mesh.charge_density i j k = 0)
    (hedge : ∀ i j k, (0 ≤ i ∧ i < 5) → (0 ≤ j ∧ j < 5) → (0 ≤ k ∧ k < 5) →
      ¬ interior ⟨i, j, k⟩ 5 5 5 → spat_mesh.potential i j k = 0)
    (hV : inner_region.potential = 10)
    (hsphere : ∀ n, inner_region.check_if_node_inside n 1 1 1 = true ↔
      in_unit_sphere inclusive n)
    (hcls : ∀ n, n ∈ inner_region.inner_nodes_not_at_domain_edge ↔
      interior n 5 5 5 ∧ in_unit_sphere inclusive n)
    (hnear : ∀ n, n ∈ inner_region.near_boundary_nodes_not_at_domain_edge ↔
      interior n 5 5 5 ∧ (¬ in_unit_sphere inclusive n ∧
        ∃ adj ∈ n.adjacent_nodes, in_unit_sphere inclusive adj))
    (hnodup : inner_region.near_boundary_nodes_not_at_domain_edge.Nodup) :
    (∃ (solver : Field_solver R) (bf x : Vec R),
      Field_solver.construct spat_mesh ⟨[inner_region]⟩ ⟨[]⟩ = some solver ∧
      init_rhs_vector M_PI spat_mesh solver.rhs ⟨[inner_region]⟩ ⟨[]⟩ = some bf ∧
      ∀ r, 0 ≤ r → r < solver.A.nrow → mat_vec solver.A x r = bf r) ∧
    (∀ (KSPSolve : Mat R → Vec R → Vec R → Option (Vec R)) (solver : Field_solver R),
      Field_solver.construct spat_mesh ⟨[inner_region]⟩ ⟨[]⟩ = some solver →
      (∀ A b g x, KSPSolve A b g = some x →
        ∀ r, 0 ≤ r → r < A.nrow → mat_vec A x r = b r) →
      ((∀ bf, init_rhs_vector M_PI spat_mesh solver.rhs ⟨[inner_region]⟩ ⟨[]⟩ = some bf →
          ∃ x, KSPSolve solver.A bf solver.phi_vec = some x) →
        ∃ res, solve_poisson_eqn KSPSolve M_PI solver spat_mesh ⟨[inner_region]⟩ ⟨[]⟩
          = some res) ∧
      (∀ res, solve_poisson_eqn KSPSolve M_PI solver spat_mesh ⟨[inner_region]⟩ ⟨[]⟩
          = some res →
        (∀ i j k, (0 ≤ i ∧ i < 5) → (0 ≤ j ∧ j < 5) → (0 ≤ k ∧ k < 5) →
          in_unit_sphere inclusive ⟨i, j, k⟩ → res.2.potential i j k = 10) ∧
        (∀ i j k, interior ⟨i, j, k⟩ 5 5 5 → ¬ in_unit_sphere inclusive ⟨i, j, k⟩ →
          0 < res.2.potential i j k ∧ res.2.potential i j k < 10) ∧
        (∀ i j k i' j' k', (0 ≤ i ∧ i < 5) → (0 ≤ j ∧ j < 5) → (0 ≤ k ∧ k < 5) →
          (0 ≤ i' ∧ i' < 5) → (0 ≤ j' ∧ j' < 5) → (0 ≤ k' ∧ k' < 5) →
          sq_dist_from_centre ⟨i, j, k⟩ ≤ sq_dist_from_centre ⟨i', j', k'⟩ →
          res.2.potential i' j' k' ≤ res.2.potential i j k))) := by
  obtain ⟨nx, ny, nz, dx, dy, dz, rho, phi, E⟩ := spat_mesh
  simp only [] at hnx hny hnz hdx hdy hdz hrho hedge
  subst hnx hny hnz hdx hdy hdz
  have hins : ∀ n, inner_region.check_if_node_inside n 1 1 1 = false ↔
      ¬ in_unit_sphere inclusive n := by
    intro n
    rw [← hsphere n]
    simp
  have hcls' : ∀ n, n ∈ inner_region.inner_nodes_not_at_domain_edge ↔
      interior n 5 5 5 ∧ inner_region.check_if_node_inside n 1 1 1 = true := by
    intro n
    rw [hcls, hsphere]
  have hsound : ∀ n ∈ inner_region.near_boundary_nodes_not_at_domain_edge,
      interior n 5 5 5 ∧ inner_region.check_if_node_inside n 1 1 1 = false :=
    fun n hn => ⟨((hnear n).1 hn).1, (hins n).2 ((hnear n).1 hn).2.1⟩
  have hcomplete : ∀ n, interior n 5 5 5 →
      inner_region.check_if_node_inside n 1 1 1 = false →
      (∃ adj ∈ n.adjacent_nodes,
        qualifies (fun a => inner_region.check_if_node_inside a 1 1 1) 5 5 5 adj = true) →
      n ∈ inner_region.near_boundary_nodes_not_at_domain_edge := by
    rintro n hn hout ⟨adj, hadj, hq⟩
    simp only [qualifies, Bool.and_eq_true] at hq
    exact (hnear n).2 ⟨hn, (hins n).1 hout, adj, hadj, (hsphere adj).1 hq.2⟩
  have hin : ∀ n ∈ inner_region.inner_nodes_not_at_domain_edge, interior n 5 5 5 :=
    fun n hn => ((hcls n).1 hn).1
  have hWedge : ∀ i j k, (0 ≤ i ∧ i < 5) → (0 ≤ j ∧ j < 5) → (0 ≤ k ∧ k < 5) →
      ¬ interior ⟨i, j, k⟩ 5 5 5 →
      (scenario_potential inclusive (sq_dist_from_centre ⟨i, j, k⟩) : R) = phi i j k := by
    intro i j k hi hj hk hp
    rw [hedge i j k hi hj hk hp,
      scenario_potential_edge inclusive _ (sq_dist_from_centre_edge i j k hi hj hk hp)]
  have hWin : ∀ i j k, interior ⟨i, j, k⟩ 5 5 5 →
      inner_region.check_if_node_inside ⟨i, j, k⟩ 1 1 1 = true →
      (scenario_potential inclusive (sq_dist_from_centre ⟨i, j, k⟩) : R)
        = inner_region.potential := by
    intro i j k _ h
    rw [hV, scenario_potential_inside inclusive _ ((hsphere _).1 h)]
  have hWeq : ∀ i j k, interior ⟨i, j, k⟩ 5 5 5 →
      inner_region.check_if_node_inside ⟨i, j, k⟩ 1 1 1 = false →
      seven_point (1 : R) 1 1
          (fun a b c => scenario_potential inclusive (sq_dist_from_centre ⟨a, b, c⟩)) i j k
        = -4 * M_PI * rho i j k * ((1 : R) * 1 * (1 * 1) * (1 * 1)) := by
    intro i j k hp hout
    have hp' := hp
    simp only [interior] at hp'
    rw [hrho, scenario_potential_seven_point inclusive i j k (by omega) (by omega) (by omega)
      ((hins _).1 hout)]
    ring
  refine ⟨?_, ?_⟩
  · obtain ⟨solver, bf, x, hc, hr, hex⟩ := region_solution_exists M_PI
      (⟨5, 5, 5, 1, 1, 1, rho, phi, E⟩ : Spatial_mesh R)
      (fun _ => 0) inner_region
      (fun a b c => scenario_potential inclusive (sq_dist_from_centre ⟨a, b, c⟩))
      (by show (4 : Int) ≤ 5; decide) (by show (4 : Int) ≤ 5; decide)
      (by show (4 : Int) ≤ 5; decide) hcls' hsound hnodup hcomplete hWedge hWin hWeq
    have e := Field_solver_construct_exists (⟨5, 5, 5, 1, 1, 1, rho, phi, E⟩ : Spatial_mesh R)
      ⟨[inner_region]⟩ ⟨[]⟩ solver.A (by show (0 : Int) ≤ (5 - 2) * (5 - 2) * (5 - 2); decide)
      (Field_solver_construct_eq_some _ _ _ solver hc)
    have es : solver = ⟨solver.A, fun _ => 0, fun _ => 0⟩ :=
      Option.some.inj (hc.symm.trans e)
    refine ⟨solver, bf, x, hc, ?_, hex⟩
    rw [es]
    exact hr
  · intro KSPSolve solver hsolver hexact
    refine ⟨?_, ?_⟩
    · intro hK
      obtain ⟨b, _, _, hr⟩ := single_region_rhs M_PI
        (⟨5, 5, 5, 1, 1, 1, rho, phi, E⟩ : Spatial_mesh R) solver.rhs inner_region hin
        (fun n hn => (hsound n hn).1)
      obtain ⟨x, hxk⟩ := hK _ hr
      exact solve_poisson_eqn_exists KSPSolve M_PI solver _ inner_region _ x hr hxk hin
    · intro res hres
      have hpot : ∀ i j k, (0 ≤ i ∧ i < 5) → (0 ≤ j ∧ j < 5) → (0 ≤ k ∧ k < 5) →
          res.2.potential i j k
            = scenario_potential inclusive (sq_dist_from_centre ⟨i, j, k⟩) :=
        region_solution_unique KSPSolve M_PI
          (⟨5, 5, 5, 1, 1, 1, rho, phi, E⟩ : Spatial_mesh R) inner_region
          (fun a b c => scenario_potential inclusive (sq_dist_from_centre ⟨a, b, c⟩))
          (by show (4 : Int) ≤ 5; decide) (by show (4 : Int) ≤ 5; decide)
          (by show (4 : Int) ≤ 5; decide) one_ne_zero one_ne_zero
          hcls' hsound hnodup hcomplete hWedge hWin hWeq hexact solver hsolver res hres
      refine ⟨?_, ?_, ?_⟩
      · intro i j k hi hj hk hs
        rw [hpot i j k hi hj hk]
        exact scenario_potential_inside inclusive _ hs
      · intro i j k hp hs
        have hp' := hp
        simp only [interior] at hp'
        rw [hpot i j k (by omega) (by omega) (by omega)]
        exact scenario_potential_outside inclusive _ hs (sq_dist_from_centre_interior i j k hp)
      · intro i j k i' j' k' hi hj hk hi' hj' hk' hd
        rw [hpot i j k hi hj hk, hpot i' j' k' hi' hj' hk']
        exact scenario_potential_antitone inclusive _ _ (sq_dist_from_centre_nonneg _) hd

end Claim20

theorem sphere_scenario_witness :
    ∃ (KSPSolve : Mat ℚ → Vec ℚ → Vec ℚ → Option (Vec ℚ)) (solver : Field_solver ℚ)
      (res : Field_solver ℚ × Spatial_mesh ℚ),
      Field_solver.construct scenario_mesh ⟨[sphere_region false]⟩ ⟨[]⟩ = some solver ∧
      solve_poisson_eqn KSPSolve 3 solver scenario_mesh ⟨[sphere_region false]⟩ ⟨[]⟩
        = some res ∧
      res.2.potential 2 2 2 = 10 ∧
      (0 < res.2.potential 1 2 3 ∧ res.2.potential 1 2 3 < 10) ∧
      res.2.potential 1 1 1 ≤ res.2.potential 1 2 3 := by
  have T := sphere_scenario false (3 : ℚ) scenario_mesh (sphere_region false)
    rfl rfl rfl rfl rfl rfl (fun _ _ _ => rfl) (fun _ _ _ _ _ _ _ => rfl) rfl
    (fun n => by
      simp only [sphere_region, in_unit_sphere, Bool.false_eq_true, if_false,
        decide_eq_true_eq, mul_one, sq_dist_from_centre]
      exact_mod_cast Iff.rfl)
    (mem_iff_of_check 5 5 5 _ _ (by decide) (by decide))
    (mem_iff_of_check 5 5 5 _ _ (by decide) (by decide)) (by decide)
  obtain ⟨solver, bf, x, hc, hr, hex⟩ := T.1
  obtain ⟨hret, hval⟩ := T.2 (checked_backend x) solver hc (checked_backend_exact x)
  obtain ⟨res, hres⟩ := hret (fun bf' hbf' =>
    ⟨x, checked_backend_of_exact x _ _ _ (by
      rw [← Option.some.inj (hr.symm.trans hbf')]
      exact hex)⟩)
  obtain ⟨h1, h2, h3⟩ := hval res hres
  exact ⟨checked_backend x, solver, res, hc, hres,
    h1 2 2 2 (by decide) (by decide) (by decide) (by decide),
    h2 1 2 3 (by decide) (by decide),
    h3 1 2 3 1 1 1 (by decide) (by decide) (by decide) (by decide) (by decide) (by decide)
      (by decide)⟩

section Claim30
variable {R : Type} [CommRing R] [DecidableEq R]

/-- C30: the duplicated code paths agree.  For an `Inner_region` and an
`Inner_region_with_model` with the same potential, the same
`inner_nodes_not_at_domain_edge` and `near_boundary_nodes_not_at_domain_edge`
lists and the same `check_if_node_inside`, the two overloads of
`cross_out_nodes_occupied_by_objects`,
`adjacent_nodes_not_at_domain_edge_and_inside_inner_region`,
`modify_equation_near_object_boundaries`,
`set_rhs_at_nodes_occupied_by_objects`,
`indicies_of_near_boundary_nodes_and_rhs_modifications`,
`modify_rhs_near_object_boundaries` and
`set_solution_at_nodes_of_inner_regions` return the same result (the same
operator, index and value lists, right-hand side and solution vector, or
both fail) from the same input. -/
theorem overloads_agree (inner_region : Inner_region R)
    (inner_region_with_model : Inner_region_with_model R)
    (hV : inner_region_with_model.potential = inner_region.potential)
    (hin : inner_region_with_model.inner_nodes_not_at_domain_edge
      = inner_region.inner_nodes_not_at_domain_edge)
    (hnb : inner_region_with_model.near_boundary_nodes_not_at_domain_edge
      = inner_region.near_boundary_nodes_not_at_domain_edge)
    (hcheck : inner_region_with_model.check_if_node_inside
      = inner_region.check_if_node_inside)
    (A : Mat R) (nx ny nz : Int) (dx dy dz : R) (spat_mesh : Spatial_mesh R)
    (rhs phi_vec : Vec R) (node : Node_reference) :
    cross_out_nodes_occupied_by_objects_with_model A nx ny nz inner_region_with_model
      = cross_out_nodes_occupied_by_objects A nx ny nz inner_region ∧
    adjacent_nodes_not_at_domain_edge_and_inside_inner_region_with_model node
        inner_region_with_model nx ny nz dx dy dz
      = adjacent_nodes_not_at_domain_edge_and_inside_inner_region node inner_region
        nx ny nz dx dy dz ∧
    modify_equation_near_object_boundaries_with_model A nx ny nz dx dy dz
        inner_region_with_model
      = modify_equation_near_object_boundaries A nx ny nz dx dy dz inner_region ∧
    set_rhs_at_nodes_occupied_by_objects_with_model spat_mesh rhs inner_region_with_model
      = set_rhs_at_nodes_occupied_by_objects spat_mesh rhs inner_region ∧
    indicies_of_near_boundary_nodes_and_rhs_modifications_with_model nx ny nz dx dy dz
        inner_region_with_model
      = indicies_of_near_boundary_nodes_and_rhs_modifications nx ny nz dx dy dz
        inner_region ∧
    modify_rhs_near_object_boundaries_with_model spat_mesh rhs inner_region_with_model
      = modify_rhs_near_object_boundaries spat_mesh rhs inner_region ∧
    set_solution_at_nodes_of_inner_regions_with_model spat_mesh phi_vec
        inner_region_with_model
      = set_solution_at_nodes_of_inner_regions spat_mesh phi_vec inner_region := by
  obtain ⟨name, V, inner, inner_ne, near, near_ne, check⟩ := inner_region
  obtain ⟨name', V', inner', inner_ne', near', near_ne', check'⟩ := inner_region_with_model
  simp only [] at hV hin hnb hcheck
  subst hV hin hnb hcheck
  exact ⟨rfl, rfl, rfl, rfl, rfl, rfl, rfl⟩

theorem overloads_agree_witness :
    modify_rhs_near_object_boundaries_with_model example_mesh (fun _ => 7)
        ⟨"model", 10, [⟨2, 2, 2⟩], example_region.inner_nodes_not_at_domain_edge, [],
          example_region.near_boundary_nodes_not_at_domain_edge,
          example_region.check_if_node_inside⟩
      = modify_rhs_near_object_boundaries example_mesh (fun _ => 7) example_region :=
  (overloads_agree example_region
    ⟨"model", 10, [⟨2, 2, 2⟩], example_region.inner_nodes_not_at_domain_edge, [],
      example_region.near_boundary_nodes_not_at_domain_edge,
      example_region.check_if_node_inside⟩ rfl rfl rfl rfl
    (zero_matrix 27 27) 5 5 5 1 1 1 example_mesh (fun _ => 7) (fun _ => 0) ⟨1, 2, 2⟩).2.2.2.2.2.1

end Claim30

section Claim28
variable {R : Type} [CommRing R] [DecidableEq R]

/-- What `multiply_pattern_along_diagonal` does to a matrix `result` that is
large enough: row `r2 + k*P` receives the nonzero entries of row `r2` of the
pattern, shifted by `k*P` columns; every other entry is kept. -/
theorem multiply_pattern_along_diagonal_rows (result pattern : Mat R) (P n : Int) (hP : 0 < P)
    (hr : pattern.nrow = P) (hc : pattern.ncol = P)
    (hRr : P * n ≤ result.nrow) (hRc : P * n ≤ result.ncol) :
    ∃ M' : Mat R, multiply_pattern_along_diagonal result pattern P n = some M' ∧
      M'.nrow = result.nrow ∧ M'.ncol = result.ncol ∧
      ∀ r2 k : Int, 0 ≤ r2 → r2 < P → 0 ≤ k → k < n → ∀ c,
        M'.val (r2 + k * P) c
          = if (0 ≤ c - k * P ∧ c - k * P < P) ∧ pattern.val r2 (c - k * P) ≠ 0
            then pattern.val r2 (c - k * P) else result.val (r2 + k * P) c := by
  have key : ∀ i, 0 ≤ i → i < P * n →
      0 ≤ Int.tmod i P ∧ Int.tmod i P < P ∧ 0 ≤ Int.tdiv i P ∧ Int.tdiv i P < n ∧
      i = Int.tmod i P + Int.tdiv i P * P := by
    intro i h0 hi
    obtain ⟨a, b, e, a0, a1, b0, b1⟩ := digits_of_lt hP h0 hi
    have d := @divmod_of_digits P a b hP a0 a1
    rw [Int.tmod_eq_emod h0 hP.le, Int.tdiv_eq_ediv h0 hP.le, e, d.1, d.2]
    exact ⟨a0, a1, b0, b1, rfl⟩
  obtain ⟨M', e1, e2, e3, e4⟩ := @for_each_row_eq R _ _
    (fun i =>
      match MatGetRow pattern (Int.tmod i P) with
      | none => none
      | some (pattern_nonzero_cols, pattern_nonzero_vals) =>
        some (pattern_nonzero_cols.map (fun c => c + (Int.tdiv i P) * P), pattern_nonzero_vals))
    (fun i =>
      ((((List.range pattern.ncol.toNat).map (fun (c : Nat) => (c : Int))).filter
          (fun c => decide (pattern.val (Int.tmod i P) c ≠ 0))).map
        (fun c => (c + (Int.tdiv i P) * P, pattern.val (Int.tmod i P) c))))
    result (P * n) hRr
    (by
      intro i h0 hi
      obtain ⟨k1, k2, k3, k4, k5⟩ := key i h0 hi
      have hg := MatGetRow_eq pattern _ k1 (by omega)
      simp only [hg]
      refine ⟨_, rfl, ?_, ?_⟩
      · simp only [List.zip_map']
      · intro c hcm
        simp only [List.mem_map] at hcm
        obtain ⟨c0, hc0, rfl⟩ := hcm
        have := ((mem_stored_cols pattern _ c0).1 hc0).1
        have hb := (@digits_bound P n c0 (Int.tdiv i P) this.1 (by omega) k3 k4).2
        omega)
  refine ⟨M', e1, e2, e3, ?_⟩
  intro r2 k a0 a1 b0 b1 c
  have hrng := digits_bound a0 a1 b0 b1
  have d := @divmod_of_digits P r2 k hP a0 a1
  rw [e4, if_pos hrng, Int.tmod_eq_emod hrng.1 hP.le, Int.tdiv_eq_ediv hrng.1 hP.le,
    d.1, d.2]
  by_cases hin : (0 ≤ c - k * P ∧ c - k * P < P) ∧ pattern.val r2 (c - k * P) ≠ 0
  · rw [if_pos hin]
    apply write_row_of_mem
    · rw [List.map_map]
      apply List.Nodup.map
      · intro x y h; simpa using h
      · exact stored_cols_nodup pattern r2
    · have hk : 0 ≤ k * P := mul_nonneg b0 hP.le
      omega
    · rw [List.mem_map]
      refine ⟨c - k * P, (mem_stored_cols pattern r2 _).2 ⟨by omega, hin.2⟩, ?_⟩
      simp
  · rw [if_neg hin, write_row_of_not_mem]
    intro cv hcv e
    rw [List.mem_map] at hcv
    obtain ⟨c0, hc0, rfl⟩ := hcv
    have hm := (mem_stored_cols pattern r2 c0).1 hc0
    simp only [] at e
    have e' : c - k * P = c0 := by omega
    rw [e'] at hin
    exact hin ⟨by omega, hm.2⟩

/-- C28: `multiply_pattern_along_diagonal(result, pattern, pt_size, n_times)` with
a `pt_size` x `pt_size` pattern, on a matrix `result` with at least
`pt_size*n_times` rows and columns, completes and stores block-diagonal copies
of the pattern: for all `r`, `c` in `[0, pt_size*n_times)` the entry `(r, c)`
becomes `pattern(r mod pt_size, c mod pt_size)` when `r / pt_size = c / pt_size`
and that entry of the pattern is stored (not `0`), and is the entry `result`
had otherwise.  So on a `result` with nothing stored, as the callers pass it,
the entry is `pattern(r mod pt_size, c mod pt_size)` if
`r / pt_size = c / pt_size`, and `0` otherwise. -/
theorem multiply_pattern_block_diagonal (result pattern : Mat R) (pt_size n_times : Int)
    (hP : 0 < pt_size) (hr : pattern.nrow = pt_size) (hc : pattern.ncol = pt_size)
    (hRr : pt_size * n_times ≤ result.nrow) (hRc : pt_size * n_times ≤ result.ncol) :
    ∃ M' : Mat R, multiply_pattern_along_diagonal result pattern pt_size n_times = some M' ∧
      (∀ r c : Int, 0 ≤ r → r < pt_size * n_times → 0 ≤ c → c < pt_size * n_times →
        M'.val r c
          = if r / pt_size = c / pt_size ∧ pattern.val (r % pt_size) (c % pt_size) ≠ 0
            then pattern.val (r % pt_size) (c % pt_size) else result.val r c) ∧
      ((∀ r c : Int, 0 ≤ r → r < pt_size * n_times → 0 ≤ c → c < pt_size * n_times →
          result.val r c = 0) →
        ∀ r c : Int, 0 ≤ r → r < pt_size * n_times → 0 ≤ c → c < pt_size * n_times →
          M'.val r c
            = if r / pt_size = c / pt_size then pattern.val (r % pt_size) (c % pt_size)
              else 0) := by
  obtain ⟨M', e1, _, _, e4⟩ := multiply_pattern_along_diagonal_rows result pattern pt_size
    n_times hP hr hc hRr hRc
  have hentry : ∀ r c : Int, 0 ≤ r → r < pt_size * n_times → 0 ≤ c → c < pt_size * n_times →
      M'.val r c
        = if r / pt_size = c / pt_size ∧ pattern.val (r % pt_size) (c % pt_size) ≠ 0
          then pattern.val (r % pt_size) (c % pt_size) else result.val r c := by
    intro r c r0 r1 c0 c1
    obtain ⟨a, k, e, a0, a1, k0, k1⟩ := digits_of_lt hP r0 r1
    obtain ⟨a', k', e', a0', a1', k0', k1'⟩ := digits_of_lt hP c0 c1
    have d := @divmod_of_digits pt_size a k hP a0 a1
    have d' := @divmod_of_digits pt_size a' k' hP a0' a1'
    subst e
    rw [e4 a k a0 a1 k0 k1, d.1, d.2, e', d'.1, d'.2]
    by_cases hk : k = k'
    · subst hk
      have e2 : a' + k * pt_size - k * pt_size = a' := by ring
      rw [e2]
      by_cases hv : pattern.val a a' ≠ 0
      · rw [if_pos ⟨⟨a0', a1'⟩, hv⟩, if_pos ⟨rfl, hv⟩]
      · rw [if_neg (fun h => hv h.2), if_neg (fun h => hv h.2)]
    · rw [if_neg, if_neg (fun h => hk h.1)]
      rintro ⟨⟨h1, h2⟩, _⟩
      rcases lt_or_gt_of_ne hk with hlt | hgt
      · have h3 := mul_le_mul_of_nonneg_right (show k + 1 ≤ k' by omega) hP.le
        have h4 : (k + 1) * pt_size = k * pt_size + pt_size := by ring
        linarith
      · have h3 := mul_le_mul_of_nonneg_right (show k' + 1 ≤ k by omega) hP.le
        have h4 : (k' + 1) * pt_size = k' * pt_size + pt_size := by ring
        linarith
  refine ⟨M', e1, hentry, ?_⟩
  intro hz r c r0 r1 c0 c1
  rw [hentry r c r0 r1 c0 c1, hz r c r0 r1 c0 c1]
  by_cases hk : r / pt_size = c / pt_size
  · rw [if_pos hk]
    by_cases hv : pattern.val (r % pt_size) (c % pt_size) ≠ 0
    · rw [if_pos ⟨hk, hv⟩]
    · rw [if_neg (fun h => hv h.2)]
      exact (not_not.1 hv).symm
  · rw [if_neg hk, if_neg (fun h => hk h.1)]

theorem multiply_pattern_block_diagonal_witness :
    ∃ M' : Mat Int, multiply_pattern_along_diagonal (zero_matrix 4 4)
        ⟨2, 2, fun r c => if r = c then -2 else 1⟩ 2 2 = some M' ∧
      M'.val 2 3 = 1 ∧ M'.val 1 2 = 0 := by
  obtain ⟨M', h, _, hz⟩ := multiply_pattern_block_diagonal (zero_matrix 4 4 : Mat Int)
    ⟨2, 2, fun r c => if r = c then -2 else 1⟩ 2 2 (by decide) rfl rfl (by decide) (by decide)
  have h1 := hz (fun _ _ _ _ _ _ => rfl) 2 3 (by decide) (by decide) (by decide) (by decide)
  have h2 := hz (fun _ _ _ _ _ _ => rfl) 1 2 (by decide) (by decide) (by decide) (by decide)
  exact ⟨M', h, h1, h2⟩

end Claim28

section Claim21
variable {R : Type} [Field R] [DecidableEq R] [CharZero R]

theorem potential_with_unknowns_interior_values (spat_mesh : Spatial_mesh R) (i j k : Int) :
    potential_with_unknowns spat_mesh (interior_values spat_mesh) i j k
      = spat_mesh.potential i j k := by
  unfold potential_with_unknowns
  split
  · rename_i h
    unfold interior_values
    rw [index_to_node_idx h]
  · rfl

/-- C21: manufactured solution.  With no embedded region, on a grid with at least
4 nodes along each axis, for a quadratic potential
`a*(i*dx)^2 + b*(j*dy)^2 + c*(k*dz)^2 + e0 + e1*(i*dx) + e2*(j*dy) + e3*(k*dz)`
stored at every node of the grid and the charge density
`-(2a+2b+2c)/(4*pi)` at every node: the operator `A_base` and the right-hand
side `b_1` are produced, the vector of the interior values of the potential
satisfies `A_base*phi_int = b_1` at every row, and at every interior node the
7-point operator on the stored potential (the assembled operator together
with the injected edge values) is the source term
`(2a+2b+2c)*dx^2dy^2dz^2`. -/
theorem manufactured_quadratic_solution (M_PI : R) (spat_mesh : Spatial_mesh R) (rhs : Vec R)
    (a b c e0 e1 e2 e3 : R)
    (hx : 4 ≤ spat_mesh.x_n_nodes) (hy : 4 ≤ spat_mesh.y_n_nodes)
    (hz : 4 ≤ spat_mesh.z_n_nodes) (hpi : M_PI ≠ 0)
    (hphi : ∀ i j k, (0 ≤ i ∧ i < spat_mesh.x_n_nodes) → (0 ≤ j ∧ j < spat_mesh.y_n_nodes) →
      (0 ≤ k ∧ k < spat_mesh.z_n_nodes) →
      spat_mesh.potential i j k
        = a * ((i : R) * spat_mesh.x_cell_size) ^ 2 + b * ((j : R) * spat_mesh.y_cell_size) ^ 2
          + c * ((k : R) * spat_mesh.z_cell_size) ^ 2
          + (e0 + e1 * ((i : R) * spat_mesh.x_cell_size)
            + e2 * ((j : R) * spat_mesh.y_cell_size)
            + e3 * ((k : R) * spat_mesh.z_cell_size)))
    (hrho : ∀ i j k, (0 ≤ i ∧ i < spat_mesh.x_n_nodes) → (0 ≤ j ∧ j < spat_mesh.y_n_nodes) →
      (0 ≤ k ∧ k < spat_mesh.z_n_nodes) →
      spat_mesh.charge_density i j k = -(2 * a + 2 * b + 2 * c) / (4 * M_PI)) :
    ∃ (A : Mat R) (b_1 : Vec R),
      construct_equation_matrix_in_full_domain
        (zero_matrix
          ((spat_mesh.x_n_nodes - 2) * (spat_mesh.y_n_nodes - 2) * (spat_mesh.z_n_nodes - 2))
          ((spat_mesh.x_n_nodes - 2) * (spat_mesh.y_n_nodes - 2) * (spat_mesh.z_n_nodes - 2)))
        spat_mesh.x_n_nodes spat_mesh.y_n_nodes spat_mesh.z_n_nodes
        spat_mesh.x_cell_size spat_mesh.y_cell_size spat_mesh.z_cell_size = some A ∧
      init_rhs_vector_in_full_domain M_PI spat_mesh rhs = some b_1 ∧
      (∀ r : Int, 0 ≤ r →
        r < (spat_mesh.x_n_nodes - 2) * (spat_mesh.y_n_nodes - 2) * (spat_mesh.z_n_nodes - 2) →
        mat_vec A (interior_values spat_mesh) r = b_1 r) ∧
      (∀ i j k : Int,
        interior ⟨i, j, k⟩ spat_mesh.x_n_nodes spat_mesh.y_n_nodes spat_mesh.z_n_nodes →
        seven_point spat_mesh.x_cell_size spat_mesh.y_cell_size spat_mesh.z_cell_size
            spat_mesh.potential i j k
          = (2 * a + 2 * b + 2 * c) *
            (spat_mesh.x_cell_size * spat_mesh.x_cell_size *
              (spat_mesh.y_cell_size * spat_mesh.y_cell_size) *
              (spat_mesh.z_cell_size * spat_mesh.z_cell_size)) ∧
        mat_vec A (interior_values spat_mesh)
            (idx ⟨i, j, k⟩ spat_mesh.x_n_nodes spat_mesh.y_n_nodes)
          - b_1 (idx ⟨i, j, k⟩ spat_mesh.x_n_nodes spat_mesh.y_n_nodes)
          = seven_point spat_mesh.x_cell_size spat_mesh.y_cell_size spat_mesh.z_cell_size
              spat_mesh.potential i j k
            - (2 * a + 2 * b + 2 * c) *
              (spat_mesh.x_cell_size * spat_mesh.x_cell_size *
                (spat_mesh.y_cell_size * spat_mesh.y_cell_size) *
                (spat_mesh.z_cell_size * spat_mesh.z_cell_size))) := by
  obtain ⟨A, hA, hAr, hAc, hAv⟩ := construct_equation_matrix_in_full_domain_eq
    spat_mesh.x_n_nodes spat_mesh.y_n_nodes spat_mesh.z_n_nodes
    spat_mesh.x_cell_size spat_mesh.y_cell_size spat_mesh.z_cell_size hx hy hz
  obtain ⟨b_1, hb, hbv, _⟩ := init_rhs_vector_in_full_domain_eq M_PI spat_mesh rhs
  have h4 : (4 : R) * M_PI ≠ 0 := mul_ne_zero (by norm_num) hpi
  have hsp : ∀ i j k : Int,
      interior ⟨i, j, k⟩ spat_mesh.x_n_nodes spat_mesh.y_n_nodes spat_mesh.z_n_nodes →
      seven_point spat_mesh.x_cell_size spat_mesh.y_cell_size spat_mesh.z_cell_size
          spat_mesh.potential i j k
        = (2 * a + 2 * b + 2 * c) *
          (spat_mesh.x_cell_size * spat_mesh.x_cell_size *
            (spat_mesh.y_cell_size * spat_mesh.y_cell_size) *
            (spat_mesh.z_cell_size * spat_mesh.z_cell_size)) := by
    intro i j k hp
    simp only [interior] at hp
    unfold seven_point
    rw [hphi i j k (by omega) (by omega) (by omega),
      hphi (i - 1) j k (by omega) (by omega) (by omega),
      hphi (i + 1) j k (by omega) (by omega) (by omega),
      hphi i (j - 1) k (by omega) (by omega) (by omega),
      hphi i (j + 1) k (by omega) (by omega) (by omega),
      hphi i j (k - 1) (by omega) (by omega) (by omega),
      hphi i j (k + 1) (by omega) (by omega) (by omega)]
    push_cast
    ring
  have hres : ∀ i j k : Int,
      interior ⟨i, j, k⟩ spat_mesh.x_n_nodes spat_mesh.y_n_nodes spat_mesh.z_n_nodes →
      mat_vec A (interior_values spat_mesh)
          (idx ⟨i, j, k⟩ spat_mesh.x_n_nodes spat_mesh.y_n_nodes)
        - b_1 (idx ⟨i, j, k⟩ spat_mesh.x_n_nodes spat_mesh.y_n_nodes)
        = seven_point spat_mesh.x_cell_size spat_mesh.y_cell_size spat_mesh.z_cell_size
            spat_mesh.potential i j k
          - (2 * a + 2 * b + 2 * c) *
            (spat_mesh.x_cell_size * spat_mesh.x_cell_size *
              (spat_mesh.y_cell_size * spat_mesh.y_cell_size) *
              (spat_mesh.z_cell_size * spat_mesh.z_cell_size)) := by
    intro i j k hp
    have hp' := hp
    simp only [interior] at hp'
    have h := full_domain_residual M_PI spat_mesh (interior_values spat_mesh) i j k hp
    simp only [potential_with_unknowns_interior_values] at h
    rw [mat_vec_of_stencil A _ _ _ _ _ _ ⟨i, j, k⟩ hp hAc (hAv _ hp), hbv _ hp, h,
      hrho i j k (by omega) (by omega) (by omega)]
    unfold seven_point
    field_simp
    ring
  refine ⟨A, b_1, hA, hb, ?_, fun i j k hp => ⟨hsp i j k hp, hres i j k hp⟩⟩
  intro r h0 h1
  obtain ⟨hp, hpe⟩ := @index_to_node_interior r spat_mesh.x_n_nodes spat_mesh.y_n_nodes
    spat_mesh.z_n_nodes (by omega) (by omega) h0 h1
  obtain ⟨i, j, k, hijk⟩ : ∃ i j k,
      index_to_node r spat_mesh.x_n_nodes spat_mesh.y_n_nodes = ⟨i, j, k⟩ := ⟨_, _, _, rfl⟩
  rw [hijk] at hp hpe
  have h := hres i j k hp
  rw [hsp i j k hp, sub_self, hpe] at h
  exact sub_eq_zero.1 h

theorem manufactured_quadratic_solution_witness :
    ∃ (A : Mat ℚ) (b_1 : Vec ℚ),
      construct_equation_matrix_in_full_domain (zero_matrix ((4 - 2) * (4 - 2) * (4 - 2))
        ((4 - 2) * (4 - 2) * (4 - 2))) 4 4 4 1 2 1 = some A ∧
      init_rhs_vector_in_full_domain 3 quadratic_mesh (fun _ => 0) = some b_1 ∧
      mat_vec A (interior_values quadratic_mesh) 5 = b_1 5 := by
  obtain ⟨A, b_1, hA, hb, hrow, _⟩ := manufactured_quadratic_solution (3 : ℚ) quadratic_mesh
    (fun _ => 0) 1 2 3 5 1 (-1) 2 (by decide) (by decide) (by decide) (by decide)
    (fun _ _ _ _ _ _ => rfl) (fun _ _ _ _ _ _ => rfl)
  exact ⟨A, b_1, hA, hb, hrow 5 (by decide) (by decide)⟩

end Claim21

section Claim22
variable {R : Type} [CommRing R] [DecidableEq R]

theorem for_each_row_of_nonpos (nrow : Int) (body : Int → Option (List Int × List R))
    (M : Mat R) (h : nrow ≤ 0) : for_each_row nrow body M = some M := by
  unfold for_each_row
  have : nrow.toNat = 0 := by omega
  rw [this]
  rfl

/-- On a grid whose 2-D pattern has no row (2 nodes along x or along y) the
build of the base operator completes without writing anything. -/
theorem construct_equation_matrix_in_full_domain_of_empty_plane (nx ny nz : Int)
    (dx dy dz : R) (hP : (nx - 2) * (ny - 2) = 0) :
    ∃ A : Mat R, construct_equation_matrix_in_full_domain
        (zero_matrix ((nx - 2) * (ny - 2) * (nz - 2)) ((nx - 2) * (ny - 2) * (nz - 2)))
        nx ny nz dx dy dz = some A ∧ A.nrow = 0 ∧ A.ncol = 0 := by
  have h3d : ∀ M : Mat R, construct_d2dx2_in_3d M nx ny nz = some M ∧
      construct_d2dy2_in_3d M nx ny nz = some M ∧ construct_d2dz2_in_3d M nx ny nz = some M := by
    intro M
    refine ⟨?_, ?_, ?_⟩
    · unfold construct_d2dx2_in_3d construct_d2dx2_in_2d multiply_pattern_along_diagonal
        alloc_petsc_matrix
      simp only [hP, lt_self_iff_false, or_self, if_false, zero_mul]
      rw [for_each_row_of_nonpos _ _ _ (le_refl _)]
      simp only []
      rw [for_each_row_of_nonpos _ _ _ (le_refl _)]
    · unfold construct_d2dy2_in_3d construct_d2dy2_in_2d multiply_pattern_along_diagonal
        alloc_petsc_matrix
      simp only [hP, lt_self_iff_false, or_self, if_false, zero_mul]
      rw [for_each_row_of_nonpos _ _ _ (le_refl _)]
      simp only []
      rw [for_each_row_of_nonpos _ _ _ (le_refl _)]
    · unfold construct_d2dz2_in_3d
      simp only [hP, zero_mul]
      rw [for_each_row_of_nonpos _ _ _ (le_refl _)]
  unfold construct_equation_matrix_in_full_domain
  simp only [(h3d _).1, (h3d _).2.1, (h3d _).2.2, alloc_petsc_matrix, hP, zero_mul,
    lt_self_iff_false, or_self, if_false, MatAXPY, MatScale, zero_matrix, and_self, if_true]
  exact ⟨_, rfl, rfl, rfl⟩

/-- C22 (counterexample to the claim as written): for the mesh with 2 nodes
along x and 4 along y and z, with no regions, the build of the base operator
and the constructor report no error: they produce an operator with no rows
and no columns. -/
theorem thin_grid_builds_empty_operator :
    thin_mesh.x_n_nodes ≤ 2 ∧
    (construct_equation_matrix_in_full_domain (zero_matrix 0 0 : Mat Int) 2 4 4 1 1 1).isSome
      = true ∧
    (Field_solver.construct thin_mesh ⟨[]⟩ ⟨[]⟩).isSome = true ∧
    (Field_solver.construct thin_mesh ⟨[]⟩ ⟨[]⟩).map (fun s => (s.A.nrow, s.A.ncol))
      = some (0, 0) := by
  decide

end Claim22

section Claim29
variable {R : Type} [CommRing R] [DecidableEq R]

/-- C29 (the code at the failing inputs): on a grid with 3 nodes along x every
row `i` of the 2-D x pattern is written at the columns `i - 1` and `i`, so
row `0` is written at column `-1`; with 3 nodes along y the 2-D y pattern,
and with 3 nodes along z the 3-D z operator, write row `0` at the column
`nx - 2`, resp. `(nx-2)(ny-2)`, one past the last column, and the build
stops with an error. -/
theorem single_unknown_axis_writes_outside :
    (∀ M : Mat R, construct_d2dx2_in_2d M 3 4
      = for_each_row ((3 - 2) * (4 - 2)) (fun i => some ([i - 1, i], [1, -2])) M) ∧
    construct_d2dy2_in_2d (zero_matrix ((4 - 2) * (3 - 2)) ((4 - 2) * (3 - 2)) : Mat R) 4 3
      = none ∧
    construct_d2dz2_in_3d
      (zero_matrix ((4 - 2) * (4 - 2) * (3 - 2)) ((4 - 2) * (4 - 2) * (3 - 2)) : Mat R) 4 4 3
      = none ∧
    construct_equation_matrix_in_full_domain
      (zero_matrix ((4 - 2) * (3 - 2) * (4 - 2)) ((4 - 2) * (3 - 2) * (4 - 2)) : Mat R)
      4 3 4 1 1 1 = none ∧
    construct_equation_matrix_in_full_domain
      (zero_matrix ((4 - 2) * (4 - 2) * (3 - 2)) ((4 - 2) * (4 - 2) * (3 - 2)) : Mat R)
      4 4 3 1 1 1 = none := by
  refine ⟨?_, construct_d2dy2_in_2d_three_nodes 4 (by decide),
    construct_d2dz2_in_3d_three_nodes 4 4 (by decide) (by decide),
    construct_equation_matrix_in_full_domain_three_nodes 4 3 4 1 1 1 (by decide) (by decide)
      (by decide) (Or.inl rfl),
    construct_equation_matrix_in_full_domain_three_nodes 4 4 3 1 1 1 (by decide) (by decide)
      (by decide) (Or.inr rfl)⟩
  intro M
  unfold construct_d2dx2_in_2d
  simp only []
  congr 1
  funext i
  have e : (3 : Int) - 2 = 1 := by decide
  rw [e, Int.tmod_one, if_neg (by decide), if_pos rfl]

end Claim29

section OverrideLemmas
variable {R : Type} [CommRing R] [DecidableEq R]

theorem overridden_unique {B B1 B2 : Mat R} {S : Int → Int → Prop} {k : Int → Int → R}
    (h1 : overridden B B1 S k) (h2 : overridden B B2 S k) : B1 = B2 := by
  obtain ⟨n1, c1, v1⟩ := B1
  obtain ⟨n2, c2, v2⟩ := B2
  obtain ⟨a1, a2, a3⟩ := h1
  obtain ⟨b1, b2, b3⟩ := h2
  simp only [] at a1 a2 a3 b1 b2 b3
  have e : v1 = v2 := by
    funext r c
    by_cases h : S r c
    · rw [(a3 r c).1 h, (b3 r c).1 h]
    · rw [(a3 r c).2 h, (b3 r c).2 h]
  rw [a1, a2, b1, b2, e]

theorem overridden_congr {B B' : Mat R} {S S' : Int → Int → Prop} {k : Int → Int → R}
    (h : overridden B B' S k) (hS : ∀ r c, S r c ↔ S' r c) : overridden B B' S' k := by
  refine ⟨h.1, h.2.1, fun r c => ⟨fun hs => (h.2.2 r c).1 ((hS r c).2 hs),
    fun hs => (h.2.2 r c).2 (fun hs' => hs ((hS r c).1 hs'))⟩⟩

/-- A loop whose every step replaces the entries at some places by the values
of one function `k`, or fails on a test of the size of the matrix: the loop
completes exactly when every test passes, and then it has replaced the
entries at the places of all its steps. -/
theorem foldlM_override {α : Type} (f : Mat R → α → Option (Mat R))
    (P : α → Int → Int → Prop) (S : α → Int → Int → Prop) (k : Int → Int → R)
    (hf1 : ∀ B a, P a B.nrow B.ncol → ∃ B1, f B a = some B1 ∧ overridden B B1 (S a) k)
    (hf2 : ∀ B a, ¬ P a B.nrow B.ncol → f B a = none)
    (l : List α) (B : Mat R) :
    ((∀ a ∈ l, P a B.nrow B.ncol) →
      ∃ B', l.foldlM f B = some B' ∧ overridden B B' (fun r c => ∃ a ∈ l, S a r c) k) ∧
    ((¬ ∀ a ∈ l, P a B.nrow B.ncol) → l.foldlM f B = none) := by
  induction l generalizing B with
  | nil =>
    refine ⟨fun _ => ⟨B, rfl, rfl, rfl, fun r c => ⟨?_, fun _ => rfl⟩⟩, fun h => ?_⟩
    · rintro ⟨a, ha, _⟩
      cases ha
    · exact absurd (fun a ha => by cases ha) h
  | cons a l ih =>
    rw [List.foldlM_cons]
    by_cases hPa : P a B.nrow B.ncol
    · obtain ⟨B1, hB1, h1, h2, h3⟩ := hf1 B a hPa
      rw [hB1]
      simp only [Option.some_bind, bind]
      obtain ⟨ih1, ih2⟩ := ih B1
      rw [h1, h2] at ih1 ih2
      refine ⟨fun hall => ?_, fun hn => ?_⟩
      · obtain ⟨B', hB', g1, g2, g3⟩ := ih1 (fun b hb => hall b (List.mem_cons_of_mem _ hb))
        refine ⟨B', hB', g1.trans h1, g2.trans h2, fun r c => ⟨?_, ?_⟩⟩
        · rintro ⟨b, hb, hs⟩
          by_cases hl : ∃ b ∈ l, S b r c
          · exact (g3 r c).1 hl
          · rw [(g3 r c).2 hl]
            rcases List.mem_cons.1 hb with e | hb'
            · rw [e] at hs
              exact (h3 r c).1 hs
            · exact absurd ⟨b, hb', hs⟩ hl
        · intro hs
          rw [(g3 r c).2 (fun ⟨b, hb, hsb⟩ => hs ⟨b, List.mem_cons_of_mem _ hb, hsb⟩),
            (h3 r c).2 (fun hsa => hs ⟨a, List.mem_cons_self _ _, hsa⟩)]
      · apply ih2
        intro hall
        apply hn
        intro b hb
        rcases List.mem_cons.1 hb with e | hb'
        · rw [e]; exact hPa
        · exact hall b hb'
    · rw [hf2 B a hPa]
      refine ⟨fun hall => absurd (hall a (List.mem_cons_self _ _)) hPa, fun _ => rfl⟩

theorem zip_replicate_of_le (cols : List Int) (m : Nat) (y : R) (h : cols.length ≤ m) :
    cols.zip (List.replicate m y) = cols.map (fun c => (c, y)) := by
  induction cols generalizing m with
  | nil => simp
  | cons c cols ih =>
    cases m with
    | zero => simp at h
    | succ m =>
      rw [List.replicate_succ, List.zip_cons_cons, List.map_cons, ih m (by simpa using h)]

theorem MatSetValues_fold_none (row : Int) (l : List (Int × R)) (A : Mat R)
    (h : ∃ cv ∈ l, 0 ≤ cv.1 ∧ A.ncol ≤ cv.1) :
    l.foldlM (fun (B : Mat R) (cv : Int × R) =>
        if cv.1 < 0 then some B
        else if B.ncol ≤ cv.1 then none
        else some (B.set_entry row cv.1 cv.2)) A = none := by
  induction l generalizing A with
  | nil => obtain ⟨cv, hcv, _⟩ := h; cases hcv
  | cons a l ih =>
    rw [List.foldlM_cons]
    by_cases h1 : a.1 < 0
    · rw [if_pos h1]
      simp only [Option.some_bind, bind]
      apply ih
      obtain ⟨cv, hcv, h0, h2⟩ := h
      rcases List.mem_cons.1 hcv with e | hm
      · rw [e] at h0; omega
      · exact ⟨cv, hm, h0, h2⟩
    · rw [if_neg h1]
      by_cases h2 : A.ncol ≤ a.1
      · rw [if_pos h2]; rfl
      · rw [if_neg h2]
        simp only [Option.some_bind, bind]
        apply ih
        obtain ⟨cv, hcv, h0, h3⟩ := h
        rcases List.mem_cons.1 hcv with e | hm
        · rw [e] at h3; exact absurd h3 h2
        · exact ⟨cv, hm, h0, h3⟩

/-- The step of `modify_equation_near_object_boundaries` for one node, on a matrix
of any size: it completes exactly when the node is an interior node and, if
some neighbour qualifies, the row and the columns lie in the matrix; it then
sets the entries of the row at the qualifying columns to `0`. -/
theorem modify_step_override (inside : Node_reference → Bool) (nx ny nz : Int) (B : Mat R)
    (node : Node_reference) :
    ((interior node nx ny nz ∧ (qualifying_columns inside nx ny nz node ≠ [] →
          idx node nx ny < B.nrow ∧ ∀ c ∈ qualifying_columns inside nx ny nz node, c < B.ncol)) →
      ∃ B1, modify_step inside nx ny nz B node = some B1 ∧
        overridden B B1
          (fun r c => r = idx node nx ny ∧ c ∈ qualifying_columns inside nx ny nz node)
          (fun _ _ => 0)) ∧
    (¬ (interior node nx ny nz ∧ (qualifying_columns inside nx ny nz node ≠ [] →
          idx node nx ny < B.nrow ∧ ∀ c ∈ qualifying_columns inside nx ny nz node, c < B.ncol)) →
      modify_step inside nx ny nz B node = none) := by
  by_cases hn : interior node nx ny nz
  · have hcols : ∀ c ∈ qualifying_columns inside nx ny nz node, 0 ≤ c := by
      intro c hcm
      obtain ⟨adj, ha, hq, rfl⟩ := (mem_qualifying_columns _ _ _ _ _ _).1 hcm
      simp only [qualifies, Bool.and_eq_true, Bool.not_eq_true'] at hq
      exact (idx_range (adjacent_interior hn ha hq.1)).1
    have hstep : modify_step inside nx ny nz B node
        = if (qualifying_columns inside nx ny nz node).length ≠ 0 then
            MatSetValues B (idx node nx ny) (qualifying_columns inside nx ny nz node)
              (List.replicate 6 (0 : R))
          else some B := by
      unfold modify_step
      rw [node_index_of_interior hn]
      simp only []
      rw [collect_adjacent_of_interior inside hn]
    rw [hstep]
    by_cases hlen : (qualifying_columns inside nx ny nz node).length ≠ 0
    · have hne : qualifying_columns inside nx ny nz node ≠ [] := by
        intro e; rw [e] at hlen; exact hlen rfl
      rw [if_pos hlen]
      refine ⟨fun hP => ?_, fun hP => ?_⟩
      · obtain ⟨hr, hc⟩ := hP.2 hne
        rw [MatSetValues_eq B _ _ _ (idx_range hn).1 hr hc]
        refine ⟨_, rfl, rfl, rfl, fun r c => ⟨?_, ?_⟩⟩
        · rintro ⟨e1, e2⟩
          simp only []
          rw [if_pos e1, write_row_zeros _ _ _ (qualifying_columns_length _ _ _ _ _) hcols,
            if_pos e2]
        · intro hs
          simp only []
          by_cases e1 : r = idx node nx ny
          · rw [if_pos e1, write_row_zeros _ _ _ (qualifying_columns_length _ _ _ _ _) hcols,
              if_neg (fun e2 => hs ⟨e1, e2⟩), e1]
          · rw [if_neg e1]
      · have hfail : ¬ (idx node nx ny < B.nrow ∧
            ∀ c ∈ qualifying_columns inside nx ny nz node, c < B.ncol) :=
          fun h => hP ⟨hn, fun _ => h⟩
        unfold MatSetValues
        rw [if_neg (by have := (idx_range hn).1; omega)]
        by_cases hr : B.nrow ≤ idx node nx ny
        · rw [if_pos hr]
        · rw [if_neg hr]
          have : ∃ c ∈ qualifying_columns inside nx ny nz node, B.ncol ≤ c := by
            by_contra hcon
            apply hfail
            refine ⟨by omega, fun c hcm => ?_⟩
            by_contra hcc
            exact hcon ⟨c, hcm, by omega⟩
          obtain ⟨c, hcm, hcc⟩ := this
          apply MatSetValues_fold_none
          refine ⟨(c, 0), ?_, hcols c hcm, hcc⟩
          rw [zip_replicate_of_le _ _ _ (qualifying_columns_length _ _ _ _ _)]
          exact List.mem_map_of_mem _ hcm
    · have he : qualifying_columns inside nx ny nz node = [] := by
        simpa using hlen
      rw [if_neg hlen]
      refine ⟨fun _ => ⟨B, rfl, rfl, rfl, fun r c => ⟨?_, fun _ => rfl⟩⟩, fun hP => ?_⟩
      · rintro ⟨_, e2⟩
        rw [he] at e2
        cases e2
      · exact absurd ⟨hn, fun h => absurd he h⟩ hP
  · refine ⟨fun hP => absurd hP.1 hn, fun _ => ?_⟩
    unfold modify_step
    cases h : node_global_index_in_matrix node nx ny nz with
    | none => rfl
    | some r => exact absurd (node_index_eq_some h).1 hn

/-- `cross_out_nodes_occupied_by_objects` for a region, on a matrix of any size:
it completes exactly when the listed nodes are interior nodes whose rows lie
in the matrix; it then replaces those rows by identity rows. -/
theorem cross_out_override (nx ny nz : Int) (B : Mat R) (inner_region : Inner_region R) :
    (((∀ n ∈ inner_region.inner_nodes_not_at_domain_edge, interior n nx ny nz) ∧
        ∀ n ∈ inner_region.inner_nodes_not_at_domain_edge, idx n nx ny < B.nrow) →
      ∃ B1, cross_out_nodes_occupied_by_objects B nx ny nz inner_region = some B1 ∧
        overridden B B1
          (fun r _ => r ∈ inner_region.inner_nodes_not_at_domain_edge.map
            (fun n => idx n nx ny))
          (fun r c => if c = r then 1 else 0)) ∧
    (¬ ((∀ n ∈ inner_region.inner_nodes_not_at_domain_edge, interior n nx ny nz) ∧
        ∀ n ∈ inner_region.inner_nodes_not_at_domain_edge, idx n nx ny < B.nrow) →
      cross_out_nodes_occupied_by_objects B nx ny nz inner_region = none) := by
  by_cases hall : ∀ n ∈ inner_region.inner_nodes_not_at_domain_edge, interior n nx ny nz
  · have hstep : cross_out_nodes_occupied_by_objects B nx ny nz inner_region
        = if (inner_region.inner_nodes_not_at_domain_edge.map
              (fun n => idx n nx ny)).length ≠ 0 then
            MatZeroRows B (inner_region.inner_nodes_not_at_domain_edge.map
              (fun n => idx n nx ny)) 1
          else some B := by
      unfold cross_out_nodes_occupied_by_objects
      rw [(list_of_nodes_eq_some_iff _ nx ny nz _).2 ⟨hall, rfl⟩]
    rw [hstep]
    by_cases hlen : (inner_region.inner_nodes_not_at_domain_edge.map
        (fun n => idx n nx ny)).length ≠ 0
    · rw [if_pos hlen]
      refine ⟨fun hP => ?_, fun hP => ?_⟩
      · obtain ⟨B1, hB1⟩ := MatZeroRows_of_range B
          (inner_region.inner_nodes_not_at_domain_edge.map (fun n => idx n nx ny)) 1
          (by
            intro r hr
            obtain ⟨n, hn, rfl⟩ := List.mem_map.1 hr
            exact ⟨(idx_range (hall n hn)).1, hP.2 n hn⟩)
        obtain ⟨_, e1, e2, e3⟩ := MatZeroRows_eq_some B B1 _ 1 hB1
        refine ⟨B1, hB1, e1, e2, fun r c => ⟨fun hs => ?_, fun hs => ?_⟩⟩
        · rw [e3, if_pos hs]
        · rw [e3, if_neg hs]
      · cases hz : MatZeroRows B (inner_region.inner_nodes_not_at_domain_edge.map
            (fun n => idx n nx ny)) 1 with
        | none => rfl
        | some B1 =>
          obtain ⟨hrng, _⟩ := MatZeroRows_eq_some B B1 _ 1 hz
          exact absurd ⟨hall, fun n hn => (hrng _ (List.mem_map_of_mem _ hn)).2⟩ hP
    · have he : inner_region.inner_nodes_not_at_domain_edge = [] := by
        simpa using hlen
      rw [if_neg hlen]
      refine ⟨fun _ => ⟨B, rfl, rfl, rfl, fun r c => ⟨?_, fun _ => rfl⟩⟩, fun hP => ?_⟩
      · intro hs
        rw [he] at hs
        cases hs
      · apply absurd _ hP
        rw [he]
        exact ⟨fun n hn => (by cases hn), fun n hn => (by cases hn)⟩
  · refine ⟨fun hP => absurd hP.1 hall, fun _ => ?_⟩
    unfold cross_out_nodes_occupied_by_objects
    cases h : list_of_nodes_global_indices_in_matrix
        inner_region.inner_nodes_not_at_domain_edge nx ny nz with
    | none => rfl
    | some l => exact absurd ((list_of_nodes_eq_some_iff _ _ _ _ _).1 h).1 hall

end OverrideLemmas

section ManagerLemmas
variable {R : Type} [CommRing R] [DecidableEq R]

theorem match_eq_bind {α β : Type} (x : Option α) (g : α → Option β) :
    (match x with
      | none => none
      | some a => g a) = x.bind g := by
  cases x <;> rfl


theorem two_loops_eq {β : Type} (f : β → Inner_region R → Option β)
    (g : β → Inner_region_with_model R → Option β)
    (hg : ∀ v m, g v m = f v (as_inner_region m))
    (l : List (Inner_region R)) (m : List (Inner_region_with_model R)) (v : β) :
    (l.foldlM f v).bind (fun w => m.foldlM g w)
      = (l ++ m.map as_inner_region).foldlM f v := by
  rw [List.foldlM_append]
  have e : g = fun v m => f v (as_inner_region m) := funext (fun v => funext (fun m => hg v m))
  cases l.foldlM f v with
  | none => rfl
  | some w =>
    simp only [Option.some_bind, bind]
    rw [List.foldlM_map, e]

/-- The two loops of `cross_out_nodes_occupied_by_objects` over the managers are
one loop over all regions. -/
theorem cross_out_all_eq (A : Mat R) (nx ny nz : Int)
    (inner_regions : Inner_regions_manager R)
    (inner_regions_with_models : Inner_regions_with_models_manager R) :
    cross_out_nodes_occupied_by_objects_all A nx ny nz inner_regions inner_regions_with_models
      = (all_regions inner_regions inner_regions_with_models).foldlM
          (fun B reg => cross_out_nodes_occupied_by_objects B nx ny nz reg) A := by
  have T := two_loops_eq
    (fun B reg => cross_out_nodes_occupied_by_objects B nx ny nz reg)
    (fun B reg => cross_out_nodes_occupied_by_objects_with_model B nx ny nz reg)
    (fun _ _ => rfl) inner_regions.regions inner_regions_with_models.regions A
  unfold cross_out_nodes_occupied_by_objects_all all_regions
  rw [← T]
  cases List.foldlM (fun B reg => cross_out_nodes_occupied_by_objects B nx ny nz reg) A inner_regions.regions <;> rfl

/-- The two loops of `modify_equation_near_object_boundaries` over the managers
are one loop over all regions. -/
theorem modify_equation_all_eq (A : Mat R) (nx ny nz : Int) (dx dy dz : R)
    (inner_regions : Inner_regions_manager R)
    (inner_regions_with_models : Inner_regions_with_models_manager R) :
    modify_equation_near_object_boundaries_all A nx ny nz dx dy dz inner_regions
        inner_regions_with_models
      = (all_regions inner_regions inner_regions_with_models).foldlM
          (fun B reg => modify_equation_near_object_boundaries B nx ny nz dx dy dz reg) A := by
  have T := two_loops_eq
    (fun B reg => modify_equation_near_object_boundaries B nx ny nz dx dy dz reg)
    (fun B reg => modify_equation_near_object_boundaries_with_model B nx ny nz dx dy dz reg)
    (fun _ _ => rfl) inner_regions.regions inner_regions_with_models.regions A
  unfold modify_equation_near_object_boundaries_all all_regions
  rw [← T]
  cases List.foldlM (fun B reg => modify_equation_near_object_boundaries B nx ny nz dx dy dz reg) A inner_regions.regions <;> rfl

theorem set_rhs_all_eq (spat_mesh : Spatial_mesh R) (rhs : Vec R)
    (inner_regions : Inner_regions_manager R)
    (inner_regions_with_models : Inner_regions_with_models_manager R) :
    set_rhs_at_nodes_occupied_by_objects_all spat_mesh rhs inner_regions
        inner_regions_with_models
      = (all_regions inner_regions inner_regions_with_models).foldlM
          (fun v reg => set_rhs_at_nodes_occupied_by_objects spat_mesh v reg) rhs := by
  have T := two_loops_eq
    (fun v reg => set_rhs_at_nodes_occupied_by_objects spat_mesh v reg)
    (fun v reg => set_rhs_at_nodes_occupied_by_objects_with_model spat_mesh v reg)
    (fun _ _ => rfl) inner_regions.regions inner_regions_with_models.regions rhs
  unfold set_rhs_at_nodes_occupied_by_objects_all all_regions
  rw [← T]
  cases List.foldlM (fun v reg => set_rhs_at_nodes_occupied_by_objects spat_mesh v reg) rhs inner_regions.regions <;> rfl

theorem modify_rhs_all_eq (spat_mesh : Spatial_mesh R) (rhs : Vec R)
    (inner_regions : Inner_regions_manager R)
    (inner_regions_with_models : Inner_regions_with_models_manager R) :
    modify_rhs_near_object_boundaries_all spat_mesh rhs inner_regions
        inner_regions_with_models
      = (all_regions inner_regions inner_regions_with_models).foldlM
          (fun v reg => modify_rhs_near_object_boundaries spat_mesh v reg) rhs := by
  have T := two_loops_eq
    (fun v reg => modify_rhs_near_object_boundaries spat_mesh v reg)
    (fun v reg => modify_rhs_near_object_boundaries_with_model spat_mesh v reg)
    (fun _ _ => rfl) inner_regions.regions inner_regions_with_models.regions rhs
  unfold modify_rhs_near_object_boundaries_all all_regions
  rw [← T]
  cases List.foldlM (fun v reg => modify_rhs_near_object_boundaries spat_mesh v reg) rhs inner_regions.regions <;> rfl

/-- `modify_equation_near_object_boundaries` for a region, on a matrix of any
size: it completes exactly when every listed node passes the test of its
step; it then has set to `0` the entries of the rows of the listed nodes at
their qualifying columns. -/
theorem modify_equation_override (nx ny nz : Int) (dx dy dz : R) (B : Mat R)
    (inner_region : Inner_region R) :
    ((∀ node ∈ inner_region.near_boundary_nodes_not_at_domain_edge,
        interior node nx ny nz ∧
        (qualifying_columns (fun adj => inner_region.check_if_node_inside adj dx dy dz)
            nx ny nz node ≠ [] →
          idx node nx ny < B.nrow ∧
          ∀ c ∈ qualifying_columns (fun adj => inner_region.check_if_node_inside adj dx dy dz)
            nx ny nz node, c < B.ncol)) →
      ∃ B1, modify_equation_near_object_boundaries B nx ny nz dx dy dz inner_region = some B1 ∧
        overridden B B1
          (fun r c => ∃ node ∈ inner_region.near_boundary_nodes_not_at_domain_edge,
            r = idx node nx ny ∧
            c ∈ qualifying_columns (fun adj => inner_region.check_if_node_inside adj dx dy dz)
              nx ny nz node)
          (fun _ _ => 0)) ∧
    (¬ (∀ node ∈ inner_region.near_boundary_nodes_not_at_domain_edge,
        interior node nx ny nz ∧
        (qualifying_columns (fun adj => inner_region.check_if_node_inside adj dx dy dz)
            nx ny nz node ≠ [] →
          idx node nx ny < B.nrow ∧
          ∀ c ∈ qualifying_columns (fun adj => inner_region.check_if_node_inside adj dx dy dz)
            nx ny nz node, c < B.ncol)) →
      modify_equation_near_object_boundaries B nx ny nz dx dy dz inner_region = none) := by
  rw [modify_equation_unfold]
  exact foldlM_override
    (modify_step (fun adj => inner_region.check_if_node_inside adj dx dy dz) nx ny nz)
    (fun node nrow ncol => interior node nx ny nz ∧
      (qualifying_columns (fun adj => inner_region.check_if_node_inside adj dx dy dz)
          nx ny nz node ≠ [] →
        idx node nx ny < nrow ∧
        ∀ c ∈ qualifying_columns (fun adj => inner_region.check_if_node_inside adj dx dy dz)
          nx ny nz node, c < ncol))
    (fun node r c => r = idx node nx ny ∧
      c ∈ qualifying_columns (fun adj => inner_region.check_if_node_inside adj dx dy dz)
        nx ny nz node)
    (fun _ _ => 0)
    (fun B node h => (modify_step_override _ nx ny nz B node).1 h)
    (fun B node h => (modify_step_override _ nx ny nz B node).2 h)
    inner_region.near_boundary_nodes_not_at_domain_edge B

/-- A loop of override steps gives the same result on a permutation of its
list. -/
theorem foldlM_override_perm {α : Type} (f : Mat R → α → Option (Mat R))
    (P : α → Int → Int → Prop) (S : α → Int → Int → Prop) (k : Int → Int → R)
    (hf1 : ∀ B a, P a B.nrow B.ncol → ∃ B1, f B a = some B1 ∧ overridden B B1 (S a) k)
    (hf2 : ∀ B a, ¬ P a B.nrow B.ncol → f B a = none)
    (l1 l2 : List α) (hp : l1.Perm l2) (B : Mat R) :
    l1.foldlM f B = l2.foldlM f B := by
  obtain ⟨a1, a2⟩ := foldlM_override f P S k hf1 hf2 l1 B
  obtain ⟨b1, b2⟩ := foldlM_override f P S k hf1 hf2 l2 B
  by_cases hall : ∀ a ∈ l1, P a B.nrow B.ncol
  · have hall2 : ∀ a ∈ l2, P a B.nrow B.ncol := fun a ha => hall a (hp.mem_iff.2 ha)
    obtain ⟨B1, e1, o1⟩ := a1 hall
    obtain ⟨B2, e2, o2⟩ := b1 hall2
    rw [e1, e2]
    have o2' : overridden B B2 (fun r c => ∃ a ∈ l1, S a r c) k :=
      overridden_congr o2 (fun r c =>
        ⟨fun ⟨a, ha, hs⟩ => ⟨a, hp.mem_iff.2 ha, hs⟩, fun ⟨a, ha, hs⟩ => ⟨a, hp.mem_iff.1 ha, hs⟩⟩)
    rw [overridden_unique o1 o2']
  · have hall2 : ¬ ∀ a ∈ l2, P a B.nrow B.ncol :=
      fun h => hall (fun a ha => h a (hp.mem_iff.1 ha))
    rw [a2 hall, b2 hall2]

theorem cross_out_fold_perm (nx ny nz : Int) (l1 l2 : List (Inner_region R))
    (hp : l1.Perm l2) (B : Mat R) :
    l1.foldlM (fun B reg => cross_out_nodes_occupied_by_objects B nx ny nz reg) B
      = l2.foldlM (fun B reg => cross_out_nodes_occupied_by_objects B nx ny nz reg) B :=
  foldlM_override_perm
    (fun B reg => cross_out_nodes_occupied_by_objects B nx ny nz reg)
    (fun reg nrow _ => (∀ n ∈ reg.inner_nodes_not_at_domain_edge, interior n nx ny nz) ∧
      ∀ n ∈ reg.inner_nodes_not_at_domain_edge, idx n nx ny < nrow)
    (fun reg r _ => r ∈ reg.inner_nodes_not_at_domain_edge.map (fun n => idx n nx ny))
    (fun r c => if c = r then 1 else 0)
    (fun B reg h => (cross_out_override nx ny nz B reg).1 h)
    (fun B reg h => (cross_out_override nx ny nz B reg).2 h)
    l1 l2 hp B

theorem modify_equation_fold_perm (nx ny nz : Int) (dx dy dz : R)
    (l1 l2 : List (Inner_region R)) (hp : l1.Perm l2) (B : Mat R) :
    l1.foldlM (fun B reg => modify_equation_near_object_boundaries B nx ny nz dx dy dz reg) B
      = l2.foldlM
          (fun B reg => modify_equation_near_object_boundaries B nx ny nz dx dy dz reg) B :=
  foldlM_override_perm
    (fun B reg => modify_equation_near_object_boundaries B nx ny nz dx dy dz reg)
    (fun reg nrow ncol => ∀ node ∈ reg.near_boundary_nodes_not_at_domain_edge,
      interior node nx ny nz ∧
      (qualifying_columns (fun adj => reg.check_if_node_inside adj dx dy dz)
          nx ny nz node ≠ [] →
        idx node nx ny < nrow ∧
        ∀ c ∈ qualifying_columns (fun adj => reg.check_if_node_inside adj dx dy dz)
          nx ny nz node, c < ncol))
    (fun reg r c => ∃ node ∈ reg.near_boundary_nodes_not_at_domain_edge,
      r = idx node nx ny ∧
      c ∈ qualifying_columns (fun adj => reg.check_if_node_inside adj dx dy dz) nx ny nz node)
    (fun _ _ => 0)
    (fun B reg h => (modify_equation_override nx ny nz dx dy dz B reg).1 h)
    (fun B reg h => (modify_equation_override nx ny nz dx dy dz B reg).2 h)
    l1 l2 hp B

/-- `construct_equation_matrix` as the base build followed by the two loops
over all regions. -/
theorem construct_equation_matrix_eq_bind (A : Mat R) (nx ny nz : Int) (dx dy dz : R)
    (inner_regions : Inner_regions_manager R)
    (inner_regions_with_models : Inner_regions_with_models_manager R) :
    construct_equation_matrix A nx ny nz dx dy dz inner_regions inner_regions_with_models
      = ((construct_equation_matrix_in_full_domain A nx ny nz dx dy dz).bind
          (fun B => (all_regions inner_regions inner_regions_with_models).foldlM
            (fun B reg => cross_out_nodes_occupied_by_objects B nx ny nz reg) B)).bind
          (fun B => (all_regions inner_regions inner_regions_with_models).foldlM
            (fun B reg => modify_equation_near_object_boundaries B nx ny nz dx dy dz reg) B) := by
  unfold construct_equation_matrix
  cases construct_equation_matrix_in_full_domain A nx ny nz dx dy dz with
  | none => rfl
  | some B =>
    simp only [Option.some_bind, cross_out_all_eq]
    cases (all_regions inner_regions inner_regions_with_models).foldlM
        (fun B reg => cross_out_nodes_occupied_by_objects B nx ny nz reg) B with
    | none => rfl
    | some B1 =>
      simp only [Option.some_bind, modify_equation_all_eq]

theorem construct_equation_matrix_perm (A : Mat R) (nx ny nz : Int) (dx dy dz : R)
    (r1 r2 : Inner_regions_manager R) (m1 m2 : Inner_regions_with_models_manager R)
    (hp : (all_regions r1 m1).Perm (all_regions r2 m2)) :
    construct_equation_matrix A nx ny nz dx dy dz r1 m1
      = construct_equation_matrix A nx ny nz dx dy dz r2 m2 := by
  rw [construct_equation_matrix_eq_bind, construct_equation_matrix_eq_bind]
  have e1 : (fun B => (all_regions r1 m1).foldlM
        (fun B reg => cross_out_nodes_occupied_by_objects B nx ny nz reg) B)
      = (fun B => (all_regions r2 m2).foldlM
        (fun B reg => cross_out_nodes_occupied_by_objects B nx ny nz reg) B) :=
    funext (fun B => cross_out_fold_perm nx ny nz _ _ hp B)
  have e2 : (fun B => (all_regions r1 m1).foldlM
        (fun B reg => modify_equation_near_object_boundaries B nx ny nz dx dy dz reg) B)
      = (fun B => (all_regions r2 m2).foldlM
        (fun B reg => modify_equation_near_object_boundaries B nx ny nz dx dy dz reg) B) :=
    funext (fun B => modify_equation_fold_perm nx ny nz dx dy dz _ _ hp B)
  rw [e1, e2]

end ManagerLemmas

section MultiRegionLemmas
variable {R : Type} [CommRing R] [DecidableEq R]

theorem foldlM_preserves {α β : Type} (f : β → α → Option β) (Q : β → Prop)
    (hq : ∀ b a b', Q b → f b a = some b' → Q b') (l : List α) (b b' : β) (h0 : Q b)
    (h : l.foldlM f b = some b') : Q b' := by
  induction l generalizing b with
  | nil =>
    simp only [List.foldlM_nil, pure, Option.some.injEq] at h
    rw [← h]; exact h0
  | cons a l ih =>
    rw [List.foldlM_cons] at h
    cases hfa : f b a with
    | none => rw [hfa] at h; exact absurd h (by simp)
    | some b1 => rw [hfa] at h; exact ih b1 (hq b a b1 h0 hfa) h

theorem MatSetValues_dims (A A' : Mat R) (row : Int) (cols : List Int) (vals : List R)
    (h : MatSetValues A row cols vals = some A') : A'.nrow = A.nrow ∧ A'.ncol = A.ncol := by
  unfold MatSetValues at h
  by_cases h1 : row < 0
  · rw [if_pos h1] at h
    cases h
    exact ⟨rfl, rfl⟩
  · rw [if_neg h1] at h
    by_cases h2 : A.nrow ≤ row
    · rw [if_pos h2] at h
      exact absurd h (by simp)
    · rw [if_neg h2] at h
      refine foldlM_preserves _ (fun B => B.nrow = A.nrow ∧ B.ncol = A.ncol) ?_ _ A A'
        ⟨rfl, rfl⟩ h
      intro b a b' hb hf
      simp only [] at hf
      by_cases h3 : a.1 < 0
      · rw [if_pos h3] at hf
        cases hf
        exact hb
      · rw [if_neg h3] at hf
        by_cases h4 : b.ncol ≤ a.1
        · rw [if_pos h4] at hf
          exact absurd hf (by simp)
        · rw [if_neg h4] at hf
          cases hf
          exact hb

theorem for_each_row_dims (nrow : Int) (body : Int → Option (List Int × List R))
    (M M' : Mat R) (h : for_each_row nrow body M = some M') :
    M'.nrow = M.nrow ∧ M'.ncol = M.ncol := by
  unfold for_each_row at h
  refine foldlM_preserves _ (fun B => B.nrow = M.nrow ∧ B.ncol = M.ncol) ?_ _ M M'
    ⟨rfl, rfl⟩ h
  intro b i b' hb hf
  simp only [] at hf
  cases hbody : body (i : Int) with
  | none => rw [hbody] at hf; exact absurd hf (by simp)
  | some cv =>
    rw [hbody] at hf
    have := MatSetValues_dims _ _ _ _ _ hf
    exact ⟨this.1.trans hb.1, this.2.trans hb.2⟩

theorem MatAXPY_dims (Y Y' X : Mat R) (a : R) (h : MatAXPY Y a X = some Y') :
    Y'.nrow = Y.nrow ∧ Y'.ncol = Y.ncol := by
  unfold MatAXPY at h
  split at h
  · cases h
    exact ⟨rfl, rfl⟩
  · exact absurd h (by simp)

theorem construct_d2dx2_in_3d_dims (A A' : Mat R) (nx ny nz : Int)
    (h : construct_d2dx2_in_3d A nx ny nz = some A') :
    A'.nrow = A.nrow ∧ A'.ncol = A.ncol := by
  unfold construct_d2dx2_in_3d at h
  simp only [] at h
  split at h
  · exact absurd h (by simp)
  · split at h
    · exact absurd h (by simp)
    · unfold multiply_pattern_along_diagonal at h
      exact for_each_row_dims _ _ _ _ h

/-- A base build that completes returns a matrix of the size it was given. -/
theorem construct_equation_matrix_in_full_domain_dims (A A' : Mat R) (nx ny nz : Int)
    (dx dy dz : R) (h : construct_equation_matrix_in_full_domain A nx ny nz dx dy dz = some A') :
    A'.nrow = A.nrow ∧ A'.ncol = A.ncol := by
  unfold construct_equation_matrix_in_full_domain at h
  simp only [] at h
  cases h1 : construct_d2dx2_in_3d A nx ny nz with
  | none => rw [h1] at h; exact absurd h (by simp)
  | some A1 =>
    rw [h1] at h
    simp only [] at h
    have d1 := construct_d2dx2_in_3d_dims _ _ _ _ _ h1
    split at h
    · exact absurd h (by simp)
    · split at h
      · exact absurd h (by simp)
      · split at h
        · exact absurd h (by simp)
        · rename_i A3 h3
          have d3 := MatAXPY_dims _ _ _ _ h3
          split at h
          · exact absurd h (by simp)
          · split at h
            · exact absurd h (by simp)
            · have d4 := MatAXPY_dims _ _ _ _ h
              exact ⟨d4.1.trans (d3.1.trans d1.1), d4.2.trans (d3.2.trans d1.2)⟩

/-- A loop whose every step either fails on a test of its element or applies a
total update: the loop completes exactly when every test passes, and then it
is the fold of the updates. -/
theorem foldlM_guarded {α β : Type} (f : β → α → Option β) (P : α → Prop) (g : β → α → β)
    (hf1 : ∀ v a, P a → f v a = some (g v a)) (hf2 : ∀ v a, ¬ P a → f v a = none)
    (l : List α) (v : β) :
    ((∀ a ∈ l, P a) → l.foldlM f v = some (l.foldl g v)) ∧
    ((¬ ∀ a ∈ l, P a) → l.foldlM f v = none) := by
  induction l generalizing v with
  | nil =>
    exact ⟨fun _ => rfl, fun h => absurd (fun a ha => by cases ha) h⟩
  | cons a l ih =>
    rw [List.foldlM_cons, List.foldl_cons]
    by_cases hPa : P a
    · rw [hf1 v a hPa]
      simp only [Option.some_bind, bind]
      refine ⟨fun hall => (ih (g v a)).1 (fun b hb => hall b (List.mem_cons_of_mem _ hb)),
        fun hn => (ih (g v a)).2 (fun hall => hn ?_)⟩
      intro b hb
      rcases List.mem_cons.1 hb with e | hb'
      · rw [e]; exact hPa
      · exact hall b hb'
    · rw [hf2 v a hPa]
      exact ⟨fun hall => absurd (hall a (List.mem_cons_self _ _)) hPa, fun _ => rfl⟩

theorem foldl_zero_fill {α : Type} (S : α → List Int) (l : List α) (v : Vec R) (m : Int) :
    ((∃ a ∈ l, m ∈ S a) →
      (l.foldl (fun (w : Vec R) a => fun n => if n ∈ S a then 0 else w n) v) m = 0) ∧
    ((¬ ∃ a ∈ l, m ∈ S a) →
      (l.foldl (fun (w : Vec R) a => fun n => if n ∈ S a then 0 else w n) v) m = v m) := by
  induction l generalizing v with
  | nil =>
    refine ⟨?_, fun _ => rfl⟩
    rintro ⟨a, ha, _⟩
    cases ha
  | cons a l ih =>
    rw [List.foldl_cons]
    obtain ⟨i1, i2⟩ := ih (fun n => if n ∈ S a then 0 else v n)
    refine ⟨fun hex => ?_, fun hn => ?_⟩
    · by_cases hl : ∃ b ∈ l, m ∈ S b
      · exact i1 hl
      · rw [i2 hl]
        obtain ⟨b, hb, hm⟩ := hex
        rcases List.mem_cons.1 hb with e | hb'
        · rw [e] at hm
          exact if_pos hm
        · exact absurd ⟨b, hb', hm⟩ hl
    · rw [i2 (fun ⟨b, hb, hm⟩ => hn ⟨b, List.mem_cons_of_mem _ hb, hm⟩)]
      exact if_neg (fun hm => hn ⟨a, List.mem_cons_self _ _, hm⟩)

theorem foldl_add_contrib {α : Type} (g : Vec R → α → Vec R) (c : α → Int → R)
    (hg : ∀ v a m, g v a m = v m + c a m) (l : List α) (v : Vec R) (m : Int) :
    (l.foldl g v) m = v m + (l.map (fun a => c a m)).sum := by
  induction l generalizing v with
  | nil => simp
  | cons a l ih =>
    rw [List.foldl_cons, ih, hg, List.map_cons, List.sum_cons]
    ring

end MultiRegionLemmas

section MultiRegionSystem
variable {R : Type} [CommRing R] [DecidableEq R]

/-- A run of `construct_equation_matrix` that completes, for any regions: the
base build completed, the listed nodes are interior nodes with rows in the
matrix, and the result is the base operator with identity rows at the
region-interior unknowns of all regions and then zeros at the qualifying
columns of the rows of the near-boundary nodes of all regions. -/
theorem construct_equation_matrix_eq_some (A : Mat R) (nx ny nz : Int) (dx dy dz : R)
    (inner_regions : Inner_regions_manager R)
    (inner_regions_with_models : Inner_regions_with_models_manager R) (A2 : Mat R)
    (h : construct_equation_matrix A nx ny nz dx dy dz inner_regions inner_regions_with_models
      = some A2) :
    ∃ B : Mat R, construct_equation_matrix_in_full_domain A nx ny nz dx dy dz = some B ∧
      B.nrow = A.nrow ∧ B.ncol = A.ncol ∧ A2.nrow = A.nrow ∧ A2.ncol = A.ncol ∧
      (∀ reg ∈ all_regions inner_regions inner_regions_with_models,
        ∀ n ∈ reg.inner_nodes_not_at_domain_edge,
          interior n nx ny nz ∧ idx n nx ny < A.nrow) ∧
      (∀ reg ∈ all_regions inner_regions inner_regions_with_models,
        ∀ n ∈ reg.near_boundary_nodes_not_at_domain_edge, interior n nx ny nz) ∧
      ∀ r c,
        ((∃ reg ∈ all_regions inner_regions inner_regions_with_models,
            ∃ node ∈ reg.near_boundary_nodes_not_at_domain_edge, r = idx node nx ny ∧
              c ∈ qualifying_columns (fun adj => reg.check_if_node_inside adj dx dy dz)
                nx ny nz node) → A2.val r c = 0) ∧
        ((¬ ∃ reg ∈ all_regions inner_regions inner_regions_with_models,
            ∃ node ∈ reg.near_boundary_nodes_not_at_domain_edge, r = idx node nx ny ∧
              c ∈ qualifying_columns (fun adj => reg.check_if_node_inside adj dx dy dz)
                nx ny nz node) →
          ((∃ reg ∈ all_regions inner_regions inner_regions_with_models,
              r ∈ reg.inner_nodes_not_at_domain_edge.map (fun n => idx n nx ny)) →
            A2.val r c = if c = r then 1 else 0) ∧
          ((¬ ∃ reg ∈ all_regions inner_regions inner_regions_with_models,
              r ∈ reg.inner_nodes_not_at_domain_edge.map (fun n => idx n nx ny)) →
            A2.val r c = B.val r c)) := by
  rw [construct_equation_matrix_eq_bind] at h
  cases hB : construct_equation_matrix_in_full_domain A nx ny nz dx dy dz with
  | none => rw [hB] at h; exact absurd h (by simp)
  | some B =>
    rw [hB] at h
    simp only [Option.some_bind] at h
    obtain ⟨dB1, dB2⟩ := construct_equation_matrix_in_full_domain_dims _ _ _ _ _ _ _ _ hB
    obtain ⟨c1, c2⟩ := foldlM_override
      (fun B reg => cross_out_nodes_occupied_by_objects B nx ny nz reg)
      (fun reg nrow _ => (∀ n ∈ reg.inner_nodes_not_at_domain_edge, interior n nx ny nz) ∧
        ∀ n ∈ reg.inner_nodes_not_at_domain_edge, idx n nx ny < nrow)
      (fun reg r _ => r ∈ reg.inner_nodes_not_at_domain_edge.map (fun n => idx n nx ny))
      (fun r c => if c = r then 1 else 0)
      (fun B reg h => (cross_out_override nx ny nz B reg).1 h)
      (fun B reg h => (cross_out_override nx ny nz B reg).2 h)
      (all_regions inner_regions inner_regions_with_models) B
    by_cases hc : ∀ reg ∈ all_regions inner_regions inner_regions_with_models,
        (∀ n ∈ reg.inner_nodes_not_at_domain_edge, interior n nx ny nz) ∧
        ∀ n ∈ reg.inner_nodes_not_at_domain_edge, idx n nx ny < B.nrow
    · obtain ⟨B1, hB1, o1r, o1c, o1v⟩ := c1 hc
      rw [hB1] at h
      simp only [Option.some_bind] at h
      obtain ⟨m1, m2⟩ := foldlM_override
        (fun B reg => modify_equation_near_object_boundaries B nx ny nz dx dy dz reg)
        (fun reg nrow ncol => ∀ node ∈ reg.near_boundary_nodes_not_at_domain_edge,
          interior node nx ny nz ∧
          (qualifying_columns (fun adj => reg.check_if_node_inside adj dx dy dz)
              nx ny nz node ≠ [] →
            idx node nx ny < nrow ∧
            ∀ c ∈ qualifying_columns (fun adj => reg.check_if_node_inside adj dx dy dz)
              nx ny nz node, c < ncol))
        (fun reg r c => ∃ node ∈ reg.near_boundary_nodes_not_at_domain_edge,
          r = idx node nx ny ∧
          c ∈ qualifying_columns (fun adj => reg.check_if_node_inside adj dx dy dz)
            nx ny nz node)
        (fun _ _ => 0)
        (fun B reg h => (modify_equation_override nx ny nz dx dy dz B reg).1 h)
        (fun B reg h => (modify_equation_override nx ny nz dx dy dz B reg).2 h)
        (all_regions inner_regions inner_regions_with_models) B1
      by_cases hm : ∀ reg ∈ all_regions inner_regions inner_regions_with_models,
          ∀ node ∈ reg.near_boundary_nodes_not_at_domain_edge,
            interior node nx ny nz ∧
            (qualifying_columns (fun adj => reg.check_if_node_inside adj dx dy dz)
                nx ny nz node ≠ [] →
              idx node nx ny < B1.nrow ∧
              ∀ c ∈ qualifying_columns (fun adj => reg.check_if_node_inside adj dx dy dz)
                nx ny nz node, c < B1.ncol)
      · obtain ⟨B2, hB2, o2r, o2c, o2v⟩ := m1 hm
        rw [hB2] at h
        cases h
        refine ⟨B, rfl, dB1, dB2, o2r.trans (o1r.trans dB1), o2c.trans (o1c.trans dB2),
          fun reg hreg n hn => ⟨(hc reg hreg).1 n hn, dB1 ▸ (hc reg hreg).2 n hn⟩,
          fun reg hreg n hn => (hm reg hreg n hn).1, fun r c => ⟨fun hs => (o2v r c).1 hs,
          fun hs => ⟨fun hs1 => ?_, fun hs1 => ?_⟩⟩⟩
        · rw [(o2v r c).2 hs]
          exact (o1v r c).1 hs1
        · rw [(o2v r c).2 hs]
          exact (o1v r c).2 hs1
      · rw [m2 hm] at h
        exact absurd h (by simp)
    · rw [c2 hc] at h
      exact absurd h (by simp)

/-- On a grid with at least four nodes along each axis, and regions whose
listed nodes are interior nodes, `construct_equation_matrix` completes on the
matrix the constructor allocates. -/
theorem construct_equation_matrix_exists (nx ny nz : Int) (dx dy dz : R)
    (inner_regions : Inner_regions_manager R)
    (inner_regions_with_models : Inner_regions_with_models_manager R)
    (hx : 4 ≤ nx) (hy : 4 ≤ ny) (hz : 4 ≤ nz)
    (hin : ∀ reg ∈ all_regions inner_regions inner_regions_with_models,
      ∀ n ∈ reg.inner_nodes_not_at_domain_edge, interior n nx ny nz)
    (hnb : ∀ reg ∈ all_regions inner_regions inner_regions_with_models,
      ∀ n ∈ reg.near_boundary_nodes_not_at_domain_edge, interior n nx ny nz) :
    ∃ A2 : Mat R, construct_equation_matrix
      (zero_matrix ((nx - 2) * (ny - 2) * (nz - 2)) ((nx - 2) * (ny - 2) * (nz - 2)))
      nx ny nz dx dy dz inner_regions inner_regions_with_models = some A2 := by
  obtain ⟨B, hB, hBr, hBc, _⟩ :=
    construct_equation_matrix_in_full_domain_eq nx ny nz dx dy dz hx hy hz
  rw [construct_equation_matrix_eq_bind, hB]
  simp only [Option.some_bind]
  obtain ⟨B1, hB1, o1r, o1c, _⟩ := (foldlM_override
    (fun B reg => cross_out_nodes_occupied_by_objects B nx ny nz reg)
    (fun reg nrow _ => (∀ n ∈ reg.inner_nodes_not_at_domain_edge, interior n nx ny nz) ∧
      ∀ n ∈ reg.inner_nodes_not_at_domain_edge, idx n nx ny < nrow)
    (fun reg r _ => r ∈ reg.inner_nodes_not_at_domain_edge.map (fun n => idx n nx ny))
    (fun r c => if c = r then 1 else 0)
    (fun B reg h => (cross_out_override nx ny nz B reg).1 h)
    (fun B reg h => (cross_out_override nx ny nz B reg).2 h)
    (all_regions inner_regions inner_regions_with_models) B).1
    (fun reg hreg => ⟨hin reg hreg, fun n hn => by
      rw [hBr]; exact (idx_range (hin reg hreg n hn)).2⟩)
  rw [hB1]
  simp only [Option.some_bind]
  obtain ⟨B2, hB2, _⟩ := (foldlM_override
    (fun B reg => modify_equation_near_object_boundaries B nx ny nz dx dy dz reg)
    (fun reg nrow ncol => ∀ node ∈ reg.near_boundary_nodes_not_at_domain_edge,
      interior node nx ny nz ∧
      (qualifying_columns (fun adj => reg.check_if_node_inside adj dx dy dz)
          nx ny nz node ≠ [] →
        idx node nx ny < nrow ∧
        ∀ c ∈ qualifying_columns (fun adj => reg.check_if_node_inside adj dx dy dz)
          nx ny nz node, c < ncol))
    (fun reg r c => ∃ node ∈ reg.near_boundary_nodes_not_at_domain_edge,
      r = idx node nx ny ∧
      c ∈ qualifying_columns (fun adj => reg.check_if_node_inside adj dx dy dz)
        nx ny nz node)
    (fun _ _ => 0)
    (fun B reg h => (modify_equation_override nx ny nz dx dy dz B reg).1 h)
    (fun B reg h => (modify_equation_override nx ny nz dx dy dz B reg).2 h)
    (all_regions inner_regions inner_regions_with_models) B1).1
    (fun reg hreg node hnode => ⟨hnb reg hreg node hnode, fun _ => ⟨by
      rw [o1r, hBr]; exact (idx_range (hnb reg hreg node hnode)).2, fun c hc => by
      obtain ⟨adj, ha, hq, rfl⟩ := (mem_qualifying_columns _ _ _ _ _ _).1 hc
      simp only [qualifies, Bool.and_eq_true, Bool.not_eq_true'] at hq
      rw [o1c, hBc]
      exact (idx_range (adjacent_interior (hnb reg hreg node hnode) ha hq.1)).2⟩⟩)
  exact ⟨B2, hB2⟩

/-- `init_rhs_vector` as the full-domain step followed by the two loops over all
regions. -/
theorem init_rhs_vector_eq_bind (M_PI : R) (spat_mesh : Spatial_mesh R) (rhs : Vec R)
    (inner_regions : Inner_regions_manager R)
    (inner_regions_with_models : Inner_regions_with_models_manager R) :
    init_rhs_vector M_PI spat_mesh rhs inner_regions inner_regions_with_models
      = ((init_rhs_vector_in_full_domain M_PI spat_mesh rhs).bind
          (fun v => (all_regions inner_regions inner_regions_with_models).foldlM
            (fun v reg => set_rhs_at_nodes_occupied_by_objects spat_mesh v reg) v)).bind
          (fun v => (all_regions inner_regions inner_regions_with_models).foldlM
            (fun v reg => modify_rhs_near_object_boundaries spat_mesh v reg) v) := by
  unfold init_rhs_vector
  cases init_rhs_vector_in_full_domain M_PI spat_mesh rhs with
  | none => rfl
  | some b =>
    simp only [Option.some_bind, set_rhs_all_eq]
    cases (all_regions inner_regions inner_regions_with_models).foldlM
        (fun v reg => set_rhs_at_nodes_occupied_by_objects spat_mesh v reg) b with
    | none => rfl
    | some b1 =>
      simp only [Option.some_bind, modify_rhs_all_eq]

/-- The right-hand side for any regions: `init_rhs_vector` completes exactly
when the listed nodes of all regions are interior nodes, and then an entry is
the full-domain entry, or `0` at a region-interior unknown of some region,
plus the values `rhs_mod` of all listings of its node in the near-boundary
lists of all regions. -/
theorem init_rhs_vector_multi (M_PI : R) (spat_mesh : Spatial_mesh R) (rhs b : Vec R)
    (inner_regions : Inner_regions_manager R)
    (inner_regions_with_models : Inner_regions_with_models_manager R)
    (hb : init_rhs_vector_in_full_domain M_PI spat_mesh rhs = some b) :
    (((∀ reg ∈ all_regions inner_regions inner_regions_with_models,
          ∀ n ∈ reg.inner_nodes_not_at_domain_edge,
            interior n spat_mesh.x_n_nodes spat_mesh.y_n_nodes spat_mesh.z_n_nodes) ∧
        (∀ reg ∈ all_regions inner_regions inner_regions_with_models,
          ∀ n ∈ reg.near_boundary_nodes_not_at_domain_edge,
            interior n spat_mesh.x_n_nodes spat_mesh.y_n_nodes spat_mesh.z_n_nodes)) →
      ∃ bf, init_rhs_vector M_PI spat_mesh rhs inner_regions inner_regions_with_models
          = some bf ∧
        ∀ m,
          ((∃ reg ∈ all_regions inner_regions inner_regions_with_models,
              m ∈ reg.inner_nodes_not_at_domain_edge.map
                (fun n => idx n spat_mesh.x_n_nodes spat_mesh.y_n_nodes)) →
            bf m = 0 + ((all_regions inner_regions inner_regions_with_models).map
              (fun reg => ((reg.near_boundary_nodes_not_at_domain_edge.filter
                  (fun n => decide (idx n spat_mesh.x_n_nodes spat_mesh.y_n_nodes = m))).map
                (rhs_mod_of_node
                  (fun adj => reg.check_if_node_inside adj spat_mesh.x_cell_size
                    spat_mesh.y_cell_size spat_mesh.z_cell_size)
                  reg.potential spat_mesh.x_n_nodes spat_mesh.y_n_nodes
                  spat_mesh.z_n_nodes spat_mesh.x_cell_size spat_mesh.y_cell_size
                  spat_mesh.z_cell_size)).sum)).sum) ∧
          ((¬ ∃ reg ∈ all_regions inner_regions inner_regions_with_models,
              m ∈ reg.inner_nodes_not_at_domain_edge.map
                (fun n => idx n spat_mesh.x_n_nodes spat_mesh.y_n_nodes)) →
            bf m = b m + ((all_regions inner_regions inner_regions_with_models).map
              (fun reg => ((reg.near_boundary_nodes_not_at_domain_edge.filter
                  (fun n => decide (idx n spat_mesh.x_n_nodes spat_mesh.y_n_nodes = m))).map
                (rhs_mod_of_node
                  (fun adj => reg.check_if_node_inside adj spat_mesh.x_cell_size
                    spat_mesh.y_cell_size spat_mesh.z_cell_size)
                  reg.potential spat_mesh.x_n_nodes spat_mesh.y_n_nodes
                  spat_mesh.z_n_nodes spat_mesh.x_cell_size spat_mesh.y_cell_size
                  spat_mesh.z_cell_size)).sum)).sum)) ∧
    (∀ bf, init_rhs_vector M_PI spat_mesh rhs inner_regions inner_regions_with_models
        = some bf →
      (∀ reg ∈ all_regions inner_regions inner_regions_with_models,
        ∀ n ∈ reg.inner_nodes_not_at_domain_edge,
          interior n spat_mesh.x_n_nodes spat_mesh.y_n_nodes spat_mesh.z_n_nodes) ∧
      (∀ reg ∈ all_regions inner_regions inner_regions_with_models,
        ∀ n ∈ reg.near_boundary_nodes_not_at_domain_edge,
          interior n spat_mesh.x_n_nodes spat_mesh.y_n_nodes spat_mesh.z_n_nodes)) := by
  obtain ⟨s1, s2⟩ := foldlM_guarded
    (fun v reg => set_rhs_at_nodes_occupied_by_objects spat_mesh v reg)
    (fun reg => ∀ n ∈ reg.inner_nodes_not_at_domain_edge,
      interior n spat_mesh.x_n_nodes spat_mesh.y_n_nodes spat_mesh.z_n_nodes)
    (fun (w : Vec R) reg => fun n => if n ∈ reg.inner_nodes_not_at_domain_edge.map
      (fun n => idx n spat_mesh.x_n_nodes spat_mesh.y_n_nodes) then 0 else w n)
    (fun v reg h => fill_at_nodes_exists _ _ _ _ v 0 h)
    (fun v reg h => by
      cases hs : set_rhs_at_nodes_occupied_by_objects spat_mesh v reg with
      | none => exact hs
      | some b' => exact absurd (set_rhs_fold_eq _ _ _ _ _ _ hs).1 h)
    (all_regions inner_regions inner_regions_with_models) b
  have hmod : ∀ v : Vec R, _ := fun v => foldlM_guarded
    (fun v reg => modify_rhs_near_object_boundaries spat_mesh v reg)
    (fun reg => ∀ n ∈ reg.near_boundary_nodes_not_at_domain_edge,
      interior n spat_mesh.x_n_nodes spat_mesh.y_n_nodes spat_mesh.z_n_nodes)
    (fun (w : Vec R) reg => VecSetValues_add w
      (reg.near_boundary_nodes_not_at_domain_edge.map
        (fun n => idx n spat_mesh.x_n_nodes spat_mesh.y_n_nodes))
      (reg.near_boundary_nodes_not_at_domain_edge.map
        (rhs_mod_of_node
          (fun adj => reg.check_if_node_inside adj spat_mesh.x_cell_size
            spat_mesh.y_cell_size spat_mesh.z_cell_size)
          reg.potential spat_mesh.x_n_nodes spat_mesh.y_n_nodes
          spat_mesh.z_n_nodes spat_mesh.x_cell_size spat_mesh.y_cell_size
          spat_mesh.z_cell_size)))
    (fun v reg h => modify_rhs_exists spat_mesh v reg h)
    (fun v reg h => by
      cases hs : modify_rhs_near_object_boundaries spat_mesh v reg with
      | none => exact hs
      | some b' => exact absurd (modify_rhs_eq_some _ _ _ _ hs).1 h)
    (all_regions inner_regions inner_regions_with_models) v
  rw [init_rhs_vector_eq_bind, hb]
  simp only [Option.some_bind]
  refine ⟨fun hall => ?_, fun bf hbf => ?_⟩
  · rw [s1 hall.1]
    simp only [Option.some_bind]
    rw [(hmod _).1 hall.2]
    refine ⟨_, rfl, fun m => ?_⟩
    rw [foldl_add_contrib _
      (fun reg m => ((reg.near_boundary_nodes_not_at_domain_edge.filter
          (fun n => decide (idx n spat_mesh.x_n_nodes spat_mesh.y_n_nodes = m))).map
        (rhs_mod_of_node
          (fun adj => reg.check_if_node_inside adj spat_mesh.x_cell_size
            spat_mesh.y_cell_size spat_mesh.z_cell_size)
          reg.potential spat_mesh.x_n_nodes spat_mesh.y_n_nodes
          spat_mesh.z_n_nodes spat_mesh.x_cell_size spat_mesh.y_cell_size
          spat_mesh.z_cell_size)).sum)
      (fun v reg m => VecSetValues_add_map _ _ _ v m)]
    obtain ⟨z1, z2⟩ := foldl_zero_fill
      (fun (reg : Inner_region R) => reg.inner_nodes_not_at_domain_edge.map
        (fun n => idx n spat_mesh.x_n_nodes spat_mesh.y_n_nodes))
      (all_regions inner_regions inner_regions_with_models) b m
    exact ⟨fun h => by rw [z1 h], fun h => by rw [z2 h]⟩
  · by_cases h1 : ∀ reg ∈ all_regions inner_regions inner_regions_with_models,
        ∀ n ∈ reg.inner_nodes_not_at_domain_edge,
          interior n spat_mesh.x_n_nodes spat_mesh.y_n_nodes spat_mesh.z_n_nodes
    · rw [s1 h1] at hbf
      simp only [Option.some_bind] at hbf
      by_cases h2 : ∀ reg ∈ all_regions inner_regions inner_regions_with_models,
          ∀ n ∈ reg.near_boundary_nodes_not_at_domain_edge,
            interior n spat_mesh.x_n_nodes spat_mesh.y_n_nodes spat_mesh.z_n_nodes
      · exact ⟨h1, h2⟩
      · rw [(hmod _).2 h2] at hbf
        exact absurd hbf (by simp)
    · rw [s2 h1] at hbf
      exact absurd hbf (by simp)

end MultiRegionSystem

section Claim23
variable {R : Type} [CommRing R] [DecidableEq R]

/-- C23: the result of `construct_equation_matrix` does not depend on the order of
the regions.  For the same matrix `A` handed to the build, the same grid and
cell sizes, and region lists that are permutations of one another (in each of
the two managers), the two runs give the same result: either both fail, or
both complete with the same matrix, equal in every entry. -/
theorem final_operator_order_independent (A : Mat R) (nx ny nz : Int) (dx dy dz : R)
    (regions_1 regions_2 : List (Inner_region R))
    (models_1 models_2 : List (Inner_region_with_model R))
    (h1 : regions_1.Perm regions_2) (h2 : models_1.Perm models_2) :
    construct_equation_matrix A nx ny nz dx dy dz ⟨regions_1⟩ ⟨models_1⟩
      = construct_equation_matrix A nx ny nz dx dy dz ⟨regions_2⟩ ⟨models_2⟩ :=
  construct_equation_matrix_perm A nx ny nz dx dy dz ⟨regions_1⟩ ⟨regions_2⟩ ⟨models_1⟩
    ⟨models_2⟩ (List.Perm.append h1 (h2.map _))

theorem final_operator_order_independent_witness :
    [corner_region, adjacent_region].Perm [adjacent_region, corner_region] ∧
    construct_equation_matrix (zero_matrix 8 8) 4 4 4 (1 : Int) 1 1
        ⟨[corner_region, adjacent_region]⟩ ⟨[]⟩
      = construct_equation_matrix (zero_matrix 8 8) 4 4 4 (1 : Int) 1 1
        ⟨[adjacent_region, corner_region]⟩ ⟨[]⟩ ∧
    (construct_equation_matrix (zero_matrix 8 8) 4 4 4 (1 : Int) 1 1
        ⟨[corner_region, adjacent_region]⟩ ⟨[]⟩).isSome = true :=
  ⟨List.Perm.swap _ _ _,
    final_operator_order_independent (zero_matrix 8 8) 4 4 4 (1 : Int) 1 1
      [corner_region, adjacent_region] [adjacent_region, corner_region] [] []
      (List.Perm.swap _ _ _) (List.Perm.refl _),
    by decide⟩

end Claim23

section Claim24
variable {R : Type} [CommRing R] [DecidableEq R]

/-- C24: a node listed in `near_boundary_nodes_not_at_domain_edge` of two regions
`R1` and `R2` (the regions of the managers, in this order) and in
`inner_nodes_not_at_domain_edge` of neither.  `init_rhs_vector_in_full_domain`
produces a vector `b`; `init_rhs_vector` completes when the listed nodes of
both regions are interior nodes; and whenever it completes, the entry of the
node is `b` at the node plus the compensation of `R1` and the compensation of
`R2`, each `-V_r*(a*dy^2dz^2 + b*dx^2dz^2 + c*dx^2dy^2)` with the counts of the
qualifying neighbours inside that region, and each once for every time the
node is listed in the region (so `b + compensation R1 + compensation R2` for a
node listed once in each). -/
theorem two_regions_accumulate (M_PI : R) (spat_mesh : Spatial_mesh R) (rhs : Vec R)
    (inner_regions : Inner_regions_manager R)
    (inner_regions_with_models : Inner_regions_with_models_manager R)
    (R1 R2 : Inner_region R) (node : Node_reference)
    (hall : all_regions inner_regions inner_regions_with_models = [R1, R2])
    (h1 : node ∈ R1.near_boundary_nodes_not_at_domain_edge)
    (h2 : node ∈ R2.near_boundary_nodes_not_at_domain_edge)
    (hn1 : node ∉ R1.inner_nodes_not_at_domain_edge)
    (hn2 : node ∉ R2.inner_nodes_not_at_domain_edge) :
    ∃ b, init_rhs_vector_in_full_domain M_PI spat_mesh rhs = some b ∧
      (((∀ reg ∈ [R1, R2], ∀ n ∈ reg.inner_nodes_not_at_domain_edge,
            interior n spat_mesh.x_n_nodes spat_mesh.y_n_nodes spat_mesh.z_n_nodes) ∧
          (∀ reg ∈ [R1, R2], ∀ n ∈ reg.near_boundary_nodes_not_at_domain_edge,
            interior n spat_mesh.x_n_nodes spat_mesh.y_n_nodes spat_mesh.z_n_nodes)) →
        ∃ bf, init_rhs_vector M_PI spat_mesh rhs inner_regions inner_regions_with_models
          = some bf) ∧
      ∀ bf, init_rhs_vector M_PI spat_mesh rhs inner_regions inner_regions_with_models
          = some bf →
        ∃ ix, node_global_index_in_matrix node spat_mesh.x_n_nodes spat_mesh.y_n_nodes
            spat_mesh.z_n_nodes = some ix ∧
          bf ix = b ix
            + (R1.near_boundary_nodes_not_at_domain_edge.count node : R)
              * compensation
                (fun adj => R1.check_if_node_inside adj spat_mesh.x_cell_size
                  spat_mesh.y_cell_size spat_mesh.z_cell_size)
                R1.potential spat_mesh.x_n_nodes spat_mesh.y_n_nodes
                spat_mesh.z_n_nodes spat_mesh.x_cell_size spat_mesh.y_cell_size
                spat_mesh.z_cell_size node
            + (R2.near_boundary_nodes_not_at_domain_edge.count node : R)
              * compensation
                (fun adj => R2.check_if_node_inside adj spat_mesh.x_cell_size
                  spat_mesh.y_cell_size spat_mesh.z_cell_size)
                R2.potential spat_mesh.x_n_nodes spat_mesh.y_n_nodes
                spat_mesh.z_n_nodes spat_mesh.x_cell_size spat_mesh.y_cell_size
                spat_mesh.z_cell_size node ∧
          (R1.near_boundary_nodes_not_at_domain_edge.count node = 1 →
            R2.near_boundary_nodes_not_at_domain_edge.count node = 1 →
            bf ix = b ix
              + compensation
                (fun adj => R1.check_if_node_inside adj spat_mesh.x_cell_size
                  spat_mesh.y_cell_size spat_mesh.z_cell_size)
                R1.potential spat_mesh.x_n_nodes spat_mesh.y_n_nodes
                spat_mesh.z_n_nodes spat_mesh.x_cell_size spat_mesh.y_cell_size
                spat_mesh.z_cell_size node
              + compensation
                (fun adj => R2.check_if_node_inside adj spat_mesh.x_cell_size
                  spat_mesh.y_cell_size spat_mesh.z_cell_size)
                R2.potential spat_mesh.x_n_nodes spat_mesh.y_n_nodes
                spat_mesh.z_n_nodes spat_mesh.x_cell_size spat_mesh.y_cell_size
                spat_mesh.z_cell_size node) := by
  obtain ⟨b, hb, _, _⟩ := init_rhs_vector_in_full_domain_eq M_PI spat_mesh rhs
  obtain ⟨m1, m2⟩ := init_rhs_vector_multi M_PI spat_mesh rhs b inner_regions
    inner_regions_with_models hb
  rw [hall] at m1 m2
  refine ⟨b, hb, fun hint => ?_, fun bf hbf => ?_⟩
  · obtain ⟨bf, hbf, _⟩ := m1 hint
    exact ⟨bf, hbf⟩
  · obtain ⟨hin, hnb⟩ := m2 bf hbf
    obtain ⟨bf', hbf', hval⟩ := m1 ⟨hin, hnb⟩
    have e : bf' = bf := Option.some.inj (hbf'.symm.trans hbf)
    subst e
    have hnode : interior node spat_mesh.x_n_nodes spat_mesh.y_n_nodes spat_mesh.z_n_nodes :=
      hnb R1 (List.mem_cons_self _ _) node h1
    refine ⟨_, node_index_of_interior hnode, ?_⟩
    have hnot : ¬ ∃ reg ∈ [R1, R2],
        idx node spat_mesh.x_n_nodes spat_mesh.y_n_nodes
          ∈ reg.inner_nodes_not_at_domain_edge.map
            (fun n => idx n spat_mesh.x_n_nodes spat_mesh.y_n_nodes) := by
      rintro ⟨reg, hreg, hm⟩
      obtain ⟨n, hn, hidx⟩ := List.mem_map.1 hm
      have e : n = node := idx_injective (hin reg hreg n hn) hnode hidx
      rw [e] at hn
      simp only [List.mem_cons, List.mem_singleton, List.not_mem_nil, or_false] at hreg
      rcases hreg with rfl | rfl
      · exact hn1 hn
      · exact hn2 hn
    have hv := (hval (idx node spat_mesh.x_n_nodes spat_mesh.y_n_nodes)).2 hnot
    simp only [List.map_cons, List.map_nil, List.sum_cons, List.sum_nil, add_zero] at hv
    rw [sum_filter_idx_eq _ _ _ spat_mesh.z_n_nodes _ node
        (hnb R1 (List.mem_cons_self _ _)) hnode,
      sum_filter_idx_eq _ _ _ spat_mesh.z_n_nodes _ node
        (hnb R2 (List.mem_cons_of_mem _ (List.mem_cons_self _ _))) hnode,
      rhs_mod_of_node_eq_compensation, rhs_mod_of_node_eq_compensation] at hv
    refine ⟨by rw [hv]; ring, fun c1 c2 => ?_⟩
    rw [hv, c1, c2]
    simp only [Nat.cast_one, one_mul]
    ring

theorem two_regions_accumulate_witness :
    (all_regions (⟨[corner_region, diagonal_region]⟩ : Inner_regions_manager Int) ⟨[]⟩
      = [corner_region, diagonal_region]) ∧
    ((⟨2, 1, 1⟩ : Node_reference) ∈ corner_region.near_boundary_nodes_not_at_domain_edge ∧
      (⟨2, 1, 1⟩ : Node_reference) ∈ diagonal_region.near_boundary_nodes_not_at_domain_edge) ∧
    ∃ b bf, init_rhs_vector_in_full_domain 3 small_mesh (fun _ => 0) = some b ∧
      init_rhs_vector 3 small_mesh (fun _ => 0) ⟨[corner_region, diagonal_region]⟩ ⟨[]⟩
        = some bf ∧
      bf 1 = b 1
        + compensation (fun adj => corner_region.check_if_node_inside adj 1 1 1)
            corner_region.potential 4 4 4 1 1 1 ⟨2, 1, 1⟩
        + compensation (fun adj => diagonal_region.check_if_node_inside adj 1 1 1)
            diagonal_region.potential 4 4 4 1 1 1 ⟨2, 1, 1⟩ := by
  obtain ⟨b, hb, hex, hval⟩ := two_regions_accumulate 3 small_mesh (fun _ => 0)
    ⟨[corner_region, diagonal_region]⟩ ⟨[]⟩ corner_region diagonal_region ⟨2, 1, 1⟩
    rfl (by decide) (by decide) (by decide) (by decide)
  obtain ⟨bf, hbf⟩ := hex (by decide)
  obtain ⟨ix, hix, _, hone⟩ := hval bf hbf
  have e : ix = 1 := (node_index_eq_some hix).2
  subst e
  exact ⟨rfl, ⟨by decide, by decide⟩, b, bf, hb, hbf, hone (by decide) (by decide)⟩

end Claim24

section RegionRows
variable {R : Type} [CommRing R] [DecidableEq R]

/-- In the result of `construct_equation_matrix`, for any regions, the row of a
region-interior unknown is an identity row. -/
theorem region_interior_row (A : Mat R) (nx ny nz : Int) (dx dy dz : R)
    (inner_regions : Inner_regions_manager R)
    (inner_regions_with_models : Inner_regions_with_models_manager R) (A2 : Mat R)
    (h : construct_equation_matrix A nx ny nz dx dy dz inner_regions inner_regions_with_models
      = some A2)
    (reg : Inner_region R) (hreg : reg ∈ all_regions inner_regions inner_regions_with_models)
    (n : Node_reference) (hn : n ∈ reg.inner_nodes_not_at_domain_edge) (c : Int) :
    A2.val (idx n nx ny) c = if c = idx n nx ny then 1 else 0 := by
  obtain ⟨B, _, _, _, _, _, _, hnb, hv⟩ := construct_equation_matrix_eq_some A nx ny nz dx dy dz
    inner_regions inner_regions_with_models A2 h
  by_cases hs : ∃ reg ∈ all_regions inner_regions inner_regions_with_models,
      ∃ node ∈ reg.near_boundary_nodes_not_at_domain_edge, idx n nx ny = idx node nx ny ∧
        c ∈ qualifying_columns (fun adj => reg.check_if_node_inside adj dx dy dz)
          nx ny nz node
  · rw [(hv _ c).1 hs]
    obtain ⟨reg', hreg', node, hnode, e, hc⟩ := hs
    obtain ⟨adj, ha, hq, rfl⟩ := (mem_qualifying_columns _ _ _ _ _ _).1 hc
    have hnodei := hnb reg' hreg' node hnode
    simp only [qualifies, Bool.and_eq_true, Bool.not_eq_true'] at hq
    have hadj := adjacent_interior hnodei ha hq.1
    rw [if_neg]
    intro e2
    exact adjacent_ne ha (idx_injective hadj hnodei (e2.trans e))
  · exact ((hv _ c).2 hs).1 ⟨reg, hreg, List.mem_map_of_mem _ hn⟩

theorem mat_vec_identity_row (A2 : Mat R) (x : Vec R) (p : Int) (h0 : 0 ≤ p)
    (h1 : p < A2.ncol) (hrow : ∀ c, A2.val p c = if c = p then 1 else 0) :
    mat_vec A2 x p = x p := by
  unfold mat_vec
  have e : ∀ c ∈ Finset.range A2.ncol.toNat,
      A2.val p (c : Int) * x (c : Int) = if (c : Int) = p then x (c : Int) else 0 := by
    intro c _
    rw [hrow]
    split <;> simp
  rw [Finset.sum_congr rfl e, sum_indicator, if_pos]
  refine ⟨h0, ?_⟩
  rw [Int.toNat_of_nonneg (by omega)]
  exact h1

end RegionRows

section Claim25
variable {R : Type} [CommRing R] [DecidableEq R]

/-- C25 (counterexample to the claim as written): the 4x4x4 mesh with unit cells,
zero charge density and potential `1` at the domain edge, and two regions at
potential `1`, the first holding the node `(1,1,1)` and the second its
neighbour `(2,1,1)`, with node lists classified as in the data model (so the
node of each region is a near-boundary node of the other).  The operator and
the right-hand side are produced, the vector `two_region_solution` solves
`A_final*x = b_final` at every row, and at the region-interior unknown `0`
(the node `(1,1,1)` of the first region) it is `-1`, not `0`: the right-hand
side there is the compensation `-1` added for the second region. -/
theorem region_interior_unknown_nonzero :
    ((⟨1, 1, 1⟩ : Node_reference) ∈ corner_region.inner_nodes_not_at_domain_edge ∧
      node_global_index_in_matrix ⟨1, 1, 1⟩ 4 4 4 = some 0) ∧
    (∀ n, n ∈ corner_region.inner_nodes_not_at_domain_edge ↔
      interior n 4 4 4 ∧ corner_region.check_if_node_inside n 1 1 1 = true) ∧
    (∀ n, n ∈ corner_region.near_boundary_nodes_not_at_domain_edge ↔
      interior n 4 4 4 ∧ (corner_region.check_if_node_inside n 1 1 1 = false ∧
        ∃ adj ∈ n.adjacent_nodes, corner_region.check_if_node_inside adj 1 1 1 = true)) ∧
    (∀ n, n ∈ adjacent_region.inner_nodes_not_at_domain_edge ↔
      interior n 4 4 4 ∧ adjacent_region.check_if_node_inside n 1 1 1 = true) ∧
    (∀ n, n ∈ adjacent_region.near_boundary_nodes_not_at_domain_edge ↔
      interior n 4 4 4 ∧ (adjacent_region.check_if_node_inside n 1 1 1 = false ∧
        ∃ adj ∈ n.adjacent_nodes, adjacent_region.check_if_node_inside adj 1 1 1 = true)) ∧
    ∃ (A2 : Mat Int) (bf : Vec Int),
      construct_equation_matrix (zero_matrix 8 8) 4 4 4 1 1 1
        ⟨[corner_region, adjacent_region]⟩ ⟨[]⟩ = some A2 ∧
      init_rhs_vector 3 small_mesh (fun _ => 0) ⟨[corner_region, adjacent_region]⟩ ⟨[]⟩
        = some bf ∧
      (∀ r ∈ loop_from_to 0 7, mat_vec A2 two_region_solution r = bf r) ∧
      A2.nrow = 8 ∧ A2.ncol = 8 ∧ bf 0 = -1 ∧ two_region_solution 0 = -1 := by
  refine ⟨by decide, mem_iff_of_check 4 4 4 _ _ (by decide) (by decide),
    mem_iff_of_check 4 4 4 _ _ (by decide) (by decide),
    mem_iff_of_check 4 4 4 _ _ (by decide) (by decide),
    mem_iff_of_check 4 4 4 _ _ (by decide) (by decide), ?_⟩
  have T : ((construct_equation_matrix (zero_matrix 8 8) 4 4 4 (1 : Int) 1 1
        ⟨[corner_region, adjacent_region]⟩ ⟨[]⟩).bind (fun A2 =>
      (init_rhs_vector 3 small_mesh (fun _ => 0)
        ⟨[corner_region, adjacent_region]⟩ ⟨[]⟩).map (fun bf =>
          (decide (∀ r ∈ loop_from_to 0 7, mat_vec A2 two_region_solution r = bf r),
            A2.nrow, A2.ncol, bf 0)))) = some (true, 8, 8, -1) := by decide
  cases hA : construct_equation_matrix (zero_matrix 8 8) 4 4 4 (1 : Int) 1 1
      ⟨[corner_region, adjacent_region]⟩ ⟨[]⟩ with
  | none => rw [hA] at T; exact absurd T (by simp)
  | some A2 =>
    rw [hA] at T
    simp only [Option.some_bind] at T
    cases hb : init_rhs_vector 3 small_mesh (fun _ => 0)
        ⟨[corner_region, adjacent_region]⟩ ⟨[]⟩ with
    | none => rw [hb] at T; exact absurd T (by simp)
    | some bf =>
      rw [hb] at T
      simp only [Option.map_some', Option.some.injEq, Prod.mk.injEq, decide_eq_true_eq] at T
      exact ⟨A2, bf, rfl, rfl, T.1, T.2.1, T.2.2.1, T.2.2.2, rfl⟩

/-- C25 (amended): for every region-interior unknown `p` (the index of a node
listed in `inner_nodes_not_at_domain_edge` of some region), every vector `x`
whose row `p` of `A_final*x = b_final` holds has `x[p] = b_final[p]`, and
`b_final[p]` is the sum over all regions of the compensation of the region at
that node, once for every time the region lists the node in
`near_boundary_nodes_not_at_domain_edge`; so `x[p] = 0` when no region lists
the node there.  `A_final` is the result of `construct_equation_matrix` on the
matrix the constructor allocates, `b_final` the result of `init_rhs_vector`. -/
theorem region_interior_unknown_value (M_PI : R) (spat_mesh : Spatial_mesh R) (rhs : Vec R)
    (inner_regions : Inner_regions_manager R)
    (inner_regions_with_models : Inner_regions_with_models_manager R)
    (A2 : Mat R) (bf x : Vec R) (reg : Inner_region R) (n : Node_reference)
    (hA : construct_equation_matrix
      (zero_matrix
        ((spat_mesh.x_n_nodes - 2) * (spat_mesh.y_n_nodes - 2) * (spat_mesh.z_n_nodes - 2))
        ((spat_mesh.x_n_nodes - 2) * (spat_mesh.y_n_nodes - 2) * (spat_mesh.z_n_nodes - 2)))
      spat_mesh.x_n_nodes spat_mesh.y_n_nodes spat_mesh.z_n_nodes
      spat_mesh.x_cell_size spat_mesh.y_cell_size spat_mesh.z_cell_size
      inner_regions inner_regions_with_models = some A2)
    (hb : init_rhs_vector M_PI spat_mesh rhs inner_regions inner_regions_with_models = some bf)
    (hreg : reg ∈ all_regions inner_regions inner_regions_with_models)
    (hn : n ∈ reg.inner_nodes_not_at_domain_edge)
    (hx : mat_vec A2 x (idx n spat_mesh.x_n_nodes spat_mesh.y_n_nodes)
      = bf (idx n spat_mesh.x_n_nodes spat_mesh.y_n_nodes)) :
    x (idx n spat_mesh.x_n_nodes spat_mesh.y_n_nodes)
      = bf (idx n spat_mesh.x_n_nodes spat_mesh.y_n_nodes) ∧
    bf (idx n spat_mesh.x_n_nodes spat_mesh.y_n_nodes)
      = ((all_regions inner_regions inner_regions_with_models).map
          (fun r => (r.near_boundary_nodes_not_at_domain_edge.count n : R)
            * compensation
              (fun adj => r.check_if_node_inside adj spat_mesh.x_cell_size
                spat_mesh.y_cell_size spat_mesh.z_cell_size)
              r.potential spat_mesh.x_n_nodes spat_mesh.y_n_nodes
              spat_mesh.z_n_nodes spat_mesh.x_cell_size spat_mesh.y_cell_size
              spat_mesh.z_cell_size n)).sum ∧
    ((∀ r ∈ all_regions inner_regions inner_regions_with_models,
        n ∉ r.near_boundary_nodes_not_at_domain_edge) →
      x (idx n spat_mesh.x_n_nodes spat_mesh.y_n_nodes) = 0) := by
  obtain ⟨B, _, _, _, _, hA2c, hinA, _, _⟩ := construct_equation_matrix_eq_some _ _ _ _ _ _ _
    inner_regions inner_regions_with_models A2 hA
  have hni := (hinA reg hreg n hn).1
  have hrow := region_interior_row _ _ _ _ _ _ _ inner_regions inner_regions_with_models A2 hA
    reg hreg n hn
  have hxp := mat_vec_identity_row A2 x _ (idx_range hni).1
    (by rw [hA2c]; exact (idx_range hni).2) hrow
  obtain ⟨b, hbb, _, _⟩ := init_rhs_vector_in_full_domain_eq M_PI spat_mesh rhs
  obtain ⟨m1, m2⟩ := init_rhs_vector_multi M_PI spat_mesh rhs b inner_regions
    inner_regions_with_models hbb
  obtain ⟨hin, hnb⟩ := m2 bf hb
  obtain ⟨bf', hbf', hval⟩ := m1 ⟨hin, hnb⟩
  have e : bf' = bf := Option.some.inj (hbf'.symm.trans hb)
  subst e
  have hv := (hval (idx n spat_mesh.x_n_nodes spat_mesh.y_n_nodes)).1
    ⟨reg, hreg, List.mem_map_of_mem _ hn⟩
  rw [zero_add] at hv
  have hsum : bf' (idx n spat_mesh.x_n_nodes spat_mesh.y_n_nodes)
      = ((all_regions inner_regions inner_regions_with_models).map
          (fun r => (r.near_boundary_nodes_not_at_domain_edge.count n : R)
            * compensation
              (fun adj => r.check_if_node_inside adj spat_mesh.x_cell_size
                spat_mesh.y_cell_size spat_mesh.z_cell_size)
              r.potential spat_mesh.x_n_nodes spat_mesh.y_n_nodes
              spat_mesh.z_n_nodes spat_mesh.x_cell_size spat_mesh.y_cell_size
              spat_mesh.z_cell_size n)).sum := by
    rw [hv]
    congr 1
    apply List.map_congr_left
    intro r hr
    rw [sum_filter_idx_eq _ _ _ spat_mesh.z_n_nodes _ n (hnb r hr) hni,
      rhs_mod_of_node_eq_compensation]
  refine ⟨hxp.symm.trans hx, hsum, fun hnone => ?_⟩
  rw [hxp.symm.trans hx, hsum]
  apply List.sum_eq_zero
  intro y hy
  obtain ⟨r, hr, rfl⟩ := List.mem_map.1 hy
  rw [List.count_eq_zero_of_not_mem (hnone r hr)]
  simp

theorem region_interior_unknown_value_witness :
    ∃ (A2 : Mat Int) (bf : Vec Int),
      construct_equation_matrix (zero_matrix 8 8) 4 4 4 1 1 1
        ⟨[corner_region, adjacent_region]⟩ ⟨[]⟩ = some A2 ∧
      init_rhs_vector 3 small_mesh (fun _ => 0) ⟨[corner_region, adjacent_region]⟩ ⟨[]⟩
        = some bf ∧
      mat_vec A2 two_region_solution 0 = bf 0 ∧
      two_region_solution 0 = bf 0 ∧
      bf 0 = (0 : Int) * compensation (fun adj => corner_region.check_if_node_inside adj 1 1 1)
            corner_region.potential 4 4 4 1 1 1 ⟨1, 1, 1⟩
        + ((1 : Int) * compensation (fun adj => adjacent_region.check_if_node_inside adj 1 1 1)
            adjacent_region.potential 4 4 4 1 1 1 ⟨1, 1, 1⟩ + 0) := by
  have T : ((construct_equation_matrix (zero_matrix 8 8) 4 4 4 (1 : Int) 1 1
        ⟨[corner_region, adjacent_region]⟩ ⟨[]⟩).bind (fun A2 =>
      (init_rhs_vector 3 small_mesh (fun _ => 0)
        ⟨[corner_region, adjacent_region]⟩ ⟨[]⟩).map (fun bf =>
          decide (mat_vec A2 two_region_solution 0 = bf 0)))) = some true := by decide
  cases hA : construct_equation_matrix (zero_matrix 8 8) 4 4 4 (1 : Int) 1 1
      ⟨[corner_region, adjacent_region]⟩ ⟨[]⟩ with
  | none => rw [hA] at T; exact absurd T (by simp)
  | some A2 =>
    rw [hA] at T
    simp only [Option.some_bind] at T
    cases hb : init_rhs_vector 3 small_mesh (fun _ => 0)
        ⟨[corner_region, adjacent_region]⟩ ⟨[]⟩ with
    | none => rw [hb] at T; exact absurd T (by simp)
    | some bf =>
      rw [hb] at T
      simp only [Option.map_some', Option.some.injEq, decide_eq_true_eq] at T
      have W := region_interior_unknown_value 3 small_mesh (fun _ => 0)
        ⟨[corner_region, adjacent_region]⟩ ⟨[]⟩ A2 bf two_region_solution corner_region
        ⟨1, 1, 1⟩ hA hb (List.mem_cons_self _ _) (by decide) T
      exact ⟨A2, bf, rfl, rfl, T, W.1, W.2.1⟩

end Claim25

section Claim26
variable {R : Type} [CommRing R] [DecidableEq R]

/-- C26: decoupling.  On a grid with at least 4 nodes along each axis, with any
regions whose listed nodes are interior nodes, take a region whose
region-interior nodes pass its containment test and whose
`near_boundary_nodes_not_at_domain_edge` contains every interior node that is
not one of its region-interior nodes and is axis-adjacent to one of them.
Then `construct_equation_matrix` completes, and in the final operator the
column of every region-interior unknown `p` of that region is zero outside
the diagonal: the entry `(r, p)` is `0` for every row `r != p`, and the entry
`(p, p)` is `1`. -/
theorem region_interior_column_decoupled (nx ny nz : Int) (dx dy dz : R)
    (inner_regions : Inner_regions_manager R)
    (inner_regions_with_models : Inner_regions_with_models_manager R)
    (reg : Inner_region R) (n : Node_reference)
    (hx : 4 ≤ nx) (hy : 4 ≤ ny) (hz : 4 ≤ nz)
    (hin : ∀ r ∈ all_regions inner_regions inner_regions_with_models,
      ∀ m ∈ r.inner_nodes_not_at_domain_edge, interior m nx ny nz)
    (hnb : ∀ r ∈ all_regions inner_regions inner_regions_with_models,
      ∀ m ∈ r.near_boundary_nodes_not_at_domain_edge, interior m nx ny nz)
    (hreg : reg ∈ all_regions inner_regions inner_regions_with_models)
    (hn : n ∈ reg.inner_nodes_not_at_domain_edge)
    (hchk : ∀ m ∈ reg.inner_nodes_not_at_domain_edge,
      reg.check_if_node_inside m dx dy dz = true)
    (hcomplete : ∀ m, interior m nx ny nz → m ∉ reg.inner_nodes_not_at_domain_edge →
      (∃ a ∈ m.adjacent_nodes, a ∈ reg.inner_nodes_not_at_domain_edge) →
      m ∈ reg.near_boundary_nodes_not_at_domain_edge) :
    ∃ A2 : Mat R, construct_equation_matrix
        (zero_matrix ((nx - 2) * (ny - 2) * (nz - 2)) ((nx - 2) * (ny - 2) * (nz - 2)))
        nx ny nz dx dy dz inner_regions inner_regions_with_models = some A2 ∧
      A2.nrow = (nx - 2) * (ny - 2) * (nz - 2) ∧
      A2.ncol = (nx - 2) * (ny - 2) * (nz - 2) ∧
      (0 ≤ idx n nx ny ∧ idx n nx ny < (nx - 2) * (ny - 2) * (nz - 2)) ∧
      A2.val (idx n nx ny) (idx n nx ny) = 1 ∧
      ∀ r, 0 ≤ r → r < (nx - 2) * (ny - 2) * (nz - 2) → r ≠ idx n nx ny →
        A2.val r (idx n nx ny) = 0 := by
  obtain ⟨A2, hA2⟩ := construct_equation_matrix_exists nx ny nz dx dy dz inner_regions
    inner_regions_with_models hx hy hz hin hnb
  obtain ⟨B, hB, _, _, hA2r, hA2c, _, _, hv⟩ := construct_equation_matrix_eq_some _ _ _ _ _ _ _
    inner_regions inner_regions_with_models A2 hA2
  obtain ⟨B', hB', hBv⟩ := base_operator_entries (R := R) nx ny nz dx dy dz hx hy hz
  have eB : B' = B := Option.some.inj (hB'.symm.trans hB)
  subst eB
  have hni := hin reg hreg n hn
  have hrow := region_interior_row _ _ _ _ _ _ _ inner_regions inner_regions_with_models A2 hA2
    reg hreg n hn
  refine ⟨A2, hA2, hA2r, hA2c, idx_range hni, by rw [hrow, if_pos rfl], ?_⟩
  intro r hr0 hr1 hrn
  obtain ⟨hm, hmr⟩ := @index_to_node_interior r nx ny nz
    (by omega) (by omega) hr0 hr1
  by_cases hs : ∃ reg ∈ all_regions inner_regions inner_regions_with_models,
      ∃ node ∈ reg.near_boundary_nodes_not_at_domain_edge, r = idx node nx ny ∧
        idx n nx ny ∈ qualifying_columns (fun adj => reg.check_if_node_inside adj dx dy dz)
          nx ny nz node
  · exact (hv r _).1 hs
  · by_cases hs1 : ∃ reg ∈ all_regions inner_regions inner_regions_with_models,
        r ∈ reg.inner_nodes_not_at_domain_edge.map (fun n => idx n nx ny)
    · rw [((hv r _).2 hs).1 hs1, if_neg (fun e => hrn e.symm)]
    · rw [((hv r _).2 hs).2 hs1]
      have hnm : n ≠ index_to_node r nx ny := by
        intro e
        apply hrn
        rw [← hmr, ← e]
      have hedge : n.at_domain_edge nx ny nz = false := by
        obtain ⟨a1, a2, a3, a4, a5, a6⟩ := hni
        simp only [Node_reference.at_domain_edge, decide_eq_false_iff_not]
        omega
      have hnadj : n ∉ (index_to_node r nx ny).adjacent_nodes := by
        intro hadj
        apply hs
        have hmnot : index_to_node r nx ny ∉ reg.inner_nodes_not_at_domain_edge := by
          intro hmem
          apply hs1
          refine ⟨reg, hreg, ?_⟩
          rw [← hmr]
          exact List.mem_map_of_mem _ hmem
        refine ⟨reg, hreg, index_to_node r nx ny,
          hcomplete _ hm hmnot ⟨n, hadj, hn⟩, hmr.symm, ?_⟩
        rw [mem_qualifying_columns]
        refine ⟨n, hadj, ?_, rfl⟩
        simp only [qualifies, hedge, Bool.not_false, Bool.true_and]
        exact hchk n hn
      have hmem : ∀ q : Node_reference, q ∈ (index_to_node r nx ny).adjacent_nodes → n ≠ q :=
        fun q hq e => hnadj (e ▸ hq)
      nth_rewrite 1 [← hmr]
      rw [hBv _ n hm hni, if_neg hnm,
        if_neg (by
          rintro (e | e)
          · exact hmem _ (by simp [Node_reference.adjacent_nodes]) e
          · exact hmem _ (by simp [Node_reference.adjacent_nodes]) e),
        if_neg (by
          rintro (e | e)
          · exact hmem _ (by simp [Node_reference.adjacent_nodes]) e
          · exact hmem _ (by simp [Node_reference.adjacent_nodes]) e),
        if_neg (by
          rintro (e | e)
          · exact hmem _ (by simp [Node_reference.adjacent_nodes]) e
          · exact hmem _ (by simp [Node_reference.adjacent_nodes]) e)]

theorem region_interior_column_decoupled_witness :
    ∃ A2 : Mat Int, construct_equation_matrix (zero_matrix 8 8) 4 4 4 1 1 1
        ⟨[corner_region, adjacent_region]⟩ ⟨[]⟩ = some A2 ∧
      A2.val 0 0 = 1 ∧ A2.val 1 0 = 0 ∧ A2.val 2 0 = 0 ∧ A2.val 4 0 = 0 := by
  obtain ⟨A2, hA2, _, _, _, hd, hoff⟩ := region_interior_column_decoupled 4 4 4 (1 : Int) 1 1
    ⟨[corner_region, adjacent_region]⟩ ⟨[]⟩ corner_region ⟨1, 1, 1⟩
    (by decide) (by decide) (by decide) (by decide) (by decide)
    (List.mem_cons_self _ _) (by decide) (by decide)
    (fun m hm => (by decide : ∀ m ∈ interior_nodes 4 4 4,
      m ∉ corner_region.inner_nodes_not_at_domain_edge →
      (∃ a ∈ m.adjacent_nodes, a ∈ corner_region.inner_nodes_not_at_domain_edge) →
      m ∈ corner_region.near_boundary_nodes_not_at_domain_edge) m
      ((mem_interior_nodes 4 4 4 m).2 hm))
  exact ⟨A2, hA2, hd, hoff 1 (by decide) (by decide) (by decide),
    hoff 2 (by decide) (by decide) (by decide), hoff 4 (by decide) (by decide) (by decide)⟩

end Claim26

section ZeroEdge
variable {R : Type} [CommRing R] [DecidableEq R]

/-- The full-domain stencil at an interior node, applied to unknowns `x`, is the
7-point operator on the grid function that is `x` at the interior nodes and
`0` at the domain edge. -/
theorem stencil_apply_zero_edge (nx ny nz : Int) (dx dy dz : R) (x : Vec R) (i j k : Int)
    (h : interior ⟨i, j, k⟩ nx ny nz) :
    stencil_apply nx ny nz dx dy dz ⟨i, j, k⟩ x
      = dy * dy * (dz * dz) *
          ((if interior ⟨i - 1, j, k⟩ nx ny nz then x (idx ⟨i - 1, j, k⟩ nx ny) else 0)
            + (if interior ⟨i + 1, j, k⟩ nx ny nz then x (idx ⟨i + 1, j, k⟩ nx ny) else 0)
            - 2 * (if interior ⟨i, j, k⟩ nx ny nz then x (idx ⟨i, j, k⟩ nx ny) else 0))
        + dx * dx * (dz * dz) *
          ((if interior ⟨i, j - 1, k⟩ nx ny nz then x (idx ⟨i, j - 1, k⟩ nx ny) else 0)
            + (if interior ⟨i, j + 1, k⟩ nx ny nz then x (idx ⟨i, j + 1, k⟩ nx ny) else 0)
            - 2 * (if interior ⟨i, j, k⟩ nx ny nz then x (idx ⟨i, j, k⟩ nx ny) else 0))
        + dx * dx * (dy * dy) *
          ((if interior ⟨i, j, k - 1⟩ nx ny nz then x (idx ⟨i, j, k - 1⟩ nx ny) else 0)
            + (if interior ⟨i, j, k + 1⟩ nx ny nz then x (idx ⟨i, j, k + 1⟩ nx ny) else 0)
            - 2 * (if interior ⟨i, j, k⟩ nx ny nz then x (idx ⟨i, j, k⟩ nx ny) else 0)) := by
  have T := full_domain_residual (0 : R)
    ⟨nx, ny, nz, dx, dy, dz, fun _ _ _ => 0, fun _ _ _ => 0, fun _ _ _ => (0, 0, 0)⟩ x i j k h
  unfold rhs_at_node potential_with_unknowns at T
  simp only [] at T
  linear_combination T

theorem mat_vec_sub (A : Mat R) (x y : Vec R) (r : Int) :
    mat_vec A (fun c => y c - x c) r = mat_vec A y r - mat_vec A x r := by
  unfold mat_vec
  rw [← Finset.sum_sub_distrib]
  apply Finset.sum_congr rfl
  intro c _
  ring

end ZeroEdge

section Nonsingular
variable {R : Type} [LinearOrderedCommRing R]

/-- The final operator has a trivial kernel: on a grid with at least four nodes
along each axis and with `dy`, `dz` nonzero, for any regions whose
region-interior lists are classified, a vector that the final operator sends
to `0` at every row is `0` at every unknown. -/
theorem final_operator_kernel_trivial (nx ny nz : Int) (dx dy dz : R)
    (inner_regions : Inner_regions_manager R)
    (inner_regions_with_models : Inner_regions_with_models_manager R)
    (hx : 4 ≤ nx) (hy : 4 ≤ ny) (hz : 4 ≤ nz) (hdy : dy ≠ 0) (hdz : dz ≠ 0)
    (hcls : ∀ reg ∈ all_regions inner_regions inner_regions_with_models,
      ∀ n, n ∈ reg.inner_nodes_not_at_domain_edge ↔
        interior n nx ny nz ∧ reg.check_if_node_inside n dx dy dz = true)
    (A2 : Mat R)
    (hA2 : construct_equation_matrix
      (zero_matrix ((nx - 2) * (ny - 2) * (nz - 2)) ((nx - 2) * (ny - 2) * (nz - 2)))
      nx ny nz dx dy dz inner_regions inner_regions_with_models = some A2)
    (x : Vec R)
    (hker : ∀ r, 0 ≤ r → r < (nx - 2) * (ny - 2) * (nz - 2) → mat_vec A2 x r = 0) :
    ∀ r, 0 ≤ r → r < (nx - 2) * (ny - 2) * (nz - 2) → x r = 0 := by
  obtain ⟨B, hB, _, _, _, hA2c, hinA, hnb, hv⟩ := construct_equation_matrix_eq_some _ _ _ _ _ _ _
    inner_regions inner_regions_with_models A2 hA2
  have hA2c' : A2.ncol = (nx - 2) * (ny - 2) * (nz - 2) := hA2c
  obtain ⟨B', hB', _, hBc, hBv⟩ :=
    construct_equation_matrix_in_full_domain_eq (R := R) nx ny nz dx dy dz hx hy hz
  have eB : B' = B := Option.some.inj (hB'.symm.trans hB)
  subst eB
  have hzero : ∀ reg ∈ all_regions inner_regions inner_regions_with_models,
      ∀ n ∈ reg.inner_nodes_not_at_domain_edge, x (idx n nx ny) = 0 := by
    intro reg hreg n hn
    have hni := (hinA reg hreg n hn).1
    have hrow := region_interior_row _ _ _ _ _ _ _ inner_regions inner_regions_with_models
      A2 hA2 reg hreg n hn
    rw [← mat_vec_identity_row A2 x _ (idx_range hni).1
      (by rw [hA2c']; exact (idx_range hni).2) hrow]
    exact hker _ (idx_range hni).1 (idx_range hni).2
  have hfree : ∀ m : Node_reference, interior m nx ny nz →
      (¬ ∃ reg ∈ all_regions inner_regions inner_regions_with_models,
        idx m nx ny ∈ reg.inner_nodes_not_at_domain_edge.map (fun n => idx n nx ny)) →
      stencil_apply nx ny nz dx dy dz m x = 0 := by
    intro m hm hnot
    rw [← mat_vec_of_stencil B' nx ny nz dx dy dz m hm hBc (hBv m hm) x,
      ← hker _ (idx_range hm).1 (idx_range hm).2]
    unfold mat_vec
    rw [hA2c', hBc]
    apply Finset.sum_congr rfl
    intro c _
    by_cases hs : ∃ reg ∈ all_regions inner_regions inner_regions_with_models,
        ∃ node ∈ reg.near_boundary_nodes_not_at_domain_edge,
          idx m nx ny = idx node nx ny ∧
          (c : Int) ∈ qualifying_columns (fun adj => reg.check_if_node_inside adj dx dy dz)
            nx ny nz node
    · rw [(hv _ _).1 hs]
      obtain ⟨reg, hreg, node, hnode, _, hc⟩ := hs
      obtain ⟨adj, ha, hq, hidx⟩ := (mem_qualifying_columns _ _ _ _ _ _).1 hc
      simp only [qualifies, Bool.and_eq_true, Bool.not_eq_true'] at hq
      have hadj := adjacent_interior (hnb reg hreg node hnode) ha hq.1
      have hz0 := hzero reg hreg adj ((hcls reg hreg adj).2 ⟨hadj, hq.2⟩)
      rw [← hidx, hz0, mul_zero, mul_zero]
    · rw [((hv _ _).2 hs).2 hnot]
  have ha : 0 < dy * dy * (dz * dz) := mul_pos (mul_self_pos.2 hdy) (mul_self_pos.2 hdz)
  have hb : 0 ≤ dx * dx * (dz * dz) := mul_nonneg (mul_self_nonneg _) (mul_self_nonneg _)
  have hc : 0 ≤ dx * dx * (dy * dy) := mul_nonneg (mul_self_nonneg _) (mul_self_nonneg _)
  have hbound : ∀ i j k,
      ¬ (interior ⟨i, j, k⟩ nx ny nz ∧
        ¬ ∃ reg ∈ all_regions inner_regions inner_regions_with_models,
          idx ⟨i, j, k⟩ nx ny ∈ reg.inner_nodes_not_at_domain_edge.map
            (fun n => idx n nx ny)) →
      (if interior ⟨i, j, k⟩ nx ny nz then x (idx ⟨i, j, k⟩ nx ny) else 0) = 0 := by
    intro i j k hnf
    by_cases hp : interior ⟨i, j, k⟩ nx ny nz
    · rw [if_pos hp]
      have hex : ∃ reg ∈ all_regions inner_regions inner_regions_with_models,
          idx ⟨i, j, k⟩ nx ny ∈ reg.inner_nodes_not_at_domain_edge.map
            (fun n => idx n nx ny) := by
        by_contra hcon
        exact hnf ⟨hp, hcon⟩
      obtain ⟨reg, hreg, hmem⟩ := hex
      obtain ⟨n, hn, hidx⟩ := List.mem_map.1 hmem
      rw [← hidx]
      exact hzero reg hreg n hn
    · rw [if_neg hp]
  have hle := max_principle nx ny nz _ _ _ ha hb hc
    (fun i j k => if interior ⟨i, j, k⟩ nx ny nz then x (idx ⟨i, j, k⟩ nx ny) else 0)
    (fun i j k => interior ⟨i, j, k⟩ nx ny nz ∧
      ¬ ∃ reg ∈ all_regions inner_regions inner_regions_with_models,
        idx ⟨i, j, k⟩ nx ny ∈ reg.inner_nodes_not_at_domain_edge.map (fun n => idx n nx ny))
    (fun i j k h => h.1)
    (fun i j k _ _ _ hnf => by
      simp only []
      rw [hbound i j k hnf])
    (fun i j k hf => by
      have e := stencil_apply_zero_edge nx ny nz dx dy dz x i j k hf.1
      rw [hfree _ hf.1 hf.2] at e
      simp only []
      rw [← e])
  have hge := max_principle nx ny nz _ _ _ ha hb hc
    (fun i j k => -(if interior ⟨i, j, k⟩ nx ny nz then x (idx ⟨i, j, k⟩ nx ny) else 0))
    (fun i j k => interior ⟨i, j, k⟩ nx ny nz ∧
      ¬ ∃ reg ∈ all_regions inner_regions inner_regions_with_models,
        idx ⟨i, j, k⟩ nx ny ∈ reg.inner_nodes_not_at_domain_edge.map (fun n => idx n nx ny))
    (fun i j k h => h.1)
    (fun i j k _ _ _ hnf => by
      simp only []
      rw [hbound i j k hnf, neg_zero])
    (fun i j k hf => by
      have e := stencil_apply_zero_edge nx ny nz dx dy dz x i j k hf.1
      rw [hfree _ hf.1 hf.2] at e
      simp only []
      apply le_of_eq
      linear_combination -e)
  intro r hr0 hr1
  obtain ⟨hm, hmr⟩ := @index_to_node_interior r nx ny nz
    (by omega) (by omega) hr0 hr1
  obtain ⟨p1, p2, p3, p4, p5, p6⟩ := id hm
  have h1 := hle (index_to_node r nx ny).x (index_to_node r nx ny).y (index_to_node r nx ny).z
    ⟨by omega, by omega⟩ ⟨by omega, by omega⟩ ⟨by omega, by omega⟩
  have h2 := hge (index_to_node r nx ny).x (index_to_node r nx ny).y (index_to_node r nx ny).z
    ⟨by omega, by omega⟩ ⟨by omega, by omega⟩ ⟨by omega, by omega⟩
  simp only [] at h1 h2
  rw [if_pos hm, hmr] at h1 h2
  exact le_antisymm h1 (neg_nonpos.1 h2)

end Nonsingular

section UniqueSolution
variable {R : Type} [Field R] [DecidableEq R]

/-- A square system whose operator has a trivial kernel has exactly one solution
for every right-hand side. -/
theorem unique_solution_of_trivial_kernel (A : Mat R) (N : Int) (hN : 0 ≤ N)
    (hc : A.ncol = N)
    (hker : ∀ x : Vec R, (∀ r, 0 ≤ r → r < N → mat_vec A x r = 0) →
      ∀ r, 0 ≤ r → r < N → x r = 0)
    (b : Vec R) :
    ∃ x : Vec R, (∀ r, 0 ≤ r → r < N → mat_vec A x r = b r) ∧
      ∀ y : Vec R, (∀ r, 0 ≤ r → r < N → mat_vec A y r = b r) →
        ∀ r, 0 ≤ r → r < N → y r = x r := by
  obtain ⟨n, rfl⟩ : ∃ n : Nat, N = (n : Int) := ⟨N.toNat, (Int.toNat_of_nonneg hN).symm⟩
  have hcn : A.ncol.toNat = n := by rw [hc]; exact Int.toNat_natCast n
  have hext : ∀ v : Fin n → R, ∃ x : Vec R, ∀ j : Fin n, x ((j : Nat) : Int) = v j := by
    intro v
    refine ⟨fun m => if h : m.toNat < n then v ⟨m.toNat, h⟩ else 0, fun j => ?_⟩
    have hj : (((j : Nat) : Int)).toNat < n := by
      rw [Int.toNat_natCast]; exact j.isLt
    simp only []
    rw [dif_pos hj]
    exact congrArg v (Fin.ext (Int.toNat_natCast _))
  have hmul : ∀ (v : Fin n → R) (x : Vec R), (∀ j : Fin n, x ((j : Nat) : Int) = v j) →
      ∀ i : Fin n, mat_vec A x ((i : Nat) : Int)
        = Matrix.mulVec (Matrix.of (fun (i j : Fin n) =>
            A.val ((i : Nat) : Int) ((j : Nat) : Int))) v i := by
    intro v x hx i
    unfold mat_vec
    rw [hcn, Finset.sum_range]
    simp only [Matrix.mulVec, Matrix.dotProduct, Matrix.of_apply]
    apply Finset.sum_congr rfl
    intro j _
    rw [hx j]
  have hrow : ∀ r : Int, 0 ≤ r → r < (n : Int) → ∃ i : Fin n, ((i : Nat) : Int) = r := by
    intro r h0 h1
    refine ⟨⟨r.toNat, by omega⟩, ?_⟩
    simp only []
    omega
  have hinj : Function.Injective (Matrix.mulVec (Matrix.of (fun (i j : Fin n) =>
      A.val ((i : Nat) : Int) ((j : Nat) : Int)))) := by
    intro v w hvw
    obtain ⟨x, hx⟩ := hext (v - w)
    have hk := hker x (by
      intro r h0 h1
      obtain ⟨i, rfl⟩ := hrow r h0 h1
      rw [hmul (v - w) x hx i, Matrix.mulVec_sub, hvw, sub_self]
      rfl)
    funext j
    have := hk ((j : Nat) : Int) (by omega) (by exact_mod_cast j.isLt)
    rw [hx j] at this
    exact sub_eq_zero.1 this
  have hsurj := Matrix.mulVec_surjective_iff_isUnit.2
    (Matrix.mulVec_injective_iff_isUnit.1 hinj)
  obtain ⟨v, hv⟩ := hsurj (fun i : Fin n => b ((i : Nat) : Int))
  obtain ⟨x, hx⟩ := hext v
  have hsol : ∀ r, 0 ≤ r → r < (n : Int) → mat_vec A x r = b r := by
    intro r h0 h1
    obtain ⟨i, rfl⟩ := hrow r h0 h1
    rw [hmul v x hx i, hv]
  refine ⟨x, hsol, fun y hy r h0 h1 => ?_⟩
  have hk := hker (fun c => y c - x c) (by
    intro r h0 h1
    rw [mat_vec_sub, hy r h0 h1, hsol r h0 h1, sub_self]) r h0 h1
  exact sub_eq_zero.1 hk

end UniqueSolution

section Claim27
variable {R : Type} [LinearOrderedField R]

/-- C27: well-posedness.  On a grid with at least 4 nodes along each axis, with
cell sizes `dy` and `dz` nonzero (in particular with positive cell sizes) and
with any regions whose node lists are classified as in the data model (the
region-interior list of a region holds exactly the interior nodes that pass
its containment test, its near-boundary list holds interior nodes),
`construct_equation_matrix` completes with a square operator that is
nonsingular: `A_final*x = 0` at every row implies `x = 0` at every unknown,
and for every right-hand side `b` the system `A_final*x = b` has a solution,
which every other solution equals at every unknown. -/
theorem final_operator_nonsingular (nx ny nz : Int) (dx dy dz : R)
    (inner_regions : Inner_regions_manager R)
    (inner_regions_with_models : Inner_regions_with_models_manager R)
    (hx : 4 ≤ nx) (hy : 4 ≤ ny) (hz : 4 ≤ nz) (hdy : dy ≠ 0) (hdz : dz ≠ 0)
    (hcls : ∀ reg ∈ all_regions inner_regions inner_regions_with_models,
      ∀ n, n ∈ reg.inner_nodes_not_at_domain_edge ↔
        interior n nx ny nz ∧ reg.check_if_node_inside n dx dy dz = true)
    (hnb : ∀ reg ∈ all_regions inner_regions inner_regions_with_models,
      ∀ n ∈ reg.near_boundary_nodes_not_at_domain_edge, interior n nx ny nz) :
    ∃ A2 : Mat R, construct_equation_matrix
        (zero_matrix ((nx - 2) * (ny - 2) * (nz - 2)) ((nx - 2) * (ny - 2) * (nz - 2)))
        nx ny nz dx dy dz inner_regions inner_regions_with_models = some A2 ∧
      A2.nrow = (nx - 2) * (ny - 2) * (nz - 2) ∧
      A2.ncol = (nx - 2) * (ny - 2) * (nz - 2) ∧
      (∀ x : Vec R,
        (∀ r, 0 ≤ r → r < (nx - 2) * (ny - 2) * (nz - 2) → mat_vec A2 x r = 0) →
        ∀ r, 0 ≤ r → r < (nx - 2) * (ny - 2) * (nz - 2) → x r = 0) ∧
      ∀ b : Vec R, ∃ x : Vec R,
        (∀ r, 0 ≤ r → r < (nx - 2) * (ny - 2) * (nz - 2) → mat_vec A2 x r = b r) ∧
        ∀ y : Vec R,
          (∀ r, 0 ≤ r → r < (nx - 2) * (ny - 2) * (nz - 2) → mat_vec A2 y r = b r) →
          ∀ r, 0 ≤ r → r < (nx - 2) * (ny - 2) * (nz - 2) → y r = x r := by
  obtain ⟨A2, hA2⟩ := construct_equation_matrix_exists nx ny nz dx dy dz inner_regions
    inner_regions_with_models hx hy hz
    (fun reg hreg n hn => ((hcls reg hreg n).1 hn).1) hnb
  obtain ⟨_, _, _, _, hA2r, hA2c, _⟩ := construct_equation_matrix_eq_some _ _ _ _ _ _ _
    inner_regions inner_regions_with_models A2 hA2
  have hker := fun x => final_operator_kernel_trivial nx ny nz dx dy dz inner_regions
    inner_regions_with_models hx hy hz hdy hdz hcls A2 hA2 x
  have hN : 0 ≤ (nx - 2) * (ny - 2) * (nz - 2) :=
    mul_nonneg (mul_nonneg (by omega) (by omega)) (by omega)
  exact ⟨A2, hA2, hA2r, hA2c, hker,
    fun b => unique_solution_of_trivial_kernel A2 _ hN hA2c hker b⟩

theorem final_operator_nonsingular_witness :
    ∃ A2 : Mat ℚ, construct_equation_matrix
        (zero_matrix ((4 - 2) * (4 - 2) * (4 - 2)) ((4 - 2) * (4 - 2) * (4 - 2)))
        4 4 4 1 1 1 ⟨[corner_region_rat]⟩ ⟨[]⟩ = some A2 ∧
      (∀ x : Vec ℚ,
        (∀ r, 0 ≤ r → r < (4 - 2) * (4 - 2) * (4 - 2) → mat_vec A2 x r = 0) →
        ∀ r, 0 ≤ r → r < (4 - 2) * (4 - 2) * (4 - 2) → x r = 0) ∧
      ∃ x : Vec ℚ,
        ∀ r, 0 ≤ r → r < (4 - 2) * (4 - 2) * (4 - 2) → mat_vec A2 x r = 1 := by
  obtain ⟨A2, hA2, _, _, hker, hsol⟩ := final_operator_nonsingular 4 4 4 (1 : ℚ) 1 1
    ⟨[corner_region_rat]⟩ ⟨[]⟩ (by decide) (by decide) (by decide) one_ne_zero one_ne_zero
    (fun reg hreg => by
      have e : reg = corner_region_rat := by simpa [all_regions] using hreg
      rw [e]
      exact mem_iff_of_check 4 4 4 _ _ (by decide) (by decide))
    (fun reg hreg => by
      have e : reg = corner_region_rat := by simpa [all_regions] using hreg
      rw [e]
      decide)
  obtain ⟨x, hx, _⟩ := hsol (fun _ => 1)
  exact ⟨A2, hA2, hker, x, hx⟩

end Claim27

section Claim32
variable {R : Type} [CommRing R] [DecidableEq R]

/-- C32: the right-hand side is rebuilt from scratch.  For the same mesh and
regions and two previous contents `rhs_1`, `rhs_2` of the right-hand-side
vector, `init_rhs_vector` completes for both or for neither, and when it
completes the two results have the same entry at the unknown of every interior
node; with at least 3 nodes along x and along y these are all the entries
`0 .. (nx-2)(ny-2)(nz-2) - 1` of the vector.  In particular a second call on
the result of a first call completes and gives the same entries again: the
compensations added by the first call are not added a second time. -/
theorem rhs_rebuilt_from_scratch (M_PI : R) (spat_mesh : Spatial_mesh R) (rhs_1 rhs_2 : Vec R)
    (inner_regions : Inner_regions_manager R)
    (inner_regions_with_models : Inner_regions_with_models_manager R) :
    ((init_rhs_vector M_PI spat_mesh rhs_1 inner_regions inner_regions_with_models).isSome
      = (init_rhs_vector M_PI spat_mesh rhs_2 inner_regions inner_regions_with_models).isSome) ∧
    (∀ b_1 b_2,
      init_rhs_vector M_PI spat_mesh rhs_1 inner_regions inner_regions_with_models = some b_1 →
      init_rhs_vector M_PI spat_mesh rhs_2 inner_regions inner_regions_with_models = some b_2 →
      (∀ p : Node_reference,
        interior p spat_mesh.x_n_nodes spat_mesh.y_n_nodes spat_mesh.z_n_nodes →
        b_1 (idx p spat_mesh.x_n_nodes spat_mesh.y_n_nodes)
          = b_2 (idx p spat_mesh.x_n_nodes spat_mesh.y_n_nodes)) ∧
      (3 ≤ spat_mesh.x_n_nodes → 3 ≤ spat_mesh.y_n_nodes →
        ∀ n, 0 ≤ n →
          n < (spat_mesh.x_n_nodes - 2) * (spat_mesh.y_n_nodes - 2)
            * (spat_mesh.z_n_nodes - 2) →
          b_1 n = b_2 n)) ∧
    (∀ b_1,
      init_rhs_vector M_PI spat_mesh rhs_1 inner_regions inner_regions_with_models = some b_1 →
      ∃ b_2,
        init_rhs_vector M_PI spat_mesh b_1 inner_regions inner_regions_with_models
          = some b_2 ∧
        ∀ p : Node_reference,
          interior p spat_mesh.x_n_nodes spat_mesh.y_n_nodes spat_mesh.z_n_nodes →
          b_2 (idx p spat_mesh.x_n_nodes spat_mesh.y_n_nodes)
            = b_1 (idx p spat_mesh.x_n_nodes spat_mesh.y_n_nodes)) := by
  have key : ∀ (r1 r2 c1 c2 : Vec R),
      init_rhs_vector M_PI spat_mesh r1 inner_regions inner_regions_with_models = some c1 →
      init_rhs_vector M_PI spat_mesh r2 inner_regions inner_regions_with_models = some c2 →
      ∀ p : Node_reference,
        interior p spat_mesh.x_n_nodes spat_mesh.y_n_nodes spat_mesh.z_n_nodes →
        c1 (idx p spat_mesh.x_n_nodes spat_mesh.y_n_nodes)
          = c2 (idx p spat_mesh.x_n_nodes spat_mesh.y_n_nodes) := by
    intro r1 r2 c1 c2 h1 h2 p hp
    obtain ⟨a1, ha1, hv1, _⟩ := init_rhs_vector_in_full_domain_eq M_PI spat_mesh r1
    obtain ⟨a2, ha2, hv2, _⟩ := init_rhs_vector_in_full_domain_eq M_PI spat_mesh r2
    obtain ⟨m1, m2⟩ := init_rhs_vector_multi M_PI spat_mesh r1 a1 inner_regions
      inner_regions_with_models ha1
    obtain ⟨n1, _⟩ := init_rhs_vector_multi M_PI spat_mesh r2 a2 inner_regions
      inner_regions_with_models ha2
    have hall := m2 c1 h1
    obtain ⟨c1', hc1', w1⟩ := m1 hall
    obtain ⟨c2', hc2', w2⟩ := n1 hall
    have e1 : c1' = c1 := Option.some.inj (hc1'.symm.trans h1)
    have e2 : c2' = c2 := Option.some.inj (hc2'.symm.trans h2)
    subst e1 e2
    by_cases hs : ∃ reg ∈ all_regions inner_regions inner_regions_with_models,
        idx p spat_mesh.x_n_nodes spat_mesh.y_n_nodes
          ∈ reg.inner_nodes_not_at_domain_edge.map
            (fun n => idx n spat_mesh.x_n_nodes spat_mesh.y_n_nodes)
    · rw [(w1 _).1 hs, (w2 _).1 hs]
    · rw [(w1 _).2 hs, (w2 _).2 hs, hv1 p hp, hv2 p hp]
  have hsome : ∀ (r1 r2 c1 : Vec R),
      init_rhs_vector M_PI spat_mesh r1 inner_regions inner_regions_with_models = some c1 →
      ∃ c2, init_rhs_vector M_PI spat_mesh r2 inner_regions inner_regions_with_models
        = some c2 := by
    intro r1 r2 c1 h1
    obtain ⟨a1, ha1, _⟩ := init_rhs_vector_in_full_domain_eq M_PI spat_mesh r1
    obtain ⟨a2, ha2, _⟩ := init_rhs_vector_in_full_domain_eq M_PI spat_mesh r2
    obtain ⟨_, m2⟩ := init_rhs_vector_multi M_PI spat_mesh r1 a1 inner_regions
      inner_regions_with_models ha1
    obtain ⟨n1, _⟩ := init_rhs_vector_multi M_PI spat_mesh r2 a2 inner_regions
      inner_regions_with_models ha2
    obtain ⟨c2, hc2, _⟩ := n1 (m2 c1 h1)
    exact ⟨c2, hc2⟩
  refine ⟨?_, fun b_1 b_2 h1 h2 => ⟨key rhs_1 rhs_2 b_1 b_2 h1 h2, ?_⟩, fun b_1 h1 => ?_⟩
  · cases h1 : init_rhs_vector M_PI spat_mesh rhs_1 inner_regions inner_regions_with_models with
    | some c1 =>
      obtain ⟨c2, hc2⟩ := hsome rhs_1 rhs_2 c1 h1
      rw [hc2]
      rfl
    | none =>
      cases h2 : init_rhs_vector M_PI spat_mesh rhs_2 inner_regions
          inner_regions_with_models with
      | none => rfl
      | some c2 =>
        obtain ⟨c1, hc1⟩ := hsome rhs_2 rhs_1 c2 h2
        rw [h1] at hc1
        exact absurd hc1 (by simp)
  · intro hx hy n hn0 hn1
    obtain ⟨hp, hpi⟩ := @index_to_node_interior n spat_mesh.x_n_nodes spat_mesh.y_n_nodes
      spat_mesh.z_n_nodes hx hy hn0 hn1
    have := key rhs_1 rhs_2 b_1 b_2 h1 h2 _ hp
    rw [hpi] at this
    exact this
  · obtain ⟨b_2, h2⟩ := hsome rhs_1 b_1 b_1 h1
    exact ⟨b_2, h2, fun p hp => key b_1 rhs_1 b_2 b_1 h2 h1 p hp⟩

theorem rhs_rebuilt_from_scratch_witness :
    ∃ b_1 b_2 : Vec Int,
      init_rhs_vector 3 small_mesh (fun _ => 0) ⟨[corner_region, diagonal_region]⟩ ⟨[]⟩
        = some b_1 ∧
      init_rhs_vector 3 small_mesh b_1 ⟨[corner_region, diagonal_region]⟩ ⟨[]⟩ = some b_2 ∧
      b_2 (idx ⟨2, 1, 1⟩ 4 4) = b_1 (idx ⟨2, 1, 1⟩ 4 4) ∧ b_1 1 = -5 := by
  have T : (init_rhs_vector 3 small_mesh (fun _ => 0)
      ⟨[corner_region, diagonal_region]⟩ ⟨[]⟩).map (fun b => b 1) = some (-5) := by decide
  cases h1 : init_rhs_vector 3 small_mesh (fun _ => 0)
      ⟨[corner_region, diagonal_region]⟩ ⟨[]⟩ with
  | none => rw [h1] at T; exact absurd T (by simp)
  | some b_1 =>
    rw [h1] at T
    obtain ⟨b_2, h2, hv⟩ := (rhs_rebuilt_from_scratch 3 small_mesh (fun _ => 0) (fun _ => 0)
      ⟨[corner_region, diagonal_region]⟩ ⟨[]⟩).2.2 b_1 h1
    exact ⟨b_1, b_2, rfl, h2, hv ⟨2, 1, 1⟩ (by decide), Option.some.inj T⟩

end Claim32

section Claim33
variable {R : Type} [CommRing R] [DecidableEq R]

/-- The two loops of `set_solution_at_nodes_of_inner_regions` over the managers
are one loop over all regions. -/
theorem set_solution_all_eq (spat_mesh : Spatial_mesh R) (phi_vec : Vec R)
    (inner_regions : Inner_regions_manager R)
    (inner_regions_with_models : Inner_regions_with_models_manager R) :
    set_solution_at_nodes_of_inner_regions_all spat_mesh phi_vec inner_regions
        inner_regions_with_models
      = (all_regions inner_regions inner_regions_with_models).foldlM
          (fun v reg => set_solution_at_nodes_of_inner_regions spat_mesh v reg) phi_vec := by
  have T := two_loops_eq
    (fun v reg => set_solution_at_nodes_of_inner_regions spat_mesh v reg)
    (fun v reg => set_solution_at_nodes_of_inner_regions_with_model spat_mesh v reg)
    (fun _ _ => rfl) inner_regions.regions inner_regions_with_models.regions phi_vec
  unfold set_solution_at_nodes_of_inner_regions_all all_regions
  rw [← T]
  cases List.foldlM (fun v reg => set_solution_at_nodes_of_inner_regions spat_mesh v reg)
    phi_vec inner_regions.regions <;> rfl

theorem foldl_fill_untouched {α : Type} (S : α → List Int) (y : α → R) (l : List α)
    (v : Vec R) (m : Int) (h : ∀ a ∈ l, m ∉ S a) :
    (l.foldl (fun (w : Vec R) a => fun n => if n ∈ S a then y a else w n) v) m = v m := by
  induction l generalizing v with
  | nil => rfl
  | cons a l ih =>
    rw [List.foldl_cons, ih _ (fun b hb => h b (List.mem_cons_of_mem _ hb))]
    exact if_neg (h a (List.mem_cons_self _ _))

/-- C33: overlapping regions in `set_solution_at_nodes_of_inner_regions` over
both managers.  The regions are processed in the order: the regions of
`inner_regions` in list order, then the regions of
`inner_regions_with_models` in list order.  For a region `reg` of that
sequence and a node of its `inner_nodes_not_at_domain_edge` that no later
region of the sequence lists there (so `reg` is the last region that lists
the node), the call completes when the listed nodes of all regions are
interior nodes, and whenever it completes the solution entry of the node is
the potential of `reg`, whatever the earlier regions hold. -/
theorem last_region_sets_solution (spat_mesh : Spatial_mesh R) (phi_vec : Vec R)
    (inner_regions : Inner_regions_manager R)
    (inner_regions_with_models : Inner_regions_with_models_manager R)
    (earlier later : List (Inner_region R)) (reg : Inner_region R) (node : Node_reference)
    (hsplit : inner_regions.regions ++ inner_regions_with_models.regions.map as_inner_region
      = earlier ++ reg :: later)
    (hn : node ∈ reg.inner_nodes_not_at_domain_edge)
    (hlast : ∀ r ∈ later, node ∉ r.inner_nodes_not_at_domain_edge) :
    ((∀ r ∈ earlier ++ reg :: later, ∀ n ∈ r.inner_nodes_not_at_domain_edge,
        interior n spat_mesh.x_n_nodes spat_mesh.y_n_nodes spat_mesh.z_n_nodes) →
      ∃ v, set_solution_at_nodes_of_inner_regions_all spat_mesh phi_vec inner_regions
        inner_regions_with_models = some v) ∧
    ∀ v, set_solution_at_nodes_of_inner_regions_all spat_mesh phi_vec inner_regions
        inner_regions_with_models = some v →
      ∃ ix, node_global_index_in_matrix node spat_mesh.x_n_nodes spat_mesh.y_n_nodes
          spat_mesh.z_n_nodes = some ix ∧ v ix = reg.potential := by
  have hall_eq : all_regions inner_regions inner_regions_with_models
      = earlier ++ reg :: later := hsplit
  obtain ⟨g1, g2⟩ := foldlM_guarded
    (fun v reg => set_solution_at_nodes_of_inner_regions spat_mesh v reg)
    (fun reg => ∀ n ∈ reg.inner_nodes_not_at_domain_edge,
      interior n spat_mesh.x_n_nodes spat_mesh.y_n_nodes spat_mesh.z_n_nodes)
    (fun (w : Vec R) reg => fun n => if n ∈ reg.inner_nodes_not_at_domain_edge.map
      (fun n => idx n spat_mesh.x_n_nodes spat_mesh.y_n_nodes) then reg.potential else w n)
    (fun v reg h => fill_at_nodes_exists _ _ _ _ v reg.potential h)
    (fun v reg h => by
      cases hs : set_solution_at_nodes_of_inner_regions spat_mesh v reg with
      | none => exact hs
      | some b' => exact absurd (fill_at_nodes_eq_some _ _ _ _ _ _ _ hs).1 h)
    (earlier ++ reg :: later) phi_vec
  rw [set_solution_all_eq, hall_eq]
  refine ⟨fun hint => ⟨_, g1 hint⟩, fun v hv => ?_⟩
  by_cases hint : ∀ r ∈ earlier ++ reg :: later, ∀ n ∈ r.inner_nodes_not_at_domain_edge,
      interior n spat_mesh.x_n_nodes spat_mesh.y_n_nodes spat_mesh.z_n_nodes
  · rw [g1 hint] at hv
    have e := Option.some.inj hv
    have hreg : reg ∈ earlier ++ reg :: later :=
      List.mem_append_right _ (List.mem_cons_self _ _)
    have hnode := hint reg hreg node hn
    refine ⟨_, node_index_of_interior hnode, ?_⟩
    rw [← e, List.foldl_append, List.foldl_cons]
    rw [foldl_fill_untouched
      (fun (r : Inner_region R) => r.inner_nodes_not_at_domain_edge.map
        (fun n => idx n spat_mesh.x_n_nodes spat_mesh.y_n_nodes))
      (fun r => r.potential) later _ _ (fun r hr hm => by
        obtain ⟨n, hn', hidx⟩ := List.mem_map.1 hm
        have hr' : r ∈ earlier ++ reg :: later :=
          List.mem_append_right _ (List.mem_cons_of_mem _ hr)
        have e2 : n = node := idx_injective (hint r hr' n hn') hnode hidx
        rw [e2] at hn'
        exact hlast r hr hn')]
    exact if_pos (List.mem_map_of_mem _ hn)
  · rw [g2 hint] at hv
    exact absurd hv (by simp)

theorem last_region_sets_solution_witness :
    ((⟨1, 1, 1⟩ : Node_reference) ∈ corner_region.inner_nodes_not_at_domain_edge ∧
      (⟨1, 1, 1⟩ : Node_reference) ∈ example_region.inner_nodes_not_at_domain_edge
        ++ [⟨1, 1, 1⟩]) ∧
    ∃ v, set_solution_at_nodes_of_inner_regions_all example_mesh (fun _ => 7)
        ⟨[{ example_region with
              inner_nodes_not_at_domain_edge :=
                example_region.inner_nodes_not_at_domain_edge ++ [⟨1, 1, 1⟩] },
          corner_region]⟩
        ⟨[⟨"model", 5, [], [⟨2, 2, 2⟩], [], [], fun _ _ _ _ => false⟩]⟩ = some v ∧
      v 0 = 1 ∧ v 13 = 5 := by
  have T1 := last_region_sets_solution example_mesh (fun _ => 7)
    ⟨[{ example_region with
          inner_nodes_not_at_domain_edge :=
            example_region.inner_nodes_not_at_domain_edge ++ [⟨1, 1, 1⟩] },
      corner_region]⟩
    ⟨[⟨"model", 5, [], [⟨2, 2, 2⟩], [], [], fun _ _ _ _ => false⟩]⟩
    [{ example_region with
          inner_nodes_not_at_domain_edge :=
            example_region.inner_nodes_not_at_domain_edge ++ [⟨1, 1, 1⟩] }]
    [as_inner_region ⟨"model", 5, [], [⟨2, 2, 2⟩], [], [], fun _ _ _ _ => false⟩]
    corner_region ⟨1, 1, 1⟩ rfl (by decide) (by decide)
  have T2 := last_region_sets_solution example_mesh (fun _ => 7)
    ⟨[{ example_region with
          inner_nodes_not_at_domain_edge :=
            example_region.inner_nodes_not_at_domain_edge ++ [⟨1, 1, 1⟩] },
      corner_region]⟩
    ⟨[⟨"model", 5, [], [⟨2, 2, 2⟩], [], [], fun _ _ _ _ => false⟩]⟩
    [{ example_region with
          inner_nodes_not_at_domain_edge :=
            example_region.inner_nodes_not_at_domain_edge ++ [⟨1, 1, 1⟩] },
      corner_region]
    []
    (as_inner_region ⟨"model", 5, [], [⟨2, 2, 2⟩], [], [], fun _ _ _ _ => false⟩)
    ⟨2, 2, 2⟩ rfl (by decide) (by decide)
  obtain ⟨v, hv⟩ := T1.1 (by decide)
  obtain ⟨ix1, h1, w1⟩ := T1.2 v hv
  obtain ⟨ix2, h2, w2⟩ := T2.2 v hv
  have e1 : ix1 = 0 := (node_index_eq_some h1).2
  have e2 : ix2 = 13 := (node_index_eq_some h2).2
  subst e1 e2
  exact ⟨⟨by decide, by decide⟩, v, hv, w1, w2⟩

end Claim33

section RowSums
variable {R : Type} [CommRing R] [DecidableEq R]

/-- The sum of the entries of the row of an interior node in an operator whose
row is the full-domain stencil: each axis contributes its scale factor times
the number of its two neighbours that are interior nodes, minus two. -/
theorem stencil_row_sum (A : Mat R) (nx ny nz : Int) (dx dy dz : R) (i j k : Int)
    (hp : interior ⟨i, j, k⟩ nx ny nz) (hc : A.ncol = (nx - 2) * (ny - 2) * (nz - 2))
    (hA : ∀ c, A.val (idx ⟨i, j, k⟩ nx ny) c = stencil_entry nx ny nz dx dy dz ⟨i, j, k⟩ c) :
    (∑ c in Finset.range ((nx - 2) * (ny - 2) * (nz - 2)).toNat,
        A.val (idx ⟨i, j, k⟩ nx ny) (c : Int))
      = dy * dy * (dz * dz) *
          ((if interior ⟨i - 1, j, k⟩ nx ny nz then 1 else 0)
            + (if interior ⟨i + 1, j, k⟩ nx ny nz then 1 else 0) - 2)
        + dx * dx * (dz * dz) *
          ((if interior ⟨i, j - 1, k⟩ nx ny nz then 1 else 0)
            + (if interior ⟨i, j + 1, k⟩ nx ny nz then 1 else 0) - 2)
        + dx * dx * (dy * dy) *
          ((if interior ⟨i, j, k - 1⟩ nx ny nz then 1 else 0)
            + (if interior ⟨i, j, k + 1⟩ nx ny nz then 1 else 0) - 2) := by
  have h1 := mat_vec_of_stencil A nx ny nz dx dy dz ⟨i, j, k⟩ hp hc hA (fun _ => 1)
  have h2 := stencil_apply_zero_edge nx ny nz dx dy dz (fun _ => (1 : R)) i j k hp
  rw [← h1] at h2
  unfold mat_vec at h2
  rw [hc] at h2
  simp only [mul_one, if_pos hp] at h2
  exact h2.trans (by ring)

end RowSums

section Claim34
variable {R : Type} [LinearOrderedCommRing R]

/-- C34: on a grid with at least 4 nodes along each axis and positive cell sizes
`construct_equation_matrix_in_full_domain` produces a square operator in which
every row `r` has a negative diagonal entry and non-negative off-diagonal
entries, the sum of the entries of the row is at most `0`, it is `0` exactly
when all six neighbours of the node of the row are interior nodes, it is
negative when some neighbour of the node is at the domain edge, and the sum
of the absolute values of the off-diagonal entries is at most the absolute
value of the diagonal entry. -/
theorem base_operator_weakly_diagonally_dominant (nx ny nz : Int) (dx dy dz : R)
    (hx : 4 ≤ nx) (hy : 4 ≤ ny) (hz : 4 ≤ nz) (hdx : 0 < dx) (hdy : 0 < dy) (hdz : 0 < dz) :
    ∃ A : Mat R, construct_equation_matrix_in_full_domain
        (zero_matrix ((nx - 2) * (ny - 2) * (nz - 2)) ((nx - 2) * (ny - 2) * (nz - 2)))
        nx ny nz dx dy dz = some A ∧
      A.nrow = (nx - 2) * (ny - 2) * (nz - 2) ∧
      A.ncol = (nx - 2) * (ny - 2) * (nz - 2) ∧
      ∀ r, 0 ≤ r → r < (nx - 2) * (ny - 2) * (nz - 2) →
        A.val r r < 0 ∧
        (∀ c, 0 ≤ c → c < (nx - 2) * (ny - 2) * (nz - 2) → c ≠ r → 0 ≤ A.val r c) ∧
        (∑ c in Finset.range ((nx - 2) * (ny - 2) * (nz - 2)).toNat, A.val r (c : Int)) ≤ 0 ∧
        ((∑ c in Finset.range ((nx - 2) * (ny - 2) * (nz - 2)).toNat, A.val r (c : Int)) = 0
          ↔ ∀ adj ∈ (index_to_node r nx ny).adjacent_nodes, interior adj nx ny nz) ∧
        ((∃ adj ∈ (index_to_node r nx ny).adjacent_nodes,
            adj.at_domain_edge nx ny nz = true) →
          (∑ c in Finset.range ((nx - 2) * (ny - 2) * (nz - 2)).toNat, A.val r (c : Int))
            < 0) ∧
        (∑ c in Finset.range ((nx - 2) * (ny - 2) * (nz - 2)).toNat,
            (if (c : Int) = r then 0 else |A.val r (c : Int)|)) ≤ |A.val r r| := by
  obtain ⟨A, hA, hAr, hAc, hAv⟩ :=
    construct_equation_matrix_in_full_domain_eq (R := R) nx ny nz dx dy dz hx hy hz
  obtain ⟨A', hA', hE⟩ := base_operator_entries (R := R) nx ny nz dx dy dz hx hy hz
  have eA : A' = A := Option.some.inj (hA'.symm.trans hA)
  subst eA
  refine ⟨A', hA, hAr, hAc, ?_⟩
  intro r hr0 hr1
  obtain ⟨hp, hpr⟩ := @index_to_node_interior r nx ny nz (by omega) (by omega) hr0 hr1
  obtain ⟨i, j, k, hijk⟩ : ∃ i j k, index_to_node r nx ny = ⟨i, j, k⟩ := ⟨_, _, _, rfl⟩
  rw [hijk] at hp hpr ⊢
  have pa : 0 < dy * dy * (dz * dz) := mul_pos (mul_pos hdy hdy) (mul_pos hdz hdz)
  have pb : 0 < dx * dx * (dz * dz) := mul_pos (mul_pos hdx hdx) (mul_pos hdz hdz)
  have pc : 0 < dx * dx * (dy * dy) := mul_pos (mul_pos hdx hdx) (mul_pos hdy hdy)
  -- the entries
  have hdiag : A'.val r r = -2 * (dy * dy * dz * dz + dx * dx * dz * dz + dx * dx * dy * dy) := by
    have := hE ⟨i, j, k⟩ ⟨i, j, k⟩ hp hp
    rw [hpr, if_pos rfl] at this
    exact this
  have hneg : A'.val r r < 0 := by
    rw [hdiag]
    nlinarith [pa, pb, pc]
  have hoff : ∀ c, 0 ≤ c → c < (nx - 2) * (ny - 2) * (nz - 2) → c ≠ r → 0 ≤ A'.val r c := by
    intro c hc0 hc1 hcr
    obtain ⟨hq, hqc⟩ := @index_to_node_interior c nx ny nz (by omega) (by omega) hc0 hc1
    have := hE ⟨i, j, k⟩ (index_to_node c nx ny) hp hq
    rw [hpr, hqc] at this
    rw [this]
    split_ifs
    · exfalso
      apply hcr
      rename_i h
      rw [← hqc, h, hpr]
    · nlinarith [pa]
    · nlinarith [pb]
    · nlinarith [pc]
    · exact le_refl _
  -- the sum of the row
  have hsum := stencil_row_sum A' nx ny nz dx dy dz i j k hp hAc (hAv ⟨i, j, k⟩ hp)
  rw [hpr] at hsum
  have hu : ∀ q : Node_reference,
      (0 : R) ≤ (if interior q nx ny nz then (1 : R) else 0) ∧
      (if interior q nx ny nz then (1 : R) else 0) ≤ 1 ∧
      ((if interior q nx ny nz then (1 : R) else 0) = 1 ↔ interior q nx ny nz) := by
    intro q
    by_cases h : interior q nx ny nz
    · simp [h]
    · simp [h]
  obtain ⟨l1, m1, e1⟩ := hu ⟨i - 1, j, k⟩
  obtain ⟨l2, m2, e2⟩ := hu ⟨i + 1, j, k⟩
  obtain ⟨l3, m3, e3⟩ := hu ⟨i, j - 1, k⟩
  obtain ⟨l4, m4, e4⟩ := hu ⟨i, j + 1, k⟩
  obtain ⟨l5, m5, e5⟩ := hu ⟨i, j, k - 1⟩
  obtain ⟨l6, m6, e6⟩ := hu ⟨i, j, k + 1⟩
  generalize (if interior ⟨i - 1, j, k⟩ nx ny nz then (1 : R) else 0) = u1 at hsum l1 m1 e1
  generalize (if interior ⟨i + 1, j, k⟩ nx ny nz then (1 : R) else 0) = u2 at hsum l2 m2 e2
  generalize (if interior ⟨i, j - 1, k⟩ nx ny nz then (1 : R) else 0) = u3 at hsum l3 m3 e3
  generalize (if interior ⟨i, j + 1, k⟩ nx ny nz then (1 : R) else 0) = u4 at hsum l4 m4 e4
  generalize (if interior ⟨i, j, k - 1⟩ nx ny nz then (1 : R) else 0) = u5 at hsum l5 m5 e5
  generalize (if interior ⟨i, j, k + 1⟩ nx ny nz then (1 : R) else 0) = u6 at hsum l6 m6 e6
  have t1 : dy * dy * (dz * dz) * (u1 + u2 - 2) ≤ 0 :=
    mul_nonpos_of_nonneg_of_nonpos pa.le (by linarith)
  have t2 : dx * dx * (dz * dz) * (u3 + u4 - 2) ≤ 0 :=
    mul_nonpos_of_nonneg_of_nonpos pb.le (by linarith)
  have t3 : dx * dx * (dy * dy) * (u5 + u6 - 2) ≤ 0 :=
    mul_nonpos_of_nonneg_of_nonpos pc.le (by linarith)
  have hle : (∑ c in Finset.range ((nx - 2) * (ny - 2) * (nz - 2)).toNat,
      A'.val r (c : Int)) ≤ 0 := by
    rw [hsum]; linarith
  have hiff : (∑ c in Finset.range ((nx - 2) * (ny - 2) * (nz - 2)).toNat,
      A'.val r (c : Int)) = 0
      ↔ ∀ adj ∈ (⟨i, j, k⟩ : Node_reference).adjacent_nodes, interior adj nx ny nz := by
    rw [hsum]
    constructor
    · intro h0
      have z1 : dy * dy * (dz * dz) * (u1 + u2 - 2) = 0 := by linarith
      have z2 : dx * dx * (dz * dz) * (u3 + u4 - 2) = 0 := by linarith
      have z3 : dx * dx * (dy * dy) * (u5 + u6 - 2) = 0 := by linarith
      have y1 : u1 + u2 - 2 = 0 := (mul_eq_zero.1 z1).resolve_left pa.ne'
      have y2 : u3 + u4 - 2 = 0 := (mul_eq_zero.1 z2).resolve_left pb.ne'
      have y3 : u5 + u6 - 2 = 0 := (mul_eq_zero.1 z3).resolve_left pc.ne'
      have i1 := e1.1 (by linarith)
      have i2 := e2.1 (by linarith)
      have i3 := e3.1 (by linarith)
      have i4 := e4.1 (by linarith)
      have i5 := e5.1 (by linarith)
      have i6 := e6.1 (by linarith)
      intro adj hadj
      simp only [Node_reference.adjacent_nodes, List.mem_cons, List.mem_singleton,
        List.not_mem_nil, or_false] at hadj
      rcases hadj with rfl | rfl | rfl | rfl | rfl | rfl <;> assumption
    · intro hall
      rw [e1.2 (hall _ (by simp [Node_reference.adjacent_nodes])),
        e2.2 (hall _ (by simp [Node_reference.adjacent_nodes])),
        e3.2 (hall _ (by simp [Node_reference.adjacent_nodes])),
        e4.2 (hall _ (by simp [Node_reference.adjacent_nodes])),
        e5.2 (hall _ (by simp [Node_reference.adjacent_nodes])),
        e6.2 (hall _ (by simp [Node_reference.adjacent_nodes]))]
      ring
  refine ⟨hneg, hoff, hle, hiff, ?_, ?_⟩
  · rintro ⟨adj, hadj, hedge⟩
    apply lt_of_le_of_ne hle
    intro h0
    have hint := hiff.1 h0 adj hadj
    obtain ⟨a1, a2, a3, a4, a5, a6⟩ := hint
    simp only [Node_reference.at_domain_edge, decide_eq_true_eq] at hedge
    omega
  · have e : ∀ c ∈ Finset.range ((nx - 2) * (ny - 2) * (nz - 2)).toNat,
        (if (c : Int) = r then 0 else |A'.val r (c : Int)|)
          = A'.val r (c : Int) - (if (c : Int) = r then A'.val r (c : Int) else 0) := by
      intro c hcm
      have hc1 := Finset.mem_range.1 hcm
      by_cases hcr : (c : Int) = r
      · rw [if_pos hcr, if_pos hcr, sub_self]
      · rw [if_neg hcr, if_neg hcr, sub_zero]
        exact abs_of_nonneg (hoff c (by omega) (by omega) hcr)
    rw [Finset.sum_congr rfl e, Finset.sum_sub_distrib, sum_indicator,
      if_pos ⟨hr0, by omega⟩, abs_of_neg hneg]
    linarith

theorem base_operator_weakly_diagonally_dominant_witness :
    ∃ A : Mat ℚ, construct_equation_matrix_in_full_domain
        (zero_matrix ((5 - 2) * (5 - 2) * (5 - 2)) ((5 - 2) * (5 - 2) * (5 - 2)))
        5 5 5 1 2 3 = some A ∧
      A.val 13 13 < 0 ∧ 0 ≤ A.val 13 14 ∧
      (∑ c in Finset.range ((5 - 2) * (5 - 2) * (5 - 2) : Int).toNat, A.val 13 (c : Int)) = 0 ∧
      (∑ c in Finset.range ((5 - 2) * (5 - 2) * (5 - 2) : Int).toNat, A.val 0 (c : Int)) < 0 := by
  obtain ⟨A, hA, _, _, hrow⟩ := base_operator_weakly_diagonally_dominant 5 5 5 (1 : ℚ) 2 3
    (by decide) (by decide) (by decide) (by norm_num) (by norm_num) (by norm_num)
  obtain ⟨d13, o13, _, z13, _, _⟩ := hrow 13 (by decide) (by decide)
  obtain ⟨_, _, _, _, n0, _⟩ := hrow 0 (by decide) (by decide)
  exact ⟨A, hA, d13, o13 14 (by decide) (by decide) (by decide), z13.2 (by decide),
    n0 ⟨⟨0, 1, 1⟩, by decide, by decide⟩⟩

end Claim34

section Symmetry
variable {R : Type} [CommRing R] [DecidableEq R]

theorem neighbour_symm (p q : Node_reference) :
    ((q = ⟨p.x + 1, p.y, p.z⟩ ∨ q = ⟨p.x - 1, p.y, p.z⟩)
      ↔ (p = ⟨q.x + 1, q.y, q.z⟩ ∨ p = ⟨q.x - 1, q.y, q.z⟩)) ∧
    ((q = ⟨p.x, p.y + 1, p.z⟩ ∨ q = ⟨p.x, p.y - 1, p.z⟩)
      ↔ (p = ⟨q.x, q.y + 1, q.z⟩ ∨ p = ⟨q.x, q.y - 1, q.z⟩)) ∧
    ((q = ⟨p.x, p.y, p.z + 1⟩ ∨ q = ⟨p.x, p.y, p.z - 1⟩)
      ↔ (p = ⟨q.x, q.y, q.z + 1⟩ ∨ p = ⟨q.x, q.y, q.z - 1⟩)) := by
  obtain ⟨a, b, c⟩ := p
  obtain ⟨d, e, f⟩ := q
  simp only [Node_reference.mk.injEq]
  omega

/-- The base operator on a grid with at least four nodes along each axis is
symmetric. -/
theorem base_operator_symmetric (nx ny nz : Int) (dx dy dz : R)
    (hx : 4 ≤ nx) (hy : 4 ≤ ny) (hz : 4 ≤ nz) :
    ∃ A : Mat R, construct_equation_matrix_in_full_domain
        (zero_matrix ((nx - 2) * (ny - 2) * (nz - 2)) ((nx - 2) * (ny - 2) * (nz - 2)))
        nx ny nz dx dy dz = some A ∧
      ∀ r c, 0 ≤ r → r < (nx - 2) * (ny - 2) * (nz - 2) →
        0 ≤ c → c < (nx - 2) * (ny - 2) * (nz - 2) → A.val r c = A.val c r := by
  obtain ⟨A, hA, hE⟩ := base_operator_entries (R := R) nx ny nz dx dy dz hx hy hz
  refine ⟨A, hA, ?_⟩
  intro r c hr0 hr1 hc0 hc1
  obtain ⟨hp, hpr⟩ := @index_to_node_interior r nx ny nz (by omega) (by omega) hr0 hr1
  obtain ⟨hq, hqc⟩ := @index_to_node_interior c nx ny nz (by omega) (by omega) hc0 hc1
  have h1 := hE _ _ hp hq
  have h2 := hE _ _ hq hp
  rw [hpr, hqc] at h1 h2
  rw [h1, h2]
  obtain ⟨s1, s2, s3⟩ := neighbour_symm (index_to_node r nx ny) (index_to_node c nx ny)
  exact if_congr eq_comm rfl (if_congr s1 rfl (if_congr s2 rfl (if_congr s3 rfl rfl)))

/-- In the final operator the column of a region-interior unknown is zero
outside the diagonal, for a region whose region-interior nodes pass its
containment test and whose near-boundary list holds every interior node that
is not region-interior for it and is adjacent to one of its region-interior
nodes. -/
theorem region_interior_column (nx ny nz : Int) (dx dy dz : R)
    (inner_regions : Inner_regions_manager R)
    (inner_regions_with_models : Inner_regions_with_models_manager R)
    (hx : 4 ≤ nx) (hy : 4 ≤ ny) (hz : 4 ≤ nz) (A2 : Mat R)
    (hA2 : construct_equation_matrix
      (zero_matrix ((nx - 2) * (ny - 2) * (nz - 2)) ((nx - 2) * (ny - 2) * (nz - 2)))
      nx ny nz dx dy dz inner_regions inner_regions_with_models = some A2)
    (reg : Inner_region R) (n : Node_reference)
    (hreg : reg ∈ all_regions inner_regions inner_regions_with_models)
    (hn : n ∈ reg.inner_nodes_not_at_domain_edge)
    (hchk : ∀ m ∈ reg.inner_nodes_not_at_domain_edge,
      reg.check_if_node_inside m dx dy dz = true)
    (hcomplete : ∀ m, interior m nx ny nz → m ∉ reg.inner_nodes_not_at_domain_edge →
      (∃ a ∈ m.adjacent_nodes, a ∈ reg.inner_nodes_not_at_domain_edge) →
      m ∈ reg.near_boundary_nodes_not_at_domain_edge) :
    ∀ r, 0 ≤ r → r < (nx - 2) * (ny - 2) * (nz - 2) → r ≠ idx n nx ny →
      A2.val r (idx n nx ny) = 0 := by
  obtain ⟨B, hB, _, _, _, _, hinA, _, hv⟩ := construct_equation_matrix_eq_some _ _ _ _ _ _ _
    inner_regions inner_regions_with_models A2 hA2
  obtain ⟨B', hB', hBv⟩ := base_operator_entries (R := R) nx ny nz dx dy dz hx hy hz
  have eB : B' = B := Option.some.inj (hB'.symm.trans hB)
  subst eB
  have hni := (hinA reg hreg n hn).1
  intro r hr0 hr1 hrn
  obtain ⟨hm, hmr⟩ := @index_to_node_interior r nx ny nz (by omega) (by omega) hr0 hr1
  by_cases hs : ∃ reg ∈ all_regions inner_regions inner_regions_with_models,
      ∃ node ∈ reg.near_boundary_nodes_not_at_domain_edge, r = idx node nx ny ∧
        idx n nx ny ∈ qualifying_columns (fun adj => reg.check_if_node_inside adj dx dy dz)
          nx ny nz node
  · exact (hv r _).1 hs
  · by_cases hs1 : ∃ reg ∈ all_regions inner_regions inner_regions_with_models,
        r ∈ reg.inner_nodes_not_at_domain_edge.map (fun n => idx n nx ny)
    · rw [((hv r _).2 hs).1 hs1, if_neg (fun e => hrn e.symm)]
    · rw [((hv r _).2 hs).2 hs1]
      have hnm : n ≠ index_to_node r nx ny := by
        intro e
        apply hrn
        rw [← hmr, ← e]
      have hedge : n.at_domain_edge nx ny nz = false := by
        obtain ⟨a1, a2, a3, a4, a5, a6⟩ := hni
        simp only [Node_reference.at_domain_edge, decide_eq_false_iff_not]
        omega
      have hnadj : n ∉ (index_to_node r nx ny).adjacent_nodes := by
        intro hadj
        apply hs
        have hmnot : index_to_node r nx ny ∉ reg.inner_nodes_not_at_domain_edge := by
          intro hmem
          apply hs1
          refine ⟨reg, hreg, ?_⟩
          rw [← hmr]
          exact List.mem_map_of_mem _ hmem
        refine ⟨reg, hreg, index_to_node r nx ny,
          hcomplete _ hm hmnot ⟨n, hadj, hn⟩, hmr.symm, ?_⟩
        rw [mem_qualifying_columns]
        refine ⟨n, hadj, ?_, rfl⟩
        simp only [qualifies, hedge, Bool.not_false, Bool.true_and]
        exact hchk n hn
      have hmem : ∀ q : Node_reference, q ∈ (index_to_node r nx ny).adjacent_nodes → n ≠ q :=
        fun q hq e => hnadj (e ▸ hq)
      nth_rewrite 1 [← hmr]
      rw [hBv _ n hm hni, if_neg hnm,
        if_neg (by
          rintro (e | e)
          · exact hmem _ (by simp [Node_reference.adjacent_nodes]) e
          · exact hmem _ (by simp [Node_reference.adjacent_nodes]) e),
        if_neg (by
          rintro (e | e)
          · exact hmem _ (by simp [Node_reference.adjacent_nodes]) e
          · exact hmem _ (by simp [Node_reference.adjacent_nodes]) e),
        if_neg (by
          rintro (e | e)
          · exact hmem _ (by simp [Node_reference.adjacent_nodes]) e
          · exact hmem _ (by simp [Node_reference.adjacent_nodes]) e)]

end Symmetry

section Claim35
variable {R : Type} [CommRing R] [DecidableEq R]

/-- C35: symmetry before and after the embedded-boundary modification.  On a
grid with at least 4 nodes along each axis `construct_equation_matrix_in_full_domain`
produces an operator with `A(r,c) = A(c,r)` for all rows and columns of the
matrix.  For regions whose node lists are classified as in the data model
(the region-interior list of a region holds exactly the interior nodes that
pass its containment test, its near-boundary list holds interior nodes) and
such that the near-boundary list of each region contains every interior node
outside the region that is axis-adjacent to one of its region-interior nodes,
`construct_equation_matrix` completes and the final operator satisfies
`A(r,c) = A(c,r)` for all rows and columns as well. -/
theorem operator_symmetric_before_and_after (nx ny nz : Int) (dx dy dz : R)
    (inner_regions : Inner_regions_manager R)
    (inner_regions_with_models : Inner_regions_with_models_manager R)
    (hx : 4 ≤ nx) (hy : 4 ≤ ny) (hz : 4 ≤ nz) :
    (∃ A : Mat R, construct_equation_matrix_in_full_domain
        (zero_matrix ((nx - 2) * (ny - 2) * (nz - 2)) ((nx - 2) * (ny - 2) * (nz - 2)))
        nx ny nz dx dy dz = some A ∧
      A.nrow = (nx - 2) * (ny - 2) * (nz - 2) ∧ A.ncol = (nx - 2) * (ny - 2) * (nz - 2) ∧
      ∀ r c, 0 ≤ r → r < (nx - 2) * (ny - 2) * (nz - 2) →
        0 ≤ c → c < (nx - 2) * (ny - 2) * (nz - 2) → A.val r c = A.val c r) ∧
    ((∀ reg ∈ all_regions inner_regions inner_regions_with_models,
        ∀ n, n ∈ reg.inner_nodes_not_at_domain_edge ↔
          interior n nx ny nz ∧ reg.check_if_node_inside n dx dy dz = true) →
      (∀ reg ∈ all_regions inner_regions inner_regions_with_models,
        ∀ n ∈ reg.near_boundary_nodes_not_at_domain_edge, interior n nx ny nz) →
      (∀ reg ∈ all_regions inner_regions inner_regions_with_models,
        ∀ m, interior m nx ny nz → reg.check_if_node_inside m dx dy dz = false →
          (∃ a ∈ m.adjacent_nodes, a ∈ reg.inner_nodes_not_at_domain_edge) →
          m ∈ reg.near_boundary_nodes_not_at_domain_edge) →
      ∃ A2 : Mat R, construct_equation_matrix
          (zero_matrix ((nx - 2) * (ny - 2) * (nz - 2)) ((nx - 2) * (ny - 2) * (nz - 2)))
          nx ny nz dx dy dz inner_regions inner_regions_with_models = some A2 ∧
        A2.nrow = (nx - 2) * (ny - 2) * (nz - 2) ∧
        A2.ncol = (nx - 2) * (ny - 2) * (nz - 2) ∧
        ∀ r c, 0 ≤ r → r < (nx - 2) * (ny - 2) * (nz - 2) →
          0 ≤ c → c < (nx - 2) * (ny - 2) * (nz - 2) → A2.val r c = A2.val c r) := by
  obtain ⟨A, hA, hsym⟩ := base_operator_symmetric (R := R) nx ny nz dx dy dz hx hy hz
  obtain ⟨A', hA', hAr, hAc, _⟩ :=
    construct_equation_matrix_in_full_domain_eq (R := R) nx ny nz dx dy dz hx hy hz
  have eA : A' = A := Option.some.inj (hA'.symm.trans hA)
  subst eA
  refine ⟨⟨A', hA, hAr, hAc, hsym⟩, fun hcls hnb hcomplete => ?_⟩
  obtain ⟨A2, hA2⟩ := construct_equation_matrix_exists nx ny nz dx dy dz inner_regions
    inner_regions_with_models hx hy hz
    (fun reg hreg n hn => ((hcls reg hreg n).1 hn).1) hnb
  obtain ⟨B, hB, _, _, hA2r, hA2c, hinA, _, hv⟩ := construct_equation_matrix_eq_some _ _ _ _ _ _ _
    inner_regions inner_regions_with_models A2 hA2
  have eB : A' = B := Option.some.inj (hA.symm.trans hB)
  subst eB
  refine ⟨A2, hA2, hA2r, hA2c, ?_⟩
  -- an entry in the row or in the column of a region-interior unknown
  have hrow0 : ∀ r c, (∃ reg ∈ all_regions inner_regions inner_regions_with_models,
      r ∈ reg.inner_nodes_not_at_domain_edge.map (fun n => idx n nx ny)) → c ≠ r →
      A2.val r c = 0 := by
    rintro r c ⟨reg, hreg, hm⟩ hcr
    obtain ⟨n, hn, rfl⟩ := List.mem_map.1 hm
    rw [region_interior_row _ _ _ _ _ _ _ inner_regions inner_regions_with_models A2 hA2
      reg hreg n hn c, if_neg hcr]
  have hcol0 : ∀ r c, 0 ≤ r → r < (nx - 2) * (ny - 2) * (nz - 2) →
      (∃ reg ∈ all_regions inner_regions inner_regions_with_models,
        c ∈ reg.inner_nodes_not_at_domain_edge.map (fun n => idx n nx ny)) → r ≠ c →
      A2.val r c = 0 := by
    rintro r c hr0 hr1 ⟨reg, hreg, hm⟩ hrc
    obtain ⟨n, hn, rfl⟩ := List.mem_map.1 hm
    exact region_interior_column nx ny nz dx dy dz inner_regions inner_regions_with_models
      hx hy hz A2 hA2 reg n hreg hn (fun m hm' => ((hcls reg hreg m).1 hm').2)
      (fun m hmi hmn hadj => hcomplete reg hreg m hmi (by
        cases hchk : reg.check_if_node_inside m dx dy dz with
        | false => rfl
        | true => exact absurd ((hcls reg hreg m).2 ⟨hmi, hchk⟩) hmn) hadj)
      r hr0 hr1 hrc
  -- an entry between two unknowns that are region-interior for no region
  have hfree : ∀ r c,
      (¬ ∃ reg ∈ all_regions inner_regions inner_regions_with_models,
        r ∈ reg.inner_nodes_not_at_domain_edge.map (fun n => idx n nx ny)) →
      (¬ ∃ reg ∈ all_regions inner_regions inner_regions_with_models,
        c ∈ reg.inner_nodes_not_at_domain_edge.map (fun n => idx n nx ny)) →
      A2.val r c = A'.val r c := by
    intro r c hr hc
    have hs : ¬ ∃ reg ∈ all_regions inner_regions inner_regions_with_models,
        ∃ node ∈ reg.near_boundary_nodes_not_at_domain_edge, r = idx node nx ny ∧
          c ∈ qualifying_columns (fun adj => reg.check_if_node_inside adj dx dy dz)
            nx ny nz node := by
      rintro ⟨reg, hreg, node, hnode, _, hcq⟩
      obtain ⟨adj, ha, hq, hidx⟩ := (mem_qualifying_columns _ _ _ _ _ _).1 hcq
      simp only [qualifies, Bool.and_eq_true, Bool.not_eq_true'] at hq
      have hadj := adjacent_interior (hnb reg hreg node hnode) ha hq.1
      apply hc
      refine ⟨reg, hreg, ?_⟩
      rw [← hidx]
      exact List.mem_map_of_mem _ ((hcls reg hreg adj).2 ⟨hadj, hq.2⟩)
    exact ((hv r c).2 hs).2 hr
  intro r c hr0 hr1 hc0 hc1
  by_cases hrc : r = c
  · rw [hrc]
  · by_cases h1 : ∃ reg ∈ all_regions inner_regions inner_regions_with_models,
        r ∈ reg.inner_nodes_not_at_domain_edge.map (fun n => idx n nx ny)
    · rw [hrow0 r c h1 (fun e => hrc e.symm), hcol0 c r hc0 hc1 h1 (fun e => hrc e.symm)]
    · by_cases h2 : ∃ reg ∈ all_regions inner_regions inner_regions_with_models,
          c ∈ reg.inner_nodes_not_at_domain_edge.map (fun n => idx n nx ny)
      · rw [hcol0 r c hr0 hr1 h2 hrc, hrow0 c r h2 hrc]
      · rw [hfree r c h1 h2, hfree c r h2 h1]
        exact hsym r c hr0 hr1 hc0 hc1

theorem operator_symmetric_before_and_after_witness :
    ∃ A A2 : Mat Int,
      construct_equation_matrix_in_full_domain (zero_matrix 8 8) 4 4 4 1 1 1 = some A ∧
      construct_equation_matrix (zero_matrix 8 8) 4 4 4 1 1 1
        ⟨[corner_region, adjacent_region]⟩ ⟨[]⟩ = some A2 ∧
      A.val 0 1 = A.val 1 0 ∧ A2.val 0 1 = A2.val 1 0 ∧ A2.val 2 3 = A2.val 3 2 := by
  obtain ⟨⟨A, hA, _, _, hs⟩, hfin⟩ := operator_symmetric_before_and_after 4 4 4 (1 : Int) 1 1
    ⟨[corner_region, adjacent_region]⟩ ⟨[]⟩ (by decide) (by decide) (by decide)
  obtain ⟨A2, hA2, _, _, hs2⟩ := hfin
    (fun reg hreg => by
      simp only [all_regions, List.map_nil, List.append_nil, List.mem_cons,
        List.mem_singleton, List.not_mem_nil, or_false] at hreg
      rcases hreg with e | e
      · rw [e]; exact mem_iff_of_check 4 4 4 _ _ (by decide) (by decide)
      · rw [e]; exact mem_iff_of_check 4 4 4 _ _ (by decide) (by decide))
    (by decide)
    (fun reg hreg => by
      simp only [all_regions, List.map_nil, List.append_nil, List.mem_cons,
        List.mem_singleton, List.not_mem_nil, or_false] at hreg
      rcases hreg with e | e
      · rw [e]
        exact fun m hm => (by decide : ∀ m ∈ interior_nodes 4 4 4,
          corner_region.check_if_node_inside m 1 1 1 = false →
          (∃ a ∈ m.adjacent_nodes, a ∈ corner_region.inner_nodes_not_at_domain_edge) →
          m ∈ corner_region.near_boundary_nodes_not_at_domain_edge) m
          ((mem_interior_nodes 4 4 4 m).2 hm)
      · rw [e]
        exact fun m hm => (by decide : ∀ m ∈ interior_nodes 4 4 4,
          adjacent_region.check_if_node_inside m 1 1 1 = false →
          (∃ a ∈ m.adjacent_nodes, a ∈ adjacent_region.inner_nodes_not_at_domain_edge) →
          m ∈ adjacent_region.near_boundary_nodes_not_at_domain_edge) m
          ((mem_interior_nodes 4 4 4 m).2 hm))
  exact ⟨A, A2, hA, hA2,
    hs 0 1 (by decide) (by decide) (by decide) (by decide),
    hs2 0 1 (by decide) (by decide) (by decide) (by decide),
    hs2 2 3 (by decide) (by decide) (by decide) (by decide)⟩

end Claim35

section Claim31
variable {R Box Sphere Cylinder Tube : Type}

/-- A loop that appends `f a` to a list held in its state for every element
`a`, or aborts when `f a` is `none`: it aborts exactly when `f` is `none` at
some element, and otherwise it has appended the values of `f`, one per
element, in order. -/
theorem foldlM_push_back {α β γ : Type} (get : γ → List β) (push : γ → β → γ)
    (hpush : ∀ s r, get (push s r) = get s ++ [r]) (f : α → Option β)
    (step : γ → α → Option γ)
    (hstep : ∀ s a, step s a = (f a).map (push s))
    (l : List α) (s : γ) :
    (l.foldlM step s = none ↔ ∃ a ∈ l, f a = none) ∧
    (∀ res, l.foldlM step s = some res →
      ∃ rs, get res = get s ++ rs ∧ rs.map some = l.map f) := by
  induction l generalizing s with
  | nil =>
    refine ⟨⟨fun h => absurd h (by simp), ?_⟩, fun res h => ⟨[], ?_, rfl⟩⟩
    · rintro ⟨a, ha, _⟩
      cases ha
    · simp only [List.foldlM_nil, pure, Option.some.injEq] at h
      rw [← h, List.append_nil]
  | cons a l ih =>
    rw [List.foldlM_cons, hstep]
    cases hfa : f a with
    | none =>
      refine ⟨⟨fun _ => ⟨a, List.mem_cons_self _ _, hfa⟩, fun _ => rfl⟩,
        fun res h => absurd h (by simp)⟩
    | some r =>
      simp only [Option.map_some', Option.some_bind, bind]
      obtain ⟨i1, i2⟩ := ih (push s r)
      refine ⟨i1.trans ⟨?_, ?_⟩, fun res h => ?_⟩
      · rintro ⟨b, hb, hfb⟩
        exact ⟨b, List.mem_cons_of_mem _ hb, hfb⟩
      · rintro ⟨b, hb, hfb⟩
        rcases List.mem_cons.1 hb with e | hb'
        · rw [e, hfa] at hfb
          exact absurd hfb (by simp)
        · exact ⟨b, hb', hfb⟩
      · obtain ⟨rs, e1, e2⟩ := i2 res h
        refine ⟨r :: rs, ?_, ?_⟩
        · rw [e1, hpush, List.append_assoc, List.singleton_append]
        · rw [List.map_cons, List.map_cons, e2, hfa]

theorem region_of_config_part_eq_none (shapes : Region_shapes R Box Sphere Cylinder Tube)
    (conf : Config Box Sphere Cylinder Tube) (spat_mesh : Spatial_mesh R)
    (part : Inner_region_config_part Box Sphere Cylinder Tube) :
    region_of_config_part shapes conf spat_mesh part = none
      ↔ part.as_box = none ∧ part.as_sphere = none ∧ part.as_cylinder = none ∧
        part.as_tube = none := by
  obtain ⟨b, s, c, t⟩ := part
  cases b <;> cases s <;> cases c <;> cases t <;> simp [region_of_config_part]

/-- C31: the constructor of `Inner_regions_manager` either aborts or returns a
manager.  It aborts if and only if some configuration part is none of box,
sphere, cylinder or tube (every `dynamic_cast` gives a null pointer).
Otherwise the region list has exactly one region per configuration part, in
the order of the configuration parts, and the region at each position is the
one built by the constructor of the matching shape from the part at that
position. -/
theorem manager_constructor_regions (shapes : Region_shapes R Box Sphere Cylinder Tube)
    (conf : Config Box Sphere Cylinder Tube) (spat_mesh : Spatial_mesh R) :
    (Inner_regions_manager.construct shapes conf spat_mesh = none ∨
      ∃ manager, Inner_regions_manager.construct shapes conf spat_mesh = some manager) ∧
    (Inner_regions_manager.construct shapes conf spat_mesh = none ↔
      ∃ part ∈ conf.inner_regions_config_part,
        part.as_box = none ∧ part.as_sphere = none ∧ part.as_cylinder = none ∧
          part.as_tube = none) ∧
    (∀ manager, Inner_regions_manager.construct shapes conf spat_mesh = some manager →
      manager.regions.length = conf.inner_regions_config_part.length ∧
      manager.regions.map some
        = conf.inner_regions_config_part.map (region_of_config_part shapes conf spat_mesh) ∧
      ∀ (i : Nat) (hi : i < manager.regions.length)
        (hj : i < conf.inner_regions_config_part.length),
        region_of_config_part shapes conf spat_mesh
            (conf.inner_regions_config_part.get ⟨i, hj⟩)
          = some (manager.regions.get ⟨i, hi⟩)) := by
  have K := foldlM_push_back (fun m : Inner_regions_manager R => m.regions)
    (fun m r => ⟨m.regions ++ [r]⟩) (fun _ _ => rfl)
    (region_of_config_part shapes conf spat_mesh)
    (fun (manager : Inner_regions_manager R)
        (inner_region_conf : Inner_region_config_part Box Sphere Cylinder Tube) =>
      match inner_region_conf.as_box with
      | some box_conf =>
        some ⟨manager.regions ++ [shapes.Inner_region_box conf box_conf spat_mesh]⟩
      | none =>
        match inner_region_conf.as_sphere with
        | some sphere_conf =>
          some ⟨manager.regions ++ [shapes.Inner_region_sphere conf sphere_conf spat_mesh]⟩
        | none =>
          match inner_region_conf.as_cylinder with
          | some cyl_conf =>
            some ⟨manager.regions ++ [shapes.Inner_region_cylinder conf cyl_conf spat_mesh]⟩
          | none =>
            match inner_region_conf.as_tube with
            | some tube_conf =>
              some ⟨manager.regions ++ [shapes.Inner_region_tube conf tube_conf spat_mesh]⟩
            | none => none)
    (fun m part => by
      obtain ⟨b, s, c, t⟩ := part
      cases b <;> cases s <;> cases c <;> cases t <;> rfl)
    conf.inner_regions_config_part ⟨[]⟩
  have k1 : Inner_regions_manager.construct shapes conf spat_mesh = none ↔
      ∃ a ∈ conf.inner_regions_config_part,
        region_of_config_part shapes conf spat_mesh a = none := K.1
  have k2 : ∀ res, Inner_regions_manager.construct shapes conf spat_mesh = some res →
      ∃ rs, res.regions = [] ++ rs ∧
        rs.map some = conf.inner_regions_config_part.map
          (region_of_config_part shapes conf spat_mesh) := K.2
  clear K
  have hnone : Inner_regions_manager.construct shapes conf spat_mesh = none ↔
      ∃ part ∈ conf.inner_regions_config_part,
        part.as_box = none ∧ part.as_sphere = none ∧ part.as_cylinder = none ∧
          part.as_tube = none :=
    k1.trans
      ⟨fun ⟨p, hp, h⟩ => ⟨p, hp, (region_of_config_part_eq_none shapes conf spat_mesh p).1 h⟩,
        fun ⟨p, hp, h⟩ => ⟨p, hp, (region_of_config_part_eq_none shapes conf spat_mesh p).2 h⟩⟩
  have hsome : ∀ manager,
      Inner_regions_manager.construct shapes conf spat_mesh = some manager →
      manager.regions.map some
        = conf.inner_regions_config_part.map
          (region_of_config_part shapes conf spat_mesh) := by
    intro manager h
    obtain ⟨rs, e1, e2⟩ := k2 manager h
    rw [List.nil_append] at e1
    rw [e1]
    exact e2
  refine ⟨?_, hnone, fun manager h => ?_⟩
  · cases h : Inner_regions_manager.construct shapes conf spat_mesh with
    | none => exact Or.inl rfl
    | some m => exact Or.inr ⟨m, rfl⟩
  · have hm := hsome manager h
    have hlen : manager.regions.length = conf.inner_regions_config_part.length := by
      have := congrArg List.length hm
      rw [List.length_map, List.length_map] at this
      exact this
    refine ⟨hlen, hm, fun i hi hj => ?_⟩
    have hg := congrArg (fun l => l[i]?) hm
    simp only [List.getElem?_map] at hg
    rw [List.getElem?_eq_getElem hi, List.getElem?_eq_getElem hj] at hg
    simp only [Option.map_some', Option.some.injEq] at hg
    exact hg.symm

theorem manager_constructor_regions_witness :
    (∃ manager, Inner_regions_manager.construct example_shapes example_config example_mesh
        = some manager ∧
      manager.regions.map (fun r => (r.name, r.potential))
        = [("box", 1), ("cylinder", 3), ("sphere", 2)]) ∧
    Inner_regions_manager.construct example_shapes unknown_shape_config example_mesh = none := by
  have T := manager_constructor_regions example_shapes example_config example_mesh
  have U := manager_constructor_regions example_shapes unknown_shape_config example_mesh
  refine ⟨?_, U.2.1.2 ⟨⟨none, none, none, none⟩,
    List.mem_cons_of_mem _ (List.mem_cons_self _ _), rfl, rfl, rfl, rfl⟩⟩
  rcases T.1 with h | ⟨manager, h⟩
  · obtain ⟨p, hp, h1, h2, h3, h4⟩ := T.2.1.1 h
    simp only [example_config, List.mem_cons, List.mem_singleton, List.not_mem_nil,
      or_false] at hp
    rcases hp with rfl | rfl | rfl
    · exact absurd h1 (by simp)
    · exact absurd h3 (by simp)
    · exact absurd h2 (by simp)
  · refine ⟨manager, h, ?_⟩
    have hm := (T.2.2 manager h).2.1
    have e : manager.regions
        = [⟨"box", 1, [], [], [], [], fun _ _ _ _ => false⟩,
            ⟨"cylinder", 3, [], [], [], [], fun _ _ _ _ => false⟩,
            ⟨"sphere", 2, [], [], [], [], fun _ _ _ _ => false⟩] := by
      apply List.map_injective_iff.2 (Option.some_injective _)
      rw [hm]
      rfl
    rw [e]
    rfl

end Claim31

section Claim22EmptyRegions
variable {R : Type} [CommRing R] [DecidableEq R]

theorem foldlM_of_unchanged {α β : Type} (f : β → α → Option β) (l : List α) (v : β)
    (h : ∀ a ∈ l, ∀ w, f w a = some w) : l.foldlM f v = some v := by
  induction l with
  | nil => rfl
  | cons a l ih =>
    rw [List.foldlM_cons, h a (List.mem_cons_self _ _) v]
    exact ih (fun b hb => h b (List.mem_cons_of_mem _ hb))

/-- Regions that list no node leave the operator of the base build as it is. -/
theorem construct_equation_matrix_of_empty_lists (A0 A : Mat R) (nx ny nz : Int)
    (dx dy dz : R) (inner_regions : Inner_regions_manager R)
    (inner_regions_with_models : Inner_regions_with_models_manager R)
    (hB : construct_equation_matrix_in_full_domain A0 nx ny nz dx dy dz = some A)
    (hempty : ∀ reg ∈ all_regions inner_regions inner_regions_with_models,
      reg.inner_nodes_not_at_domain_edge = [] ∧
      reg.near_boundary_nodes_not_at_domain_edge = []) :
    construct_equation_matrix A0 nx ny nz dx dy dz inner_regions inner_regions_with_models
      = some A := by
  rw [construct_equation_matrix_eq_bind, hB]
  simp only [Option.some_bind]
  rw [foldlM_of_unchanged _ _ _ (fun reg hreg w => by
    unfold cross_out_nodes_occupied_by_objects
    rw [(hempty reg hreg).1]
    rfl)]
  simp only [Option.some_bind]
  exact foldlM_of_unchanged _ _ _ (fun reg hreg w => by
    rw [modify_equation_unfold, (hempty reg hreg).2]
    rfl)

/-- On a grid with 2 nodes along z and at least 4 along x and y the 2-D patterns
are built, no row of a 3-D operator is written, and the build of the base
operator completes with an operator that has no row. -/
theorem construct_equation_matrix_in_full_domain_of_two_z_nodes (nx ny : Int)
    (dx dy dz : R) (hx : 4 ≤ nx) (hy : 4 ≤ ny) :
    ∃ A : Mat R, construct_equation_matrix_in_full_domain
        (zero_matrix ((nx - 2) * (ny - 2) * (2 - 2)) ((nx - 2) * (ny - 2) * (2 - 2)))
        nx ny 2 dx dy dz = some A ∧ A.nrow = 0 ∧ A.ncol = 0 := by
  obtain ⟨X2, hX2, _⟩ := construct_d2dx2_in_2d_eq (R := R) nx ny hx
  obtain ⟨Y2, hY2, _⟩ := construct_d2dy2_in_2d_eq (R := R) nx ny (by omega) hy
  have hP : 0 ≤ (nx - 2) * (ny - 2) := mul_nonneg (by omega) (by omega)
  have hPn : ¬ ((nx - 2) * (ny - 2) < 0 ∨ (nx - 2) * (ny - 2) < 0) := by omega
  have hN : (nx - 2) * (ny - 2) * ((2 : Int) - 2) = 0 := by simp
  have h3x : ∀ M : Mat R, construct_d2dx2_in_3d M nx ny 2 = some M := by
    intro M
    unfold construct_d2dx2_in_3d alloc_petsc_matrix
    simp only [if_neg hPn, hX2]
    unfold multiply_pattern_along_diagonal
    exact for_each_row_of_nonpos _ _ _ (by simp)
  have h3y : ∀ M : Mat R, construct_d2dy2_in_3d M nx ny 2 = some M := by
    intro M
    unfold construct_d2dy2_in_3d alloc_petsc_matrix
    simp only [if_neg hPn, hY2]
    unfold multiply_pattern_along_diagonal
    exact for_each_row_of_nonpos _ _ _ (by simp)
  have h3z : ∀ M : Mat R, construct_d2dz2_in_3d M nx ny 2 = some M := by
    intro M
    unfold construct_d2dz2_in_3d
    exact for_each_row_of_nonpos _ _ _ (by simp)
  unfold construct_equation_matrix_in_full_domain
  simp only [h3x, h3y, h3z, alloc_petsc_matrix, hN, lt_self_iff_false, or_self, if_false,
    MatAXPY, MatScale, zero_matrix, and_self, if_true]
  exact ⟨_, rfl, rfl, rfl⟩

/-- C22 (amended): a malformed grid is not rejected.  For a grid with exactly 2
nodes along x or along y, or with exactly 2 nodes along z and at least 4
along x and y, and regions that list no node (every node of such a grid is
at the domain edge), the build of the base operator and the constructor report
no error: they complete and produce an operator with no rows and no columns. -/
theorem malformed_grid_not_always_rejected (spat_mesh : Spatial_mesh R)
    (inner_regions : Inner_regions_manager R)
    (inner_regions_with_models : Inner_regions_with_models_manager R)
    (hgrid : spat_mesh.x_n_nodes = 2 ∨ spat_mesh.y_n_nodes = 2 ∨
      (spat_mesh.z_n_nodes = 2 ∧ 4 ≤ spat_mesh.x_n_nodes ∧ 4 ≤ spat_mesh.y_n_nodes))
    (hempty : ∀ reg ∈ all_regions inner_regions inner_regions_with_models,
      reg.inner_nodes_not_at_domain_edge = [] ∧
      reg.near_boundary_nodes_not_at_domain_edge = []) :
    (∃ A : Mat R, construct_equation_matrix_in_full_domain
        (zero_matrix
          ((spat_mesh.x_n_nodes - 2) * (spat_mesh.y_n_nodes - 2) * (spat_mesh.z_n_nodes - 2))
          ((spat_mesh.x_n_nodes - 2) * (spat_mesh.y_n_nodes - 2)
            * (spat_mesh.z_n_nodes - 2)))
        spat_mesh.x_n_nodes spat_mesh.y_n_nodes spat_mesh.z_n_nodes
        spat_mesh.x_cell_size spat_mesh.y_cell_size spat_mesh.z_cell_size = some A ∧
      A.nrow = 0 ∧ A.ncol = 0) ∧
    ∃ solver, Field_solver.construct spat_mesh inner_regions inner_regions_with_models
        = some solver ∧
      solver.A.nrow = 0 ∧ solver.A.ncol = 0 := by
  have hbase : ∃ A : Mat R, construct_equation_matrix_in_full_domain
        (zero_matrix
          ((spat_mesh.x_n_nodes - 2) * (spat_mesh.y_n_nodes - 2) * (spat_mesh.z_n_nodes - 2))
          ((spat_mesh.x_n_nodes - 2) * (spat_mesh.y_n_nodes - 2)
            * (spat_mesh.z_n_nodes - 2)))
        spat_mesh.x_n_nodes spat_mesh.y_n_nodes spat_mesh.z_n_nodes
        spat_mesh.x_cell_size spat_mesh.y_cell_size spat_mesh.z_cell_size = some A ∧
      A.nrow = 0 ∧ A.ncol = 0 := by
    rcases hgrid with h | h | ⟨hz, hx, hy⟩
    · exact construct_equation_matrix_in_full_domain_of_empty_plane _ _ _ _ _ _
        (by rw [h]; simp)
    · exact construct_equation_matrix_in_full_domain_of_empty_plane _ _ _ _ _ _
        (by rw [h]; simp)
    · rw [hz]
      exact construct_equation_matrix_in_full_domain_of_two_z_nodes _ _ _ _ _ hx hy
  have hN : (spat_mesh.x_n_nodes - 2) * (spat_mesh.y_n_nodes - 2)
      * (spat_mesh.z_n_nodes - 2) = 0 := by
    rcases hgrid with h | h | ⟨hz, _, _⟩
    · rw [h]; simp
    · rw [h]; simp
    · rw [hz]; simp
  obtain ⟨A, hA, hr, hc⟩ := hbase
  refine ⟨⟨A, hA, hr, hc⟩, ⟨A, fun _ => 0, fun _ => 0⟩, ?_, hr, hc⟩
  apply Field_solver_construct_exists
  · rw [hN]
  · exact construct_equation_matrix_of_empty_lists _ _ _ _ _ _ _ _ _ _ hA hempty

theorem malformed_grid_not_always_rejected_witness :
    (∃ solver, Field_solver.construct thin_mesh ⟨[]⟩ ⟨[]⟩ = some solver ∧
      solver.A.nrow = 0 ∧ solver.A.ncol = 0) ∧
    ∃ solver, Field_solver.construct
        shallow_mesh ⟨[empty_region]⟩ ⟨[]⟩ = some solver ∧
      solver.A.nrow = 0 ∧ solver.A.ncol = 0 :=
  ⟨(malformed_grid_not_always_rejected thin_mesh ⟨[]⟩ ⟨[]⟩ (Or.inl rfl)
      (fun _ h => by cases h)).2,
    (malformed_grid_not_always_rejected shallow_mesh ⟨[empty_region]⟩ ⟨[]⟩
      (Or.inr (Or.inr ⟨rfl, by decide, by decide⟩))
      (fun reg h => by
        simp only [all_regions, List.map_nil, List.append_nil, List.mem_singleton] at h
        rw [h]
        exact ⟨rfl, rfl⟩)).2⟩

end Claim22EmptyRegions

end EfPoisson
